import Mathlib

/-!
# V3Param: replication of modules for parameterization

A shallow embedding of `src/V3Param.cpp` (the `ParamVisitor` pass and the
`ParameterizedHierBlocks` database) together with theorems about it.

The design graph is an arena: modules and cells are addressed by their index
in `ParamState.mods` / `ParamState.cells`, a declaration by the pair
(module index, statement index).  Generic syntax trees keep the layout of
`AstNode`: a kind with its attributes, a name, four operand slots and the
`nextp` link that chains siblings into a list.

Collaborators whose code lives outside `V3Param.cpp` (the constant folder,
the width resolver, the structural hash, number formatting and arithmetic)
are the fields of `Env`; every theorem holds for all of them.
-/

namespace V3Param

/-! ## Data model -/

/-- The attributes of a `V3Number` that this pass reads. -/
structure V3Number where
  width : Nat
  value : Nat
  isSigned : Bool
  isDouble : Bool
  isString : Bool
  isFourState : Bool
  str : String
deriving DecidableEq, Repr

/-- A two-state unsigned number of the given width. -/
def V3Number.ofNat (width value : Nat) : V3Number :=
  { width := width, value := value, isSigned := false, isDouble := false,
    isString := false, isFourState := false, str := "" }

/-- Handle of a declaration: statement `idx` of module `modp`. -/
structure VarId where
  modp : Nat
  idx : Nat
deriving DecidableEq, Repr

/-- Node kinds with the attributes that depend on the kind. -/
inductive NodeKind where
  | Const (num : V3Number)
  | Unbounded
  | VarRef (varp : Option VarId)
  | InitArray
  | BasicDType (isRanged : Bool) (left right : Int)
  | IfaceRefDType (cellp : Option Nat) (ifacep : Option Nat) (ifaceName : String)
  | UnpackArrayDType
  | BracketArrayDType
  | OtherDType (typeName : String)
  | GenIf
  | GenCase
  | CaseItem (isDefault : Bool)
  | Other (typeName : String)
deriving DecidableEq, Repr

/-- A syntax tree node; `null` is the null pointer. -/
inductive AstNode where
  | null
  | node (kind : NodeKind) (name : String) (op1p op2p op3p op4p nextp : AstNode)
deriving DecidableEq, Repr

namespace AstNode

def isNull : AstNode → Bool
  | null => true
  | node .. => false

def op1p : AstNode → AstNode
  | null => null
  | node _ _ a _ _ _ _ => a

def op2p : AstNode → AstNode
  | null => null
  | node _ _ _ a _ _ _ => a

def op3p : AstNode → AstNode
  | null => null
  | node _ _ _ _ a _ _ => a

def nextp : AstNode → AstNode
  | null => null
  | node _ _ _ _ _ _ nx => nx

def setOp1p : AstNode → AstNode → AstNode
  | null, _ => null
  | node k n _ b c d nx, a => node k n a b c d nx

def setOp2p : AstNode → AstNode → AstNode
  | null, _ => null
  | node k n a _ c d nx, b => node k n a b c d nx

def setNextp : AstNode → AstNode → AstNode
  | null, _ => null
  | node k n a b c d _, nx => node k n a b c d nx

/-- The node alone, cut from the siblings that follow it. -/
def head (n : AstNode) : AstNode := setNextp n null

/-- `addNext`: the list `b` appended after the last sibling of the list `a`. -/
def addNext : AstNode → AstNode → AstNode
  | null, b => b
  | node k n o1 o2 o3 o4 nx, b => node k n o1 o2 o3 o4 (addNext nx b)

/-- The siblings of a list, each cut from its successors. -/
def toList : AstNode → List AstNode
  | null => []
  | node k n o1 o2 o3 o4 nx => node k n o1 o2 o3 o4 null :: toList nx

/-- The sibling list whose elements are `l` in order. -/
def ofList : List AstNode → AstNode
  | [] => null
  | x :: xs => addNext (head x) (ofList xs)

/-- `VN_CAST(nodep, Const)`, giving the number of the constant. -/
def asConst : AstNode → Option V3Number
  | node (.Const num) .. => some num
  | _ => none

def isInitArray : AstNode → Bool
  | node .InitArray .. => true
  | _ => false

def isUnbounded : AstNode → Bool
  | node .Unbounded .. => true
  | _ => false

/-- `VN_IS(nodep, NodeDType)`: the node is one of the data type kinds. -/
def isNodeDType : AstNode → Bool
  | node (.BasicDType ..) .. => true
  | node (.IfaceRefDType ..) .. => true
  | node .UnpackArrayDType .. => true
  | node .BracketArrayDType .. => true
  | node (.OtherDType _) .. => true
  | _ => false

def isIfaceRefDType : AstNode → Bool
  | node (.IfaceRefDType ..) .. => true
  | _ => false

/-- `VN_CAST(nodep, VarRef)->varp()`; `none` when the node is no `VarRef`
or its variable is unlinked. -/
def varRefVarp : AstNode → Option VarId
  | node (.VarRef v) .. => v
  | _ => none

def isCaseItem : AstNode → Bool
  | node (.CaseItem _) .. => true
  | _ => false

/-- `AstCaseItem::isDefault()`. -/
def isDefault : AstNode → Bool
  | node (.CaseItem d) .. => d
  | _ => false

end AstNode

/-- A variable, port or value parameter of a module. -/
structure AstVar where
  name : String
  isIo : Bool
  isGParam : Bool
  isParam : Bool
  isIfaceRef : Bool
  width : Nat
  childDTypep : AstNode
  valuep : AstNode
  overriddenParam : Bool
  user4 : Nat
  user5 : Bool
deriving DecidableEq, Repr

/-- A type parameter of a module. -/
structure AstParamTypeDType where
  name : String
  isGParam : Bool
  childDTypep : AstNode
  user4 : Nat
deriving DecidableEq, Repr

/-- A statement directly under a module. -/
inductive ModStmt where
  | Var (v : AstVar)
  | ParamTypeDType (p : AstParamTypeDType)
  | Other (n : AstNode)
deriving DecidableEq, Repr

structure AstNodeModule where
  name : String
  origName : String
  hierName : String
  level : Int
  isIface : Bool
  isPackage : Bool
  dead : Bool
  recursive : Bool
  recursiveClone : Bool
  hierBlock : Bool
  user5 : Bool
  stmts : List ModStmt
deriving DecidableEq, Repr

/-- A pin of a cell: a parameter binding (in `paramsp`) or a port
connection (in `pinsp`). -/
structure AstPin where
  name : String
  exprp : AstNode
  modVarp : Option VarId
  modPTypep : Option VarId
deriving DecidableEq, Repr

structure AstCell where
  name : String
  modp : Option Nat
  modName : String
  recursive : Bool
  paramsp : List AstPin
  pinsp : List AstPin
  user5p : Option String
deriving DecidableEq, Repr

/-- A structural hash value (`V3Hash`). -/
abbrev V3Hash := Nat

/-- The default-constructed hash `V3Hash()`. -/
def V3Hash.default : V3Hash := 0

/-- How a run stops before its end. -/
inductive Failure where
  /-- A failed `UASSERT`/`v3fatalSrc`: an internal error that aborts the pass. -/
  | fatalSrc (msg : String)
  /-- A null pointer is dereferenced. -/
  | nullDeref (what : String)
  /-- The fuel of a loop without a bound of its own is used up. -/
  | outOfFuel
deriving DecidableEq, Repr

deriving instance DecidableEq for Except

/-- The collaborators of the pass and the options it reads. -/
structure Env where
  /-- `V3Hashed::uncachedHash`. -/
  uncachedHash : AstNode → V3Hash
  /-- `v3Global.opt.debugCollision()`. -/
  debugCollision : Bool
  /-- `v3Global.opt.moduleRecursionDepth()`. -/
  moduleRecursionDepth : Int
  /-- The descent of this visitor into an expression (`iterateAndNextNull`). -/
  iterateExpr : AstNode → AstNode
  /-- `V3Width::widthGenerateParamsEdit`, which does not enter the body. -/
  widthGenerateParamsEdit : AstNode → AstNode
  /-- `V3Width::widthParamsEdit`, which does not enter the body. -/
  widthParamsEdit : AstNode → AstNode
  /-- `V3Const::constifyGenerateParamsEdit`. -/
  constifyGenerateParamsEdit : AstNode → AstNode
  /-- `V3Const::constifyParamsEdit`. -/
  constifyParamsEdit : AstNode → AstNode
  /-- `AstNode::sameTree`. -/
  sameTree : AstNode → AstNode → Bool
  /-- `AstConst::isZero`. -/
  isZero : V3Number → Bool
  /-- `V3Number::opEq`, the comparison result as a one-bit number. -/
  opEq : V3Number → V3Number → V3Number
  /-- `V3Number::isNeqZero`. -/
  isNeqZero : V3Number → Bool
  /-- `V3Number::ascii(prefix)`. -/
  ascii : Bool → V3Number → String
  /-- `V3Number::toString`. -/
  numToString : V3Number → String
  /-- `V3Number::opAssign` into the number given first. -/
  opAssign : V3Number → V3Number → V3Number
  /-- `V3Number::opIToRD` into the number given first. -/
  opIToRD : V3Number → V3Number → V3Number
  /-- `V3Number::opRToIRoundS` into the number given first. -/
  opRToIRoundS : V3Number → V3Number → V3Number
  /-- `V3Number::opExtendS` into the number given first, from the given width. -/
  opExtendS : V3Number → V3Number → Nat → V3Number
  /-- `V3Number::toDouble`, the double as its bit pattern. -/
  toDouble : V3Number → Nat
  /-- `v3EpsilonEqual` on two doubles. -/
  v3EpsilonEqual : Nat → Nat → Bool
  /-- `AstConst::isOpaque`. -/
  isOpaque : V3Number → Bool
  /-- `VHashSha256::digestHex` of the strings inserted so far. -/
  digestHex : List String → String
  /-- `V3Os::trueRandom(64)`, by the number of earlier calls. -/
  trueRandom : Nat → String

/-- The object a `v3error` is attached to. -/
inductive ErrorAt where
  | node (n : AstNode)
  | pin (p : AstPin)
  | cell (c : AstCell)
  | var (v : AstVar)
deriving DecidableEq, Repr

/-- A reported user error (`v3error`); reporting does not stop the pass. -/
structure V3Error where
  obj : ErrorAt
  msg : String
deriving DecidableEq, Repr

/-! ## Maps

`std::map` as an association list with at most one entry per key in use. -/

section Maps
variable {κ α : Type} [DecidableEq κ]

/-- `find`: the value stored under `k`. -/
def mapFind : List (κ × α) → κ → Option α
  | [], _ => none
  | (k', v) :: m, k => if k' = k then some v else mapFind m k

/-- `insert`: adds the entry unless the key is already present. -/
def mapInsert (m : List (κ × α)) (k : κ) (v : α) : List (κ × α) :=
  match mapFind m k with
  | some _ => m
  | none => m ++ [(k, v)]

/-- `m[k] = v`: adds the entry or overwrites the one stored under `k`. -/
def mapAssign : List (κ × α) → κ → α → List (κ × α)
  | [], k, v => [(k, v)]
  | (k', v') :: m, k, v => if k' = k then (k, v) :: m else (k', v') :: mapAssign m k v

end Maps

/-! ## Generate statements -/

/-- What `visit(AstGenIf*)` and `visit(AstGenCase*)` leave behind: `stmtsp` is
the sibling list standing where the construct and the siblings after it
stood, `errors` are the user errors reported. -/
structure GenOutcome where
  stmtsp : AstNode
  errors : List V3Error
deriving DecidableEq, Repr

/-- The condition of a generate-if after the visitor's descent, widthing and
constant folding (`condp may change`). -/
def genIfCond (env : Env) (nodep : AstNode) : AstNode :=
  env.constifyGenerateParamsEdit (env.widthGenerateParamsEdit (env.iterateExpr nodep.op1p))

/-- `ParamVisitor::visit(AstGenIf*)`; `op1p` is the condition, `op2p` the
statements of the if branch, `op3p` those of the else branch. -/
def visitGenIf (env : Env) (nodep : AstNode) : GenOutcome :=
  let nodep := nodep.setOp1p (genIfCond env nodep)
  match nodep.op1p.asConst with
  | some constp =>
    let keepp := if env.isZero constp then nodep.op3p else nodep.op2p
    if !keepp.isNull then
      -- keepp->unlinkFrBackWithNext(); nodep->replaceWith(keepp)
      { stmtsp := keepp.addNext nodep.nextp, errors := [] }
    else
      -- nodep->unlinkFrBack()
      { stmtsp := nodep.nextp, errors := [] }
  | none =>
    { stmtsp := nodep,
      errors := [⟨.node nodep.op1p, "Generate If condition must evaluate to constant"⟩] }

/-- The selector of a generate-case after descent, widthing and folding. -/
def genCaseExpr (env : Env) (nodep : AstNode) : AstNode :=
  env.constifyParamsEdit (env.widthParamsEdit (env.iterateExpr nodep.op1p))

/-- The items of a generate-case: the `CaseItem` nodes at the head of `op2p`. -/
def caseItems (nodep : AstNode) : List AstNode :=
  (AstNode.toList nodep.op2p).takeWhile AstNode.isCaseItem

/-- The labels (`condsp`, `op1p`) of a case item after the constify loop. -/
def caseLabels (env : Env) (itemp : AstNode) : List AstNode :=
  (AstNode.toList itemp.op1p).map
    fun ep => env.constifyParamsEdit (env.iterateExpr (env.widthParamsEdit ep))

/-- One label of the item-match loop.  `exprp` is `VN_CAST(nodep->exprp(),
Const)`; the loop reads `exprp->num()` at every constant label. -/
def genCaseLabel (env : Env) (exprp : Option V3Number) (itemp : AstNode)
    (acc : AstNode × List V3Error) (ep : AstNode) : Except Failure (AstNode × List V3Error) :=
  match ep.asConst with
  | some ccondp =>
    match exprp with
    | none => .error (.nullDeref "exprp")
    | some sel =>
      let isEq := env.opEq ccondp sel
      if acc.1.isNull && env.isNeqZero isEq then .ok (itemp.op2p, acc.2) else .ok acc
  | none =>
    .ok (acc.1, acc.2 ++ [⟨.node itemp, "Generate Case item does not evaluate to constant"⟩])

/-- One item of the item-match loop. -/
def genCaseItem (env : Env) (exprp : Option V3Number)
    (acc : AstNode × List V3Error) (itemp : AstNode) : Except Failure (AstNode × List V3Error) :=
  if !itemp.isDefault then (caseLabels env itemp).foldlM (genCaseLabel env exprp itemp) acc
  else .ok acc

/-- The item-match loop: the body kept (`keepp`, `null` when none) and the
errors reported. -/
def genCaseMatch (env : Env) (exprp : Option V3Number) (items : List AstNode) :
    Except Failure (AstNode × List V3Error) :=
  items.foldlM (genCaseItem env exprp) (AstNode.null, [])

/-- The default-match loop. -/
def genCaseDefault (keepp : AstNode) (items : List AstNode) : AstNode :=
  items.foldl (fun keepp itemp =>
    if itemp.isDefault then (if keepp.isNull then itemp.op2p else keepp) else keepp) keepp

/-- `ParamVisitor::visit(AstGenCase*)`; `op1p` is the selector, `op2p` the
items; an item has its labels in `op1p` and its body in `op2p`. -/
def visitGenCase (env : Env) (nodep : AstNode) : Except Failure GenOutcome := do
  let exprp := (genCaseExpr env nodep).asConst
  let (keepp, errors) ← genCaseMatch env exprp (caseItems nodep)
  let keepp := genCaseDefault keepp (caseItems nodep)
  if !keepp.isNull then
    pure { stmtsp := keepp.addNext nodep.nextp, errors := errors }
  else
    pure { stmtsp := nodep.nextp, errors := errors }

/-! ## State of the pass -/

/-- An entry of `ModNameMap`: a created module flavour and its clone map
(declaration of the source module to declaration of the clone). -/
structure ModInfo where
  m_modp : Nat
  m_cloneMap : List (VarId × VarId)
deriving DecidableEq, Repr

/-- A `--hierarchical-block` option: original and mangled module name and
the parameter settings as literal text. -/
structure V3HierarchicalBlockOption where
  origName : String
  mangledName : String
  params : List (String × String)
deriving DecidableEq, Repr

/-- The database `ParameterizedHierBlocks` as its constructor leaves it. -/
structure ParameterizedHierBlocks where
  /-- The multimap from original module name to option, in iteration order. -/
  m_hierBlockOptsByOrigName : List (String × V3HierarchicalBlockOption)
  /-- Mangled module name to module. -/
  m_hierBlockMod : List (String × Nat)
  /-- The parsed parameter constants of each option. -/
  m_params : List (V3HierarchicalBlockOption × List (String × V3Number))
deriving DecidableEq, Repr

/-- The design graph and the members of `ParamVisitor`. -/
structure ParamState where
  /-- All modules ever created; a module is addressed by its index here. -/
  mods : List AstNodeModule
  /-- The module list of the netlist (`modulesp()` and its `nextp` chain). -/
  modulesp : List Nat
  /-- All cells; a cell is addressed by its index here. -/
  cells : List AstCell
  m_modNameMap : List (String × ModInfo)
  m_longMap : List (String × String)
  m_longId : Nat
  m_allModuleNames : List String
  m_valueMap : List (V3Hash × (Nat × String))
  m_nextValue : Nat
  m_todoModps : List (Int × Nat)
  m_cellps : List Nat
  m_modp : Option Nat
  m_generateHierName : String
  m_hierBlocks : ParameterizedHierBlocks
  /-- Number of calls of `V3Os::trueRandom` made so far. -/
  randomCalls : Nat
  /-- The user errors reported so far, oldest first. -/
  errors : List V3Error
deriving DecidableEq, Repr

namespace ParamState

/-- Dereference of a module pointer. -/
def modAt (s : ParamState) (i : Nat) : Except Failure AstNodeModule :=
  match s.mods[i]? with
  | some m => .ok m
  | none => .error (.nullDeref "module")

/-- Dereference of a cell pointer. -/
def cellAt (s : ParamState) (i : Nat) : Except Failure AstCell :=
  match s.cells[i]? with
  | some c => .ok c
  | none => .error (.nullDeref "cell")

/-- `v3error` on an object. -/
def v3error (s : ParamState) (obj : ErrorAt) (msg : String) : ParamState :=
  { s with errors := s.errors ++ [⟨obj, msg⟩] }

end ParamState

namespace ParamState

/-- The module with index `i` replaced. -/
def setMod (s : ParamState) (i : Nat) (m : AstNodeModule) : ParamState :=
  { s with mods := s.mods.set i m }

/-- The cell with index `i` replaced. -/
def setCell (s : ParamState) (i : Nat) (c : AstCell) : ParamState :=
  { s with cells := s.cells.set i c }

/-- Dereference of a declaration pointer of any kind. -/
def stmtAt (s : ParamState) (v : VarId) : Except Failure ModStmt :=
  (s.modAt v.modp).bind fun m =>
    match m.stmts[v.idx]? with
    | some st => .ok st
    | none => .error (.nullDeref "declaration")

/-- Dereference of an `AstVar*`. -/
def varAt (s : ParamState) (v : VarId) : Except Failure AstVar :=
  (s.stmtAt v).bind fun
    | .Var x => .ok x
    | _ => .error (.nullDeref "var")

/-- Dereference of an `AstParamTypeDType*`. -/
def ptypeAt (s : ParamState) (v : VarId) : Except Failure AstParamTypeDType :=
  (s.stmtAt v).bind fun
    | .ParamTypeDType x => .ok x
    | _ => .error (.nullDeref "paramtype")

end ParamState

/-! ## Naming engine: short parameter codes -/

/-- The letter `makeSmallNames` gives a declaration name: its first
character in upper case, `Z` outside `A`..`Z`. -/
def smallNameLetter (name : String) : Char :=
  let ch := (name.data.headD (Char.ofNat 0)).toUpper
  if ch < 'A' || ch > 'Z' then 'Z' else ch

/-- The loop of `makeSmallNames` over the statements of a module; `usedLetter`
counts the uses of each letter so far. -/
def makeSmallNamesLoop : List ModStmt → (Nat → Nat) → List ModStmt
  | [], _ => []
  | .Var v :: rest, usedLetter =>
    if v.isGParam || v.isIfaceRef then
      let ch := (smallNameLetter v.name).toNat
      .Var { v with user4 := usedLetter ch * 256 + ch }
        :: makeSmallNamesLoop rest (Function.update usedLetter ch (usedLetter ch + 1))
    else .Var v :: makeSmallNamesLoop rest usedLetter
  | .ParamTypeDType t :: rest, usedLetter =>
    let ch := ('T').toNat
    .ParamTypeDType { t with user4 := usedLetter ch * 256 + ch }
      :: makeSmallNamesLoop rest (Function.update usedLetter ch (usedLetter ch + 1))
  | .Other n :: rest, usedLetter => .Other n :: makeSmallNamesLoop rest usedLetter

/-- `ParamVisitor::makeSmallNames`. -/
def makeSmallNames (modp : AstNodeModule) : AstNodeModule :=
  { modp with stmts := makeSmallNamesLoop modp.stmts (fun _ => 0) }

/-- `user4()` of a declaration. -/
def stmtUser4 : ModStmt → Except Failure Nat
  | .Var v => .ok v.user4
  | .ParamTypeDType t => .ok t.user4
  | .Other _ => .error (.nullDeref "declaration")

/-- The `while (index)` loop of `paramSmallName`; it ends within `index`
rounds, which is the fuel given. -/
def smallNameDigits : Nat → Nat → String → String
  | 0, _, st => st
  | fuel + 1, index, st =>
    if index = 0 then st
    else smallNameDigits fuel (index / 26)
      (st ++ String.singleton (Char.ofNat (index % 25 + ('A').toNat)))

/-- `ParamVisitor::paramSmallName`: the short code of declaration `varp`, and
the state after the call (the codes of `modp` are assigned on first use). -/
def paramSmallName (s : ParamState) (modp : Nat) (varp : VarId) :
    Except Failure (String × ParamState) :=
  (s.stmtAt varp).bind fun st => (stmtUser4 st).bind fun u =>
    let s1 : Except Failure ParamState :=
      if u ≤ 1 then (s.modAt modp).map fun m => s.setMod modp (makeSmallNames m) else .ok s
    s1.bind fun s1 =>
      (s1.stmtAt varp).bind fun st => (stmtUser4 st).bind fun u =>
        let index := u / 256
        let ch := Char.ofNat (u % 256)
        .ok (smallNameDigits index index (String.singleton ch), s1)

/-! ## Naming engine: value tokens -/

/-- `nodep->name()`: a constant is named by its number with prefix. -/
def nodeName (env : Env) : AstNode → String
  | .null => ""
  | .node (.Const num) .. => env.ascii true num
  | .node _ name .. => name

/-- The discriminating key of `paramValueNumber`. -/
def paramValueKey (env : Env) (s : ParamState) (nodep : AstNode) : Except Failure String :=
  match nodep with
  | .null => .error (.nullDeref "nodep")
  | .node (.IfaceRefDType cellp ifacep _) .. =>
    -- the module of the cell, if the reference has a cell and the cell a module
    let cellModp : Except Failure (Option Nat) :=
      match cellp with
      | some c => (s.cellAt c).map (·.modp)
      | none => .ok none
    cellModp.bind fun
      | some m => (s.modAt m).map (·.name)
      | none =>
        match ifacep with
        | some i => (s.modAt i).map (·.name)
        | none => .error (.fatalSrc "Can't parameterize interface without module name")
  | .node (.BasicDType isRanged left right) name .. =>
    if isRanged then .ok (name ++ "[" ++ toString left ++ ":" ++ toString right ++ "]")
    else .ok name
  | n => .ok (nodeName env n)

/-- The hash `paramValueNumber` looks up: the structural hash, or the default
hash when collisions are forced. -/
def valueHash (env : Env) (nodep : AstNode) : V3Hash :=
  if env.debugCollision then V3Hash.default else env.uncachedHash nodep

/-- `ParamVisitor::paramValueNumber`: the token and the state after the call. -/
def paramValueNumber (env : Env) (s : ParamState) (nodep : AstNode) :
    Except Failure (String × ParamState) :=
  (paramValueKey env s nodep).bind fun key =>
    let hash := valueHash env nodep
    let fresh : String × ParamState :=
      ("z" ++ toString s.m_nextValue,
        { s with m_nextValue := s.m_nextValue + 1,
                 m_valueMap := mapAssign s.m_valueMap hash (s.m_nextValue, key) })
    match mapFind s.m_valueMap hash with
    | some (num, k) => if k = key then .ok ("z" ++ toString num, s) else .ok fresh
    | none => .ok fresh

/-- Successive calls of `paramValueNumber`: the tokens and the final state. -/
def paramValueNumbers (env : Env) :
    ParamState → List AstNode → Except Failure (List String × ParamState)
  | s, [] => .ok ([], s)
  | s, n :: ns =>
    (paramValueNumber env s n).bind fun r =>
      (paramValueNumbers env r.2 ns).bind fun rs => .ok (r.1 :: rs.1, rs.2)

/-! ## Hierarchical block database -/

/-- `ParameterizedHierBlocks::areSame` on the numbers of the two constants. -/
def areSame (env : Env) (pinValuep hierOptParamp : V3Number) : Bool :=
  if pinValuep.isString then
    env.numToString pinValuep == env.numToString hierOptParamp
  else
    -- V3Number varNum(pinValuep, hierOptParamp->num().width())
    let varNum : V3Number :=
      { width := hierOptParamp.width, value := 0, isSigned := false, isDouble := false,
        isString := false, isFourState := false, str := "" }
    if hierOptParamp.isDouble then
      let varNum := { varNum with isDouble := true }
      let varNum :=
        if pinValuep.isDouble then env.opAssign varNum pinValuep
        else env.opIToRD varNum pinValuep
      env.v3EpsilonEqual (env.toDouble varNum) (env.toDouble hierOptParamp)
    else
      let varNum :=
        if pinValuep.isDouble then env.opRToIRoundS varNum pinValuep
        else if pinValuep.isSigned then env.opExtendS varNum pinValuep pinValuep.width
        else env.opAssign varNum pinValuep
      env.isNeqZero (env.opEq varNum hierOptParamp)

/-- The pin loop of `findByParams` for one candidate, from `paramIdx` on:
`some n` when every pin matched (`found` stays true) with `n` the final
`paramIdx`, `none` after `found = false; break`. -/
def hierMatchPins (env : Env) (s : ParamState) (params : List (String × V3Number)) :
    List AstPin → Nat → Except Failure (Option Nat)
  | [], paramIdx => .ok (some paramIdx)
  | pinp :: rest, paramIdx =>
    if pinp.exprp.isNull then hierMatchPins env s params rest paramIdx
    else if pinp.modPTypep.isSome then
      .error (.fatalSrc "module with type parameter must not be a hierarchical block")
    else
      match pinp.modVarp with
      | some modvarp =>
        match pinp.exprp.asConst with
        | none =>
          .error (.fatalSrc "parameter for a hierarchical block must have been constified")
        | some constp =>
          (s.varAt modvarp).bind fun v =>
            match mapFind params v.name with
            | none => .ok none
            | some hierOptParamp =>
              if paramIdx ≥ params.length || !areSame env constp hierOptParamp then .ok none
              else hierMatchPins env s params rest (paramIdx + 1)
      | none => hierMatchPins env s params rest paramIdx

/-- The candidate loop of `findByParams`: the first candidate that is
accepted, `none` when the loop runs off the end. -/
def hierFindCandidate (env : Env) (s : ParamState) (firstPinp : List AstPin) :
    List V3HierarchicalBlockOption → Except Failure (Option V3HierarchicalBlockOption)
  | [] => .ok none
  | opt :: rest =>
    -- m_params[hierIt->second]
    let params := (mapFind s.m_hierBlocks.m_params opt).getD []
    if params.length ≠ opt.params.length then .error (.fatalSrc "not match")
    else
      (hierMatchPins env s params firstPinp 0).bind fun
        | some paramIdx =>
          if paramIdx = opt.params.length then .ok (some opt)
          else hierFindCandidate env s firstPinp rest
        | none => hierFindCandidate env s firstPinp rest

/-- `ParameterizedHierBlocks::findByParams`: the replacement module, `none`
for `nullptr`. -/
def findByParams (env : Env) (s : ParamState) (origName : String) (firstPinp : List AstPin) :
    Except Failure (Option Nat) :=
  let candidates :=
    (s.m_hierBlocks.m_hierBlockOptsByOrigName.filter (fun e => e.1 = origName)).map (·.2)
  if candidates = [] then .ok none
  else
    (hierFindCandidate env s firstPinp candidates).bind fun
      | none => .error (.fatalSrc "No protect-lib wrapper found")
      | some opt =>
        match mapFind s.m_hierBlocks.m_hierBlockMod opt.mangledName with
        | none => .error (.fatalSrc (opt.mangledName ++ " is not found"))
        | some modp => .ok (some modp)

/-! ## Pins and clone maps -/

/-- `collectPins`: the clone map of a fresh clone `newp` of module `oldp`,
from each port, value parameter, interface reference and type parameter of
the source to its copy. -/
def collectPinsLoop (oldp newp : Nat) : List ModStmt → Nat → List (VarId × VarId) →
    List (VarId × VarId)
  | [], _, clonemap => clonemap
  | .Var v :: rest, idx, clonemap =>
    if v.isIo || v.isGParam || v.isIfaceRef then
      collectPinsLoop oldp newp rest (idx + 1) (mapInsert clonemap ⟨oldp, idx⟩ ⟨newp, idx⟩)
    else collectPinsLoop oldp newp rest (idx + 1) clonemap
  | .ParamTypeDType t :: rest, idx, clonemap =>
    if t.isGParam then
      collectPinsLoop oldp newp rest (idx + 1) (mapInsert clonemap ⟨oldp, idx⟩ ⟨newp, idx⟩)
    else collectPinsLoop oldp newp rest (idx + 1) clonemap
  | .Other _ :: rest, idx, clonemap => collectPinsLoop oldp newp rest (idx + 1) clonemap

/-- `ParamVisitor::relinkPins`. -/
def relinkPins (clonemap : List (VarId × VarId)) : List AstPin → Except Failure (List AstPin)
  | [] => .ok []
  | pinp :: rest =>
    let pinp' : Except Failure AstPin :=
      match pinp.modVarp with
      | some v =>
        match mapFind clonemap v with
        | some v' => .ok { pinp with modVarp := some v' }
        | none => .error (.fatalSrc "Couldn't find pin in clone list")
      | none =>
        match pinp.modPTypep with
        | some t =>
          match mapFind clonemap t with
          | some t' => .ok { pinp with modPTypep := some t' }
          | none => .error (.fatalSrc "Couldn't find pin in clone list")
        | none => .error (.fatalSrc "Not linked?")
    pinp'.bind fun p => (relinkPins clonemap rest).bind fun ps => .ok (p :: ps)

/-- The name table of `relinkPinsByName`: ports, value parameters and
interface references of the module by name, the first of a name winning. -/
def nameToPinLoop (modp : Nat) : List ModStmt → Nat → List (String × VarId) →
    List (String × VarId)
  | [], _, tbl => tbl
  | .Var v :: rest, idx, tbl =>
    if v.isIo || v.isGParam || v.isIfaceRef then
      nameToPinLoop modp rest (idx + 1) (mapInsert tbl v.name ⟨modp, idx⟩)
    else nameToPinLoop modp rest (idx + 1) tbl
  | _ :: rest, idx, tbl => nameToPinLoop modp rest (idx + 1) tbl

/-- `ParamVisitor::relinkPinsByName`. -/
def relinkPinsByName (s : ParamState) (modp : Nat) (nameToPin : List (String × VarId)) :
    List AstPin → Except Failure (List AstPin)
  | [] => .ok []
  | pinp :: rest =>
    let pinp' : Except Failure AstPin :=
      match pinp.modVarp with
      | some v =>
        (s.varAt v).bind fun varp =>
          match mapFind nameToPin varp.name with
          | some v' => .ok { pinp with modVarp := some v' }
          | none => .error (.fatalSrc "Not found in module")
      | none => .ok pinp
    pinp'.bind fun p => (relinkPinsByName s modp nameToPin rest).bind fun ps => .ok (p :: ps)

/-! ## Names of specialized modules -/

/-- `ParamVisitor::moduleExists`. -/
def moduleExists (s : ParamState) (modName : String) : Bool :=
  decide (modName ∈ s.m_allModuleNames) || (mapFind s.m_modNameMap modName).isSome

/-- The strings `parametrizedHierBlockName` feeds to the digest for the pins. -/
def hierBlockHashPins (env : Env) (s : ParamState) : List AstPin → Except Failure (List String)
  | [] => .ok []
  | pinp :: rest =>
    let a : Except Failure (List String) :=
      match pinp.modVarp with
      | some v => (s.varAt v).map fun varp => [varp.name]
      | none => .ok []
    let b : List String :=
      match pinp.exprp.asConst with
      | some num => [env.ascii false num]
      | none => []
    a.bind fun a => (hierBlockHashPins env s rest).bind fun r => .ok (a ++ b ++ r)

/-- The `for` loop over the prefixes of the digest, from length `i` on: the
first name that does not exist yet. -/
def hierBlockPrefixLoop (s : ParamState) (base hashStr : String) : Nat → Nat → Option String
  | 0, _ => none
  | n + 1, i =>
    let newName := base ++ String.mk (hashStr.data.take i)
    if !moduleExists s newName then some newName
    else hierBlockPrefixLoop s base hashStr n (i + 1)

/-- The `while (true)` loop of `parametrizedHierBlockName`, with fuel. -/
def hierBlockNameLoop (env : Env) (s : ParamState) (base : String) :
    Nat → List String → Nat → Except Failure (String × Nat)
  | 0, _, _ => .error .outOfFuel
  | fuel + 1, hash, randomCalls =>
    let hashStr := env.digestHex hash
    match hierBlockPrefixLoop s base hashStr (hashStr.utf8ByteSize - 1) 1 with
    | some newName => .ok (newName, randomCalls)
    | none =>
      hierBlockNameLoop env s base fuel (hash ++ [env.trueRandom randomCalls]) (randomCalls + 1)

/-- `ParamVisitor::parametrizedHierBlockName`: the name and the state after
the call (which may have drawn random numbers). -/
def parametrizedHierBlockName (env : Env) (fuel : Nat) (s : ParamState) (modp : AstNodeModule)
    (paramPinsp : List AstPin) : Except Failure (String × ParamState) :=
  (hierBlockHashPins env s paramPinsp).bind fun pins =>
    -- newName.at(newName.size() - 1) throws on an empty name
    if modp.name.isEmpty then .error (.fatalSrc "std::out_of_range")
    else
      let base := if modp.name.back ≠ '_' then modp.name ++ "_" else modp.name
      (hierBlockNameLoop env s base fuel (modp.name :: pins) s.randomCalls).bind fun r =>
        .ok (r.1, { s with randomCalls := r.2 })

/-! ## Specialization of a cell -/

/-- `ParamVisitor::arraySubDTypep`: the element type under an unpacked or
bracket array type, `null` for any other node. -/
def arraySubDTypep : AstNode → AstNode
  | .node .UnpackArrayDType _ sub _ _ _ _ => sub
  | .node .BracketArrayDType _ sub _ _ _ _ => sub
  | _ => .null

/-- `AstIfaceRefDType::ifaceViaCellp`: the interface of the module of the
referenced cell when the reference has a cell with a module, `ifacep`
otherwise. -/
def ifaceViaCellp (s : ParamState) : AstNode → Except Failure (Option Nat)
  | .node (.IfaceRefDType cellp ifacep _) .. =>
    match cellp with
    | some c =>
      (s.cellAt c).bind fun cell =>
        match cell.modp with
        | some m => (s.modAt m).map fun md => if md.isIface then some m else none
        | none => .ok ifacep
    | none => .ok ifacep
  | _ => .error (.nullDeref "ifaceref")

/-- `ifacep()` of an interface reference. -/
def irefIfacep : AstNode → Option Nat
  | .node (.IfaceRefDType _ ifacep _) .. => ifacep
  | _ => none

/-- `ifaceName()` of an interface reference. -/
def irefIfaceName : AstNode → String
  | .node (.IfaceRefDType _ _ ifaceName) .. => ifaceName
  | _ => ""

/-- The interface reference in the data type of a port: the type itself or
the element type of an array; `null` when there is none. -/
def portIfaceRef (subDTypep : AstNode) : AstNode :=
  if subDTypep.isIfaceRefDType then subDTypep
  else if (arraySubDTypep subDTypep).isIfaceRefDType then arraySubDTypep subDTypep
  else .null

/-- The interface reference behind a variable named by a pin expression. -/
def varIfaceRef (s : ParamState) (varp : Option VarId) (direct : Bool) :
    Except Failure AstNode :=
  match varp with
  | none => .ok .null
  | some v =>
    (s.varAt v).map fun var =>
      if direct && var.childDTypep.isIfaceRefDType then var.childDTypep
      else if (arraySubDTypep var.childDTypep).isIfaceRefDType then
        arraySubDTypep var.childDTypep
      else .null

/-- The interface reference `pinIrefp` a pin expression connects: that of the
referenced variable, of the elements of the referenced array, or of the
array referenced by the first operand of the expression. -/
def pinIfaceRef (s : ParamState) (exprp : AstNode) : Except Failure AstNode :=
  (varIfaceRef s exprp.varRefVarp true).bind fun r =>
    if !r.isNull then .ok r
    else varIfaceRef s exprp.op1p.varRefVarp false

/-- The running values of the pin loops of `visitCell`. -/
structure NameAcc where
  s : ParamState
  longname : String
  any_overrides : Bool
  /-- `ifaceRefRefs`: the port declaration and the connected interface reference. -/
  ifaceRefRefs : List (VarId × AstNode)
deriving DecidableEq, Repr

/-- `new AstConst(fl, AstConst::WidthedValue(), width, value)`. -/
def widthedConst (width value : Nat) : AstNode :=
  .node (.Const (V3Number.ofNat width value)) "" .null .null .null .null .null

/-- `pinp->v3error(msg)`. -/
def NameAcc.pinError (acc : NameAcc) (pinp : AstPin) (msg : String) : NameAcc :=
  { acc with s := acc.s.v3error (.pin pinp) msg }

/-- `longname += "_" + paramSmallName(srcModp, varp) + paramValueNumber(valuep)`. -/
def appendValueNumber (env : Env) (srcModp : Nat) (acc : NameAcc) (varp : VarId)
    (valuep : AstNode) : Except Failure NameAcc :=
  (paramSmallName acc.s srcModp varp).bind fun sm =>
    (paramValueNumber env sm.2 valuep).bind fun tok =>
      .ok { acc with s := tok.2, longname := acc.longname ++ ("_" ++ sm.1 ++ tok.1),
                     any_overrides := true }

/-- One parameter pin of the loop over `nodep->paramsp()`: the running
values and the pin after the step. -/
def paramPin (env : Env) (srcModp : Nat) (acc : NameAcc) (pinp : AstPin) :
    Except Failure (NameAcc × AstPin) :=
  if pinp.exprp.isNull then .ok (acc, pinp)
  else
    match pinp.modVarp with
    | some modvarp =>
      (acc.s.varAt modvarp).bind fun v =>
        if !v.isGParam then
          .ok (acc.pinError pinp "Attempted parameter setting of non-parameter", pinp)
        else if pinp.exprp.isInitArray && !(arraySubDTypep v.childDTypep).isNull then
          -- Array assigned to array
          (appendValueNumber env srcModp acc modvarp pinp.exprp).map fun a => (a, pinp)
        else
          match pinp.exprp.asConst with
          | none =>
            .ok (acc.pinError pinp "Can't convert defparam value to constant",
                 { pinp with exprp := widthedConst v.width 0 })
          | some exprp =>
            if v.valuep.asConst.isSome && env.sameTree pinp.exprp v.valuep then
              -- Setting parameter to its default value.  Just ignore it.
              .ok (acc, pinp)
            else if exprp.isDouble || exprp.isString || exprp.isFourState
                || exprp.width != 32 then
              (appendValueNumber env srcModp acc modvarp pinp.exprp).map fun a => (a, pinp)
            else
              (paramSmallName acc.s srcModp modvarp).bind fun sm =>
                .ok ({ acc with s := sm.2,
                                longname := acc.longname ++ ("_" ++ sm.1 ++ env.ascii false exprp),
                                any_overrides := true }, pinp)
    | none =>
      match pinp.modPTypep with
      | some modvarp =>
        (acc.s.ptypeAt modvarp).bind fun t =>
          if !pinp.exprp.isNodeDType then
            .ok (acc.pinError pinp "Parameter type pin value isn't a type", pinp)
          else if t.childDTypep.isNull then
            .ok (acc.pinError pinp "Parameter type variable isn't a type", pinp)
          else if env.sameTree pinp.exprp t.childDTypep then
            -- Setting parameter to its default value.  Just ignore it.
            .ok (acc, pinp)
          else
            let exprp := env.constifyParamsEdit pinp.exprp
            (appendValueNumber env srcModp acc modvarp exprp).map fun a =>
              (a, { pinp with exprp := exprp })
      | none =>
        .ok (acc.pinError pinp "Parameter not found in sub-module", pinp)

/-- The loop over `nodep->paramsp()`. -/
def paramPins (env : Env) (srcModp : Nat) :
    NameAcc → List AstPin → Except Failure (NameAcc × List AstPin)
  | acc, [] => .ok (acc, [])
  | acc, pinp :: rest =>
    (paramPin env srcModp acc pinp).bind fun r =>
      (paramPins env srcModp r.1 rest).bind fun rs => .ok (rs.1, r.2 :: rs.2)

/-- One port pin of the loop over `nodep->pinsp()`. -/
def ifacePin (env : Env) (srcModp : Nat) (acc : NameAcc) (pinp : AstPin) :
    Except Failure NameAcc :=
  match pinp.modVarp with
  | none => .error (.nullDeref "modvarp")
  | some modvarp =>
    (acc.s.varAt modvarp).bind fun v =>
      if v.isIfaceRef then
        let portIrefp := portIfaceRef v.childDTypep
        (pinIfaceRef acc.s pinp.exprp).bind fun pinIrefp =>
          if portIrefp.isNull then
            .ok (acc.pinError pinp "Interface port is not an interface")
          else if pinIrefp.isNull then
            .ok (acc.pinError pinp
              "Interface port is not connected to interface/modport pin expression")
          else
            (ifaceViaCellp acc.s portIrefp).bind fun portVia =>
              (ifaceViaCellp acc.s pinIrefp).bind fun pinVia =>
                if portVia ≠ pinVia then
                  -- IfaceRefDType needs reconnect
                  (appendValueNumber env srcModp acc modvarp pinIrefp).map fun a =>
                    let a := { a with ifaceRefRefs := a.ifaceRefRefs ++ [(modvarp, pinIrefp)] }
                    if irefIfacep portIrefp ≠ irefIfacep pinIrefp
                        && irefIfaceName portIrefp ≠ irefIfaceName pinIrefp then
                      a.pinError pinp "Port expects one interface but pin connects another"
                    else a
                else .ok acc
      else .ok acc

/-- The loop over `nodep->pinsp()`. -/
def ifacePins (env : Env) (srcModp : Nat) : NameAcc → List AstPin → Except Failure NameAcc
  | acc, [] => .ok acc
  | acc, pinp :: rest => (ifacePin env srcModp acc pinp).bind fun a => ifacePins env srcModp a rest

/-- `m_todoModps.insert`: the multimap stays ordered by level, a new entry
going behind the entries of equal level. -/
def todoInsert : List (Int × Nat) → Int → Nat → List (Int × Nat)
  | [], level, modp => [(level, modp)]
  | (level', modp') :: rest, level, modp =>
    if level < level' then (level, modp) :: (level', modp') :: rest
    else (level', modp') :: todoInsert rest level modp

/-- The walk `while (next is a module of lower level) insertp = next` and the
`addNextHere` at its end. -/
def insertAfterLower (levelOf : Nat → Int) (cloneLevel : Int) (clone : Nat) :
    List Nat → List Nat
  | [] => [clone]
  | m :: rest =>
    if levelOf m < cloneLevel then m :: insertAfterLower levelOf cloneLevel clone rest
    else clone :: m :: rest

/-- Insertion of a clone into the module list, starting from the source
module (`Keep tree sorted by level`). -/
def insertClone (levelOf : Nat → Int) (cloneLevel : Int) (src clone : Nat) :
    List Nat → List Nat
  | [] => []
  | m :: rest =>
    if m = src then m :: insertAfterLower levelOf cloneLevel clone rest
    else m :: insertClone levelOf cloneLevel src clone rest

/-- The level of a module, 0 for a dangling pointer. -/
def ParamState.levelOf (s : ParamState) (m : Nat) : Int :=
  match s.mods[m]? with
  | some md => md.level
  | none => 0

/-- A declaration of a module replaced by the result of `f` on it. -/
def ParamState.updateStmt (s : ParamState) (v : VarId) (f : ModStmt → Except Failure ModStmt) :
    Except Failure ParamState :=
  (s.modAt v.modp).bind fun m =>
    (s.stmtAt v).bind fun st =>
      (f st).map fun st' => s.setMod v.modp { m with stmts := m.stmts.set v.idx st' }

/-- `cloneIrefp->ifacep(ifacep)` on the interface reference in a data type. -/
def setIrefIfacep (ifacep : Option Nat) : AstNode → Except Failure AstNode
  | .node (.IfaceRefDType cellp _ name) n o1 o2 o3 o4 nx =>
    .ok (.node (.IfaceRefDType cellp ifacep name) n o1 o2 o3 o4 nx)
  | .node .UnpackArrayDType n (.node (.IfaceRefDType cellp _ name) n' p1 p2 p3 p4 px)
      o2 o3 o4 nx =>
    .ok (.node .UnpackArrayDType n
      (.node (.IfaceRefDType cellp ifacep name) n' p1 p2 p3 p4 px) o2 o3 o4 nx)
  | .node .BracketArrayDType n (.node (.IfaceRefDType cellp _ name) n' p1 p2 p3 p4 px)
      o2 o3 o4 nx =>
    .ok (.node .BracketArrayDType n
      (.node (.IfaceRefDType cellp ifacep name) n' p1 p2 p3 p4 px) o2 o3 o4 nx)
  | _ => .error (.fatalSrc "parameter clone didn't hit AstIfaceRefDType")

/-- The loop `Fix any interface references` over `ifaceRefRefs`. -/
def fixIfaceRefs (srcModp cellmodp : Nat) :
    ParamState → List (VarId × AstNode) → Except Failure ParamState
  | s, [] => .ok s
  | s, (portVar, pinIrefp) :: rest =>
    if portVar.modp ≠ srcModp then
      .error (.fatalSrc "parameter clone didn't hit AstIfaceRefDType")
    else
      (ifaceViaCellp s pinIrefp).bind fun via =>
        (s.updateStmt ⟨cellmodp, portVar.idx⟩ fun
          | .Var v => (setIrefIfacep via v.childDTypep).map fun d =>
              .Var { v with childDTypep := d }
          | _ => .error (.fatalSrc "parameter clone didn't hit AstIfaceRefDType")).bind fun s1 =>
          fixIfaceRefs srcModp cellmodp s1 rest

/-- `ParamVisitor::checkSupportedParam`. -/
def checkSupportedParam (env : Env) (s : ParamState) (pinp : AstPin) : ParamState :=
  if pinp.modVarp.isSome then
    let supported :=
      match pinp.exprp.asConst with
      | some constp => !env.isOpaque constp
      | none => false
    if !supported then
      s.v3error (.pin pinp) "hierarchical verilation supports only integer/floating point/string parameters"
    else s
  else if pinp.modPTypep.isSome then
    s.v3error (.pin pinp) "has hier_block metacomment, but 'parameter type' is not supported"
  else s

/-- The loop `Assign parameters to the constants specified` over the
relinked parameter pins. -/
def assignParams (env : Env) (hierBlock : Bool) :
    ParamState → List AstPin → Except Failure ParamState
  | s, [] => .ok s
  | s, pinp :: rest =>
    if pinp.exprp.isNull then assignParams env hierBlock s rest
    else
      let s := if hierBlock then checkSupportedParam env s pinp else s
      let s1 : Except Failure ParamState :=
        match pinp.modVarp with
        | some modvarp =>
          s.updateStmt modvarp fun
            | .Var v => .ok (.Var { v with valuep := pinp.exprp, overriddenParam := true })
            | _ => .error (.nullDeref "var")
        | none =>
          match pinp.modPTypep with
          | some modptp =>
            if !pinp.exprp.isNodeDType then .error (.fatalSrc "unlinked param dtype")
            else
              s.updateStmt modptp fun
                | .ParamTypeDType t => .ok (.ParamTypeDType { t with childDTypep := pinp.exprp })
                | _ => .error (.nullDeref "paramtype")
          | none => .ok s
      s1.bind fun s1 => assignParams env hierBlock s1 rest

/-- The name of the specialized module: the long name, or for a long name of
more than 30 characters and for a hierarchical block the short name that
`m_longMap` holds or now gets for it. -/
def resolveName (env : Env) (fuel : Nat) (s : ParamState) (srcModp : AstNodeModule)
    (paramsp : List AstPin) (longname : String) : Except Failure (String × ParamState) :=
  if longname.utf8ByteSize > 30 || srcModp.hierBlock then
    match mapFind s.m_longMap longname with
    | some newname => .ok (newname, s)
    | none =>
      let r : Except Failure (String × ParamState) :=
        if srcModp.hierBlock then parametrizedHierBlockName env fuel s srcModp paramsp
        else
          -- We use all upper case above, so lower here can't conflict
          .ok (srcModp.name ++ ("__pi" ++ toString (s.m_longId + 1)),
               { s with m_longId := s.m_longId + 1 })
      r.bind fun r => .ok (r.1, { r.2 with m_longMap := mapInsert r.2.m_longMap longname r.1 })
  else .ok (longname, s)

/-- The copy `cloneTree` makes of the source module, renamed and reset as
`visitCell` does for a new flavour; `curLevel` is the level of the module
being processed. -/
def cloneOf (srcModp : AstNodeModule) (newname : String) (curLevel : Int) : AstNodeModule :=
  { srcModp with
    name := newname, user5 := false, recursive := false, recursiveClone := false,
    hierBlock := srcModp.hierBlock && !srcModp.recursiveClone,
    level := if srcModp.level ≤ curLevel then curLevel + 1 else srcModp.level }

/-- The first steps on a new clone: it joins the graph, the recursion depth
is checked against the level of the source module `src`, the clone is put
into the module list behind the source module, and it is entered in the
cache under its name. -/
def linkClone (env : Env) (s : ParamState) (srcModp : Nat) (cell : AstCell)
    (src clone : AstNodeModule) (info : ModInfo) : ParamState :=
  let s := { s with mods := s.mods ++ [clone] }
  let s :=
    if clone.level - src.level ≥ env.moduleRecursionDepth - 2 then
      s.v3error (.cell cell) "Exceeded maximum --module-recursion-depth"
    else s
  -- Keep tree sorted by level
  let s := { s with modulesp := insertClone s.levelOf clone.level srcModp info.m_modp s.modulesp }
  { s with m_modNameMap := mapInsert s.m_modNameMap clone.name info }

/-- The branch `if (!cellmodp)` of `visitCell`: a new flavour `newname` of
module `srcModp` is created for the cell.  The result is the state, the cell
with its parameter pins relinked, and the cache entry of the flavour. -/
def cloneFlavor (env : Env) (s : ParamState) (srcModp : Nat) (cell : AstCell)
    (newname : String) (ifaceRefRefs : List (VarId × AstNode)) :
    Except Failure (ParamState × AstCell × ModInfo) :=
  (s.modAt srcModp).bind fun src =>
    match s.m_modp with
    | none => .error (.nullDeref "m_modp")
    | some cur =>
      (s.modAt cur).bind fun curMod =>
        let cellmodp := s.mods.length
        let clone := cloneOf src newname curMod.level
        let info : ModInfo :=
          { m_modp := cellmodp, m_cloneMap := collectPinsLoop srcModp cellmodp clone.stmts 0 [] }
        let s := linkClone env s srcModp cell src clone info
        (relinkPins info.m_cloneMap cell.paramsp).bind fun paramsp =>
          (fixIfaceRefs srcModp cellmodp s ifaceRefRefs).bind fun s =>
            (assignParams env clone.hierBlock s paramsp).bind fun s =>
              .ok (s, { cell with recursive := false, paramsp := paramsp }, info)

/-- The cache probe of `visitCell` under the name `newname`: the flavour made
earlier or a new one; the cell then refers to it and its port pins are
relinked through the clone map. -/
def specializeByName (env : Env) (s : ParamState) (srcModp : Nat) (cell : AstCell)
    (newname : String) (ifaceRefRefs : List (VarId × AstNode)) :
    Except Failure (ParamState × AstCell) :=
  let r : Except Failure (ParamState × AstCell × ModInfo) :=
    match mapFind s.m_modNameMap newname with
    | some info => .ok (s, cell, info)
    | none => cloneFlavor env s srcModp cell newname ifaceRefRefs
  r.bind fun r =>
    (relinkPins r.2.2.m_cloneMap r.2.1.pinsp).bind fun pinsp =>
      .ok (r.1, { r.2.1 with modp := some r.2.2.m_modp, modName := newname, pinsp := pinsp })

/-- The three ways of `visitCell` after the pin loops: no override, a
hierarchical block replaced by its protect-lib wrapper, a flavour by name. -/
def specializeCell (env : Env) (fuel : Nat) (acc : NameAcc) (srcModp : Nat) (cell : AstCell) :
    Except Failure (ParamState × AstCell) :=
  if !acc.any_overrides then
    -- Cell parameters all match original values, skipping expansion.
    .ok (acc.s, cell)
  else
    (acc.s.modAt srcModp).bind fun src =>
      (findByParams env acc.s src.name cell.paramsp).bind fun
        | some modp =>
          (acc.s.modAt modp).bind fun m =>
            let s := acc.s.setMod modp { m with dead := false }
            (relinkPinsByName s modp (nameToPinLoop modp m.stmts 0 []) cell.pinsp).bind
              fun pinsp => .ok (s, { cell with modp := some modp, modName := m.name, pinsp := pinsp })
        | none =>
          (resolveName env fuel acc.s src cell.paramsp acc.longname).bind fun r =>
            specializeByName env r.2 srcModp cell r.1 acc.ifaceRefRefs

/-- The end of `visitCell`: the recursion mark and the parameter pins of the
cell are dropped and the module of the cell is put on the work list. -/
def finishCell (s : ParamState) (nodep : Nat) (cell : AstCell) : Except Failure ParamState :=
  match cell.modp with
  | none => .error (.nullDeref "modp")
  | some modp =>
    (s.modAt modp).bind fun m =>
      .ok { s.setCell nodep { cell with recursive := false, paramsp := [] } with
            m_todoModps := todoInsert s.m_todoModps m.level modp }

/-- The descent into a pin and the constant folding of its expression. -/
def editPin (env : Env) (pinp : AstPin) : AstPin :=
  if pinp.exprp.isNull then pinp
  else { pinp with exprp := env.constifyParamsEdit (env.iterateExpr pinp.exprp) }

/-- The pin loops of `visitCell`: the long name, whether anything is
overridden, and the cell with its expressions folded. -/
def cellNames (env : Env) (s : ParamState) (srcModp : Nat) (cell : AstCell)
    (hierName : String) : Except Failure (NameAcc × AstCell) :=
  (s.modAt srcModp).bind fun src =>
    let cell := { cell with paramsp := cell.paramsp.map (editPin env),
                            pinsp := cell.pinsp.map (editPin env) }
    let s := s.setMod srcModp { src with hierName := hierName ++ ("." ++ cell.name) }
    let acc : NameAcc :=
      { s := s, longname := src.name ++ "_", any_overrides := cell.recursive,
        ifaceRefRefs := [] }
    (paramPins env srcModp acc cell.paramsp).bind fun r =>
      (ifacePins env srcModp r.1 cell.pinsp).bind fun acc =>
        .ok (acc, { cell with paramsp := r.2 })

/-- `ParamVisitor::visitCell` on cell `nodep` with hierarchy name `hierName`. -/
def visitCell (env : Env) (fuel : Nat) (s : ParamState) (nodep : Nat) (hierName : String) :
    Except Failure ParamState :=
  (s.cellAt nodep).bind fun cell =>
    match cell.modp with
    | none => .error (.fatalSrc "Not linked?")
    | some srcModp =>
      (cellNames env s srcModp cell hierName).bind fun r =>
        (specializeCell env fuel r.1 srcModp r.2).bind fun r =>
          finishCell r.1 nodep r.2

/-- The state in which the visitor starts on a graph: empty tables. -/
def ParamState.init (mods : List AstNodeModule) (cells : List AstCell)
    (hier : ParameterizedHierBlocks) : ParamState :=
  { mods := mods, modulesp := List.range mods.length, cells := cells,
    m_modNameMap := [], m_longMap := [], m_longId := 0,
    m_allModuleNames := mods.map (·.name),
    m_valueMap := [], m_nextValue := 1, m_todoModps := [], m_cellps := [], m_modp := none,
    m_generateHierName := "", m_hierBlocks := hier, randomCalls := 0, errors := [] }

/-! ## Arithmetic of numbers -/

/-- Modelled from the spec: "if the cell's value is signed, sign-extend to the
catalog's declared width".  `V3Number::opExtendS` is not part of the sources;
this is the value of the low `lbits` bits of `v` sign-extended to `width`
bits, for `1 ≤ lbits ≤ width`: the bits above are copies of bit `lbits - 1`. -/
def signExtend (v lbits width : Nat) : Nat :=
  let low := v % 2 ^ lbits
  if low / 2 ^ (lbits - 1) % 2 = 1 then low + (2 ^ width - 2 ^ lbits) else low

/-- The integer that the `w` bits `v` encode in two's complement. -/
def toSigned (v w : Nat) : Int :=
  if v < 2 ^ (w - 1) then (v : Int) else (v : Int) - 2 ^ w

/-- Modelled from the spec: "otherwise zero-extend/assign; then compare for
bit-exact equality".  The arithmetic of `V3Number` is not part of the
sources; this is what the spec says of the three operations `areSame` uses
on integral numbers: `opAssign` gives the destination the bits of a
two-state source, cut or filled with zeros to the width of the destination;
`opExtendS` gives it the source sign-extended from the given width; and the
result of `opEq` is non-zero exactly when the two numbers are equal bit for
bit, which a number with `x` or `z` bits never is to a two-state number. -/
def NumOpsSpec (env : Env) : Prop :=
  (∀ dst src, src.isFourState = false →
      env.opAssign dst src = { dst with value := src.value % 2 ^ dst.width })
  ∧ (∀ dst src lbits, src.isFourState = false →
      env.opExtendS dst src lbits = { dst with value := signExtend src.value lbits dst.width })
  ∧ (∀ a b, a.isString = false → a.isDouble = false → a.isFourState = false →
      b.isString = false → b.isDouble = false →
      (env.isNeqZero (env.opEq a b) = true ↔ b.isFourState = false ∧ b.value = a.value))

/-! ## A reference environment

Collaborators that leave expressions as they are, compare trees and numbers
by equality and print a number in decimal; used to evaluate the pass on
concrete graphs. -/

/-- A structural hash of the reference environment. -/
def nodeHash : AstNode → Nat
  | .null => 0
  | .node k n o1 o2 o3 o4 nx =>
    (match k with
      | .Const num => 1 + num.value + num.width
      | .BasicDType _ left right => 2 + left.toNat + right.toNat
      | _ => 3)
    + n.length + 5 * nodeHash o1 + 7 * nodeHash o2 + 11 * nodeHash o3 + 13 * nodeHash o4
    + 17 * nodeHash nx

def plainEnv : Env :=
  { uncachedHash := nodeHash
    debugCollision := false
    moduleRecursionDepth := 100
    iterateExpr := id
    widthGenerateParamsEdit := id
    widthParamsEdit := id
    constifyGenerateParamsEdit := id
    constifyParamsEdit := id
    sameTree := fun a b => decide (a = b)
    isZero := fun n => n.value == 0 && !n.isFourState
    opEq := fun a b =>
      V3Number.ofNat 1 (if !a.isFourState && !b.isFourState && a.value = b.value then 1 else 0)
    isNeqZero := fun n => n.value != 0
    ascii := fun _ n => toString n.value
    numToString := fun n => n.str
    opAssign := fun dst src => { dst with value := src.value % 2 ^ dst.width }
    opIToRD := fun dst src => { dst with value := src.value }
    opRToIRoundS := fun dst src => { dst with value := src.value % 2 ^ dst.width }
    opExtendS := fun dst src lbits => { dst with value := signExtend src.value lbits dst.width }
    toDouble := fun n => n.value
    v3EpsilonEqual := fun a b => a == b
    isOpaque := fun _ => false
    digestHex := fun l => "d1ce" ++ toString l.length
    trueRandom := fun n => toString n }

/-- A constant expression node. -/
def mkConst (value : Nat) : AstNode :=
  .node (.Const (V3Number.ofNat 32 value)) "" .null .null .null .null .null

/-- A reference to a variable that is not a parameter: it does not fold. -/
def mkVarRef (name : String) : AstNode :=
  .node (.VarRef none) name .null .null .null .null .null

/-- A leaf statement. -/
def mkStmt (name : String) : AstNode :=
  .node (.Other "STMT") name .null .null .null .null .null

/-- A case item with the given labels and body. -/
def mkItem (isDefault : Bool) (condsp bodysp : AstNode) : AstNode :=
  .node (.CaseItem isDefault) "" condsp bodysp .null .null .null

/-- A generate-case node. -/
def mkGenCase (exprp itemsp nextp : AstNode) : AstNode :=
  .node .GenCase "" exprp itemsp .null .null nextp

/-- The case of the running example: `case (5) 0: S0; 1: S1; default: SD; endcase`. -/
def caseNoMatch : AstNode :=
  mkGenCase (mkConst 5)
    (AstNode.ofList [mkItem false (mkConst 0) (mkStmt "S0"),
      mkItem false (mkConst 1) (mkStmt "S1"), mkItem true .null (mkStmt "SD")]) .null

/-- `case (1) 1: ; 1: S1; endcase`: the first matching item has an empty body. -/
def caseEmptyFirst : AstNode :=
  mkGenCase (mkConst 1)
    (AstNode.ofList [mkItem false (mkConst 1) .null, mkItem false (mkConst 1) (mkStmt "S1")])
    .null

/-- `case (x) 0, y: S0; endcase` with variables `x` and `y` that do not fold. -/
def caseVarSelectorTwoLabels : AstNode :=
  mkGenCase (mkVarRef "x")
    (mkItem false (AstNode.ofList [mkConst 0, mkVarRef "y"]) (mkStmt "S0")) .null

/-- `case (x) 0: S0; endcase` with a variable `x` that does not fold. -/
def caseVarSelector : AstNode :=
  mkGenCase (mkVarRef "x") (mkItem false (mkConst 0) (mkStmt "S0")) .null

/-- The reference environment with `--debug-collision`. -/
def collideEnv : Env := { plainEnv with debugCollision := true }

/-- The data type `logic [left:0]`. -/
def mkLogic (left : Int) : AstNode :=
  .node (.BasicDType true left 0) "logic" .null .null .null .null .null

/-- A graph without modules and cells. -/
def emptyState : ParamState := ParamState.init [] [] ⟨[], [], []⟩

/-- The tables after `logic [7:0]` has been numbered in `emptyState`. -/
def valueState1 : ParamState :=
  { emptyState with m_nextValue := 2, m_valueMap := [(14, (1, "logic[7:0]"))] }

/-- The tables after `logic [3:0]` has been numbered in `valueState1`. -/
def valueState2 : ParamState :=
  { emptyState with m_nextValue := 3,
                    m_valueMap := [(14, (1, "logic[7:0]")), (10, (2, "logic[3:0]"))] }

/-! ## Runs of the pass over cells -/

/-- One call of `visitCell` made by `visitModules`: the module being
processed (`m_modp`), the cell, and the hierarchy name passed. -/
structure CellVisit where
  modp : Nat
  nodep : Nat
  hierName : String
deriving DecidableEq, Repr

/-- `visitCell` on a cell of the module being processed. -/
def visitStep (env : Env) (fuel : Nat) (s : ParamState) (v : CellVisit) :
    Except Failure ParamState :=
  visitCell env fuel { s with m_modp := some v.modp } v.nodep v.hierName

/-- Successive calls of `visitCell`. -/
def visitSteps (env : Env) (fuel : Nat) : ParamState → List CellVisit → Except Failure ParamState
  | s, [] => .ok s
  | s, v :: vs => (visitStep env fuel s v).bind fun s' => visitSteps env fuel s' vs

/-! ## The work list of modules -/

/-- What the pass tells of its progress (`UINFO`): a module is taken up for
elaboration (`" MOD   "`); `visitCell` is done with a cell (`"     Done
with "`), which then refers to module `modp`. -/
inductive Event where
  | mod (nodep : Nat)
  | cell (nodep : Nat) (modp : Nat)
deriving DecidableEq, Repr

/-- What the descent into the children of a module leaves behind, apart from
the calls of `visit(AstCell*)`: the statements of the module as the visitors
for variables, references and generate statements have rewritten them, the
cells that the unrolling of generate loops and the copying of a module have
brought into being, the errors reported, and the cells the descent comes to,
in order, each with the value that `m_generateHierName` has there. -/
structure BodyOutcome where
  stmts : List ModStmt
  newCells : List AstCell
  cellps : List (Nat × String)
  errors : List V3Error
deriving DecidableEq, Repr

/-- The tree walk `AstNVisitor::iterateChildren` on a module, whose code is
not part of `V3Param.cpp`, taken together with the visitors of this file that
it reaches apart from `visit(AstCell*)`: what they leave behind for a module
in a state.  These visitors write to the statements of the module they are
in and report errors; none of them writes to `m_todoModps` or to `user5`,
`dead` or `level` of a module. -/
structure Walk where
  iterateChildren : ParamState → Nat → Except Failure BodyOutcome

/-- `ParamVisitor::visit(AstCell*)`: the cell notes the generate portion of
its hierarchical name and joins `m_cellps`. -/
def visitAstCell (s : ParamState) (nodep : Nat) : Except Failure ParamState :=
  (s.cellAt nodep).map fun c =>
    { s.setCell nodep { c with user5p := some s.m_generateHierName } with
      m_cellps := s.m_cellps ++ [nodep] }

/-- The calls of `visit(AstCell*)` during a descent, each under the generate
name that holds at the cell. -/
def visitAstCells : ParamState → List (Nat × String) → Except Failure ParamState
  | s, [] => .ok s
  | s, (nodep, gen) :: rest =>
    (visitAstCell { s with m_generateHierName := gen } nodep).bind fun s' =>
      visitAstCells s' rest

/-- `iterateChildren(nodep)` on the module `nodep` in `visitModules`;
`visit(AstBegin*)` has restored `m_generateHierName` when the descent is
over. -/
def iterateModule (walk : Walk) (s : ParamState) (nodep : Nat) : Except Failure ParamState :=
  (walk.iterateChildren s nodep).bind fun out =>
    (s.modAt nodep).bind fun m =>
      let s1 := s.setMod nodep { m with stmts := out.stmts }
      let s1 := { s1 with cells := s1.cells ++ out.newCells, errors := s1.errors ++ out.errors }
      (visitAstCells s1 out.cellps).map fun s2 =>
        { s2 with m_generateHierName := s.m_generateHierName }

/-- `VN_IS(cellp->modp(), Iface)`. -/
def cellIsIface (s : ParamState) (cell : AstCell) : Except Failure Bool :=
  match cell.modp with
  | none => .ok false
  | some m => (s.modAt m).map (·.isIface)

/-- One of the two loops over `m_cellps` in `visitModules`: `nonIf = false`
takes the cells of interfaces, `nonIf = true` the other cells. -/
def cellWave (env : Env) (fuel : Nat) (nonIf : Bool) :
    ParamState → List Nat → List Event → Except Failure (ParamState × List Event)
  | s, [], log => .ok (s, log)
  | s, cellp :: rest, log =>
    (s.cellAt cellp).bind fun cell =>
      (cellIsIface s cell).bind fun isIf =>
        if (!nonIf && isIf) || (nonIf && !isIf) then
          match s.m_modp with
          | none => .error (.nullDeref "m_modp")
          | some cur =>
            (s.modAt cur).bind fun m =>
              -- string fullName(m_modp->hierName()); fullName += *genHierNamep
              let fullName := m.hierName ++ cell.user5p.getD ""
              (visitCell env fuel s cellp fullName).bind fun s' =>
                (s'.cellAt cellp).bind fun c' =>
                  match c'.modp with
                  | none => .error (.nullDeref "modp")
                  | some modp => cellWave env fuel nonIf s' rest (log ++ [.cell cellp modp])
        else cellWave env fuel nonIf s rest log

/-- The loop of `visitModules` that gives back the generate names of the
cells in `m_cellps`. -/
def clearUser5p (cells : List AstCell) : List Nat → List AstCell
  | [] => cells
  | cellp :: rest =>
    match cells[cellp]? with
    | some c => clearUser5p (cells.set cellp { c with user5p := none }) rest
    | none => clearUser5p cells rest

/-- The loop `for (int nonIf = 0; nonIf < 2; ++nonIf)` of `visitModules` over
the cells recorded in `m_cellps`: `Process interface cells, then
non-interface which may ref an interface cell`. -/
def cellWaves (env : Env) (fuel : Nat) (s : ParamState) (log : List Event) :
    Except Failure (ParamState × List Event) :=
  (cellWave env fuel false s s.m_cellps log).bind fun r =>
    cellWave env fuel true r.1 r.1.m_cellps r.2

/-- The body of `if (!nodep->user5SetOnce())` in `visitModules`: the module
`nodep` is elaborated. -/
def elaborate (env : Env) (fuel : Nat) (walk : Walk) (s : ParamState) (nodep : Nat)
    (log : List Event) : Except Failure (ParamState × List Event) :=
  let s := { s with m_modp := some nodep }
  (s.modAt nodep).bind fun m =>
    let s := if m.hierName.isEmpty then s.setMod nodep { m with hierName := m.origName } else s
    (iterateModule walk s nodep).bind fun s =>
      (cellWaves env fuel s log).bind fun r =>
        .ok ({ r.1 with cells := clearUser5p r.1.cells r.1.m_cellps,
                        m_cellps := [], m_modp := none }, r.2)

/-- `ParamVisitor::visitModules`: the loop over `m_todoModps`, with fuel for
its rounds. -/
def visitModules (env : Env) (fuel : Nat) (walk : Walk) :
    Nat → ParamState → List Event → Except Failure (ParamState × List Event)
  | 0, s, log =>
    match s.m_todoModps with
    | [] => .ok (s, log)
    | _ :: _ => .error .outOfFuel
  | rounds + 1, s, log =>
    match s.m_todoModps with
    | [] => .ok (s, log)
    | (_, nodep) :: rest =>
      let s := { s with m_todoModps := rest }
      (s.modAt nodep).bind fun m =>
        if !m.user5 then
          -- Process once; note clone() must clear so we do it again
          let s := s.setMod nodep { m with user5 := true }
          (elaborate env fuel walk s nodep (log ++ [.mod nodep])).bind fun r =>
            visitModules env fuel walk rounds r.1 r.2
        else visitModules env fuel walk rounds s log

/-- `ParamVisitor::visit(AstNodeModule*)`. -/
def visitAstNodeModule (env : Env) (fuel : Nat) (walk : Walk) (rounds : Nat) (s : ParamState)
    (nodep : Nat) (log : List Event) : Except Failure (ParamState × List Event) :=
  (s.modAt nodep).bind fun m =>
    if m.dead then .ok (s, log)
    else if m.recursiveClone then
      -- Fake, made for recursive elimination
      .ok (s.setMod nodep { m with dead := true }, log)
    else if m.level ≤ 2 || m.isPackage then
      -- Add request to END of modules left to process
      let s := { s with m_todoModps := todoInsert s.m_todoModps m.level nodep,
                        m_generateHierName := "" }
      visitModules env fuel walk rounds s log
    else .ok (s, log)

/-- The module behind `nodep` in the module list (`nodep->nextp()`). -/
def nextModule : List Nat → Nat → Option Nat
  | [], _ => none
  | m :: rest, nodep => if m = nodep then rest.head? else nextModule rest nodep

/-- `ParamVisitor::visit(AstNetlist*)`: the modules of the list are visited
one after the other, from `cur` on, each step going to the module that then
stands behind the module just visited. -/
def visitAstNetlist (env : Env) (fuel : Nat) (walk : Walk) (rounds : Nat) :
    Nat → ParamState → Option Nat → List Event → Except Failure (ParamState × List Event)
  | _, s, none, log => .ok (s, log)
  | 0, _, some _, _ => .error .outOfFuel
  | steps + 1, s, some nodep, log =>
    (visitAstNodeModule env fuel walk rounds s nodep log).bind fun r =>
      visitAstNetlist env fuel walk rounds steps r.1 (nextModule r.1.modulesp nodep) r.2

/-- The pass on a netlist: `iterate(nodep)` in the constructor of
`ParamVisitor`. -/
def paramPass (env : Env) (fuel : Nat) (walk : Walk) (rounds steps : Nat) (s : ParamState) :
    Except Failure (ParamState × List Event) :=
  visitAstNetlist env fuel walk rounds steps s s.modulesp.head? []

/-! ## Dotted references into interfaces -/

/-- A dotted reference to a variable (`AstVarXRef`): its name, the dotted
scope in front of it and the declaration it is linked to. -/
structure AstVarXRef where
  name : String
  dotted : String
  varp : Option VarId
deriving DecidableEq, Repr

/-- A candidate of `ifaceParamReplace`: a node of the sibling list searched,
which is a declaration of a variable, a pin, or a node of another kind. -/
inductive XRefCand where
  | Var (varp : VarId) (name : String)
  | Pin (pinp : AstPin)
  | Other (name : String)
deriving DecidableEq, Repr

/-- What `visit(AstVarXRef*)` leaves of the reference: linked to another
declaration, replaced by an expression, or with the null `varp`. -/
inductive XRefResult where
  | rebound (varp : VarId)
  | replaced (exprp : AstNode)
  | cleared
deriving DecidableEq, Repr

/-- A node on the way back from a reference (`backp()`): the module, the
declaration of a variable, or a node of another kind. -/
inductive BackNode where
  | NodeModule
  | Var (varp : AstVar)
  | Other
deriving DecidableEq, Repr

/-- `name()` of a candidate. -/
def XRefCand.name : XRefCand → String
  | .Var _ name => name
  | .Pin pinp => pinp.name
  | .Other name => name

/-- `ParamVisitor::ifaceParamReplace`: `some` result when the reference was
rebound or replaced (the function returns true), `none` when no candidate of
its name is a variable or a pin. -/
def ifaceParamReplace (nodep : AstVarXRef) : List XRefCand → Except Failure (Option XRefResult)
  | [] => .ok none
  | candp :: rest =>
    if nodep.name = candp.name then
      match candp with
      | .Var varp _ => .ok (some (.rebound varp))
      | .Pin pinp =>
        if pinp.exprp.isNull then .error (.fatalSrc "Interface parameter pin missing expression")
        else .ok (some (.replaced pinp.exprp.head))
      | .Other _ => ifaceParamReplace nodep rest
    else ifaceParamReplace nodep rest

/-- The statements of interface `ifacep` as candidates (`ifacep->stmtsp()`). -/
def stmtCands (ifacep : Nat) (stmts : List ModStmt) : List XRefCand :=
  stmts.enum.map fun
    | (idx, .Var v) => .Var ⟨ifacep, idx⟩ v.name
    | (_, .ParamTypeDType t) => .Other t.name
    | (_, .Other (.node _ name ..)) => .Other name
    | (_, .Other .null) => .Other ""

/-- The interface reference type `visit(AstVarXRef*)` finds at a variable met
on the way back: that of an interface-typed variable whose data type is an
interface reference or an unpacked array of one; the pair is `cellp()` and
`ifacep()` of the reference. -/
def xrefIfaceRef (varp : AstVar) : Option (Option Nat × Option Nat) :=
  if varp.isIfaceRef then
    match varp.childDTypep with
    | .node (.IfaceRefDType cellp ifacep _) .. => some (cellp, ifacep)
    | .node .UnpackArrayDType _ (.node (.IfaceRefDType cellp ifacep _) ..) .. =>
      some (cellp, ifacep)
    | _ => none
  else none

/-- The `while ((backp = backp->backp()))` loop of `visit(AstVarXRef*)` over
the nodes on the way back, nearest first. -/
def xrefWalk (s : ParamState) (nodep : AstVarXRef) : List BackNode → Except Failure XRefResult
  | [] => .ok .cleared
  | .NodeModule :: _ => .ok .cleared
  | .Other :: rest => xrefWalk s nodep rest
  | .Var backp :: rest =>
    match xrefIfaceRef backp with
    | none => xrefWalk s nodep rest
    | some (_, some ifacep) =>
      -- Interfaces passed in on the port map have ifaces
      if nodep.dotted = backp.name then
        (s.modAt ifacep).bind fun m =>
          (ifaceParamReplace nodep (stmtCands ifacep m.stmts)).bind fun
            | some r => .ok r
            | none => xrefWalk s nodep rest
      else xrefWalk s nodep rest
    | some (some cellp, none) =>
      -- Interfaces declared in this module have cells
      (s.cellAt cellp).bind fun cell =>
        if nodep.dotted = cell.name then
          (ifaceParamReplace nodep (cell.paramsp.map .Pin)).bind fun
            | some r => .ok r
            | none => xrefWalk s nodep rest
        else xrefWalk s nodep rest
    | some (none, none) => xrefWalk s nodep rest

/-- `ParamVisitor::visit(AstVarXRef*)` on a reference with the nodes `backs` on
its way back. -/
def visitVarXRef (s : ParamState) (nodep : AstVarXRef) (backs : List BackNode) :
    Except Failure XRefResult :=
  if nodep.dotted.isEmpty then .ok .cleared
  else
    match nodep.varp with
    | none => .ok .cleared
    | some v =>
      (s.varAt v).bind fun varp =>
        if varp.isParam then xrefWalk s nodep backs else .ok .cleared

/-- The way back from a reference in statement `k` of a module, when the
reference is the first node of the statement: the statements before it, last
first, and the module. -/
def backChain (m : AstNodeModule) (k : Nat) : List BackNode :=
  ((m.stmts.take k).reverse.map fun
    | .Var v => BackNode.Var v
    | _ => BackNode.Other) ++ [.NodeModule]

/-! ## The pass from the construction of the visitor -/

/-- A statement with the marks of the visitor (`user4`, `user5`) cleared. -/
def clearMarks : ModStmt → ModStmt
  | .Var v => .Var { v with user4 := 0, user5 := false }
  | .ParamTypeDType t => .ParamTypeDType { t with user4 := 0 }
  | .Other n => .Other n

/-- `user4()` of a declaration, 0 for other statements. -/
def user4Of : ModStmt → Nat
  | .Var v => v.user4
  | .ParamTypeDType t => t.user4
  | .Other _ => 0

/-- A statement with its `user4` cleared. -/
def zero4 : ModStmt → ModStmt
  | .Var v => .Var { v with user4 := 0 }
  | .ParamTypeDType t => .ParamTypeDType { t with user4 := 0 }
  | .Other n => .Other n

/-- The letter `makeSmallNames` counts a statement under, if it numbers it. -/
def stmtLetter : ModStmt → Option Nat
  | .Var v => if v.isGParam || v.isIfaceRef then some (smallNameLetter v.name).toNat else none
  | .ParamTypeDType _ => some ('T').toNat
  | .Other _ => none

/-- The numbers `makeSmallNames` assigns, by the letters of the statements. -/
def canonLoop : List (Option Nat) → (Nat → Nat) → List (Option Nat)
  | [], _ => []
  | none :: rest, usedLetter => none :: canonLoop rest usedLetter
  | some ch :: rest, usedLetter =>
    some (usedLetter ch * 256 + ch)
      :: canonLoop rest (Function.update usedLetter ch (usedLetter ch + 1))

/-- The `user4` that `makeSmallNames` gives statement `idx`. -/
def canon4 (stmts : List ModStmt) (idx : Nat) : Nat :=
  ((canonLoop (stmts.map stmtLetter) (fun _ => 0))[idx]?).join.getD 0

/-- The short names of a module are not assigned yet or are those of
`makeSmallNames` (`user4` is cleared when the visitor starts). -/
def ModSmallOk (m : AstNodeModule) : Prop :=
  ∀ idx st, m.stmts[idx]? = some st → (stmtLetter st).isSome = true →
    user4Of st = 0 ∨ user4Of st = canon4 m.stmts idx

/-- `ModSmallOk` for every module. -/
def SmallNamesOk (s : ParamState) : Prop :=
  ∀ (i : Nat) (m : AstNodeModule), s.mods[i]? = some m → ModSmallOk m

/-- Every cache entry holds an existing module that bears the entry's key as
its name. -/
def CacheOk (s : ParamState) : Prop :=
  ∀ k info, mapFind s.m_modNameMap k = some info →
    ∃ m, s.mods[info.m_modp]? = some m ∧ m.name = k

/-- What later cells see of a module that exists: its name, its level, its
flags and its declarations up to `user4`. -/
def modView (m : AstNodeModule) : (String × Int × Bool) × Bool × Bool × List ModStmt :=
  ((m.name, m.level, m.recursiveClone), m.hierBlock, m.isIface, m.stmts.map zero4)

/-- State `s'` is a later state of a run than `s`: the modules of `s` are
still there and look the same, the tables have kept their entries, the
database of hierarchical blocks is the same. -/
structure Later (s s' : ParamState) : Prop where
  mods : ∀ (i : Nat) (m : AstNodeModule), s.mods[i]? = some m →
    ∃ m', s'.mods[i]? = some m' ∧ modView m' = modView m
  longMap : ∀ k v, mapFind s.m_longMap k = some v → mapFind s'.m_longMap k = some v
  cache : ∀ k v, mapFind s.m_modNameMap k = some v → mapFind s'.m_modNameMap k = some v
  hier : s'.m_hierBlocks = s.m_hierBlocks

/-- What the pin loops of `visitCell` may change: `user4` of declarations
(and the hierarchy name of a module), the value table and the errors. -/
def LoopRel (s s' : ParamState) : Prop :=
  ∃ mods vm nv errs,
    s' = { s with mods := mods, m_valueMap := vm, m_nextValue := nv, errors := errs }
    ∧ mods.map modView = s.mods.map modView
    ∧ (SmallNamesOk s → SmallNamesOk s')

/-- Two statement lists that `makeSmallNames` cannot tell apart and that
carry the same `user4` values. -/
def StmtsRel (a b : List ModStmt) : Prop :=
  b.map stmtLetter = a.map stmtLetter ∧ b.map user4Of = a.map user4Of

/-- State `b` is `a` with declarations of module `j` rewritten (values,
types, flags but neither names nor `user4`) and errors added. -/
def UpdAt (j : Nat) (a b : ParamState) : Prop :=
  ∃ m stmts errs, a.mods[j]? = some m ∧ StmtsRel m.stmts stmts
    ∧ b = { a with mods := a.mods.set j { m with stmts := stmts }, errors := errs }

/-- What a call of `visitCell` keeps: the modules, tables and database as in
`Later`, and the invariants of cache and short names. -/
structure StepRel (s s' : ParamState) : Prop where
  later : Later s s'
  cacheOk : CacheOk s → CacheOk s'
  small : SmallNamesOk s → SmallNamesOk s'
  cells : s'.cells.length = s.cells.length

/-- The visit of a cell takes the cloning path: the pin loops find an
override and the database of hierarchical blocks has no entry for the
template. -/
def TakesNamePath (env : Env) (s : ParamState) (v : CellVisit) : Prop :=
  ∃ cell srcModp acc cell1 src,
    s.cellAt v.nodep = .ok cell ∧ cell.modp = some srcModp
    ∧ cellNames env { s with m_modp := some v.modp } srcModp cell v.hierName = .ok (acc, cell1)
    ∧ acc.any_overrides = true ∧ acc.s.modAt srcModp = .ok src
    ∧ findByParams env acc.s src.name cell1.paramsp = .ok none

/-- Two states in which every lookup of the pin loops outside `user4` and the
value table reads the same: the modules look the same and the cells are the
same. -/
def SameView (x y : ParamState) : Prop :=
  y.mods.map modView = x.mods.map modView ∧ y.cells = x.cells

/-- What the first half of `visitCell` finds for a cell: the long name, the
name of the template and whether it is a hierarchical block, whether
anything is overridden, and what the database of hierarchical blocks has
for the cell. -/
def namePath (env : Env) (s : ParamState) (v : CellVisit) :
    Except Failure (String × String × Bool × Bool × Option Nat) :=
  (s.cellAt v.nodep).bind fun cell =>
    match cell.modp with
    | none => .error (.fatalSrc "Not linked?")
    | some srcModp =>
      (cellNames env { s with m_modp := some v.modp } srcModp cell v.hierName).bind fun r =>
        (r.1.s.modAt srcModp).bind fun src =>
          (findByParams env r.1.s src.name r.2.paramsp).map fun f =>
            (r.1.longname, src.name, src.hierBlock, r.1.any_overrides, f)

/-- The candidates of `findByParams`: the options registered under the
original module name, in the order of the multimap. -/
def hierCandidates (s : ParamState) (origName : String) : List V3HierarchicalBlockOption :=
  (s.m_hierBlocks.m_hierBlockOptsByOrigName.filter (fun e => e.1 = origName)).map (·.2)

/-- `m_params[opt]`: the parameter constants of a candidate. -/
def hierParams (s : ParamState) (opt : V3HierarchicalBlockOption) : List (String × V3Number) :=
  (mapFind s.m_hierBlocks.m_params opt).getD []

/-- The test at the end of the candidate loop of `findByParams`: the pin loop
ended with `found` and `paramIdx` is the number of parameters of the option. -/
def hierAccepts (env : Env) (s : ParamState) (pins : List AstPin)
    (opt : V3HierarchicalBlockOption) : Prop :=
  hierMatchPins env s (hierParams s opt) pins 0 = .ok (some opt.params.length)

/-- The parameters a cell binds with an expression: the name of the
parameter and the constant bound, if the expression is one. -/
def pinBindings (s : ParamState) : List AstPin → List (String × Option V3Number)
  | [] => []
  | p :: rest =>
    if p.exprp.isNull then pinBindings s rest
    else
      match p.modVarp with
      | some v =>
        match s.varAt v with
        | .ok x => (x.name, p.exprp.asConst) :: pinBindings s rest
        | .error _ => pinBindings s rest
      | none => pinBindings s rest

/-- A candidate with parameter constants `params` fits the bindings `bs` of a
cell: every parameter of the catalog entry is bound by the cell to a
constant that `areSame` finds equal, and every parameter the cell binds is
declared by the entry. -/
def CatalogFits (env : Env) (params : List (String × V3Number))
    (bs : List (String × Option V3Number)) : Prop :=
  (∀ name c, (name, c) ∈ params → ∃ pc, (name, some pc) ∈ bs ∧ areSame env pc c = true)
  ∧ (∀ name pc, (name, pc) ∈ bs → ∃ c, (name, c) ∈ params)

/-- A parameter binding that a pre-built replacement cannot express: it
targets a type parameter, or it targets a value parameter with a value that
is not a constant or is an opaque constant. -/
def unsupportedParam (env : Env) (pinp : AstPin) : Bool :=
  if pinp.modVarp.isSome then
    match pinp.exprp.asConst with
    | some constp => env.isOpaque constp
    | none => true
  else pinp.modPTypep.isSome

/-- The message of `checkSupportedParam` for a binding it rejects. -/
def unsupportedMsg (pinp : AstPin) : String :=
  if pinp.modVarp.isSome then
    "hierarchical verilation supports only integer/floating point/string parameters"
  else "has hier_block metacomment, but 'parameter type' is not supported"

/-- The names of the modules are in order: no two modules of the list have the
same name, every module is known by name to `moduleExists` (as a module of
the source or as a flavour in the cache), and every short name that
`m_longMap` holds is the name of a flavour in the cache. -/
def NamesOk (s : ParamState) : Prop :=
  (s.mods.map (·.name)).Nodup
  ∧ (∀ n ∈ s.mods.map (·.name),
      n ∈ s.m_allModuleNames ∨ (mapFind s.m_modNameMap n).isSome = true)
  ∧ (∀ k n, mapFind s.m_longMap k = some n → (mapFind s.m_modNameMap n).isSome = true)

/-- Every cache entry holds an existing module, and each declaration that its
clone map translates belongs to an existing module whose level is at most the
level of that module: a flavour lies no higher than its template. -/
def CacheLevelOk (s : ParamState) : Prop :=
  ∀ k info, mapFind s.m_modNameMap k = some info →
    ∃ X, s.mods[info.m_modp]? = some X
      ∧ ∀ a b, mapFind info.m_cloneMap a = some b →
          ∃ A, s.mods[a.modp]? = some A ∧ A.level ≤ X.level

/-- State `s'` has the errors of `s` and after them errors on pins only. -/
def PinErrs (s s' : ParamState) : Prop :=
  ∃ es, s'.errors = s.errors ++ es ∧ ∀ e ∈ es, ∃ p, e.obj = .pin p

/-- The error of `visitCell` on a cell for which the recursion goes too deep. -/
def isDepthError (e : V3Error) : Bool :=
  match e.obj with
  | .cell _ => e.msg == "Exceeded maximum --module-recursion-depth"
  | _ => false

/-- The module list is ordered by level, lowest first. -/
def LevelSorted (s : ParamState) : Prop :=
  s.modulesp.Pairwise (fun a b => s.levelOf a ≤ s.levelOf b)

/-- The level of a module as `linkClone` reads it after the clone has joined
the modules. -/
def levelWith (mods : List AstNodeModule) (m : Nat) : Int :=
  match mods[m]? with
  | some md => md.level
  | none => 0

/-- The declaration a parameter pin is written to by `assignParams`: the
variable, or the type parameter when the pin has no variable. -/
def pinTarget (p : AstPin) : Option VarId :=
  match p.modVarp with
  | some w => some w
  | none => p.modPTypep

/-- The name of a declaration, empty for other statements. -/
def declName : ModStmt → String
  | .Var v => v.name
  | .ParamTypeDType t => t.name
  | .Other _ => ""

/-- The name of the declaration a pointer refers to, if it refers to one. -/
def nameAt (s : ParamState) (w : VarId) : Option String :=
  match s.stmtAt w with
  | .ok st => some (declName st)
  | .error _ => none

/-- The names of the declarations of all modules. -/
def declNames (s : ParamState) : List (List String) :=
  s.mods.map fun m => m.stmts.map declName

/-- Every clone map in the cache leads from a declaration to the declaration
of the same position and the same name in the module of the entry. -/
def CloneMapsOk (s : ParamState) : Prop :=
  ∀ k info, mapFind s.m_modNameMap k = some info →
    ∀ a b, mapFind info.m_cloneMap a = some b →
      b.modp = info.m_modp ∧ b.idx = a.idx ∧ ∃ n, nameAt s a = some n ∧ nameAt s b = some n

/-- The flags of a module that steer the work list: `dead` and the mark
`user5` of a module that has been taken up. -/
def flagsOf (m : AstNodeModule) : Bool × Bool := (m.dead, m.user5)

/-- The modules of `s'` are as many as those of `s` and bear the same
flags. -/
def FlagsKept (s s' : ParamState) : Prop := s'.mods.map flagsOf = s.mods.map flagsOf

/-- What the work list goes by in a module: the flag `dead`, the mark `user5`
and the level. -/
def markOf (m : AstNodeModule) : Bool × Bool × Int := (m.dead, m.user5, m.level)

/-- One step of the pass as the work list sees it.  `quiet`: the marks of the
modules and the work list stay.  `skip`: the first entry of the work list is
taken off, its module is marked already.  `take`: the first entry is taken
off, its module is marked and announced.  `cell`: `visitCell` is done with a
cell that is then bound to `modp`, which is put on the work list under its
level; a module that existed keeps its mark and its level, and its flag
`dead` unless it is `modp`; a new module is `modp` and bears no mark.
`root`: a module that is not dead is put on the work list under its level.
`kill`: a module is flagged dead.  The last two are steps of
`visit(AstNodeModule*)` and occur only for `top = true`. -/
inductive WorkStep (top : Bool) : ParamState → List Event → ParamState → List Event → Prop
  | quiet (s s' : ParamState) (log : List Event)
      (hmods : s'.mods.map markOf = s.mods.map markOf)
      (htodo : s'.m_todoModps = s.m_todoModps) : WorkStep top s log s' log
  | skip (s s' : ParamState) (log : List Event) (l : Int) (i : Nat) (rest : List (Int × Nat))
      (m : AstNodeModule) (ht : s.m_todoModps = (l, i) :: rest) (hi : s.mods[i]? = some m)
      (hu : m.user5 = true) (hmods : s'.mods.map markOf = s.mods.map markOf)
      (htodo : s'.m_todoModps = rest) : WorkStep top s log s' log
  | take (s s' : ParamState) (log : List Event) (l : Int) (i : Nat) (rest : List (Int × Nat))
      (m : AstNodeModule) (ht : s.m_todoModps = (l, i) :: rest) (hi : s.mods[i]? = some m)
      (hu : m.user5 = false)
      (hmods : s'.mods.map markOf = (s.mods.set i { m with user5 := true }).map markOf)
      (htodo : s'.m_todoModps = rest) : WorkStep top s log s' (log ++ [.mod i])
  | cell (s s' : ParamState) (log : List Event) (c modp : Nat) (m : AstNodeModule)
      (hm : s'.mods[modp]? = some m)
      (htodo : s'.m_todoModps = todoInsert s.m_todoModps m.level modp)
      (hold : ∀ (i : Nat) (m0 : AstNodeModule), s.mods[i]? = some m0 →
        ∃ m1 : AstNodeModule, s'.mods[i]? = some m1 ∧ m1.user5 = m0.user5
          ∧ m1.level = m0.level ∧ (m1.dead = m0.dead ∨ (i = modp ∧ m1.dead = false)))
      (hnew : ∀ (i : Nat) (m1 : AstNodeModule), s'.mods[i]? = some m1 → s.mods.length ≤ i →
        i = modp ∧ m1.user5 = false)
      (hlen : s.mods.length ≤ s'.mods.length) : WorkStep top s log s' (log ++ [.cell c modp])
  | root (htop : top = true) (s s' : ParamState) (log : List Event) (i : Nat)
      (m : AstNodeModule) (hi : s.mods[i]? = some m) (hd : m.dead = false)
      (hmods : s'.mods.map markOf = s.mods.map markOf)
      (htodo : s'.m_todoModps = todoInsert s.m_todoModps m.level i) : WorkStep top s log s' log
  | kill (htop : top = true) (s s' : ParamState) (log : List Event) (i : Nat)
      (m : AstNodeModule) (hi : s.mods[i]? = some m)
      (hmods : s'.mods.map markOf = (s.mods.set i { m with dead := true }).map markOf)
      (htodo : s'.m_todoModps = s.m_todoModps) : WorkStep top s log s' log

/-- A run of steps of the pass. -/
inductive WorkRun (top : Bool) : ParamState → List Event → ParamState → List Event → Prop
  | refl (s : ParamState) (log : List Event) : WorkRun top s log s log
  | tail {s s1 s2 : ParamState} {log log1 log2 : List Event} :
      WorkRun top s log s1 log1 → WorkStep top s1 log1 s2 log2 → WorkRun top s log s2 log2

/-- What holds of the marks during a pass that starts in `s0`: a module that
has been announced is marked and is announced once; a module marked in `s0`
stays marked and is not announced; a module made during the pass is on the
work list as long as it is not marked, and has been announced once it is. -/
structure OnceInv (s0 s : ParamState) (log : List Event) : Prop where
  marked : ∀ (i : Nat), Event.mod i ∈ log →
    ∃ m : AstNodeModule, s.mods[i]? = some m ∧ m.user5 = true
  once : ∀ (i : Nat), log.count (Event.mod i) ≤ 1
  old : ∀ (i : Nat) (m0 : AstNodeModule), s0.mods[i]? = some m0 → m0.user5 = true →
    (∃ m : AstNodeModule, s.mods[i]? = some m ∧ m.user5 = true) ∧ Event.mod i ∉ log
  pending : ∀ (i : Nat) (m : AstNodeModule), s0.mods.length ≤ i → s.mods[i]? = some m →
    m.user5 = false → ∃ l, (l, i) ∈ s.m_todoModps
  done : ∀ (i : Nat) (m : AstNodeModule), s0.mods.length ≤ i → s.mods[i]? = some m →
    m.user5 = true → Event.mod i ∈ log
  grows : s0.mods.length ≤ s.mods.length

/-- What holds of the modules that are dead when a pass starts in `s0`: such a
module is on the work list, is announced for elaboration or has lost the
flag `dead` only if `visitCell` has been done with a cell that it then bound
to the module. -/
def DeadInv (s0 s : ParamState) (log : List Event) : Prop :=
  s0.mods.length ≤ s.mods.length
  ∧ ∀ (d : Nat) (m0 : AstNodeModule), s0.mods[d]? = some m0 → m0.dead = true →
    ((∃ l, (l, d) ∈ s.m_todoModps) ∨ Event.mod d ∈ log
      ∨ ∃ m : AstNodeModule, s.mods[d]? = some m ∧ m.dead = false) →
    ∃ c, Event.cell c d ∈ log

/-- The levels, under `lv`, of the modules that a log announces, in the
order of the log. -/
def modLevels (lv : Nat → Int) : List Event → List Int
  | [] => []
  | .mod i :: rest => lv i :: modLevels lv rest
  | .cell _ _ :: rest => modLevels lv rest

/-- The module a log has announced last, `cur` if none. -/
def lastMod : Option Nat → List Event → Option Nat
  | cur, [] => cur
  | _, .mod i :: rest => lastMod (some i) rest
  | cur, .cell _ _ :: rest => lastMod cur rest

/-- Every visit of a cell in the log ends on a module whose level under `lv`
is not below the level of the module announced last before it (`cur` at the
start of the log). -/
def cellsBelow (lv : Nat → Int) : Option Nat → List Event → Bool
  | _, [] => true
  | _, .mod i :: rest => cellsBelow lv (some i) rest
  | cur, .cell _ modp :: rest =>
    (match cur with
      | some i => decide (lv i ≤ lv modp)
      | none => true) && cellsBelow lv cur rest

/-- What holds of the work list during a run of `visitModules`, under the
levels `lv`: its entries stand under the level of their module, in the order
of the levels, and no module has been announced whose level is above the
level of an entry or of a module announced after it. -/
structure LevelInv (lv : Nat → Int) (s : ParamState) (log : List Event) : Prop where
  labels : ∀ (l : Int) (i : Nat), (l, i) ∈ s.m_todoModps → lv i = l
  sorted : s.m_todoModps.Pairwise (fun a b => a.1 ≤ b.1)
  order : (modLevels lv log).Pairwise (fun a b => a ≤ b)
  below : ∀ x ∈ modLevels lv log, ∀ e ∈ s.m_todoModps, x ≤ e.1

/-- `VN_IS(cellp->modp(), Iface)` for the cell `c` of state `s`; false for a
cell or a module that is not there. -/
def onIface (s : ParamState) (c : Nat) : Bool :=
  match s.cells[c]? with
  | some cell =>
    match cell.modp with
    | some m =>
      match s.mods[m]? with
      | some md => md.isIface
      | none => false
    | none => false
  | none => false

/-- The cell `c` of state `s` is there and refers to a module that is
there. -/
def linked (s : ParamState) (c : Nat) : Bool :=
  match s.cells[c]? with
  | some cell =>
    match cell.modp with
    | some m => (s.mods[m]?).isSome
    | none => false
  | none => false

/-- The cells of the visits that a log reports, in the order of the log. -/
def visitedCells : List Event → List Nat
  | [] => []
  | .mod _ :: rest => visitedCells rest
  | .cell c _ :: rest => c :: visitedCells rest

/-- The visit that an event reports has bound its cell to an interface of
`s'` if the cell was on an interface in `s`. -/
def staysOnIface (s s' : ParamState) : Event → Bool
  | .mod _ => true
  | .cell c m =>
    !onIface s c ||
      (match s'.mods[m]? with
        | some md => md.isIface
        | none => false)

/-- The number that a list of decimal digits denotes, read from the left. -/
def digitsValue (ds : List Char) : Nat :=
  ds.foldl (fun a c => a * 10 + (c.toNat - ('0').toNat)) 0

/-- The calls of `paramValueNumber` made so far (`calls`: the value and the
token returned) account for the value map of state `s`: every stored number
is below the next number and was returned to a call of the stored hash and
key, every token carries a number below the next number, and two calls of
one token have one hash and one key (`keyOf` is the key of a value). -/
def TokensOk (env : Env) (keyOf : AstNode → Except Failure String)
    (calls : List (AstNode × String)) (s : ParamState) : Prop :=
  (∀ hash num key, mapFind s.m_valueMap hash = some (num, key) →
      num < s.m_nextValue ∧
      ∃ n, (n, "z" ++ toString num) ∈ calls ∧ valueHash env n = hash ∧ keyOf n = .ok key)
  ∧ (∀ n t, (n, t) ∈ calls → ∃ num, num < s.m_nextValue ∧ t = "z" ++ toString num)
  ∧ (∀ n1 n2 t, (n1, t) ∈ calls → (n2, t) ∈ calls →
      valueHash env n1 = valueHash env n2 ∧ keyOf n1 = keyOf n2)

/-- The name `n` is the shortest free name of a hierarchical block: for the
strings `pins` fed to the digest and a number `rounds` of random insertions
after total collisions, `n` is the name of the template, followed by `_`
unless it ends in `_`, followed by the first `i ≥ 1` characters of the
digest, no module has the name `n`, and every shorter non-empty prefix of
that digest gives the name of a module that exists. -/
def ShortestFreeName (env : Env) (s : ParamState) (modp : AstNodeModule)
    (pins : List String) (rounds i : Nat) (n : String) : Prop :=
  let base := if modp.name.back ≠ '_' then modp.name ++ "_" else modp.name
  let digest := env.digestHex
    ((modp.name :: pins) ++ (List.range rounds).map fun k => env.trueRandom (s.randomCalls + k))
  1 ≤ i ∧ i < digest.utf8ByteSize ∧ n = base ++ String.mk (digest.data.take i)
    ∧ moduleExists s n = false
    ∧ ∀ j, 1 ≤ j → j < i → moduleExists s (base ++ String.mk (digest.data.take j)) = true

/-- The nodes that the walk of `visit(AstVarXRef*)` passes without a search:
nodes that are no variables, and variables without an interface reference
type. -/
def BackNode.passes : BackNode → Bool
  | .NodeModule => false
  | .Other => true
  | .Var varp => (xrefIfaceRef varp).isNone

/-! ## Properties of pins -/

/-- The pins that `assignParams` writes through all point into module `j`. -/
def PinsInto (j : Nat) (pins : List AstPin) : Prop :=
  ∀ p ∈ pins, (∀ v, p.modVarp = some v → v.modp = j)
    ∧ (p.modVarp = none → ∀ t, p.modPTypep = some t → t.modp = j)

/-- A parameter pin that overrides nothing: it has no expression, or binds a
value parameter to a constant that is the same tree as the constant default
of the parameter, or binds a type parameter to a type that is the same tree
as its default type. -/
def PinIsDefault (env : Env) (s : ParamState) (pinp : AstPin) : Prop :=
  pinp.exprp = .null
  ∨ (∃ v x c, pinp.modVarp = some v ∧ s.varAt v = .ok x ∧ x.isGParam = true
      ∧ pinp.exprp.asConst = some c ∧ x.valuep.asConst.isSome = true
      ∧ env.sameTree pinp.exprp x.valuep = true)
  ∨ (∃ t x, pinp.modVarp = none ∧ pinp.modPTypep = some t ∧ s.ptypeAt t = .ok x
      ∧ pinp.exprp.isNodeDType = true ∧ x.childDTypep.isNull = false
      ∧ env.sameTree pinp.exprp x.childDTypep = true)

/-- A port pin that needs no rebinding: it is linked to a declaration that is
no interface reference, or the interface of the port and the interface the
pin connects are the same. -/
def PortNeedsNoRebind (s : ParamState) (pinp : AstPin) : Prop :=
  ∃ v x, pinp.modVarp = some v ∧ s.varAt v = .ok x
    ∧ (x.isIfaceRef = false
      ∨ ∃ pinIrefp via, pinIfaceRef s pinp.exprp = .ok pinIrefp
          ∧ (portIfaceRef x.childDTypep).isNull = false ∧ pinIrefp.isNull = false
          ∧ ifaceViaCellp s (portIfaceRef x.childDTypep) = .ok via
          ∧ ifaceViaCellp s pinIrefp = .ok via)

/-! ## Concrete graphs -/

/-- What the pass reads of a module of a concrete graph: its statements, the
marks of the visitor aside, and whether it is an interface. -/
def shapeOf (m : AstNodeModule) : List ModStmt × Bool := (m.stmts.map clearMarks, m.isIface)

/-- Pin `p'` is pin `p` after some visits of its cell: it is linked to the
same declaration, and it is `p` itself if the descent into `p` and the
folding of its expression leave `p` as it is. -/
def PinKept (env : Env) (p p' : AstPin) : Prop :=
  p'.modVarp = p.modVarp ∧ (editPin env p = p → p' = p)

/-- Cell `c'` is cell `c` after some visits: it refers to the same module, and
its pins are those of `c`, kept. -/
def CellKept (env : Env) (c c' : AstCell) : Prop :=
  c'.modp = c.modp ∧ c'.recursive = c.recursive ∧ c'.paramsp = c.paramsp
    ∧ List.Forall₂ (PinKept env) c.pinsp c'.pinsp

/-- Graph `s'` has the structure of graph `s`: the module list is the same,
the modules have the same shapes and the cells are kept. -/
def SameGraph (env : Env) (s s' : ParamState) : Prop :=
  s'.modulesp = s.modulesp ∧ s'.mods.map shapeOf = s.mods.map shapeOf
    ∧ List.Forall₂ (CellKept env) s.cells s'.cells

/-- The number of modules that `visitModules` has not taken up yet. -/
def unmarked (s : ParamState) : Nat := (s.mods.map (·.user5)).count false

/-- State `s'` follows state `s` in the elaboration of one module of a
concrete graph: the structure is kept, and so are the marks of the modules,
the cells recorded and the module being processed. -/
def QuietStep (env : Env) (s s' : ParamState) : Prop :=
  SameGraph env s s' ∧ s'.mods.map (·.user5) = s.mods.map (·.user5)
    ∧ s'.m_cellps = s.m_cellps ∧ s'.m_modp = s.m_modp

/-! ## Sample designs -/

/-- A value parameter with the given default. -/
def mkParamVar (name : String) (childDTypep valuep : AstNode) : AstVar :=
  { name := name, isIo := false, isGParam := true, isParam := true, isIfaceRef := false,
    width := 32, childDTypep := childDTypep, valuep := valuep, overriddenParam := false,
    user4 := 0, user5 := false }

/-- A port. -/
def mkPortVar (name : String) : AstVar :=
  { name := name, isIo := true, isGParam := false, isParam := false, isIfaceRef := false,
    width := 1, childDTypep := .null, valuep := .null, overriddenParam := false,
    user4 := 0, user5 := false }

/-- The declaration of a value parameter. -/
def mkParam (name : String) (childDTypep valuep : AstNode) : ModStmt :=
  .Var (mkParamVar name childDTypep valuep)

/-- The declaration of a port. -/
def mkPort (name : String) : ModStmt := .Var (mkPortVar name)

/-- A module of the given level. -/
def mkModule (name : String) (level : Int) (stmts : List ModStmt) : AstNodeModule :=
  { name := name, origName := name, hierName := "", level := level, isIface := false,
    isPackage := false, dead := false, recursive := false, recursiveClone := false,
    hierBlock := false, user5 := false, stmts := stmts }

/-- A cell of module 1. -/
def mkCell (name : String) (paramsp pinsp : List AstPin) : AstCell :=
  { name := name, modp := some 1, modName := "sub", recursive := false, paramsp := paramsp,
    pinsp := pinsp, user5p := none }

/-- A pin on declaration `idx` of module 1. -/
def mkPin (name : String) (idx : Nat) (exprp : AstNode) : AstPin :=
  { name := name, exprp := exprp, modVarp := some ⟨1, idx⟩, modPTypep := none }

/-- A design of a top module (being processed) and a module `sub` with the
given declarations, with the given cells of `sub`. -/
def mkDesign (stmts : List ModStmt) (cells : List AstCell) : ParamState :=
  { ParamState.init [mkModule "top" 2 [], mkModule "sub" 3 stmts] cells ⟨[], [], []⟩ with
    m_modp := some 0 }

/-- The array initializer `'{1, 2}`. -/
def mkInitArray : AstNode :=
  .node .InitArray "" (AstNode.ofList [mkConst 1, mkConst 2]) .null .null .null .null

/-- The unpacked array type `logic [31:0] x [2]`. -/
def mkArrayDType : AstNode :=
  .node .UnpackArrayDType "" (mkLogic 31) .null .null .null .null

/-- `sub` has the array parameter `A = '{1, 2}` and the port `clk`; the one
cell binds `A` to `'{1, 2}`, its default. -/
def arrayDefaultDesign : ParamState :=
  mkDesign [mkParam "A" mkArrayDType mkInitArray, mkPort "clk"]
    [mkCell "c0" [mkPin "A" 0 mkInitArray] [mkPin "clk" 1 (mkVarRef "x")]]

/-- `sub` has the parameter `P = 3` and the port `clk`; cells `c0` and `c1`
bind `P` to 5, cell `c2` binds it to 3, the default. -/
def plainDesign : ParamState :=
  mkDesign [mkParam "P" .null (mkConst 3), mkPort "clk"]
    [mkCell "c0" [mkPin "P" 0 (mkConst 5)] [mkPin "clk" 1 (mkVarRef "x")],
     mkCell "c1" [mkPin "P" 0 (mkConst 5)] [mkPin "clk" 1 (mkVarRef "y")],
     mkCell "c2" [mkPin "P" 0 (mkConst 3)] [mkPin "clk" 1 (mkVarRef "z")]]

/-- The modules of the cells and the number of modules and cache entries. -/
def ParamState.summary (s : ParamState) : List (Option Nat) × Nat × Nat × List Nat :=
  (s.cells.map (·.modp), s.mods.length, s.m_modNameMap.length, s.modulesp)

/-- The state a run ends in, the empty graph for a run that fails. -/
def resultOf (e : Except Failure ParamState) : ParamState :=
  match e with
  | .ok s => s
  | .error _ => emptyState

/-- The array initializer of two elements. -/
def mkInitArrayOf (a b : Nat) : AstNode :=
  .node .InitArray "" (AstNode.ofList [mkConst a, mkConst b]) .null .null .null .null

/-- `sub` has the array parameter `A = '{1, 2}` and the port `clk`; cell `c0`
binds `A` to `'{3, 4}`, cell `c1` binds it to `'{5, 6}`. -/
def twoArrayDesign : ParamState :=
  mkDesign [mkParam "A" mkArrayDType mkInitArray, mkPort "clk"]
    [mkCell "c0" [mkPin "A" 0 (mkInitArrayOf 3 4)] [mkPin "clk" 1 (mkVarRef "x")],
     mkCell "c1" [mkPin "A" 0 (mkInitArrayOf 5 6)] [mkPin "clk" 1 (mkVarRef "y")]]

/-- `sub` has the parameter `P = 3` and the port `clk`; cells `c0` and `c2`
bind `P` to the byte `8'd5`, cell `c1` binds it to the byte `8'd6`. -/
def tokenDesign : ParamState :=
  mkDesign [mkParam "P" .null (mkConst 3), mkPort "clk"]
    [mkCell "c0" [mkPin "P" 0 (widthedConst 8 5)] [mkPin "clk" 1 (mkVarRef "x")],
     mkCell "c1" [mkPin "P" 0 (widthedConst 8 6)] [mkPin "clk" 1 (mkVarRef "y")],
     mkCell "c2" [mkPin "P" 0 (widthedConst 8 5)] [mkPin "clk" 1 (mkVarRef "z")]]

/-- The three cells of `tokenDesign` in order. -/
def tokenVisits : List CellVisit := [⟨0, 0, "top"⟩, ⟨0, 1, "top"⟩, ⟨0, 2, "top"⟩]

/-- `tokenDesign` after the visit of `c0` in the reference environment. -/
def tokenAfter1 : ParamState := resultOf (visitStep plainEnv 0 tokenDesign ⟨0, 0, "top"⟩)

/-- `tokenDesign` after the visits of `c0` and `c1` in the reference
environment. -/
def tokenAfter2 : ParamState := resultOf (visitSteps plainEnv 0 tokenAfter1 [⟨0, 1, "top"⟩])

/-- A module name of 31 characters. -/
def longName : String := "a_module_with_quite_a_long_name"

/-- A cell of module 1 of `longDesign` that binds `P`. -/
def mkLongCell (name : String) (value : Nat) : AstCell :=
  { mkCell name [mkPin "P" 0 (mkConst value)] [mkPin "clk" 1 (mkVarRef "x")] with
    modName := longName }

/-- The template `longName` has the parameter `P = 3` and the port `clk`;
cells `c0` and `c2` bind `P` to 5, cell `c1` binds it to 6. -/
def longDesign : ParamState :=
  { ParamState.init
      [mkModule "top" 2 [], mkModule longName 3 [mkParam "P" .null (mkConst 3), mkPort "clk"]]
      [mkLongCell "c0" 5, mkLongCell "c1" 6, mkLongCell "c2" 5] ⟨[], [], []⟩ with
    m_modp := some 0 }

/-- The catalog entry of `sub` with `WIDTH = 8`. -/
def optW8 : V3HierarchicalBlockOption :=
  { origName := "sub", mangledName := "sub_w8", params := [("WIDTH", "8")] }

/-- The catalog entry of `sub` with `WIDTH = 16`. -/
def optW16 : V3HierarchicalBlockOption :=
  { origName := "sub", mangledName := "sub_w16", params := [("WIDTH", "16")] }

/-- A cell of module 1 that binds declaration 0 to a constant of the given
width. -/
def mkWidthCell (name : String) (width value : Nat) : AstCell :=
  mkCell name [mkPin "WIDTH" 0 (widthedConst width value)] [mkPin "clk" 1 (mkVarRef "x")]

/-- The hierarchical block `sub` (parameter `WIDTH = 4`, port `clk`) has the
wrappers `sub_w8` and `sub_w16` for `WIDTH = 8` and `WIDTH = 16`, declared at
32 bits; cell `c0` binds `WIDTH` to `16`, cell `c1` to `9`, cell `c2` to the
byte `8'd8`. -/
def hierDesign : ParamState :=
  { ParamState.init
      [mkModule "top" 2 [],
       { mkModule "sub" 3 [mkParam "WIDTH" .null (mkConst 4), mkPort "clk"] with
         hierBlock := true },
       mkModule "sub_w8" 3 [mkParam "WIDTH" .null (mkConst 8), mkPort "clk"],
       mkModule "sub_w16" 3 [mkParam "WIDTH" .null (mkConst 16), mkPort "clk"]]
      [mkWidthCell "c0" 32 16, mkWidthCell "c1" 32 9, mkWidthCell "c2" 8 8]
      { m_hierBlockOptsByOrigName := [("sub", optW8), ("sub", optW16)],
        m_hierBlockMod := [("sub_w8", 2), ("sub_w16", 3)],
        m_params := [(optW8, [("WIDTH", V3Number.ofNat 32 8)]),
                     (optW16, [("WIDTH", V3Number.ofNat 32 16)])] } with
    m_modp := some 0 }

/-- The catalog entry of `sub` with `A = 1` and `B = 2`. -/
def optAB : V3HierarchicalBlockOption :=
  { origName := "sub", mangledName := "sub_ab", params := [("A", "1"), ("B", "2")] }

/-- The hierarchical block `sub` (parameters `A = 0` and `B = 0`, port `clk`)
has the wrapper `sub_ab` for `A = 1`, `B = 2`. -/
def twoParamDesign : ParamState :=
  { ParamState.init
      [mkModule "top" 2 [],
       { mkModule "sub" 3
           [mkParam "A" .null (mkConst 0), mkParam "B" .null (mkConst 0), mkPort "clk"] with
         hierBlock := true },
       mkModule "sub_ab" 3
         [mkParam "A" .null (mkConst 1), mkParam "B" .null (mkConst 2), mkPort "clk"]]
      []
      { m_hierBlockOptsByOrigName := [("sub", optAB)],
        m_hierBlockMod := [("sub_ab", 2)],
        m_params := [(optAB, [("A", V3Number.ofNat 32 1), ("B", V3Number.ofNat 32 2)])] } with
    m_modp := some 0 }

/-- The hierarchical block `sub` has the array parameter `A = '{1, 2}` and
the port `clk`, and no wrapper in the catalog; cell `c0` binds `A` to
`'{3, 4}`. -/
def arrayHierDesign : ParamState :=
  { ParamState.init
      [mkModule "top" 2 [],
       { mkModule "sub" 3 [mkParam "A" mkArrayDType mkInitArray, mkPort "clk"] with
         hierBlock := true }]
      [mkCell "c0" [mkPin "A" 0 (mkInitArrayOf 3 4)] [mkPin "clk" 1 (mkVarRef "x")]]
      ⟨[], [], []⟩ with
    m_modp := some 0 }

/-- The catalog entry of `sub` with its default parameters. -/
def optPlain : V3HierarchicalBlockOption :=
  { origName := "sub", mangledName := "sub_w", params := [] }

/-- The design `arrayHierDesign` with the wrapper `sub_w` of `sub` in the
catalog. -/
def arrayCatalogDesign : ParamState :=
  { ParamState.init
      [mkModule "top" 2 [],
       { mkModule "sub" 3 [mkParam "A" mkArrayDType mkInitArray, mkPort "clk"] with
         hierBlock := true },
       mkModule "sub_w" 3 [mkParam "A" mkArrayDType mkInitArray, mkPort "clk"]]
      [mkCell "c0" [mkPin "A" 0 (mkInitArrayOf 3 4)] [mkPin "clk" 1 (mkVarRef "x")]]
      { m_hierBlockOptsByOrigName := [("sub", optPlain)],
        m_hierBlockMod := [("sub_w", 2)],
        m_params := [(optPlain, [])] } with
    m_modp := some 0 }

/-- The design `arrayHierDesign` after the visit of `c0` in the reference
environment. -/
def arrayHierAfter : ParamState := resultOf (visitStep plainEnv 1 arrayHierDesign ⟨0, 0, "top"⟩)

/-- The graph of `tokenDesign` as loaded from the source. -/
def tokenSource : ParamState :=
  ParamState.init
    [mkModule "top" 2 [], mkModule "sub" 3 [mkParam "P" .null (mkConst 3), mkPort "clk"]]
    [mkCell "c0" [mkPin "P" 0 (widthedConst 8 5)] [mkPin "clk" 1 (mkVarRef "x")],
     mkCell "c1" [mkPin "P" 0 (widthedConst 8 6)] [mkPin "clk" 1 (mkVarRef "y")],
     mkCell "c2" [mkPin "P" 0 (widthedConst 8 5)] [mkPin "clk" 1 (mkVarRef "z")]]
    ⟨[], [], []⟩

/-- The source has the modules `top`, `sub` (parameter `P = 3`, port `clk`)
and `sub__P5`; cell `c0` of `top` binds `P` of `sub` to 5. -/
def clashSource : ParamState :=
  ParamState.init
    [mkModule "top" 2 [], mkModule "sub" 3 [mkParam "P" .null (mkConst 3), mkPort "clk"],
     mkModule "sub__P5" 3 []]
    [mkCell "c0" [mkPin "P" 0 (mkConst 5)] [mkPin "clk" 1 (mkVarRef "x")]]
    ⟨[], [], []⟩

/-- The design `hierDesign` with the wrappers `sub_w8` and `sub_w16` at
level 2, the level of `top`: no cell of the source uses them. -/
def flatHierDesign : ParamState :=
  { ParamState.init
      [mkModule "top" 2 [],
       { mkModule "sub" 3 [mkParam "WIDTH" .null (mkConst 4), mkPort "clk"] with
         hierBlock := true },
       mkModule "sub_w8" 2 [mkParam "WIDTH" .null (mkConst 8), mkPort "clk"],
       mkModule "sub_w16" 2 [mkParam "WIDTH" .null (mkConst 16), mkPort "clk"]]
      [mkWidthCell "c0" 32 16, mkWidthCell "c1" 32 9, mkWidthCell "c2" 8 8]
      { m_hierBlockOptsByOrigName := [("sub", optW8), ("sub", optW16)],
        m_hierBlockMod := [("sub_w8", 2), ("sub_w16", 3)],
        m_params := [(optW8, [("WIDTH", V3Number.ofNat 32 8)]),
                     (optW16, [("WIDTH", V3Number.ofNat 32 16)])] } with
    m_modp := some 0 }

/-- The design `tokenDesign` after the visits of its three cells in the
reference environment. -/
def tokenAfter3 : ParamState := resultOf (visitStep plainEnv 0 tokenAfter2 ⟨0, 2, "top"⟩)

/-- The reference environment with `--module-recursion-depth 3`. -/
def shallowEnv : Env := { plainEnv with moduleRecursionDepth := 3 }

/-- The module `sub` (level 3, parameter `P = 3`, port `clk`) holds the
recursive cell `c0` of itself, which binds `P` to 5; `sub` is the module being
processed. -/
def recursiveDesign : ParamState :=
  { ParamState.init
      [mkModule "top" 2 [], mkModule "sub" 3 [mkParam "P" .null (mkConst 3), mkPort "clk"]]
      [{ mkCell "c0" [mkPin "P" 0 (mkConst 5)] [mkPin "clk" 1 (mkVarRef "x")] with
         recursive := true }]
      ⟨[], [], []⟩ with
    m_modp := some 1 }

/-- What the pin loops return, a void pair for loops that fail. -/
def namesOf (e : Except Failure (NameAcc × AstCell)) : NameAcc × AstCell :=
  match e with
  | .ok r => r
  | .error _ => (⟨emptyState, "", false, []⟩, mkCell "" [] [])

/-- The module of a dereference, a void module for one that fails. -/
def modOf (e : Except Failure AstNodeModule) : AstNodeModule :=
  match e with
  | .ok m => m
  | .error _ => mkModule "" 0 []

/-- The cell `c2` of `tokenDesign`. -/
def tokenCell2 : AstCell :=
  mkCell "c2" [mkPin "P" 0 (widthedConst 8 5)] [mkPin "clk" 1 (mkVarRef "z")]

/-- What the pin loops return for `c2` of `tokenDesign` after the visits of
`c0` and `c1`. -/
def tokenNames2 : NameAcc × AstCell :=
  namesOf (cellNames plainEnv { tokenAfter2 with m_modp := some 0 } 1 tokenCell2 "top")

/-- The state and the events that a run of the pass gives. -/
def runOf (e : Except Failure (ParamState × List Event)) : ParamState × List Event :=
  match e with
  | .ok r => r
  | .error _ => (emptyState, [])

/-- A walk that comes to the cells listed for a module, each under an empty
generate name, and leaves the statements of the module as they are. -/
def cellsWalk (cellsOf : List (Nat × List Nat)) : Walk :=
  { iterateChildren := fun s nodep =>
      (s.modAt nodep).map fun m =>
        { stmts := m.stmts, newCells := [],
          cellps := ((mapFind cellsOf nodep).getD []).map fun c => (c, ""),
          errors := [] } }

/-- The pass on `tokenDesign`, whose three cells are cells of `top`. -/
def tokenPass : ParamState × List Event :=
  runOf (paramPass plainEnv 0 (cellsWalk [(0, [0, 1, 2])]) 8 8 tokenDesign)

/-- The design `flatHierDesign` with one cell and with wrappers that are dead
when the pass starts, as modules are to which no cell refers. -/
def deadWrapperDesign : ParamState :=
  { flatHierDesign with
    mods := [mkModule "top" 2 [],
       { mkModule "sub" 3 [mkParam "WIDTH" .null (mkConst 4), mkPort "clk"] with
         hierBlock := true },
       { mkModule "sub_w8" 2 [mkParam "WIDTH" .null (mkConst 8), mkPort "clk"] with
         dead := true },
       { mkModule "sub_w16" 2 [mkParam "WIDTH" .null (mkConst 16), mkPort "clk"] with
         dead := true }],
    cells := [mkWidthCell "c0" 32 16],
    m_modp := none }

/-- The pass on `deadWrapperDesign`, whose cell is a cell of `top`. -/
def deadWrapperPass : ParamState × List Event :=
  runOf (paramPass plainEnv 0 (cellsWalk [(0, [0])]) 8 8 deadWrapperDesign)

/-- The recursive cell of `recursiveDesign` as it stands in a clone of `sub`,
with the value `value` for `P`. -/
def recursiveCell (value : Nat) : AstCell :=
  { mkCell "c0" [mkPin "P" 0 (mkConst value)] [mkPin "clk" 1 (mkVarRef "x")] with
    recursive := true }

/-- A walk for `recursiveDesign`: the cell of the design stands in `sub`, and
the first clone of `sub` holds a copy of it that asks for `P = 6`. -/
def chainWalk : Walk :=
  { iterateChildren := fun s nodep =>
      (s.modAt nodep).map fun m =>
        if nodep = 1 then
          { stmts := m.stmts, newCells := [], cellps := [(0, "")], errors := [] }
        else if nodep = 2 then
          { stmts := m.stmts, newCells := [recursiveCell 6],
            cellps := [(s.cells.length, "")], errors := [] }
        else { stmts := m.stmts, newCells := [], cellps := [], errors := [] } }

/-- The work list run on `recursiveDesign` from the template `sub` under
`--module-recursion-depth 3`. -/
def chainRun : ParamState × List Event :=
  runOf (visitModules shallowEnv 0 chainWalk 8
    { recursiveDesign with m_todoModps := [(3, 1)], m_modp := none } [])

/-- A design with two modules of level 2, `a` and `c`, and a cell of `a` on
the module `b` of level 3 that overrides no parameter; the module list is in
the order of the levels. -/
def twoRootsDesign : ParamState :=
  { ParamState.init
      [mkModule "a" 2 [], mkModule "b" 3 [mkPort "clk"], mkModule "c" 2 []]
      [{ mkCell "c0" [] [mkPin "clk" 0 (mkVarRef "x")] with modName := "b" }]
      ⟨[], [], []⟩ with
    modulesp := [0, 2, 1] }

/-- The pass on `twoRootsDesign`, whose cell is a cell of `a`. -/
def twoRootsPass : ParamState × List Event :=
  runOf (paramPass plainEnv 0 (cellsWalk [(0, [0])]) 8 8 twoRootsDesign)

/-- The run of the work list on `twoRootsDesign` from the module `a`. -/
def twoRootsRun : ParamState × List Event :=
  runOf (visitModules plainEnv 0 (cellsWalk [(0, [0])]) 8
    { twoRootsDesign with m_todoModps := [(2, 0)] } [])

/-- A design in which `top` holds a cell `c0` of the module `sub` and, behind
it, a cell `i0` of the interface `ifc`; both cells are recorded. -/
def ifaceDesign : ParamState :=
  { ParamState.init
      [mkModule "top" 2 [],
       mkModule "sub" 3 [mkParam "P" .null (mkConst 3), mkPort "clk"],
       { mkModule "ifc" 3 [] with isIface := true }]
      [mkCell "c0" [mkPin "P" 0 (widthedConst 8 5)] [mkPin "clk" 1 (mkVarRef "x")],
       { mkCell "i0" [] [] with modp := some 2, modName := "ifc" }]
      ⟨[], [], []⟩ with
    m_modp := some 0, m_cellps := [0, 1] }

/-- The design `flatHierDesign` with `sub` as an interface and with one cell,
which is recorded: the catalog of hierarchical blocks replaces the interface
by a wrapper that is a module. -/
def ifaceHierDesign : ParamState :=
  { flatHierDesign with
    mods := [mkModule "top" 2 [],
       { mkModule "sub" 3 [mkParam "WIDTH" .null (mkConst 4), mkPort "clk"] with
         hierBlock := true, isIface := true },
       mkModule "sub_w8" 2 [mkParam "WIDTH" .null (mkConst 8), mkPort "clk"],
       mkModule "sub_w16" 2 [mkParam "WIDTH" .null (mkConst 16), mkPort "clk"]],
    cells := [mkWidthCell "c0" 32 16],
    m_modp := some 0, m_cellps := [0] }

/-- The design `flatHierDesign` with a module `mid` of level 3 between `top`
and the hierarchical block `sub`: `top` holds the cell `m0` of `mid`, and
`mid` holds the cell `c1` of `sub`, for which the catalog has the wrapper
`sub_w16` of level 2. -/
def midHierDesign : ParamState :=
  { flatHierDesign with
    mods := flatHierDesign.mods ++ [mkModule "mid" 3 []],
    modulesp := [0, 2, 3, 1, 4],
    cells := [{ mkCell "m0" [] [] with modp := some 4, modName := "mid" },
              mkWidthCell "c1" 32 16],
    m_todoModps := [(2, 0)], m_modp := none }

/-- The run of the work list on `midHierDesign` from `top`. -/
def midHierRun : ParamState × List Event :=
  runOf (visitModules plainEnv 0 (cellsWalk [(0, [0]), (4, [1])]) 8 midHierDesign [])

/-- `case (1) 1: ; default: SD; endcase`: the only matching item has an empty
body and a default item follows. -/
def caseEmptyFirstDefault : AstNode :=
  mkGenCase (mkConst 1)
    (AstNode.ofList [mkItem false (mkConst 1) .null, mkItem true .null (mkStmt "SD")]) .null

/-- `case (1) 1: ; 1: S1; default: SD; endcase`: the first matching item has an
empty body, a second matching item and a default item follow. -/
def caseEmptyFirstLaterDefault : AstNode :=
  mkGenCase (mkConst 1)
    (AstNode.ofList [mkItem false (mkConst 1) .null, mkItem false (mkConst 1) (mkStmt "S1"),
      mkItem true .null (mkStmt "SD")]) .null

/-- A module `sub` with the 52 value parameters `p0` .. `p51`, whose names all
start with the letter `p`. -/
def manyParamsDesign : ParamState :=
  mkDesign ((List.range 52).map fun i => mkParam ("p" ++ toString i) (mkLogic 31) (mkConst i)) []

/-- The tables after `logic [7:0]`, `logic [3:0]` and `logic [7:0]` have been
numbered in `emptyState` with `--debug-collision`: all hashes collide and the
one entry of the map holds the last number. -/
def collideState3 : ParamState :=
  { emptyState with m_nextValue := 4, m_valueMap := [(0, (3, "logic[7:0]"))] }

/-- A graph in which a module `sub_d` exists beside `top` and `sub`. -/
def hierNameState : ParamState :=
  { mkDesign [] [] with m_allModuleNames := ["top", "sub", "sub_d"] }

/-- A variable that is neither a port nor a parameter. -/
def mkLocalVar (name : String) : AstVar :=
  { name := name, isIo := false, isGParam := false, isParam := false, isIfaceRef := false,
    width := 32, childDTypep := .null, valuep := .null, overriddenParam := false,
    user4 := 0, user5 := false }

/-- A parameter pin whose name is that of no declaration of the template:
neither `modVarp` nor `modPTypep` is set. -/
def mkUnknownPin (name : String) (exprp : AstNode) : AstPin :=
  { name := name, exprp := exprp, modVarp := none, modPTypep := none }

/-- The cell `sub #(.Q(5), .P(2)) c0 (.clk(x))`. -/
def unknownPinCell : AstCell :=
  mkCell "c0" [mkUnknownPin "Q" (mkConst 5), mkPin "P" 0 (mkConst 2)]
    [mkPin "clk" 1 (mkVarRef "x")]

/-- The cell `sub #(.w(5), .P(2)) c0 (.clk(x))`. -/
def nonParamPinCell : AstCell :=
  mkCell "c0" [mkPin "w" 2 (mkConst 5), mkPin "P" 0 (mkConst 2)]
    [mkPin "clk" 1 (mkVarRef "x")]

/-- `sub` has the parameter `P = 1`, the port `clk` and the variable `w`; the
cell `sub #(.Q(5), .P(2)) c0 (.clk(x))` of `top` binds the unknown parameter
`Q` and overrides `P`. -/
def unknownPinDesign : ParamState :=
  mkDesign [mkParam "P" (mkLogic 31) (mkConst 1), mkPort "clk", .Var (mkLocalVar "w")]
    [unknownPinCell]

/-- The same modules with the cell `sub #(.w(5), .P(2)) c0 (.clk(x))`, which
binds the variable `w` like a parameter and overrides `P`. -/
def nonParamPinDesign : ParamState :=
  mkDesign [mkParam "P" (mkLogic 31) (mkConst 1), mkPort "clk", .Var (mkLocalVar "w")]
    [nonParamPinCell]

/-- An interface-typed variable: the variable of an interface cell of the
module (`cellp` set) or an interface port (`ifacep` set). -/
def mkIfaceVar (name : String) (isIo : Bool) (cellp ifacep : Option Nat) : AstVar :=
  { name := name, isIo := isIo, isGParam := false, isParam := false, isIfaceRef := true,
    width := 1,
    childDTypep := .node (.IfaceRefDType cellp ifacep "ifc") "" .null .null .null .null .null,
    valuep := .null, overriddenParam := false, user4 := 0, user5 := false }

/-- The module `top` of `xrefDesign`: the variable of the interface cell `c`
and a statement that holds the reference `c.X`. -/
def xrefTop : AstNodeModule :=
  mkModule "top" 2 [.Var (mkIfaceVar "c" false (some 0) none), .Other (mkStmt "assign")]

/-- The interface `ifc` with the parameter `X = 1`. -/
def xrefIfc : AstNodeModule :=
  { mkModule "ifc" 3 [mkParam "X" (mkLogic 31) (mkConst 1)] with isIface := true }

/-- `top` instantiates the interface as `ifc #(.X(5)) c ()` and refers to
`c.X`. -/
def xrefDesign : ParamState :=
  { ParamState.init [xrefTop, xrefIfc]
      [{ mkCell "c" [mkPin "X" 0 (mkConst 5)] [] with modName := "ifc" }] ⟨[], [], []⟩ with
    m_modp := some 0 }

/-- The same modules with the cell `ifc c ()`, which binds no parameter. -/
def xrefNoPinDesign : ParamState :=
  { ParamState.init [xrefTop, xrefIfc]
      [{ mkCell "c" [] [] with modName := "ifc" }] ⟨[], [], []⟩ with
    m_modp := some 0 }

/-- The module `sub` of `xrefPortDesign`: the interface port `p` of type `ifc`
and a statement that holds the reference `p.X`. -/
def xrefSub : AstNodeModule :=
  mkModule "sub" 2 [.Var (mkIfaceVar "p" true none (some 1)), .Other (mkStmt "assign")]

/-- `sub` gets the interface `ifc` on its port `p` and refers to `p.X`. -/
def xrefPortDesign : ParamState :=
  { ParamState.init [xrefSub, xrefIfc] [] ⟨[], [], []⟩ with m_modp := some 0 }

/-- The reference `c.X`, linked to the parameter `X` of `ifc`. -/
def xrefCX : AstVarXRef := { name := "X", dotted := "c", varp := some ⟨1, 0⟩ }

/-- The reference `p.X`, linked to the parameter `X` of `ifc`. -/
def xrefPX : AstVarXRef := { name := "X", dotted := "p", varp := some ⟨1, 0⟩ }

/-! # Theorems -/

/-! ## Lemmas on sibling lists -/

theorem AstNode.addNext_null (a : AstNode) : a.addNext .null = a := by
  induction a with
  | null => rfl
  | node k n o1 o2 o3 o4 nx _ _ _ _ ih => simp [AstNode.addNext, ih]

theorem AstNode.toList_addNext (a b : AstNode) :
    (a.addNext b).toList = a.toList ++ b.toList := by
  induction a with
  | null => rfl
  | node k n o1 o2 o3 o4 nx _ _ _ _ ih => simp [AstNode.addNext, AstNode.toList, ih]

theorem AstNode.isNull_iff (a : AstNode) : a.isNull = true ↔ a = .null := by
  cases a <;> simp [AstNode.isNull]

/-! ## Generate-if -/

/-- C4: when the condition of a generate-if folds to a constant, the construct
is replaced by exactly the statements of the if branch (constant non-zero) or
of the else branch (constant zero), followed by the siblings that came after
the construct; nothing is reported, and the untaken branch is gone. -/
theorem visitGenIf_constant (env : Env) (name : String)
    (condp ifsp elsesp o4 nextp : AstNode) (constp : V3Number)
    (hc : (genIfCond env (.node .GenIf name condp ifsp elsesp o4 nextp)).asConst = some constp) :
    visitGenIf env (.node .GenIf name condp ifsp elsesp o4 nextp)
      = { stmtsp := (if env.isZero constp then elsesp else ifsp).addNext nextp, errors := [] }
    ∧ (visitGenIf env (.node .GenIf name condp ifsp elsesp o4 nextp)).stmtsp.toList
      = (if env.isZero constp then elsesp.toList else ifsp.toList) ++ nextp.toList := by
  have h1 : visitGenIf env (.node .GenIf name condp ifsp elsesp o4 nextp)
      = { stmtsp := (if env.isZero constp then elsesp else ifsp).addNext nextp, errors := [] } := by
    simp only [visitGenIf, AstNode.setOp1p, AstNode.op1p, hc, AstNode.op2p, AstNode.op3p,
      AstNode.nextp]
    by_cases hz : env.isZero constp = true
    · cases elsesp <;> simp [hz, AstNode.isNull, AstNode.addNext]
    · cases ifsp <;> simp [hz, AstNode.isNull, AstNode.addNext]
  refine ⟨h1, ?_⟩
  rw [h1]
  by_cases hz : env.isZero constp = true <;> simp [hz, AstNode.toList_addNext]

/-- Witness of C4: `if (1) a; else b;` followed by `c` becomes `a; c`. -/
theorem visitGenIf_constant_witness :
    (genIfCond plainEnv (.node .GenIf "" (mkConst 1) (mkStmt "a") (mkStmt "b") .null
        (mkStmt "c"))).asConst = some (V3Number.ofNat 32 1)
    ∧ (visitGenIf plainEnv (.node .GenIf "" (mkConst 1) (mkStmt "a") (mkStmt "b") .null
        (mkStmt "c"))).stmtsp.toList = [mkStmt "a", mkStmt "c"] := by
  refine ⟨by decide, ?_⟩
  have h := (visitGenIf_constant plainEnv "" (mkConst 1) (mkStmt "a") (mkStmt "b") .null
    (mkStmt "c") (V3Number.ofNat 32 1) (by decide)).2
  rw [h]
  decide

/-- C5: when the condition of a generate-if does not fold to a constant, one
user error is reported on the condition and the construct stays where it
was, with both branches and its siblings unchanged. -/
theorem visitGenIf_nonconstant (env : Env) (name : String)
    (condp ifsp elsesp o4 nextp : AstNode)
    (hc : (genIfCond env (.node .GenIf name condp ifsp elsesp o4 nextp)).asConst = none) :
    visitGenIf env (.node .GenIf name condp ifsp elsesp o4 nextp)
      = { stmtsp := .node .GenIf name
            (genIfCond env (.node .GenIf name condp ifsp elsesp o4 nextp)) ifsp elsesp o4 nextp,
          errors := [⟨.node (genIfCond env (.node .GenIf name condp ifsp elsesp o4 nextp)),
            "Generate If condition must evaluate to constant"⟩] } := by
  simp only [visitGenIf, AstNode.setOp1p, AstNode.op1p, hc]

/-- Witness of C5: `if (x) a; else b;` with a variable `x` is kept. -/
theorem visitGenIf_nonconstant_witness :
    (genIfCond plainEnv (.node .GenIf "" (mkVarRef "x") (mkStmt "a") (mkStmt "b") .null
        .null)).asConst = none
    ∧ (visitGenIf plainEnv (.node .GenIf "" (mkVarRef "x") (mkStmt "a") (mkStmt "b") .null
        .null)).stmtsp = .node .GenIf "" (mkVarRef "x") (mkStmt "a") (mkStmt "b") .null .null := by
  refine ⟨by decide, ?_⟩
  rw [visitGenIf_nonconstant plainEnv "" (mkVarRef "x") (mkStmt "a") (mkStmt "b") .null .null
    (by decide)]
  decide

/-! ## Generate-case -/

theorem genCaseLabel_noMatch (env : Env) (sel c : V3Number) (itemp ep : AstNode)
    (acc : AstNode × List V3Error) (hc : ep.asConst = some c)
    (hne : env.isNeqZero (env.opEq c sel) = false) :
    genCaseLabel env (some sel) itemp acc ep = .ok acc := by
  simp [genCaseLabel, hc, hne]

theorem genCaseLabels_noMatch (env : Env) (sel : V3Number) (itemp : AstNode)
    (labels : List AstNode) (acc : AstNode × List V3Error)
    (h : ∀ l ∈ labels, ∃ c, l.asConst = some c ∧ env.isNeqZero (env.opEq c sel) = false) :
    labels.foldlM (genCaseLabel env (some sel) itemp) acc = .ok acc := by
  induction labels with
  | nil => rfl
  | cons l ls ih =>
    obtain ⟨c, hc, hne⟩ := h l (List.mem_cons_self _ _)
    rw [List.foldlM_cons, genCaseLabel_noMatch env sel c itemp l acc hc hne]
    exact ih (fun l' hl' => h l' (List.mem_cons_of_mem _ hl'))

theorem genCaseMatch_noMatch (env : Env) (sel : V3Number) (items : List AstNode)
    (acc : AstNode × List V3Error)
    (h : ∀ it ∈ items, it.isDefault = false → ∀ l ∈ caseLabels env it,
      ∃ c, l.asConst = some c ∧ env.isNeqZero (env.opEq c sel) = false) :
    items.foldlM (genCaseItem env (some sel)) acc = .ok acc := by
  induction items with
  | nil => rfl
  | cons it its ih =>
    have hit : genCaseItem env (some sel) acc it = .ok acc := by
      unfold genCaseItem
      by_cases hd : it.isDefault = true
      · simp [hd]
      · have hd' : it.isDefault = false := by simpa using hd
        simp only [hd', Bool.not_false, if_true]
        exact genCaseLabels_noMatch env sel it _ acc (h it (List.mem_cons_self _ _) hd')
    rw [List.foldlM_cons, hit]
    exact ih (fun it' hit' => h it' (List.mem_cons_of_mem _ hit'))

theorem genCaseDefault_of_nonnull (keepp : AstNode) (items : List AstNode)
    (hk : keepp.isNull = false) : genCaseDefault keepp items = keepp := by
  induction items with
  | nil => rfl
  | cons it its ih =>
    simp only [genCaseDefault, List.foldl_cons, hk] at ih ⊢
    by_cases hd : it.isDefault = true <;> simp [hd, ih]

theorem genCaseDefault_noDefault (keepp : AstNode) (items : List AstNode)
    (h : ∀ it ∈ items, it.isDefault = false) : genCaseDefault keepp items = keepp := by
  induction items generalizing keepp with
  | nil => rfl
  | cons it its ih =>
    simp only [genCaseDefault, List.foldl_cons, h it (List.mem_cons_self _ _)]
    exact ih keepp (fun it' hit' => h it' (List.mem_cons_of_mem _ hit'))

theorem genCaseDefault_unique (d : AstNode) (items : List AstNode)
    (hmem : ∃ it ∈ items, it.isDefault = true)
    (h : ∀ it ∈ items, it.isDefault = true → it = d) :
    genCaseDefault .null items = d.op2p := by
  induction items with
  | nil => obtain ⟨it, hit, _⟩ := hmem; cases hit
  | cons it its ih =>
    by_cases hd : it.isDefault = true
    · have hit : it = d := h it (List.mem_cons_self _ _) hd
      subst hit
      simp only [genCaseDefault, List.foldl_cons, hd, AstNode.isNull, if_true]
      by_cases hb : it.op2p.isNull = true
      · by_cases hrest : ∃ it' ∈ its, it'.isDefault = true
        · have := ih hrest (fun it' hit' => h it' (List.mem_cons_of_mem _ hit'))
          have hnull : it.op2p = .null := (AstNode.isNull_iff _).1 hb
          rw [hnull]
          simpa [genCaseDefault] using this.trans hnull
        · have hno : ∀ it' ∈ its, it'.isDefault = false := by
            intro it' hit'
            by_contra hc
            exact hrest ⟨it', hit', by simpa using hc⟩
          exact genCaseDefault_noDefault _ its hno
      · exact genCaseDefault_of_nonnull _ its (by simpa using hb)
    · have hd' : it.isDefault = false := by simpa using hd
      simp only [genCaseDefault, List.foldl_cons, hd']
      obtain ⟨it', hit', hdef⟩ := hmem
      rcases List.mem_cons.1 hit' with rfl | hin
      · exact absurd hdef hd
      · exact ih ⟨it', hin, hdef⟩ (fun it'' hit'' => h it'' (List.mem_cons_of_mem _ hit''))

/-- C7: with a constant selector and constant labels none of which equals the
selector, a generate-case is replaced by the body of its default item when it
has one (and only one), and is removed with nothing in its place when it has
no default item; no error is reported. -/
theorem visitGenCase_noMatch (env : Env) (nodep : AstNode) (sel : V3Number)
    (hsel : (genCaseExpr env nodep).asConst = some sel)
    (hlab : ∀ it ∈ caseItems nodep, it.isDefault = false → ∀ l ∈ caseLabels env it,
      ∃ c, l.asConst = some c ∧ env.isNeqZero (env.opEq c sel) = false) :
    ((∀ it ∈ caseItems nodep, it.isDefault = false) →
      visitGenCase env nodep = .ok { stmtsp := nodep.nextp, errors := [] })
    ∧ (∀ d ∈ caseItems nodep, d.isDefault = true →
        (∀ it ∈ caseItems nodep, it.isDefault = true → it = d) →
        visitGenCase env nodep = .ok { stmtsp := d.op2p.addNext nodep.nextp, errors := [] }) := by
  have hm : genCaseMatch env (some sel) (caseItems nodep) = .ok (.null, []) :=
    genCaseMatch_noMatch env sel _ _ hlab
  constructor
  · intro hnd
    simp [visitGenCase, hsel, hm, genCaseDefault_noDefault _ _ hnd, AstNode.isNull, bind,
      Except.bind, pure, Except.pure]
  · intro d hd hdd huniq
    have hdef := genCaseDefault_unique d (caseItems nodep) ⟨d, hd, hdd⟩ huniq
    simp only [visitGenCase, hsel, hm, hdef, bind, Except.bind, pure, Except.pure]
    cases hb : d.op2p <;> simp [AstNode.isNull, AstNode.addNext]

/-- Witness of C7: `case (5) 0: S0; 1: S1; default: SD; endcase` becomes `SD`. -/
theorem visitGenCase_noMatch_witness :
    (genCaseExpr plainEnv caseNoMatch).asConst = some (V3Number.ofNat 32 5)
    ∧ visitGenCase plainEnv caseNoMatch = .ok { stmtsp := mkStmt "SD", errors := [] } := by
  refine ⟨by decide, ?_⟩
  have h := (visitGenCase_noMatch plainEnv caseNoMatch (V3Number.ofNat 32 5) (by decide)
    (by
      intro it hit hd l hl
      have hit' : it = mkItem false (mkConst 0) (mkStmt "S0")
          ∨ it = mkItem false (mkConst 1) (mkStmt "S1")
          ∨ it = mkItem true .null (mkStmt "SD") := by
        have : caseItems caseNoMatch = [mkItem false (mkConst 0) (mkStmt "S0"),
            mkItem false (mkConst 1) (mkStmt "S1"), mkItem true .null (mkStmt "SD")] := by
          decide
        rw [this] at hit
        simpa using hit
      rcases hit' with rfl | rfl | rfl
      · have : l = mkConst 0 := by
          have hl' : caseLabels plainEnv (mkItem false (mkConst 0) (mkStmt "S0")) = [mkConst 0] := by
            decide
          rw [hl'] at hl
          simpa using hl
        subst this
        exact ⟨V3Number.ofNat 32 0, by decide, by decide⟩
      · have : l = mkConst 1 := by
          have hl' : caseLabels plainEnv (mkItem false (mkConst 1) (mkStmt "S1")) = [mkConst 1] := by
            decide
          rw [hl'] at hl
          simpa using hl
        subst this
        exact ⟨V3Number.ofNat 32 1, by decide, by decide⟩
      · exact absurd hd (by decide))).2
    (mkItem true .null (mkStmt "SD")) (by decide) (by decide) (by decide)
  rw [h]
  decide

/-- C6, evaluated where it fails: in `case (1) 1: ; 1: S1; endcase` the first
item whose label equals the selector has an empty body, and the construct is
replaced by the body `S1` of the second matching item, not by the (empty)
body of the first. -/
theorem visitGenCase_emptyFirst_takesLater :
    visitGenCase plainEnv caseEmptyFirst = .ok { stmtsp := mkStmt "S1", errors := [] } := by
  decide

/-- C8, evaluated where it fails: in `case (x) 0, y: S0; endcase` the selector
does not fold, the item-match loop dereferences the null `exprp` at the
constant label `0` and the non-constant label `y` is never reported. -/
theorem visitGenCase_label_unreported :
    visitGenCase plainEnv caseVarSelectorTwoLabels = .error (.nullDeref "exprp") := by
  decide

/-- C9, evaluated where it fails: in `case (x) 0: S0; endcase` the selector
does not fold and the label comparison reads `exprp->num()` through the null
pointer `exprp`. -/
theorem visitGenCase_nonconstant_selector :
    visitGenCase plainEnv caseVarSelector = .error (.nullDeref "exprp") := by
  decide

/-! ## Maps -/

section MapLemmas
variable {κ α : Type} [DecidableEq κ]

theorem mapFind_mapAssign_self (m : List (κ × α)) (k : κ) (v : α) :
    mapFind (mapAssign m k v) k = some v := by
  induction m with
  | nil => simp [mapAssign, mapFind]
  | cons e m ih =>
    obtain ⟨k', v'⟩ := e
    by_cases h : k' = k
    · simp [mapAssign, mapFind, h]
    · simp [mapAssign, mapFind, h, ih]

theorem mapFind_mapAssign_ne (m : List (κ × α)) (k k' : κ) (v : α) (hne : k ≠ k') :
    mapFind (mapAssign m k v) k' = mapFind m k' := by
  induction m with
  | nil => simp [mapAssign, mapFind, hne]
  | cons e m ih =>
    obtain ⟨k0, v0⟩ := e
    by_cases h : k0 = k
    · subst h
      simp [mapAssign, mapFind, hne]
    · by_cases h' : k0 = k'
      · subst h'
        simp [mapAssign, mapFind, h]
      · simp [mapAssign, mapFind, h, h', ih]

end MapLemmas

/-! ## Value tokens -/

theorem paramValueKey_congr (env : Env) (s s' : ParamState) (nodep : AstNode)
    (hm : s'.mods = s.mods) (hc : s'.cells = s.cells) :
    paramValueKey env s' nodep = paramValueKey env s nodep := by
  unfold paramValueKey ParamState.modAt ParamState.cellAt
  rw [hm, hc]

/-- A call of `paramValueNumber` that returns leaves the graph alone, and
stores the token's number under the hash and key of its argument. -/
theorem paramValueNumber_ok (env : Env) (s s' : ParamState) (nodep : AstNode) (t : String)
    (h : paramValueNumber env s nodep = .ok (t, s')) :
    s'.mods = s.mods ∧ s'.cells = s.cells ∧
    ∃ num key, paramValueKey env s nodep = .ok key ∧ t = "z" ++ toString num
      ∧ mapFind s'.m_valueMap (valueHash env nodep) = some (num, key) := by
  unfold paramValueNumber at h
  cases hk : paramValueKey env s nodep with
  | error e => simp [hk, Except.bind] at h
  | ok key =>
    simp only [hk, Except.bind] at h
    cases hf : mapFind s.m_valueMap (valueHash env nodep) with
    | none =>
      simp only [hf, Except.ok.injEq, Prod.mk.injEq] at h
      obtain ⟨rfl, rfl⟩ := h
      exact ⟨rfl, rfl, _, _, rfl, rfl, mapFind_mapAssign_self _ _ _⟩
    | some e =>
      obtain ⟨num, k⟩ := e
      simp only [hf] at h
      by_cases hkk : k = key
      · simp only [hkk, if_true, Except.ok.injEq, Prod.mk.injEq] at h
        obtain ⟨rfl, rfl⟩ := h
        exact ⟨rfl, rfl, num, key, rfl, rfl, by rw [hf, hkk]⟩
      · simp only [hkk, if_false, Except.ok.injEq, Prod.mk.injEq] at h
        obtain ⟨rfl, rfl⟩ := h
        exact ⟨rfl, rfl, _, _, rfl, rfl, mapFind_mapAssign_self _ _ _⟩

/-- A call whose hash and key are stored returns the stored number and
changes nothing. -/
theorem paramValueNumber_hit (env : Env) (s : ParamState) (nodep : AstNode) (num : Nat)
    (key : String) (hk : paramValueKey env s nodep = .ok key)
    (hf : mapFind s.m_valueMap (valueHash env nodep) = some (num, key)) :
    paramValueNumber env s nodep = .ok ("z" ++ toString num, s) := by
  simp [paramValueNumber, hk, hf, Except.bind]

/-- A call keeps the entry stored under a hash unless its own value has that
hash and another key. -/
theorem paramValueNumber_keeps (env : Env) (s s' : ParamState) (nodep : AstNode) (t : String)
    (hash : V3Hash) (num : Nat) (key : String)
    (h : paramValueNumber env s nodep = .ok (t, s'))
    (hf : mapFind s.m_valueMap hash = some (num, key))
    (hsame : valueHash env nodep = hash → paramValueKey env s nodep = .ok key) :
    mapFind s'.m_valueMap hash = some (num, key) := by
  unfold paramValueNumber at h
  cases hk : paramValueKey env s nodep with
  | error e => simp [hk, Except.bind] at h
  | ok key' =>
    simp only [hk, Except.bind] at h
    by_cases hh : valueHash env nodep = hash
    · have hkey : key' = key := by
        have := hsame hh
        rw [hk] at this
        exact Except.ok.inj this
      subst hkey
      simp only [hh, hf, if_true, Except.ok.injEq, Prod.mk.injEq] at h
      obtain ⟨_, rfl⟩ := h
      exact hf
    · cases hf' : mapFind s.m_valueMap (valueHash env nodep) with
      | none =>
        simp only [hf', Except.ok.injEq, Prod.mk.injEq] at h
        obtain ⟨_, rfl⟩ := h
        simpa [mapFind_mapAssign_ne _ _ _ _ hh] using hf
      | some e =>
        obtain ⟨n0, k0⟩ := e
        simp only [hf'] at h
        by_cases hkk : k0 = key'
        · simp only [hkk, if_true, Except.ok.injEq, Prod.mk.injEq] at h
          obtain ⟨_, rfl⟩ := h
          exact hf
        · simp only [hkk, if_false, Except.ok.injEq, Prod.mk.injEq] at h
          obtain ⟨_, rfl⟩ := h
          simpa [mapFind_mapAssign_ne _ _ _ _ hh] using hf

theorem paramValueNumbers_keeps (env : Env) (nodes : List AstNode) (s s' : ParamState)
    (ts : List String) (hash : V3Hash) (num : Nat) (key : String)
    (h : paramValueNumbers env s nodes = .ok (ts, s'))
    (hf : mapFind s.m_valueMap hash = some (num, key))
    (hsame : ∀ m ∈ nodes, valueHash env m = hash → paramValueKey env s m = .ok key) :
    s'.mods = s.mods ∧ s'.cells = s.cells ∧ mapFind s'.m_valueMap hash = some (num, key) := by
  induction nodes generalizing s ts with
  | nil =>
    simp only [paramValueNumbers, Except.ok.injEq, Prod.mk.injEq] at h
    obtain ⟨_, rfl⟩ := h
    exact ⟨rfl, rfl, hf⟩
  | cons n ns ih =>
    simp only [paramValueNumbers] at h
    cases h1 : paramValueNumber env s n with
    | error e => simp [h1, Except.bind] at h
    | ok r =>
      obtain ⟨t, s1⟩ := r
      simp only [h1, Except.bind] at h
      cases h2 : paramValueNumbers env s1 ns with
      | error e => simp [h2] at h
      | ok rs =>
        obtain ⟨ts', s2⟩ := rs
        simp only [h2, Except.ok.injEq, Prod.mk.injEq] at h
        obtain ⟨_, rfl⟩ := h
        obtain ⟨hm, hc, _⟩ := paramValueNumber_ok env s s1 n t h1
        have hf1 := paramValueNumber_keeps env s s1 n t hash num key h1 hf
          (hsame n (List.mem_cons_self _ _))
        obtain ⟨hm2, hc2, hf2⟩ := ih s1 ts' h2 hf1 (fun m hmem hh => by
          rw [paramValueKey_congr env s s1 m hm hc]
          exact hsame m (List.mem_cons_of_mem _ hmem) hh)
        exact ⟨hm2.trans hm, hc2.trans hc, hf2⟩

/-- C10 as amended: a call of `paramValueNumber` returns the token of an
earlier call with equal hash and equal key, for every sequence of calls in
between in which no value has that hash together with a different key; the
later call then changes nothing. -/
theorem paramValueNumber_reuse (env : Env) (s s1 s2 : ParamState) (n1 n2 : AstNode)
    (mids : List AstNode) (t1 : String) (ts : List String)
    (h1 : paramValueNumber env s n1 = .ok (t1, s1))
    (hm : paramValueNumbers env s1 mids = .ok (ts, s2))
    (hmid : ∀ m ∈ mids, valueHash env m = valueHash env n1 →
      paramValueKey env s m = paramValueKey env s n1)
    (hh : valueHash env n2 = valueHash env n1)
    (hk : paramValueKey env s n2 = paramValueKey env s n1) :
    paramValueNumber env s2 n2 = .ok (t1, s2) := by
  obtain ⟨hm1, hc1, num, key, hkey, rfl, hf1⟩ := paramValueNumber_ok env s s1 n1 _ h1
  obtain ⟨hm2, hc2, hf2⟩ := paramValueNumbers_keeps env mids s1 s2 ts _ num key hm hf1
    (fun m hmem hhash => by
      rw [paramValueKey_congr env s s1 m hm1 hc1, hmid m hmem hhash, hkey])
  apply paramValueNumber_hit env s2 n2 num key
  · rw [paramValueKey_congr env s s2 n2 (hm2.trans hm1) (hc2.trans hc1), hk, hkey]
  · rw [hh]; exact hf2

/-- Witness of C10 as amended: `logic [7:0]`, then `logic [3:0]` under another
hash, then `logic [7:0]` again gets `z1` again. -/
theorem paramValueNumber_reuse_witness :
    paramValueNumber plainEnv emptyState (mkLogic 7) = .ok ("z1", valueState1)
    ∧ paramValueNumbers plainEnv valueState1 [mkLogic 3] = .ok (["z2"], valueState2)
    ∧ paramValueNumber plainEnv valueState2 (mkLogic 7) = .ok ("z1", valueState2) :=
  ⟨by decide, by decide,
    paramValueNumber_reuse plainEnv emptyState valueState1 valueState2 (mkLogic 7) (mkLogic 7)
      [mkLogic 3] "z1" ["z2"] (by decide) (by decide)
      (by
        intro m hm hh
        have hm' : m = mkLogic 3 := by simpa using hm
        subst hm'
        exact absurd hh (by decide))
      rfl rfl⟩

/-- C10 as stated fails: with hash collisions forced, numbering `logic [7:0]`,
then `logic [3:0]`, then `logic [7:0]` again gives the tokens `z1`, `z2` and
`z3`; the first and the third call have equal hash and key. -/
theorem paramValueNumber_token_not_reused :
    (paramValueNumbers collideEnv emptyState [mkLogic 7, mkLogic 3, mkLogic 7]).map (·.1)
      = .ok ["z1", "z2", "z3"]
    ∧ valueHash collideEnv (mkLogic 7) = valueHash collideEnv (mkLogic 7)
    ∧ paramValueKey collideEnv emptyState (mkLogic 7) = .ok "logic[7:0]" := by
  decide

/-! ## Specialization of a cell: the skip path -/

/-- C3 as stated fails: the cell of `arrayDefaultDesign` is not recursive and
binds the array parameter `A` to a value identical to the default of `A`,
yet `visitCell` clones `sub` (module 2, entered in the cache and the module
list) and makes the cell refer to the clone. -/
theorem visitCell_array_default_clones :
    plainEnv.sameTree mkInitArray mkInitArray = true
    ∧ (visitCell plainEnv 0 arrayDefaultDesign 0 "top").map ParamState.summary
      = .ok ([some 2], 3, 1, [0, 1, 2]) := by
  decide

theorem modAt_setMod (s : ParamState) (i j : Nat) (m : AstNodeModule) :
    (s.setMod i m).modAt j = if i = j then (s.modAt j).map (fun _ => m) else s.modAt j := by
  unfold ParamState.modAt ParamState.setMod
  simp only [List.getElem?_set']
  by_cases h : i = j
  · subst h
    cases s.mods[i]? <;> simp [Except.map]
  · simp [h]

theorem stmtAt_setMod (s : ParamState) (i : Nat) (m m' : AstNodeModule) (v : VarId)
    (hm : s.modAt i = .ok m) (hs : m'.stmts = m.stmts) :
    (s.setMod i m').stmtAt v = s.stmtAt v := by
  unfold ParamState.stmtAt
  rw [modAt_setMod]
  by_cases h : i = v.modp
  · subst h
    simp [hm, Except.map, Except.bind, hs]
  · simp [h]

theorem varAt_setMod (s : ParamState) (i : Nat) (m m' : AstNodeModule) (v : VarId)
    (hm : s.modAt i = .ok m) (hs : m'.stmts = m.stmts) :
    (s.setMod i m').varAt v = s.varAt v := by
  unfold ParamState.varAt
  rw [stmtAt_setMod s i m m' v hm hs]

theorem ptypeAt_setMod (s : ParamState) (i : Nat) (m m' : AstNodeModule) (v : VarId)
    (hm : s.modAt i = .ok m) (hs : m'.stmts = m.stmts) :
    (s.setMod i m').ptypeAt v = s.ptypeAt v := by
  unfold ParamState.ptypeAt
  rw [stmtAt_setMod s i m m' v hm hs]

theorem ifaceViaCellp_setMod (s : ParamState) (i : Nat) (m m' : AstNodeModule) (n : AstNode)
    (hm : s.modAt i = .ok m) (hi : m'.isIface = m.isIface) :
    ifaceViaCellp (s.setMod i m') n = ifaceViaCellp s n := by
  unfold ifaceViaCellp
  split
  · rename_i cellp ifacep _ _ _ _ _ _ _
    cases cellp with
    | none => rfl
    | some c =>
      have hc : (s.setMod i m').cellAt c = s.cellAt c := rfl
      simp only [hc]
      cases s.cellAt c with
      | error e => rfl
      | ok cell =>
        simp only [Except.bind]
        cases cell.modp with
        | none => rfl
        | some j =>
          simp only [modAt_setMod]
          by_cases h : i = j
          · subst h
            simp [hm, Except.map, hi]
          · simp [h]
  · rfl

theorem varIfaceRef_setMod (s : ParamState) (i : Nat) (m m' : AstNodeModule)
    (varp : Option VarId) (direct : Bool) (hm : s.modAt i = .ok m) (hs : m'.stmts = m.stmts) :
    varIfaceRef (s.setMod i m') varp direct = varIfaceRef s varp direct := by
  unfold varIfaceRef
  cases varp with
  | none => rfl
  | some v => simp only [varAt_setMod s i m m' v hm hs]

theorem pinIfaceRef_setMod (s : ParamState) (i : Nat) (m m' : AstNodeModule) (exprp : AstNode)
    (hm : s.modAt i = .ok m) (hs : m'.stmts = m.stmts) :
    pinIfaceRef (s.setMod i m') exprp = pinIfaceRef s exprp := by
  unfold pinIfaceRef
  simp only [varIfaceRef_setMod s i m m' _ _ hm hs]

theorem asConst_not_initArray (n : AstNode) (c : V3Number) (h : n.asConst = some c) :
    n.isInitArray = false ∧ n.isNull = false := by
  cases n with
  | null => simp [AstNode.asConst] at h
  | node k _ _ _ _ _ _ => cases k <;> simp_all [AstNode.asConst, AstNode.isInitArray, AstNode.isNull]

/-- A pin that overrides nothing leaves the running values of the parameter
loop as they are. -/
theorem paramPin_default (env : Env) (srcModp : Nat) (acc : NameAcc) (pinp : AstPin)
    (h : PinIsDefault env acc.s pinp) : paramPin env srcModp acc pinp = .ok (acc, pinp) := by
  unfold paramPin
  rcases h with h | ⟨v, x, c, hv, hx, hg, hc, hd, hsame⟩ | ⟨t, x, hv, ht, hx, hdt, hnn, hsame⟩
  · simp [h, AstNode.isNull]
  · obtain ⟨hia, hnull⟩ := asConst_not_initArray _ _ hc
    simp [hnull, hv, hx, Except.bind, hg, hia, hc, hd, hsame]
  · have hnull : pinp.exprp.isNull = false := by
      cases hp : pinp.exprp with
      | null => rw [hp] at hdt; simp [AstNode.isNodeDType] at hdt
      | node _ _ _ _ _ _ _ => rfl
    simp [hnull, hv, ht, hx, Except.bind, hdt, hnn, hsame]

theorem paramPins_default (env : Env) (srcModp : Nat) (acc : NameAcc) (pins : List AstPin)
    (h : ∀ p ∈ pins, PinIsDefault env acc.s p) :
    paramPins env srcModp acc pins = .ok (acc, pins) := by
  induction pins with
  | nil => rfl
  | cons p ps ih =>
    simp only [paramPins, paramPin_default env srcModp acc p (h p (List.mem_cons_self _ _)),
      Except.bind, ih (fun q hq => h q (List.mem_cons_of_mem _ hq))]

/-- A port pin that needs no rebinding leaves the running values of the port
loop as they are. -/
theorem ifacePin_noRebind (env : Env) (srcModp : Nat) (acc : NameAcc) (pinp : AstPin)
    (h : PortNeedsNoRebind acc.s pinp) : ifacePin env srcModp acc pinp = .ok acc := by
  unfold ifacePin
  obtain ⟨v, x, hv, hx, h⟩ := h
  rcases h with h | ⟨pinIrefp, via, hp, hport, hpin, hv1, hv2⟩
  · simp [hv, hx, Except.bind, h]
  · by_cases hi : x.isIfaceRef = true
    · simp [hv, hx, Except.bind, hi, hp, hport, hpin, hv1, hv2]
    · simp [hv, hx, Except.bind, hi]

theorem ifacePins_noRebind (env : Env) (srcModp : Nat) (acc : NameAcc) (pins : List AstPin)
    (h : ∀ p ∈ pins, PortNeedsNoRebind acc.s p) : ifacePins env srcModp acc pins = .ok acc := by
  induction pins with
  | nil => rfl
  | cons p ps ih =>
    simp only [ifacePins, ifacePin_noRebind env srcModp acc p (h p (List.mem_cons_self _ _)),
      Except.bind, ih (fun q hq => h q (List.mem_cons_of_mem _ hq))]

theorem PinIsDefault_setMod (env : Env) (s : ParamState) (i : Nat) (m m' : AstNodeModule)
    (pinp : AstPin) (hm : s.modAt i = .ok m) (hs : m'.stmts = m.stmts)
    (h : PinIsDefault env s pinp) : PinIsDefault env (s.setMod i m') pinp := by
  rcases h with h | ⟨v, x, c, hv, hx, hrest⟩ | ⟨t, x, hv, ht, hx, hrest⟩
  · exact Or.inl h
  · exact Or.inr (Or.inl ⟨v, x, c, hv, by rw [varAt_setMod s i m m' v hm hs]; exact hx, hrest⟩)
  · exact Or.inr (Or.inr ⟨t, x, hv, ht, by rw [ptypeAt_setMod s i m m' t hm hs]; exact hx, hrest⟩)

theorem PortNeedsNoRebind_setMod (s : ParamState) (i : Nat) (m m' : AstNodeModule)
    (pinp : AstPin) (hm : s.modAt i = .ok m) (hs : m'.stmts = m.stmts)
    (hi : m'.isIface = m.isIface)
    (h : PortNeedsNoRebind s pinp) : PortNeedsNoRebind (s.setMod i m') pinp := by
  obtain ⟨v, x, hv, hx, h⟩ := h
  refine ⟨v, x, hv, by rw [varAt_setMod s i m m' v hm hs]; exact hx, ?_⟩
  rcases h with h | ⟨pinIrefp, via, hp, hport, hpin, hv1, hv2⟩
  · exact Or.inl h
  · refine Or.inr ⟨pinIrefp, via, ?_, hport, hpin, ?_, ?_⟩
    · rw [pinIfaceRef_setMod s i m m' _ hm hs]; exact hp
    · rw [ifaceViaCellp_setMod s i m m' _ hm hi]; exact hv1
    · rw [ifaceViaCellp_setMod s i m m' _ hm hi]; exact hv2

/-- C3 as amended: for a cell that is not recursive, each of whose parameter
pins binds nothing or binds a constant (or a type) that is the same tree as
the constant (type) default of the template, and none of whose interface
ports needs rebinding, `visitCell` returns and creates no clone: the modules
are those of before (the template only gets its hierarchy name), cache, long
name table and module list are unchanged, no error is reported, and the cell
still refers to the template, now without parameter pins. -/
theorem visitCell_default_skip (env : Env) (fuel : Nat) (s : ParamState) (nodep : Nat)
    (hierName : String) (cell : AstCell) (srcModp : Nat) (src : AstNodeModule)
    (hcell : s.cellAt nodep = .ok cell) (hmodp : cell.modp = some srcModp)
    (hsrc : s.modAt srcModp = .ok src) (hrec : cell.recursive = false)
    (hpar : ∀ p ∈ cell.paramsp, PinIsDefault env s (editPin env p))
    (hpin : ∀ p ∈ cell.pinsp, PortNeedsNoRebind s (editPin env p)) :
    ∃ s', visitCell env fuel s nodep hierName = .ok s'
      ∧ s'.mods = s.mods.set srcModp { src with hierName := hierName ++ ("." ++ cell.name) }
      ∧ s'.m_modNameMap = s.m_modNameMap ∧ s'.m_longMap = s.m_longMap
      ∧ s'.modulesp = s.modulesp ∧ s'.errors = s.errors
      ∧ (s'.cellAt nodep).map (fun c => (c.modp, c.paramsp)) = .ok (some srcModp, []) := by
  let src' : AstNodeModule := { src with hierName := hierName ++ ("." ++ cell.name) }
  have hpar' : ∀ p ∈ cell.paramsp.map (editPin env), PinIsDefault env (s.setMod srcModp src') p := by
    intro p hp
    obtain ⟨q, hq, rfl⟩ := List.mem_map.1 hp
    exact PinIsDefault_setMod env s srcModp src src' _ hsrc rfl (hpar q hq)
  have hpin' : ∀ p ∈ cell.pinsp.map (editPin env), PortNeedsNoRebind (s.setMod srcModp src') p := by
    intro p hp
    obtain ⟨q, hq, rfl⟩ := List.mem_map.1 hp
    exact PortNeedsNoRebind_setMod s srcModp src src' _ hsrc rfl rfl (hpin q hq)
  have hnames : cellNames env s srcModp cell hierName
      = .ok ({ s := s.setMod srcModp src', longname := src.name ++ "_", any_overrides := false,
               ifaceRefRefs := [] },
             { cell with paramsp := cell.paramsp.map (editPin env),
                         pinsp := cell.pinsp.map (editPin env) }) := by
    unfold cellNames
    simp only [hsrc, Except.bind, hrec]
    rw [paramPins_default env srcModp _ _ hpar']
    simp only [Except.bind]
    rw [ifacePins_noRebind env srcModp _ _ hpin']
  have hsrc' : (s.setMod srcModp src').modAt srcModp = .ok src' := by
    rw [modAt_setMod]; simp [hsrc, Except.map]
  have hlen : nodep < s.cells.length := by
    unfold ParamState.cellAt at hcell
    cases hc : s.cells[nodep]? with
    | none => simp [hc] at hcell
    | some c => exact (List.getElem?_eq_some.1 hc).1
  refine ⟨{ (s.setMod srcModp src').setCell nodep
              { cell with paramsp := [], pinsp := cell.pinsp.map (editPin env),
                          recursive := false } with
            m_todoModps := todoInsert s.m_todoModps src.level srcModp },
    ?_, rfl, rfl, rfl, rfl, rfl, ?_⟩
  · unfold visitCell
    simp only [hcell, Except.bind, hmodp, hnames, specializeCell, Bool.not_false, if_true,
      finishCell, hsrc']
    rfl
  · simp [ParamState.cellAt, ParamState.setCell, ParamState.setMod, hlen, Except.map, hmodp]

/-- Witness of C3 as amended: cell `c2` of `plainDesign` binds `P` to its
default 3; after `visitCell` there are still two modules, the cache is
empty and the cell refers to `sub`. -/
theorem visitCell_default_skip_witness :
    plainDesign.cellAt 2
      = .ok (mkCell "c2" [mkPin "P" 0 (mkConst 3)] [mkPin "clk" 1 (mkVarRef "z")])
    ∧ (visitCell plainEnv 0 plainDesign 2 "top").map
        (fun s => (s.mods.length, s.m_modNameMap, (s.cellAt 2).map (·.modp)))
      = .ok (2, [], .ok (some 1)) := by
  refine ⟨by decide, ?_⟩
  obtain ⟨s', hs', hmods, hmap, _, _, _, hc⟩ :=
    visitCell_default_skip plainEnv 0 plainDesign 2 "top"
      (mkCell "c2" [mkPin "P" 0 (mkConst 3)] [mkPin "clk" 1 (mkVarRef "z")]) 1
      (mkModule "sub" 3 [mkParam "P" .null (mkConst 3), mkPort "clk"])
      (by decide) (by decide) (by decide) (by decide)
      (by
        intro p hp
        have hp' : p = mkPin "P" 0 (mkConst 3) := by simpa [mkCell] using hp
        subst hp'
        exact Or.inr (Or.inl ⟨⟨1, 0⟩, mkParamVar "P" .null (mkConst 3), V3Number.ofNat 32 3,
          by decide, by decide, by decide,
          by decide, by decide, by decide⟩))
      (by
        intro p hp
        have hp' : p = mkPin "clk" 1 (mkVarRef "z") := by simpa [mkCell] using hp
        subst hp'
        exact ⟨⟨1, 1⟩, mkPortVar "clk", by decide, by decide, Or.inl (by decide)⟩)
  have hmodp : (s'.cellAt 2).map (·.modp) = .ok (some 1) := by
    cases hcell : s'.cellAt 2 with
    | error e => rw [hcell] at hc; simp [Except.map] at hc
    | ok c =>
      rw [hcell] at hc
      simp only [Except.map, Except.ok.injEq, Prod.mk.injEq] at hc
      simp [Except.map, hc.1]
  rw [hs']
  simp only [Except.map, hmods, hmap, List.length_set] at hmodp ⊢
  rw [hmodp]
  decide

/-! ## Later states -/

theorem modAt_eq_ok {s : ParamState} {i : Nat} {m : AstNodeModule} :
    s.modAt i = .ok m ↔ s.mods[i]? = some m := by
  unfold ParamState.modAt
  cases s.mods[i]? <;> simp

theorem Later.refl_later (s : ParamState) : Later s s :=
  ⟨fun _ m h => ⟨m, h, rfl⟩, fun _ _ h => h, fun _ _ h => h, rfl⟩

theorem Later.trans_later {a b c : ParamState} (h1 : Later a b) (h2 : Later b c) : Later a c := by
  refine ⟨?_, fun k v h => h2.longMap k v (h1.longMap k v h),
    fun k v h => h2.cache k v (h1.cache k v h), h2.hier.trans h1.hier⟩
  intro i m h
  obtain ⟨m', hm', hv'⟩ := h1.mods i m h
  obtain ⟨m'', hm'', hv''⟩ := h2.mods i m' hm'
  exact ⟨m'', hm'', hv''.trans hv'⟩

theorem LoopRel.refl_loop (s : ParamState) : LoopRel s s :=
  ⟨s.mods, s.m_valueMap, s.m_nextValue, s.errors, rfl, rfl, id⟩

theorem LoopRel.trans_loop {a b c : ParamState} (h1 : LoopRel a b) (h2 : LoopRel b c) :
    LoopRel a c := by
  obtain ⟨m1, v1, n1, e1, rfl, hm1, hs1⟩ := h1
  obtain ⟨m2, v2, n2, e2, rfl, hm2, hs2⟩ := h2
  exact ⟨m2, v2, n2, e2, rfl, hm2.trans hm1, fun h => hs2 (hs1 h)⟩

theorem LoopRel.later {s s' : ParamState} (h : LoopRel s s') : Later s s' := by
  obtain ⟨mods, vm, nv, errs, rfl, hm, _⟩ := h
  refine ⟨?_, fun _ _ h => h, fun _ _ h => h, rfl⟩
  intro i m hi
  have h1 : (mods.map modView)[i]? = (s.mods.map modView)[i]? := by rw [hm]
  simp only [List.getElem?_map, hi, Option.map_some'] at h1
  cases hmi : mods[i]? with
  | none => simp [hmi] at h1
  | some m' =>
    simp only [hmi, Option.map_some', Option.some.injEq] at h1
    exact ⟨m', rfl, h1⟩

theorem LoopRel.small {s s' : ParamState} (h : LoopRel s s') (hs : SmallNamesOk s) :
    SmallNamesOk s' := by
  obtain ⟨_, _, _, _, _, _, h'⟩ := h
  exact h' hs

theorem LoopRel.v3error_loop (s : ParamState) (obj : ErrorAt) (msg : String) :
    LoopRel s (s.v3error obj msg) :=
  ⟨s.mods, s.m_valueMap, s.m_nextValue, _, rfl, rfl, id⟩

theorem LoopRel.setMod (s : ParamState) (i : Nat) (m m' : AstNodeModule)
    (hm : s.modAt i = .ok m) (hv : modView m' = modView m)
    (hs : ModSmallOk m → ModSmallOk m') : LoopRel s (s.setMod i m') := by
  have hi : s.mods[i]? = some m := modAt_eq_ok.1 hm
  refine ⟨s.mods.set i m', s.m_valueMap, s.m_nextValue, s.errors, rfl, ?_, ?_⟩
  · apply List.ext_getElem?
    intro j
    simp only [List.getElem?_map, List.getElem?_set']
    by_cases hij : i = j
    · subst hij
      simp [hi, hv]
    · simp [hij]
  · intro hok j mj hj
    simp only [ParamState.setMod, List.getElem?_set'] at hj
    by_cases hij : i = j
    · subst hij
      simp [hi] at hj
      subst hj
      exact hs (hok i m hi)
    · simp only [hij, if_false] at hj
      exact hok j mj hj

theorem zero4_makeSmallNamesLoop (stmts : List ModStmt) (f : Nat → Nat) :
    (makeSmallNamesLoop stmts f).map zero4 = stmts.map zero4 := by
  induction stmts generalizing f with
  | nil => rfl
  | cons st rest ih =>
    cases st with
    | Var v =>
      by_cases h : (v.isGParam || v.isIfaceRef) = true
      · simp [makeSmallNamesLoop, h, ih, zero4]
      · simp [makeSmallNamesLoop, h, ih]
    | ParamTypeDType t => simp [makeSmallNamesLoop, ih, zero4]
    | Other n => simp [makeSmallNamesLoop, ih]

theorem modView_makeSmallNames (m : AstNodeModule) : modView (makeSmallNames m) = modView m := by
  simp [modView, makeSmallNames, zero4_makeSmallNamesLoop]

theorem stmtLetter_makeSmallNamesLoop (stmts : List ModStmt) (f : Nat → Nat) :
    (makeSmallNamesLoop stmts f).map stmtLetter = stmts.map stmtLetter := by
  induction stmts generalizing f with
  | nil => rfl
  | cons st rest ih =>
    cases st with
    | Var v =>
      by_cases h : (v.isGParam || v.isIfaceRef) = true
      · simp [makeSmallNamesLoop, h, ih, stmtLetter]
      · simp [makeSmallNamesLoop, h, ih]
    | ParamTypeDType t => simp [makeSmallNamesLoop, ih, stmtLetter]
    | Other n => simp [makeSmallNamesLoop, ih]

/-- The numbers `makeSmallNames` stores are those of `canonLoop`. -/
theorem user4_makeSmallNamesLoop (stmts : List ModStmt) (f : Nat → Nat) :
    (makeSmallNamesLoop stmts f).map (fun st => (stmtLetter st).map fun _ => user4Of st)
      = canonLoop (stmts.map stmtLetter) f := by
  induction stmts generalizing f with
  | nil => rfl
  | cons st rest ih =>
    cases st with
    | Var v =>
      by_cases h : (v.isGParam || v.isIfaceRef) = true
      · have hl : stmtLetter (.Var v) = some (smallNameLetter v.name).toNat := by
          simp only [stmtLetter, h, if_true]
        simp only [makeSmallNamesLoop, h, if_true, List.map_cons, ih]
        rw [hl]
        simp only [canonLoop]
        congr 1
        simp [stmtLetter, h, user4Of]
      · have h' : (v.isGParam || v.isIfaceRef) = false := by simpa using h
        have hl : stmtLetter (.Var v) = none := by
          simp [stmtLetter, h']
        simp only [makeSmallNamesLoop, h', Bool.false_eq_true, if_false, List.map_cons, ih]
        rw [hl]
        simp only [canonLoop, Option.map_none']
    | ParamTypeDType t =>
      have hl : stmtLetter (.ParamTypeDType t) = some ('T').toNat := rfl
      simp only [makeSmallNamesLoop, List.map_cons, ih]
      rw [hl]
      simp only [canonLoop]
      congr 1
    | Other n =>
      have hl : stmtLetter (.Other n) = none := rfl
      simp only [makeSmallNamesLoop, List.map_cons, ih]
      rw [hl]
      simp only [canonLoop, Option.map_none']

/-- After `makeSmallNames` every numbered declaration carries its number. -/
theorem user4_makeSmallNames (m : AstNodeModule) (idx : Nat) (st : ModStmt)
    (h : (makeSmallNames m).stmts[idx]? = some st) (hl : (stmtLetter st).isSome = true) :
    user4Of st = canon4 m.stmts idx := by
  have h1 := congrArg (fun l => l[idx]?) (user4_makeSmallNamesLoop m.stmts (fun _ => 0))
  simp only [List.getElem?_map] at h1
  simp only [makeSmallNames] at h
  rw [h] at h1
  unfold canon4
  rw [← h1]
  cases hst : stmtLetter st with
  | none => simp [hst] at hl
  | some ch => simp [hst]

theorem modSmallOk_makeSmallNames (m : AstNodeModule) : ModSmallOk (makeSmallNames m) := by
  intro idx st h hl
  right
  rw [user4_makeSmallNames m idx st h hl]
  unfold canon4
  simp only [makeSmallNames, stmtLetter_makeSmallNamesLoop]

theorem paramValueNumber_loopRel (env : Env) (s s' : ParamState) (nodep : AstNode) (t : String)
    (h : paramValueNumber env s nodep = .ok (t, s')) : LoopRel s s' := by
  unfold paramValueNumber at h
  cases hk : paramValueKey env s nodep with
  | error e => simp [hk, Except.bind] at h
  | ok key =>
    simp only [hk, Except.bind] at h
    cases hf : mapFind s.m_valueMap (valueHash env nodep) with
    | none =>
      simp only [hf, Except.ok.injEq, Prod.mk.injEq] at h
      obtain ⟨_, rfl⟩ := h
      exact ⟨s.mods, _, _, s.errors, rfl, rfl, id⟩
    | some e =>
      obtain ⟨num, k⟩ := e
      simp only [hf] at h
      by_cases hkk : k = key
      · simp only [hkk, if_true, Except.ok.injEq, Prod.mk.injEq] at h
        obtain ⟨_, rfl⟩ := h
        exact LoopRel.refl_loop _
      · simp only [hkk, if_false, Except.ok.injEq, Prod.mk.injEq] at h
        obtain ⟨_, rfl⟩ := h
        exact ⟨s.mods, _, _, s.errors, rfl, rfl, id⟩

theorem paramSmallName_loopRel (s s' : ParamState) (modp : Nat) (varp : VarId) (c : String)
    (h : paramSmallName s modp varp = .ok (c, s')) : LoopRel s s' := by
  unfold paramSmallName at h
  cases h1 : s.stmtAt varp with
  | error e => simp [h1, Except.bind] at h
  | ok st =>
    cases h2 : stmtUser4 st with
    | error e => simp [h1, h2, Except.bind] at h
    | ok u =>
      simp only [h1, h2, Except.bind] at h
      by_cases hu : u ≤ 1
      · simp only [hu, if_true] at h
        cases hm : s.modAt modp with
        | error e => simp [hm, Except.map] at h
        | ok m =>
          simp only [hm, Except.map] at h
          have hrel := LoopRel.setMod s modp m (makeSmallNames m) hm (modView_makeSmallNames m)
            (fun _ => modSmallOk_makeSmallNames m)
          cases h3 : (s.setMod modp (makeSmallNames m)).stmtAt varp with
          | error e => simp [h3] at h
          | ok st' =>
            cases h4 : stmtUser4 st' with
            | error e => simp [h3, h4] at h
            | ok u' =>
              simp only [h3, h4, Except.ok.injEq, Prod.mk.injEq] at h
              obtain ⟨_, rfl⟩ := h
              exact hrel
      · simp only [hu, if_false] at h
        simp only [h1, h2, Except.ok.injEq, Prod.mk.injEq] at h
        obtain ⟨_, rfl⟩ := h
        exact LoopRel.refl_loop _

/-! ## Rewriting the declarations of a clone -/

theorem StmtsRel.refl_stmts (a : List ModStmt) : StmtsRel a a := ⟨rfl, rfl⟩

theorem StmtsRel.trans_stmts {a b c : List ModStmt} (h1 : StmtsRel a b) (h2 : StmtsRel b c) :
    StmtsRel a c := ⟨h2.1.trans h1.1, h2.2.trans h1.2⟩

theorem StmtsRel.set (stmts : List ModStmt) (idx : Nat) (st st' : ModStmt)
    (h : stmts[idx]? = some st) (hl : stmtLetter st' = stmtLetter st)
    (hu : user4Of st' = user4Of st) : StmtsRel stmts (stmts.set idx st') := by
  constructor
  · apply List.ext_getElem?
    intro k
    simp only [List.getElem?_map, List.getElem?_set']
    by_cases hk : idx = k
    · subst hk; simp [h, hl]
    · simp [hk]
  · apply List.ext_getElem?
    intro k
    simp only [List.getElem?_map, List.getElem?_set']
    by_cases hk : idx = k
    · subst hk; simp [h, hu]
    · simp [hk]

theorem UpdAt.refl_upd (j : Nat) (a : ParamState) (m : AstNodeModule) (h : a.mods[j]? = some m) :
    UpdAt j a a := by
  refine ⟨m, m.stmts, a.errors, h, StmtsRel.refl_stmts _, ?_⟩
  have : a.mods.set j { m with stmts := m.stmts } = a.mods := by
    apply List.ext_getElem?
    intro k
    simp only [List.getElem?_set']
    by_cases hk : j = k
    · subst hk; simp [h]
    · simp [hk]
  rw [this]

theorem UpdAt.trans_upd {j : Nat} {a b c : ParamState} (h1 : UpdAt j a b) (h2 : UpdAt j b c) :
    UpdAt j a c := by
  obtain ⟨m, st1, e1, hm, hr1, rfl⟩ := h1
  obtain ⟨m', st2, e2, hm', hr2, rfl⟩ := h2
  have hj : j < a.mods.length := (List.getElem?_eq_some.1 hm).1
  simp only [List.getElem?_set_self hj, Option.some.injEq] at hm'
  subst hm'
  refine ⟨m, st2, e2, hm, hr1.trans_stmts hr2, ?_⟩
  simp [List.set_set]

theorem UpdAt.v3error_upd (j : Nat) (a : ParamState) (m : AstNodeModule) (h : a.mods[j]? = some m)
    (obj : ErrorAt) (msg : String) : UpdAt j a (a.v3error obj msg) := by
  obtain ⟨m0, st, e, hm, hr, heq⟩ := UpdAt.refl_upd j a m h
  exact ⟨m0, st, _, hm, hr, by rw [ParamState.v3error]; conv_lhs => rw [heq]⟩

/-- `updateStmt` with a rewriting that keeps letter and `user4`. -/
theorem updateStmt_updAt (s s' : ParamState) (v : VarId) (f : ModStmt → Except Failure ModStmt)
    (hf : ∀ st st', f st = .ok st' → stmtLetter st' = stmtLetter st ∧ user4Of st' = user4Of st)
    (h : s.updateStmt v f = .ok s') : UpdAt v.modp s s' := by
  unfold ParamState.updateStmt at h
  cases hm : s.modAt v.modp with
  | error e => simp [hm, Except.bind] at h
  | ok m =>
    have hm' := modAt_eq_ok.1 hm
    simp only [hm, Except.bind, ParamState.stmtAt] at h
    cases hst : m.stmts[v.idx]? with
    | none => simp [hst] at h
    | some st =>
      simp only [hst] at h
      cases hfs : f st with
      | error e => simp [hfs, Except.map] at h
      | ok st' =>
        simp only [hfs, Except.map, Except.ok.injEq] at h
        subst h
        obtain ⟨hl, hu⟩ := hf st st' hfs
        exact ⟨m, m.stmts.set v.idx st', s.errors, hm', StmtsRel.set _ _ st st' hst hl hu, rfl⟩

theorem getElem?_of_updAt {j : Nat} {a b : ParamState} (h : UpdAt j a b) :
    ∃ m m', a.mods[j]? = some m ∧ b.mods[j]? = some m' := by
  obtain ⟨m, st, e, hm, _, rfl⟩ := h
  have hj : j < a.mods.length := (List.getElem?_eq_some.1 hm).1
  exact ⟨m, { m with stmts := st }, hm, by simp [List.getElem?_set_self hj]⟩

theorem fixIfaceRefs_updAt (srcModp cellmodp : Nat) (refs : List (VarId × AstNode))
    (s s' : ParamState) (m : AstNodeModule) (hm : s.mods[cellmodp]? = some m)
    (h : fixIfaceRefs srcModp cellmodp s refs = .ok s') : UpdAt cellmodp s s' := by
  induction refs generalizing s m with
  | nil =>
    simp only [fixIfaceRefs, Except.ok.injEq] at h
    subst h
    exact UpdAt.refl_upd _ _ m hm
  | cons r rest ih =>
    obtain ⟨portVar, pinIrefp⟩ := r
    simp only [fixIfaceRefs] at h
    by_cases hp : portVar.modp ≠ srcModp
    · simp [hp] at h
    · simp only [hp, if_false] at h
      cases hv : ifaceViaCellp s pinIrefp with
      | error e => simp [hv, Except.bind] at h
      | ok via =>
        simp only [hv, Except.bind] at h
        split at h
        · simp at h
        · rename_i s1 hs1
          have h1 : UpdAt cellmodp s s1 := by
            apply updateStmt_updAt s s1 ⟨cellmodp, portVar.idx⟩ _ _ hs1
            intro st st' hst
            cases st with
            | Var v =>
              simp only at hst
              cases hd : setIrefIfacep via v.childDTypep with
              | error e => simp [hd, Except.map] at hst
              | ok d =>
                simp only [hd, Except.map, Except.ok.injEq] at hst
                subst hst
                exact ⟨rfl, rfl⟩
            | ParamTypeDType t => simp at hst
            | Other n => simp at hst
          obtain ⟨_, m1, _, hm1⟩ := getElem?_of_updAt h1
          exact h1.trans_upd (ih s1 m1 hm1 h)

theorem checkSupportedParam_updAt (env : Env) (j : Nat) (s : ParamState) (m : AstNodeModule)
    (hm : s.mods[j]? = some m) (pinp : AstPin) : UpdAt j s (checkSupportedParam env s pinp) := by
  unfold checkSupportedParam
  dsimp only
  split
  · split
    · exact UpdAt.v3error_upd j s m hm _ _
    · exact UpdAt.refl_upd j s m hm
  · split
    · exact UpdAt.v3error_upd j s m hm _ _
    · exact UpdAt.refl_upd j s m hm

theorem assignParams_updAt (env : Env) (hierBlock : Bool) (j : Nat) (pins : List AstPin)
    (s s' : ParamState) (m : AstNodeModule) (hm : s.mods[j]? = some m)
    (hp : PinsInto j pins) (h : assignParams env hierBlock s pins = .ok s') : UpdAt j s s' := by
  induction pins generalizing s m with
  | nil =>
    simp only [assignParams, Except.ok.injEq] at h
    subst h
    exact UpdAt.refl_upd _ _ m hm
  | cons p rest ih =>
    have hrest : PinsInto j rest := fun q hq => hp q (List.mem_cons_of_mem _ hq)
    obtain ⟨hpv, hpt⟩ := hp p (List.mem_cons_self _ _)
    simp only [assignParams] at h
    by_cases hn : p.exprp.isNull = true
    · simp only [hn, if_true] at h
      exact ih s m hm hrest h
    · simp only [hn, if_false] at h
      have h0 : UpdAt j s (if hierBlock = true then checkSupportedParam env s p else s) := by
        split
        · exact checkSupportedParam_updAt env j s m hm p
        · exact UpdAt.refl_upd j s m hm
      generalize (if hierBlock = true then checkSupportedParam env s p else s) = s0 at h h0
      obtain ⟨_, m0, _, hm0⟩ := getElem?_of_updAt h0
      cases hv : p.modVarp with
      | some v =>
        simp only [hv] at h
        cases hu : s0.updateStmt v (fun st => match st with
            | .Var x => .ok (.Var { x with valuep := p.exprp, overriddenParam := true })
            | _ => .error (.nullDeref "var")) with
        | error e => simp [hu, Except.bind] at h
        | ok s1 =>
          simp only [hu, Except.bind] at h
          have h1 : UpdAt v.modp s0 s1 := by
            apply updateStmt_updAt s0 s1 v _ _ hu
            intro st st' hst
            cases st with
            | Var x => simp only [Except.ok.injEq] at hst; subst hst; exact ⟨rfl, rfl⟩
            | ParamTypeDType t => simp at hst
            | Other n => simp at hst
          rw [hpv v hv] at h1
          obtain ⟨_, m1, _, hm1⟩ := getElem?_of_updAt h1
          exact (h0.trans_upd h1).trans_upd (ih s1 m1 hm1 hrest h)
      | none =>
        simp only [hv] at h
        cases ht : p.modPTypep with
        | some t =>
          simp only [ht] at h
          by_cases hd : p.exprp.isNodeDType = true
          · simp only [hd, Bool.not_true, Bool.false_eq_true, if_false] at h
            cases hu : s0.updateStmt t (fun st => match st with
                | .ParamTypeDType x => .ok (.ParamTypeDType { x with childDTypep := p.exprp })
                | _ => .error (.nullDeref "paramtype")) with
            | error e => simp [hu, Except.bind] at h
            | ok s1 =>
              simp only [hu, Except.bind] at h
              have h1 : UpdAt t.modp s0 s1 := by
                apply updateStmt_updAt s0 s1 t _ _ hu
                intro st st' hst
                cases st with
                | Var x => simp at hst
                | ParamTypeDType x =>
                  simp only [Except.ok.injEq] at hst; subst hst; exact ⟨rfl, rfl⟩
                | Other n => simp at hst
              rw [hpt hv t ht] at h1
              obtain ⟨_, m1, _, hm1⟩ := getElem?_of_updAt h1
              exact (h0.trans_upd h1).trans_upd (ih s1 m1 hm1 hrest h)
          · simp [hd, Except.bind] at h
        | none =>
          simp only [ht, Except.bind] at h
          exact h0.trans_upd (ih s0 m0 hm0 hrest h)

/-! ## Map insertion -/

section MapInsert
variable {κ α : Type} [DecidableEq κ]

theorem mapFind_append (m : List (κ × α)) (k k' : κ) (v' : α) :
    mapFind (m ++ [(k', v')]) k
      = match mapFind m k with
        | some v => some v
        | none => if k' = k then some v' else none := by
  induction m with
  | nil => simp [mapFind]
  | cons e m ih =>
    obtain ⟨k0, v0⟩ := e
    by_cases h : k0 = k
    · simp [mapFind, h]
    · simp [mapFind, h, ih]

theorem mapFind_mapInsert_of_some (m : List (κ × α)) (k k' : κ) (v v' : α)
    (h : mapFind m k = some v) : mapFind (mapInsert m k' v') k = some v := by
  unfold mapInsert
  cases hk : mapFind m k' with
  | some _ => exact h
  | none => simp [mapFind_append, h]

theorem mapFind_mapInsert_self (m : List (κ × α)) (k : κ) (v : α) (h : mapFind m k = none) :
    mapFind (mapInsert m k v) k = some v := by
  unfold mapInsert
  simp [h, mapFind_append]

theorem mapFind_mapInsert_inv (m : List (κ × α)) (k k' : κ) (v v' : α)
    (h : mapFind (mapInsert m k' v') k = some v) :
    mapFind m k = some v ∨ (k' = k ∧ v' = v ∧ mapFind m k = none) := by
  unfold mapInsert at h
  cases hk : mapFind m k' with
  | some _ => rw [hk] at h; exact Or.inl h
  | none =>
    rw [hk] at h
    simp only [mapFind_append] at h
    cases hm : mapFind m k with
    | some x => rw [hm] at h; exact Or.inl h
    | none =>
      rw [hm] at h
      by_cases hkk : k' = k
      · simp only [hkk, if_true, Option.some.injEq] at h
        exact Or.inr ⟨hkk, h, rfl⟩
      · simp [hkk] at h

end MapInsert

/-! ## Clone maps -/

theorem collectPinsLoop_values (oldp newp : Nat) (stmts : List ModStmt) (idx : Nat)
    (acc : List (VarId × VarId)) (k v : VarId)
    (h : mapFind (collectPinsLoop oldp newp stmts idx acc) k = some v) :
    v.modp = newp ∨ mapFind acc k = some v := by
  induction stmts generalizing idx acc with
  | nil => exact Or.inr h
  | cons st rest ih =>
    have step : ∀ acc', (mapFind acc' k = some v → v.modp = newp ∨ mapFind acc k = some v) →
        mapFind (collectPinsLoop oldp newp rest (idx + 1) acc') k = some v →
        v.modp = newp ∨ mapFind acc k = some v := by
      intro acc' hacc h'
      rcases ih (idx + 1) acc' h' with h1 | h1
      · exact Or.inl h1
      · exact hacc h1
    have hins : mapFind (mapInsert acc ⟨oldp, idx⟩ ⟨newp, idx⟩) k = some v →
        v.modp = newp ∨ mapFind acc k = some v := by
      intro h'
      rcases mapFind_mapInsert_inv _ _ _ _ _ h' with h1 | ⟨_, h2, _⟩
      · exact Or.inr h1
      · exact Or.inl (by rw [← h2])
    cases st with
    | Var x =>
      simp only [collectPinsLoop] at h
      split at h
      · exact step _ hins h
      · exact step _ Or.inr h
    | ParamTypeDType t =>
      simp only [collectPinsLoop] at h
      split at h
      · exact step _ hins h
      · exact step _ Or.inr h
    | Other n =>
      simp only [collectPinsLoop] at h
      exact step _ Or.inr h

theorem relinkPins_into (clonemap : List (VarId × VarId)) (j : Nat) (pins pins' : List AstPin)
    (hcm : ∀ k v, mapFind clonemap k = some v → v.modp = j)
    (h : relinkPins clonemap pins = .ok pins') : PinsInto j pins' := by
  induction pins generalizing pins' with
  | nil =>
    simp only [relinkPins, Except.ok.injEq] at h
    subst h
    intro p hp
    cases hp
  | cons p rest ih =>
    simp only [relinkPins] at h
    cases hv : p.modVarp with
    | some v =>
      simp only [hv] at h
      cases hf : mapFind clonemap v with
      | none => simp [hf, Except.bind] at h
      | some v' =>
        simp only [hf, Except.bind] at h
        cases hr : relinkPins clonemap rest with
        | error e => simp [hr] at h
        | ok ps =>
          simp only [hr, Except.ok.injEq] at h
          subst h
          intro q hq
          rcases List.mem_cons.1 hq with rfl | hq
          · exact ⟨fun w hw => by
              simp only [Option.some.injEq] at hw
              subst hw
              exact hcm v v' hf, fun hn => by simp at hn⟩
          · exact ih ps hr q hq
    | none =>
      simp only [hv] at h
      cases ht : p.modPTypep with
      | none => simp [ht, Except.bind] at h
      | some t =>
        simp only [ht] at h
        cases hf : mapFind clonemap t with
        | none => simp [hf, Except.bind] at h
        | some t' =>
          simp only [hf, Except.bind] at h
          cases hr : relinkPins clonemap rest with
          | error e => simp [hr] at h
          | ok ps =>
            simp only [hr, Except.ok.injEq] at h
            subst h
            intro q hq
            rcases List.mem_cons.1 hq with rfl | hq
            · exact ⟨fun w hw => by simp [hv] at hw, fun _ w hw => by
                simp only [Option.some.injEq] at hw
                subst hw
                exact hcm t t' hf⟩
            · exact ih ps hr q hq

theorem set_append_last {α : Type} (l : List α) (c x : α) :
    (l ++ [c]).set l.length x = l ++ [x] := by
  induction l with
  | nil => rfl
  | cons a l ih => simp [List.set, ih]

theorem getElem?_append_last {α : Type} (l : List α) (c : α) :
    (l ++ [c])[l.length]? = some c := by
  simp

/-- What `cloneFlavor` does to the state: one module is appended, a copy of
the source under the new name whose declarations may have been rewritten,
and it is entered in the cache under the new name. -/
theorem cloneFlavor_spec (env : Env) (s s' : ParamState) (srcModp : Nat) (cell cell' : AstCell)
    (newname : String) (refs : List (VarId × AstNode)) (info : ModInfo)
    (h : cloneFlavor env s srcModp cell newname refs = .ok (s', cell', info)) :
    ∃ src clone ms errs,
      s.mods[srcModp]? = some src
      ∧ s' = { s with mods := s.mods ++ [clone], modulesp := ms,
                      m_modNameMap := mapInsert s.m_modNameMap newname info, errors := errs }
      ∧ clone.name = newname ∧ clone.hierBlock = (src.hierBlock && !src.recursiveClone)
      ∧ clone.isIface = src.isIface ∧ StmtsRel src.stmts clone.stmts
      ∧ info.m_modp = s.mods.length
      ∧ info.m_cloneMap = collectPinsLoop srcModp s.mods.length src.stmts 0 []
      ∧ cell'.modp = cell.modp ∧ cell'.pinsp = cell.pinsp ∧ cell'.modName = cell.modName
      ∧ relinkPins info.m_cloneMap cell.paramsp = .ok cell'.paramsp := by
  unfold cloneFlavor at h
  cases hsrc : s.modAt srcModp with
  | error e => simp [hsrc, Except.bind] at h
  | ok src =>
    simp only [hsrc, Except.bind] at h
    cases hcur : s.m_modp with
    | none => simp [hcur] at h
    | some cur =>
      simp only [hcur] at h
      cases hcm : s.modAt cur with
      | error e => simp [hcm] at h
      | ok curMod =>
        simp only [hcm] at h
        generalize hsC : linkClone env s srcModp cell src (cloneOf src newname curMod.level)
            { m_modp := s.mods.length,
              m_cloneMap := collectPinsLoop srcModp s.mods.length
                (cloneOf src newname curMod.level).stmts 0 [] } = sC at h
        have hC : ∃ ms errs, sC = { s with
            mods := s.mods ++ [cloneOf src newname curMod.level], modulesp := ms,
            m_modNameMap := mapInsert s.m_modNameMap newname
              { m_modp := s.mods.length,
                m_cloneMap := collectPinsLoop srcModp s.mods.length
                  (cloneOf src newname curMod.level).stmts 0 [] },
            errors := errs } := by
          subst hsC
          unfold linkClone
          by_cases hc : (cloneOf src newname curMod.level).level - src.level
              ≥ env.moduleRecursionDepth - 2
          · simp only [hc, if_true]
            exact ⟨_, _, rfl⟩
          · simp only [hc, if_false]
            exact ⟨_, _, rfl⟩
        obtain ⟨ms, errs, hC⟩ := hC
        cases hrl : relinkPins (collectPinsLoop srcModp s.mods.length
            (cloneOf src newname curMod.level).stmts 0 []) cell.paramsp with
        | error e => simp [hrl] at h
        | ok paramsp =>
          simp only [hrl] at h
          cases hfix : fixIfaceRefs srcModp s.mods.length sC refs with
          | error e => simp [hfix] at h
          | ok sD =>
            simp only [hfix] at h
            cases has : assignParams env (cloneOf src newname curMod.level).hierBlock sD
                paramsp with
            | error e => simp [has] at h
            | ok sE =>
              simp only [has, Except.ok.injEq, Prod.mk.injEq] at h
              obtain ⟨rfl, rfl, rfl⟩ := h
              have hCj : sC.mods[s.mods.length]? = some (cloneOf src newname curMod.level) := by
                rw [hC]; exact getElem?_append_last _ _
              have h1 := fixIfaceRefs_updAt srcModp s.mods.length refs sC sD _ hCj hfix
              obtain ⟨_, mD, _, hDj⟩ := getElem?_of_updAt h1
              have hinto : PinsInto s.mods.length paramsp :=
                relinkPins_into _ _ _ _ (fun k v hkv => by
                  rcases collectPinsLoop_values _ _ _ _ _ _ _ hkv with h' | h'
                  · exact h'
                  · simp [mapFind] at h') hrl
              have h2 := assignParams_updAt env _ s.mods.length paramsp sD sE mD hDj hinto has
              obtain ⟨m, st, e, hm, hrel, hE⟩ := h1.trans_upd h2
              rw [hCj] at hm
              simp only [Option.some.injEq] at hm
              subst hm
              refine ⟨src, { cloneOf src newname curMod.level with stmts := st }, ms, e,
                modAt_eq_ok.1 hsrc, ?_, rfl, rfl, rfl, hrel, rfl, rfl, rfl, rfl, rfl, hrl⟩
              rw [hE, hC]
              simp only [set_append_last, hcur]

/-! ## The pin loops keep the graph -/

theorem appendValueNumber_loopRel (env : Env) (srcModp : Nat) (acc acc' : NameAcc)
    (varp : VarId) (valuep : AstNode)
    (h : appendValueNumber env srcModp acc varp valuep = .ok acc') : LoopRel acc.s acc'.s := by
  unfold appendValueNumber at h
  cases h1 : paramSmallName acc.s srcModp varp with
  | error e => simp [h1, Except.bind] at h
  | ok sm =>
    obtain ⟨c, s1⟩ := sm
    simp only [h1, Except.bind] at h
    cases h2 : paramValueNumber env s1 valuep with
    | error e => simp [h2] at h
    | ok tok =>
      obtain ⟨t, s2⟩ := tok
      simp only [h2, Except.ok.injEq] at h
      subst h
      exact (paramSmallName_loopRel _ _ _ _ _ h1).trans_loop (paramValueNumber_loopRel _ _ _ _ _ h2)

theorem pinError_loopRel (acc : NameAcc) (pinp : AstPin) (msg : String) :
    LoopRel acc.s (acc.pinError pinp msg).s :=
  LoopRel.v3error_loop _ _ _

theorem paramPin_loopRel (env : Env) (srcModp : Nat) (acc acc' : NameAcc) (pinp pinp' : AstPin)
    (h : paramPin env srcModp acc pinp = .ok (acc', pinp')) : LoopRel acc.s acc'.s := by
  unfold paramPin at h
  split at h
  · simp only [Except.ok.injEq, Prod.mk.injEq] at h
    obtain ⟨rfl, _⟩ := h
    exact LoopRel.refl_loop _
  · split at h
    · rename_i modvarp _
      cases hv : acc.s.varAt modvarp with
      | error e => simp [hv, Except.bind] at h
      | ok v =>
        simp only [hv, Except.bind] at h
        split at h
        · simp only [Except.ok.injEq, Prod.mk.injEq] at h
          obtain ⟨rfl, _⟩ := h
          exact pinError_loopRel _ _ _
        · split at h
          · cases ha : appendValueNumber env srcModp acc modvarp pinp.exprp with
            | error e => simp [ha, Except.map] at h
            | ok a =>
              simp only [ha, Except.map, Except.ok.injEq, Prod.mk.injEq] at h
              obtain ⟨rfl, _⟩ := h
              exact appendValueNumber_loopRel _ _ _ _ _ _ ha
          · split at h
            · simp only [Except.ok.injEq, Prod.mk.injEq] at h
              obtain ⟨rfl, _⟩ := h
              exact pinError_loopRel _ _ _
            · split at h
              · simp only [Except.ok.injEq, Prod.mk.injEq] at h
                obtain ⟨rfl, _⟩ := h
                exact LoopRel.refl_loop _
              · split at h
                · cases ha : appendValueNumber env srcModp acc modvarp pinp.exprp with
                  | error e => simp [ha, Except.map] at h
                  | ok a =>
                    simp only [ha, Except.map, Except.ok.injEq, Prod.mk.injEq] at h
                    obtain ⟨rfl, _⟩ := h
                    exact appendValueNumber_loopRel _ _ _ _ _ _ ha
                · cases hs : paramSmallName acc.s srcModp modvarp with
                  | error e => simp [hs] at h
                  | ok sm =>
                    simp only [hs, Except.ok.injEq, Prod.mk.injEq] at h
                    obtain ⟨rfl, _⟩ := h
                    exact paramSmallName_loopRel _ _ _ _ _ hs
    · split at h
      · rename_i modvarp _
        cases hv : acc.s.ptypeAt modvarp with
        | error e => simp [hv, Except.bind] at h
        | ok t =>
          simp only [hv, Except.bind] at h
          split at h
          · simp only [Except.ok.injEq, Prod.mk.injEq] at h
            obtain ⟨rfl, _⟩ := h
            exact pinError_loopRel _ _ _
          · split at h
            · simp only [Except.ok.injEq, Prod.mk.injEq] at h
              obtain ⟨rfl, _⟩ := h
              exact pinError_loopRel _ _ _
            · split at h
              · simp only [Except.ok.injEq, Prod.mk.injEq] at h
                obtain ⟨rfl, _⟩ := h
                exact LoopRel.refl_loop _
              · cases ha : appendValueNumber env srcModp acc modvarp
                    (env.constifyParamsEdit pinp.exprp) with
                | error e => simp [ha, Except.map] at h
                | ok a =>
                  simp only [ha, Except.map, Except.ok.injEq, Prod.mk.injEq] at h
                  obtain ⟨rfl, _⟩ := h
                  exact appendValueNumber_loopRel _ _ _ _ _ _ ha
      · simp only [Except.ok.injEq, Prod.mk.injEq] at h
        obtain ⟨rfl, _⟩ := h
        exact pinError_loopRel _ _ _

theorem paramPins_loopRel (env : Env) (srcModp : Nat) (pins pins' : List AstPin)
    (acc acc' : NameAcc) (h : paramPins env srcModp acc pins = .ok (acc', pins')) :
    LoopRel acc.s acc'.s := by
  induction pins generalizing acc pins' with
  | nil =>
    simp only [paramPins, Except.ok.injEq, Prod.mk.injEq] at h
    obtain ⟨rfl, _⟩ := h
    exact LoopRel.refl_loop _
  | cons p rest ih =>
    simp only [paramPins] at h
    cases h1 : paramPin env srcModp acc p with
    | error e => simp [h1, Except.bind] at h
    | ok r =>
      obtain ⟨a1, p1⟩ := r
      simp only [h1, Except.bind] at h
      cases h2 : paramPins env srcModp a1 rest with
      | error e => simp [h2] at h
      | ok rs =>
        obtain ⟨a2, ps⟩ := rs
        simp only [h2, Except.ok.injEq, Prod.mk.injEq] at h
        obtain ⟨rfl, _⟩ := h
        exact (paramPin_loopRel _ _ _ _ _ _ h1).trans_loop (ih ps a1 h2)

theorem ifacePin_loopRel (env : Env) (srcModp : Nat) (acc acc' : NameAcc) (pinp : AstPin)
    (h : ifacePin env srcModp acc pinp = .ok acc') : LoopRel acc.s acc'.s := by
  unfold ifacePin at h
  split at h
  · simp at h
  · rename_i modvarp _
    cases hv : acc.s.varAt modvarp with
    | error e => simp [hv, Except.bind] at h
    | ok v =>
      simp only [hv, Except.bind] at h
      split at h
      · cases hp : pinIfaceRef acc.s pinp.exprp with
        | error e => simp [hp] at h
        | ok pinIrefp =>
          simp only [hp] at h
          split at h
          · simp only [Except.ok.injEq] at h
            subst h
            exact pinError_loopRel _ _ _
          · split at h
            · simp only [Except.ok.injEq] at h
              subst h
              exact pinError_loopRel _ _ _
            · cases hv1 : ifaceViaCellp acc.s (portIfaceRef v.childDTypep) with
              | error e => simp [hv1] at h
              | ok portVia =>
                simp only [hv1] at h
                cases hv2 : ifaceViaCellp acc.s pinIrefp with
                | error e => simp [hv2] at h
                | ok pinVia =>
                  simp only [hv2] at h
                  split at h
                  · cases ha : appendValueNumber env srcModp acc modvarp pinIrefp with
                    | error e => simp [ha, Except.map] at h
                    | ok a =>
                      simp only [ha, Except.map, Except.ok.injEq] at h
                      subst h
                      have h0 := appendValueNumber_loopRel _ _ _ _ _ _ ha
                      split
                      · exact h0.trans_loop (LoopRel.v3error_loop _ _ _)
                      · exact h0
                  · simp only [Except.ok.injEq] at h
                    subst h
                    exact LoopRel.refl_loop _
      · simp only [Except.ok.injEq] at h
        subst h
        exact LoopRel.refl_loop _

theorem ifacePins_loopRel (env : Env) (srcModp : Nat) (pins : List AstPin)
    (acc acc' : NameAcc) (h : ifacePins env srcModp acc pins = .ok acc') :
    LoopRel acc.s acc'.s := by
  induction pins generalizing acc with
  | nil =>
    simp only [ifacePins, Except.ok.injEq] at h
    subst h
    exact LoopRel.refl_loop _
  | cons p rest ih =>
    simp only [ifacePins] at h
    cases h1 : ifacePin env srcModp acc p with
    | error e => simp [h1, Except.bind] at h
    | ok a1 =>
      simp only [h1, Except.bind] at h
      exact (ifacePin_loopRel _ _ _ _ _ h1).trans_loop (ih a1 h)

theorem modSmallOk_of_stmts {m m' : AstNodeModule} (h : m'.stmts = m.stmts)
    (hm : ModSmallOk m) : ModSmallOk m' := by
  intro idx st hst hl
  rw [h] at hst ⊢
  exact hm idx st hst hl

theorem cellNames_loopRel (env : Env) (s : ParamState) (srcModp : Nat) (cell cell' : AstCell)
    (hierName : String) (acc : NameAcc)
    (h : cellNames env s srcModp cell hierName = .ok (acc, cell')) : LoopRel s acc.s := by
  unfold cellNames at h
  cases hsrc : s.modAt srcModp with
  | error e => simp [hsrc, Except.bind] at h
  | ok src =>
    simp only [hsrc, Except.bind] at h
    split at h
    · simp at h
    · rename_i r hr
      split at h
      · simp at h
      · rename_i a ha
        simp only [Except.ok.injEq, Prod.mk.injEq] at h
        obtain ⟨rfl, _⟩ := h
        have h0 : LoopRel s (s.setMod srcModp
            { src with hierName := hierName ++ ("." ++ cell.name) }) :=
          LoopRel.setMod s srcModp src _ hsrc rfl (modSmallOk_of_stmts rfl)
        exact (h0.trans_loop (paramPins_loopRel _ _ _ _ _ _ hr)).trans_loop
          (ifacePins_loopRel _ _ _ _ _ ha)

/-! ## What a call of `visitCell` keeps -/

theorem StepRel.refl_step (s : ParamState) : StepRel s s := ⟨Later.refl_later s, id, id, rfl⟩

theorem StepRel.trans_step {a b c : ParamState} (h1 : StepRel a b) (h2 : StepRel b c) :
    StepRel a c :=
  ⟨h1.later.trans_later h2.later, fun h => h2.cacheOk (h1.cacheOk h),
    fun h => h2.small (h1.small h), h2.cells.trans h1.cells⟩

theorem cacheOk_of_later {s s' : ParamState} (hl : Later s s')
    (hc : s'.m_modNameMap = s.m_modNameMap) (h : CacheOk s) : CacheOk s' := by
  intro k info hk
  rw [hc] at hk
  obtain ⟨m, hm, hn⟩ := h k info hk
  obtain ⟨m', hm', hv⟩ := hl.mods _ m hm
  refine ⟨m', hm', ?_⟩
  have := congrArg (fun v => v.1.1) hv
  simp only [modView] at this
  rw [this, hn]

theorem LoopRel.stepRel {s s' : ParamState} (h : LoopRel s s') : StepRel s s' := by
  refine ⟨h.later, ?_, h.small, ?_⟩
  · obtain ⟨_, _, _, _, rfl, _, _⟩ := id h
    exact cacheOk_of_later h.later rfl
  · obtain ⟨_, _, _, _, rfl, _, _⟩ := id h
    rfl

/-- A state that differs in neither modules nor tables. -/
theorem StepRel.of_eq {s s' : ParamState} (hm : s'.mods = s.mods)
    (hc : s'.m_modNameMap = s.m_modNameMap) (hl : s'.m_longMap = s.m_longMap)
    (hh : s'.m_hierBlocks = s.m_hierBlocks) (hcl : s'.cells.length = s.cells.length) :
    StepRel s s' := by
  have hlater : Later s s' :=
    ⟨fun i m h => ⟨m, by rw [hm]; exact h, rfl⟩, fun k v h => by rw [hl]; exact h,
      fun k v h => by rw [hc]; exact h, hh⟩
  exact ⟨hlater, cacheOk_of_later hlater hc, fun h i m hi => h i m (by rw [← hm]; exact hi), hcl⟩

theorem canon4_of_letters {a b : List ModStmt} (h : b.map stmtLetter = a.map stmtLetter)
    (idx : Nat) : canon4 b idx = canon4 a idx := by
  unfold canon4
  rw [h]

theorem modSmallOk_of_stmtsRel {m m' : AstNodeModule} (h : StmtsRel m.stmts m'.stmts)
    (hm : ModSmallOk m) : ModSmallOk m' := by
  intro idx st' hst' hl'
  obtain ⟨hlet, hu⟩ := h
  have h1 := congrArg (fun l => l[idx]?) hlet
  have h2 := congrArg (fun l => l[idx]?) hu
  simp only [List.getElem?_map, hst', Option.map_some'] at h1 h2
  cases hst : m.stmts[idx]? with
  | none => simp [hst] at h1
  | some st =>
    simp only [hst, Option.map_some', Option.some.injEq] at h1 h2
    rw [canon4_of_letters hlet, h2]
    exact hm idx st hst (by rw [← h1]; exact hl')

theorem parametrizedHierBlockName_state (env : Env) (fuel : Nat) (s s' : ParamState)
    (m : AstNodeModule) (pars : List AstPin) (n : String)
    (h : parametrizedHierBlockName env fuel s m pars = .ok (n, s')) :
    ∃ rc, s' = { s with randomCalls := rc } := by
  unfold parametrizedHierBlockName at h
  cases hp : hierBlockHashPins env s pars with
  | error e => simp [hp, Except.bind] at h
  | ok pins =>
    simp only [hp, Except.bind] at h
    by_cases he : m.name.isEmpty = true
    · rw [if_pos he] at h
      cases h
    · rw [if_neg he] at h
      split at h
      · cases h
      · rename_i r _
        simp only [Except.ok.injEq, Prod.mk.injEq] at h
        exact ⟨r.2, h.2.symm⟩

theorem resolveName_spec (env : Env) (fuel : Nat) (s s' : ParamState) (src : AstNodeModule)
    (pars : List AstPin) (longname newname : String)
    (h : resolveName env fuel s src pars longname = .ok (newname, s')) :
    (∃ lm lid rc, s' = { s with m_longMap := lm, m_longId := lid, randomCalls := rc }
      ∧ ∀ k v, mapFind s.m_longMap k = some v → mapFind lm k = some v)
    ∧ ((longname.utf8ByteSize > 30 || src.hierBlock) = true →
        mapFind s'.m_longMap longname = some newname)
    ∧ ((longname.utf8ByteSize > 30 || src.hierBlock) = false → newname = longname ∧ s' = s) := by
  unfold resolveName at h
  by_cases hc : (decide (longname.utf8ByteSize > 30) || src.hierBlock) = true
  · simp only [hc, if_true] at h
    cases hf : mapFind s.m_longMap longname with
    | some n =>
      simp only [hf, Except.ok.injEq, Prod.mk.injEq] at h
      obtain ⟨rfl, rfl⟩ := h
      exact ⟨⟨s.m_longMap, s.m_longId, s.randomCalls, rfl, fun _ _ h => h⟩, fun _ => hf,
        fun hn => by rw [hc] at hn; cases hn⟩
    | none =>
      simp only [hf] at h
      by_cases hb : src.hierBlock = true
      · simp only [hb, if_true] at h
        cases hp : parametrizedHierBlockName env fuel s src pars with
        | error e => simp [hp, Except.bind] at h
        | ok r =>
          obtain ⟨n, s1⟩ := r
          obtain ⟨rc, rfl⟩ := parametrizedHierBlockName_state _ _ _ _ _ _ _ hp
          simp only [hp, Except.bind, Except.ok.injEq, Prod.mk.injEq] at h
          obtain ⟨rfl, rfl⟩ := h
          exact ⟨⟨_, s.m_longId, rc, rfl, fun k v hk => mapFind_mapInsert_of_some _ _ _ _ _ hk⟩,
            fun _ => mapFind_mapInsert_self _ _ _ hf, fun hn => by rw [hc] at hn; cases hn⟩
      · simp only [hb, if_false, Except.bind, Except.ok.injEq, Prod.mk.injEq] at h
        obtain ⟨rfl, rfl⟩ := h
        exact ⟨⟨_, _, s.randomCalls, rfl, fun k v hk => mapFind_mapInsert_of_some _ _ _ _ _ hk⟩,
          fun _ => mapFind_mapInsert_self _ _ _ hf, fun hn => by rw [hc] at hn; cases hn⟩
  · simp only [hc, if_false, Except.ok.injEq, Prod.mk.injEq] at h
    obtain ⟨rfl, rfl⟩ := h
    exact ⟨⟨s.m_longMap, s.m_longId, s.randomCalls, rfl, fun _ _ h => h⟩,
      fun hn => absurd hn hc, fun _ => ⟨rfl, rfl⟩⟩

theorem resolveName_stepRel (env : Env) (fuel : Nat) (s s' : ParamState) (src : AstNodeModule)
    (pars : List AstPin) (longname newname : String)
    (h : resolveName env fuel s src pars longname = .ok (newname, s')) : StepRel s s' := by
  obtain ⟨⟨lm, lid, rc, rfl, hlm⟩, _, _⟩ := resolveName_spec _ _ _ _ _ _ _ _ h
  have hlater : Later s { s with m_longMap := lm, m_longId := lid, randomCalls := rc } :=
    ⟨fun i m h => ⟨m, h, rfl⟩, hlm, fun _ _ h => h, rfl⟩
  exact ⟨hlater, cacheOk_of_later hlater rfl, fun h => h, rfl⟩

theorem cloneFlavor_stepRel (env : Env) (s s' : ParamState) (srcModp : Nat)
    (cell cell' : AstCell) (newname : String) (refs : List (VarId × AstNode)) (info : ModInfo)
    (h : cloneFlavor env s srcModp cell newname refs = .ok (s', cell', info)) :
    StepRel s s' := by
  obtain ⟨src, clone, ms, errs, hsrc, rfl, hname, _, _, hrel, hmodp, _, _, _, _, _⟩ :=
    cloneFlavor_spec _ _ _ _ _ _ _ _ _ h
  have hget : ∀ (i : Nat) (m : AstNodeModule), s.mods[i]? = some m →
      (s.mods ++ [clone])[i]? = some m := by
    intro i m hi
    rw [List.getElem?_append_left (List.getElem?_eq_some.1 hi).1]
    exact hi
  refine ⟨⟨fun i m hi => ⟨m, hget i m hi, rfl⟩, fun _ _ h => h,
    fun k v hk => mapFind_mapInsert_of_some _ _ _ _ _ hk, rfl⟩, ?_, ?_, rfl⟩
  · intro hok k inf hk
    rcases mapFind_mapInsert_inv _ _ _ _ _ hk with h1 | ⟨h1, h2, _⟩
    · obtain ⟨m, hm, hn⟩ := hok k inf h1
      exact ⟨m, hget _ m hm, hn⟩
    · subst h2
      refine ⟨clone, ?_, by rw [hname, h1]⟩
      show (s.mods ++ [clone])[info.m_modp]? = some clone
      rw [hmodp]
      exact getElem?_append_last _ _
  · intro hok i m hi
    show ModSmallOk m
    have hi' : (s.mods ++ [clone])[i]? = some m := hi
    by_cases hlt : i < s.mods.length
    · rw [List.getElem?_append_left hlt] at hi'
      exact hok i m hi'
    · have hge : s.mods.length ≤ i := Nat.le_of_not_lt hlt
      rw [List.getElem?_append_right hge] at hi'
      have hz : i - s.mods.length = 0 := by
        by_contra hne
        have : ([clone] : List AstNodeModule)[i - s.mods.length]? = none := by
          apply List.getElem?_eq_none
          simp
          omega
        rw [this] at hi'
        cases hi'
      rw [hz] at hi'
      simp only [List.getElem?_cons_zero, Option.some.injEq] at hi'
      subst hi'
      exact modSmallOk_of_stmtsRel hrel (hok srcModp src hsrc)

/-- What the cache probe leaves: the cell refers to the module of the cache
entry under `newname`, which was there (no clone is made) or is the new
flavour. -/
theorem specializeByName_spec (env : Env) (s s' : ParamState) (srcModp : Nat)
    (cell cell' : AstCell) (newname : String) (refs : List (VarId × AstNode))
    (h : specializeByName env s srcModp cell newname refs = .ok (s', cell')) :
    ∃ info, mapFind s'.m_modNameMap newname = some info
      ∧ cell'.modp = some info.m_modp ∧ cell'.modName = newname
      ∧ relinkPins info.m_cloneMap cell.pinsp = .ok cell'.pinsp
      ∧ StepRel s s' ∧ s'.cells = s.cells
      ∧ (mapFind s.m_modNameMap newname = some info → s' = s) := by
  unfold specializeByName at h
  cases hf : mapFind s.m_modNameMap newname with
  | some info =>
    simp only [hf, Except.bind] at h
    cases hr : relinkPins info.m_cloneMap cell.pinsp with
    | error e => simp [hr] at h
    | ok pinsp =>
      simp only [hr, Except.ok.injEq, Prod.mk.injEq] at h
      obtain ⟨rfl, rfl⟩ := h
      exact ⟨info, hf, rfl, rfl, hr, StepRel.refl_step _, rfl, fun _ => rfl⟩
  | none =>
    simp only [hf] at h
    cases hc : cloneFlavor env s srcModp cell newname refs with
    | error e => simp [hc, Except.bind] at h
    | ok r =>
      obtain ⟨s1, cell1, info⟩ := r
      simp only [hc, Except.bind] at h
      cases hr : relinkPins info.m_cloneMap cell1.pinsp with
      | error e => simp [hr] at h
      | ok pinsp =>
        simp only [hr, Except.ok.injEq, Prod.mk.injEq] at h
        obtain ⟨rfl, rfl⟩ := h
        have hstep := cloneFlavor_stepRel _ _ _ _ _ _ _ _ _ hc
        obtain ⟨src, clone, ms, errs, _, hs1, _, _, _, _, _, _, _, hpins, _, _⟩ :=
          cloneFlavor_spec _ _ _ _ _ _ _ _ _ hc
        refine ⟨info, ?_, rfl, rfl, by rw [← hpins]; exact hr, hstep, by rw [hs1],
          fun h' => by cases h'⟩
        rw [hs1]
        exact mapFind_mapInsert_self _ _ _ hf

/-- The three ways of `specializeCell`. -/
theorem specializeCell_inv (env : Env) (fuel : Nat) (acc : NameAcc) (srcModp : Nat)
    (cell cell' : AstCell) (s' : ParamState)
    (h : specializeCell env fuel acc srcModp cell = .ok (s', cell')) :
    (acc.any_overrides = false ∧ s' = acc.s ∧ cell' = cell)
    ∨ (acc.any_overrides = true ∧ ∃ src modp m pinsp,
        acc.s.modAt srcModp = .ok src
        ∧ findByParams env acc.s src.name cell.paramsp = .ok (some modp)
        ∧ acc.s.modAt modp = .ok m
        ∧ relinkPinsByName (acc.s.setMod modp { m with dead := false }) modp
            (nameToPinLoop modp m.stmts 0 []) cell.pinsp = .ok pinsp
        ∧ s' = acc.s.setMod modp { m with dead := false }
        ∧ cell' = { cell with modp := some modp, modName := m.name, pinsp := pinsp })
    ∨ (acc.any_overrides = true ∧ ∃ src newname sR,
        acc.s.modAt srcModp = .ok src
        ∧ findByParams env acc.s src.name cell.paramsp = .ok none
        ∧ resolveName env fuel acc.s src cell.paramsp acc.longname = .ok (newname, sR)
        ∧ specializeByName env sR srcModp cell newname acc.ifaceRefRefs = .ok (s', cell')) := by
  unfold specializeCell at h
  by_cases ho : acc.any_overrides = true
  · simp only [ho, Bool.not_true, Bool.false_eq_true, if_false] at h
    cases hsrc : acc.s.modAt srcModp with
    | error e => simp [hsrc, Except.bind] at h
    | ok src =>
      simp only [hsrc, Except.bind] at h
      cases hfb : findByParams env acc.s src.name cell.paramsp with
      | error e => simp [hfb] at h
      | ok r =>
        simp only [hfb] at h
        cases r with
        | some modp =>
          simp only at h
          cases hm : acc.s.modAt modp with
          | error e => simp [hm] at h
          | ok m =>
            simp only [hm] at h
            cases hr : relinkPinsByName (acc.s.setMod modp { m with dead := false }) modp
                (nameToPinLoop modp m.stmts 0 []) cell.pinsp with
            | error e => simp [hr] at h
            | ok pinsp =>
              simp only [hr, Except.ok.injEq, Prod.mk.injEq] at h
              obtain ⟨rfl, rfl⟩ := h
              exact Or.inr (Or.inl ⟨ho, src, modp, m, pinsp, rfl, hfb, hm, hr, rfl, rfl⟩)
        | none =>
          simp only at h
          cases hn : resolveName env fuel acc.s src cell.paramsp acc.longname with
          | error e => simp [hn] at h
          | ok r =>
            obtain ⟨newname, sR⟩ := r
            simp only [hn] at h
            exact Or.inr (Or.inr ⟨ho, src, newname, sR, rfl, hfb, hn, h⟩)
  · have ho' : acc.any_overrides = false := by simpa using ho
    simp only [ho', Bool.not_false, if_true, Except.ok.injEq, Prod.mk.injEq] at h
    obtain ⟨rfl, rfl⟩ := h
    exact Or.inl ⟨ho', rfl, rfl⟩

theorem specializeCell_stepRel (env : Env) (fuel : Nat) (acc : NameAcc) (srcModp : Nat)
    (cell cell' : AstCell) (s' : ParamState)
    (h : specializeCell env fuel acc srcModp cell = .ok (s', cell')) :
    StepRel acc.s s' ∧ s'.cells = acc.s.cells := by
  rcases specializeCell_inv _ _ _ _ _ _ _ h with ⟨_, rfl, _⟩ |
    ⟨_, src, modp, m, pinsp, _, _, hm, _, rfl, _⟩ | ⟨_, src, newname, sR, _, _, hn, hs⟩
  · exact ⟨StepRel.refl_step _, rfl⟩
  · exact ⟨(LoopRel.setMod acc.s modp m { m with dead := false } hm rfl
      (modSmallOk_of_stmts rfl)).stepRel, rfl⟩
  · obtain ⟨_, _, _, _, _, hstep, hcells, _⟩ := specializeByName_spec _ _ _ _ _ _ _ _ hs
    obtain ⟨⟨lm, lid, rc, hsR, _⟩, _, _⟩ := resolveName_spec _ _ _ _ _ _ _ _ hn
    exact ⟨(resolveName_stepRel _ _ _ _ _ _ _ _ hn).trans_step hstep, by rw [hcells, hsR]⟩

/-- The phases of a call of `visitCell` that returns. -/
theorem visitCell_inv (env : Env) (fuel : Nat) (s s' : ParamState) (nodep : Nat)
    (hierName : String) (h : visitCell env fuel s nodep hierName = .ok s') :
    ∃ cell srcModp acc cell1 sB cell2 modp m,
      s.cellAt nodep = .ok cell ∧ cell.modp = some srcModp
      ∧ cellNames env s srcModp cell hierName = .ok (acc, cell1)
      ∧ specializeCell env fuel acc srcModp cell1 = .ok (sB, cell2)
      ∧ cell2.modp = some modp ∧ sB.modAt modp = .ok m
      ∧ s' = { sB.setCell nodep { cell2 with recursive := false, paramsp := [] } with
               m_todoModps := todoInsert sB.m_todoModps m.level modp } := by
  unfold visitCell at h
  cases hc : s.cellAt nodep with
  | error e => simp [hc, Except.bind] at h
  | ok cell =>
    simp only [hc, Except.bind] at h
    cases hm : cell.modp with
    | none => simp [hm] at h
    | some srcModp =>
      simp only [hm] at h
      cases hn : cellNames env s srcModp cell hierName with
      | error e => simp [hn] at h
      | ok r =>
        obtain ⟨acc, cell1⟩ := r
        simp only [hn] at h
        cases hs : specializeCell env fuel acc srcModp cell1 with
        | error e => simp [hs] at h
        | ok r2 =>
          obtain ⟨sB, cell2⟩ := r2
          simp only [hs, finishCell] at h
          cases hm2 : cell2.modp with
          | none => simp [hm2] at h
          | some modp =>
            simp only [hm2] at h
            cases hmm : sB.modAt modp with
            | error e => simp [hmm, Except.bind] at h
            | ok m =>
              simp only [hmm, Except.bind, Except.ok.injEq] at h
              refine ⟨cell, srcModp, acc, cell1, sB, cell2, modp, m, rfl, hm, hn, hs, hm2, hmm,
                ?_⟩
              rw [← h, hm2]

theorem visitCell_stepRel (env : Env) (fuel : Nat) (s s' : ParamState) (nodep : Nat)
    (hierName : String) (h : visitCell env fuel s nodep hierName = .ok s') : StepRel s s' := by
  obtain ⟨cell, srcModp, acc, cell1, sB, cell2, modp, m, _, _, hn, hs, _, _, rfl⟩ :=
    visitCell_inv _ _ _ _ _ _ h
  have h1 := (cellNames_loopRel _ _ _ _ _ _ _ hn).stepRel
  have h2 := (specializeCell_stepRel _ _ _ _ _ _ _ hs).1
  have h3 : StepRel sB { sB.setCell nodep { cell2 with recursive := false, paramsp := [] } with
      m_todoModps := todoInsert sB.m_todoModps m.level modp } :=
    StepRel.of_eq rfl rfl rfl rfl (by simp [ParamState.setCell])
  exact (h1.trans_step h2).trans_step h3

theorem visitStep_stepRel (env : Env) (fuel : Nat) (s s' : ParamState) (v : CellVisit)
    (h : visitStep env fuel s v = .ok s') : StepRel s s' := by
  have h0 : StepRel s { s with m_modp := some v.modp } := StepRel.of_eq rfl rfl rfl rfl rfl
  exact h0.trans_step (visitCell_stepRel _ _ _ _ _ _ h)

theorem visitSteps_stepRel (env : Env) (fuel : Nat) (vs : List CellVisit) (s s' : ParamState)
    (h : visitSteps env fuel s vs = .ok s') : StepRel s s' := by
  induction vs generalizing s with
  | nil =>
    simp only [visitSteps, Except.ok.injEq] at h
    subst h
    exact StepRel.refl_step _
  | cons v vs ih =>
    simp only [visitSteps] at h
    cases h1 : visitStep env fuel s v with
    | error e => simp [h1, Except.bind] at h
    | ok s1 =>
      simp only [h1, Except.bind] at h
      exact (visitStep_stepRel _ _ _ _ _ h1).trans_step (ih s1 h)

/-! ## Distinct names, distinct modules -/

theorem LoopRel.cells {s s' : ParamState} (h : LoopRel s s') : s'.cells = s.cells := by
  obtain ⟨_, _, _, _, rfl, _, _⟩ := h
  rfl

theorem cellAt_lt {s : ParamState} {i : Nat} {c : AstCell} (h : s.cellAt i = .ok c) :
    i < s.cells.length := by
  unfold ParamState.cellAt at h
  cases hc : s.cells[i]? with
  | none => simp [hc] at h
  | some x => exact (List.getElem?_eq_some.1 hc).1

/-- After a visit on the cloning path the cell bears the derived name and
refers to the module that the cache holds under that name. -/
theorem visitStep_namePath (env : Env) (fuel : Nat) (s s' : ParamState) (v : CellVisit)
    (h : visitStep env fuel s v = .ok s') (hp : TakesNamePath env s v) :
    ∃ c info, s'.cellAt v.nodep = .ok c
      ∧ mapFind s'.m_modNameMap c.modName = some info ∧ c.modp = some info.m_modp := by
  obtain ⟨cell, srcModp, acc, cell1, sB, cell2, modp, m, hc, hm, hn, hs, hm2, _, rfl⟩ :=
    visitCell_inv _ _ _ _ _ _ h
  obtain ⟨cell', srcModp', acc', cell1', src', hc', hm', hn', ho', hsrc', hfb'⟩ := hp
  have e1 : cell' = cell := by
    have : ({ s with m_modp := some v.modp } : ParamState).cellAt v.nodep = s.cellAt v.nodep := rfl
    rw [this, hc'] at hc
    exact Except.ok.inj hc
  subst e1
  have e2 : srcModp' = srcModp := by rw [hm'] at hm; exact Option.some.inj hm
  subst e2
  rw [hn'] at hn
  simp only [Except.ok.injEq, Prod.mk.injEq] at hn
  obtain ⟨rfl, rfl⟩ := hn
  have hlt : v.nodep < sB.cells.length := by
    rw [(specializeCell_stepRel _ _ _ _ _ _ _ hs).2, (cellNames_loopRel _ _ _ _ _ _ _ hn').cells]
    exact cellAt_lt hc'
  rcases specializeCell_inv _ _ _ _ _ _ _ hs with ⟨hf, _, _⟩ |
    ⟨_, src, modp', m', pinsp, hsrc, hfb, _⟩ | ⟨_, src, newname, sR, hsrc, hfb, hrn, hsn⟩
  · rw [ho'] at hf; cases hf
  · rw [hsrc'] at hsrc
    have := Except.ok.inj hsrc
    subst this
    rw [hfb'] at hfb
    cases hfb
  · obtain ⟨info, hfind, hmodp, hname, _, _, _, _⟩ := specializeByName_spec _ _ _ _ _ _ _ _ hsn
    refine ⟨{ cell2 with recursive := false, paramsp := [] }, info, ?_, ?_, hmodp⟩
    · simp [ParamState.cellAt, ParamState.setCell, hlt]
    · show mapFind sB.m_modNameMap cell2.modName = some info
      rw [hname]
      exact hfind

/-- The cache keeps names apart: two cells whose visits take the cloning path
and derive different names are bound to two distinct modules, whatever cells
are specialized in between; the clone made under one name is never returned
for the other name. -/
theorem visitCell_distinct_names (env : Env) (fuel : Nat) (s s1 s2 s3 : ParamState)
    (v1 v2 : CellVisit) (mids : List CellVisit) (c1 c2 : AstCell)
    (hok : CacheOk s)
    (h1 : visitStep env fuel s v1 = .ok s1) (hp1 : TakesNamePath env s v1)
    (hm : visitSteps env fuel s1 mids = .ok s2)
    (h2 : visitStep env fuel s2 v2 = .ok s3) (hp2 : TakesNamePath env s2 v2)
    (hc1 : s1.cellAt v1.nodep = .ok c1) (hc2 : s3.cellAt v2.nodep = .ok c2)
    (hne : c1.modName ≠ c2.modName) :
    c1.modp ≠ c2.modp ∧ c1.modp.isSome = true ∧ c2.modp.isSome = true := by
  obtain ⟨c1', info1, hc1', hf1, hm1⟩ := visitStep_namePath _ _ _ _ _ h1 hp1
  obtain ⟨c2', info2, hc2', hf2, hm2⟩ := visitStep_namePath _ _ _ _ _ h2 hp2
  rw [hc1] at hc1'
  rw [hc2] at hc2'
  have e1 := Except.ok.inj hc1'
  have e2 := Except.ok.inj hc2'
  subst e1 e2
  have st1 := visitStep_stepRel _ _ _ _ _ h1
  have st2 := visitSteps_stepRel _ _ _ _ _ hm
  have st3 := visitStep_stepRel _ _ _ _ _ h2
  have hok3 : CacheOk s3 := st3.cacheOk (st2.cacheOk (st1.cacheOk hok))
  have hf1' : mapFind s3.m_modNameMap c1.modName = some info1 :=
    st3.later.cache _ _ (st2.later.cache _ _ hf1)
  obtain ⟨m1, hmod1, hn1⟩ := hok3 _ _ hf1'
  obtain ⟨m2, hmod2, hn2⟩ := hok3 _ _ hf2
  refine ⟨?_, by rw [hm1]; rfl, by rw [hm2]; rfl⟩
  intro heq
  rw [hm1, hm2] at heq
  have hi : info1.m_modp = info2.m_modp := Option.some.inj heq
  rw [hi, hmod2] at hmod1
  have := Option.some.inj hmod1
  subst this
  exact hne (hn1.symm.trans hn2)

/-! ## Lookups in a later state -/

/-- A declaration of an existing module is found in a later state, the same
up to `user4`. -/
theorem stmtAt_later {x y : ParamState} (h : Later x y) (v : VarId) (st : ModStmt)
    (hx : x.stmtAt v = .ok st) : ∃ st', y.stmtAt v = .ok st' ∧ zero4 st' = zero4 st := by
  unfold ParamState.stmtAt at hx ⊢
  cases hm : x.modAt v.modp with
  | error e => simp [hm, Except.bind] at hx
  | ok m =>
    simp only [hm, Except.bind] at hx
    obtain ⟨m', hm', hv⟩ := h.mods _ m (modAt_eq_ok.1 hm)
    rw [modAt_eq_ok.2 hm']
    simp only [Except.bind]
    cases hst : m.stmts[v.idx]? with
    | none => simp [hst] at hx
    | some st0 =>
      simp only [hst, Except.ok.injEq] at hx
      subst hx
      have hz : m'.stmts.map zero4 = m.stmts.map zero4 := by
        have := congrArg (fun t => t.2.2.2) hv
        simpa [modView] using this
      have h1 := congrArg (fun l => l[v.idx]?) hz
      simp only [List.getElem?_map, hst, Option.map_some'] at h1
      cases hst' : m'.stmts[v.idx]? with
      | none => simp [hst'] at h1
      | some st' =>
        simp only [hst', Option.map_some', Option.some.injEq] at h1
        exact ⟨st', rfl, h1⟩

theorem modAt_later {x y : ParamState} (h : Later x y) (i : Nat) (m : AstNodeModule)
    (hx : x.modAt i = .ok m) : ∃ m', y.modAt i = .ok m' ∧ modView m' = modView m := by
  obtain ⟨m', hm', hv⟩ := h.mods i m (modAt_eq_ok.1 hx)
  exact ⟨m', modAt_eq_ok.2 hm', hv⟩

theorem modView_name {m m' : AstNodeModule} (h : modView m' = modView m) :
    m'.name = m.name ∧ m'.hierBlock = m.hierBlock := by
  simp only [modView, Prod.mk.injEq] at h
  exact ⟨h.1.1, h.2.1⟩

theorem modView_level {m m' : AstNodeModule} (h : modView m' = modView m) :
    m'.level = m.level := by
  simp only [modView, Prod.mk.injEq] at h
  exact h.1.2.1

theorem modView_recursiveClone {m m' : AstNodeModule} (h : modView m' = modView m) :
    m'.recursiveClone = m.recursiveClone := by
  simp only [modView, Prod.mk.injEq] at h
  exact h.1.2.2

theorem cellAt_finish (s : ParamState) (i : Nat) (c : AstCell) (t : List (Int × Nat))
    (h : i < s.cells.length) :
    ParamState.cellAt { s.setCell i c with m_todoModps := t } i = .ok c := by
  simp [ParamState.cellAt, ParamState.setCell, List.getElem?_set, h]

theorem LoopRel.fields {s s' : ParamState} (h : LoopRel s s') :
    s'.mods.length = s.mods.length ∧ s'.m_modNameMap = s.m_modNameMap
      ∧ s'.modulesp = s.modulesp := by
  obtain ⟨mods, _, _, _, rfl, hm, _⟩ := h
  refine ⟨?_, rfl, rfl⟩
  have := congrArg List.length hm
  simpa using this

theorem SameView.symm {x y : ParamState} (h : SameView x y) : SameView y x :=
  ⟨h.1.symm, h.2.symm⟩

theorem LoopRel.later_rev {s s' : ParamState} (h : LoopRel s s') : Later s' s := by
  obtain ⟨mods, vm, nv, errs, rfl, hm, _⟩ := h
  refine ⟨?_, fun _ _ h => h, fun _ _ h => h, rfl⟩
  intro i m hi
  have h1 := congrArg (fun l => l[i]?) hm
  simp only [List.getElem?_map] at h1
  have hi' : mods[i]? = some m := hi
  rw [hi'] at h1
  cases hx : s.mods[i]? with
  | none => simp [hx] at h1
  | some m' =>
    simp only [hx, Option.map_some', Option.some.injEq] at h1
    exact ⟨m', rfl, h1.symm⟩

theorem editPin_links (env : Env) (p : AstPin) :
    (editPin env p).modVarp = p.modVarp ∧ (editPin env p).modPTypep = p.modPTypep := by
  unfold editPin
  split <;> exact ⟨rfl, rfl⟩

theorem eq_ok_resultOf (e : Except Failure ParamState) (h : e.toBool = true) :
    e = .ok (resultOf e) := by
  cases e with
  | error x => simp [Except.toBool] at h
  | ok s => rfl

/-- C2: the claim fails on the code.  With hash collisions forced, cell `c0`
of `twoArrayDesign` binds the array parameter `A` to `'{3, 4}` and cell `c1`
binds it to `'{5, 6}`; both array values get the token `z1` (equal hash, and
the key of an array initializer is its empty name), both cells derive the
name `sub__Az1`, and the visit of `c1` is a cache hit: both cells are bound
to module 2, in which `A` is `'{3, 4}`; one clone is made. -/
theorem visitCell_arrays_share_module :
    mkInitArrayOf 3 4 ≠ mkInitArrayOf 5 6
    ∧ (paramValueNumbers collideEnv twoArrayDesign [mkInitArrayOf 3 4, mkInitArrayOf 5 6]).map
        (·.1) = .ok ["z1", "z1"]
    ∧ (visitSteps collideEnv 0 twoArrayDesign [⟨0, 0, "top"⟩, ⟨0, 1, "top"⟩]).map
        (fun s => (s.summary, s.cells.map (·.modName), (s.varAt ⟨2, 0⟩).map (·.valuep)))
      = .ok (([some 2, some 2], 3, 1, [0, 1, 2]), ["sub__Az1", "sub__Az1"],
             .ok (mkInitArrayOf 3 4)) := by
  decide

/-! ## The cloning path of a visit -/

theorem namePath_inv (env : Env) (s : ParamState) (v : CellVisit) (L name : String)
    (hb ov : Bool) (f : Option Nat) (h : namePath env s v = .ok (L, name, hb, ov, f)) :
    ∃ cell T acc cell1 src, s.cellAt v.nodep = .ok cell ∧ cell.modp = some T
      ∧ cellNames env { s with m_modp := some v.modp } T cell v.hierName = .ok (acc, cell1)
      ∧ acc.s.modAt T = .ok src
      ∧ findByParams env acc.s src.name cell1.paramsp = .ok f
      ∧ acc.longname = L ∧ src.name = name ∧ src.hierBlock = hb ∧ acc.any_overrides = ov := by
  unfold namePath at h
  cases hc : s.cellAt v.nodep with
  | error e => simp [hc, Except.bind] at h
  | ok cell =>
    simp only [hc, Except.bind] at h
    cases hT : cell.modp with
    | none => simp [hT] at h
    | some T =>
      simp only [hT] at h
      cases hn : cellNames env { s with m_modp := some v.modp } T cell v.hierName with
      | error e => simp [hn] at h
      | ok r =>
        obtain ⟨acc, cell1⟩ := r
        simp only [hn] at h
        cases hsrc : acc.s.modAt T with
        | error e => simp [hsrc] at h
        | ok src =>
          simp only [hsrc] at h
          cases hf : findByParams env acc.s src.name cell1.paramsp with
          | error e => simp [hf, Except.map] at h
          | ok f' =>
            simp only [hf, Except.map, Except.ok.injEq, Prod.mk.injEq] at h
            obtain ⟨h1, h2, h3, h4, h5⟩ := h
            exact ⟨cell, T, acc, cell1, src, rfl, hT, hn, hsrc, by rw [hf, h5], h1, h2, h3, h4⟩

/-- The phases of a visit that takes the cloning path. -/
theorem visitStep_name_inv (env : Env) (fuel : Nat) (s s' : ParamState) (v : CellVisit)
    (cell cell1 : AstCell) (T : Nat) (acc : NameAcc) (src : AstNodeModule)
    (h : visitStep env fuel s v = .ok s')
    (hc : s.cellAt v.nodep = .ok cell) (hT : cell.modp = some T)
    (hn : cellNames env { s with m_modp := some v.modp } T cell v.hierName = .ok (acc, cell1))
    (hov : acc.any_overrides = true) (hsrc : acc.s.modAt T = .ok src)
    (hf : findByParams env acc.s src.name cell1.paramsp = .ok none) :
    ∃ newname sR sB cell2 modp m,
      resolveName env fuel acc.s src cell1.paramsp acc.longname = .ok (newname, sR)
      ∧ specializeByName env sR T cell1 newname acc.ifaceRefRefs = .ok (sB, cell2)
      ∧ cell2.modp = some modp ∧ sB.modAt modp = .ok m
      ∧ s' = { sB.setCell v.nodep { cell2 with recursive := false, paramsp := [] } with
               m_todoModps := todoInsert sB.m_todoModps m.level modp }
      ∧ v.nodep < sB.cells.length := by
  obtain ⟨cell', srcModp, acc', cell1', sB, cell2, modp, m, hc', hm', hn', hs, hm2, hmod, hs'⟩ :=
    visitCell_inv _ _ _ _ _ _ h
  have e1 : cell' = cell := Except.ok.inj (hc'.symm.trans hc)
  subst e1
  have e2 : srcModp = T := by
    rw [hT] at hm'
    exact (Option.some.inj hm').symm
  subst e2
  rw [hn] at hn'
  obtain ⟨rfl, rfl⟩ : acc = acc' ∧ cell1 = cell1' := by simpa using hn'
  have hlt : v.nodep < sB.cells.length := by
    rw [(specializeCell_stepRel _ _ _ _ _ _ _ hs).2, (cellNames_loopRel _ _ _ _ _ _ _ hn).cells]
    exact cellAt_lt hc
  rcases specializeCell_inv _ _ _ _ _ _ _ hs with ⟨h0, _, _⟩ |
    ⟨_, src', modp', m', pinsp, hsrc', hfb, _⟩ | ⟨_, src', newname, sR, hsrc', hfb, hrn, hsn⟩
  · rw [hov] at h0
    cases h0
  · rw [hsrc] at hsrc'
    have := Except.ok.inj hsrc'
    subst this
    rw [hf] at hfb
    cases hfb
  · rw [hsrc] at hsrc'
    have := Except.ok.inj hsrc'
    subst this
    exact ⟨newname, sR, sB, cell2, modp, m, hrn, hsn, hm2, hmod, hs', hlt⟩

theorem specializeByName_long (env : Env) (s s' : ParamState) (srcModp : Nat)
    (cell cell' : AstCell) (newname : String) (refs : List (VarId × AstNode))
    (h : specializeByName env s srcModp cell newname refs = .ok (s', cell')) :
    s'.m_longId = s.m_longId ∧ s'.m_longMap = s.m_longMap
      ∧ s'.m_allModuleNames = s.m_allModuleNames := by
  unfold specializeByName at h
  cases hf : mapFind s.m_modNameMap newname with
  | some info =>
    simp only [hf, Except.bind] at h
    cases hr : relinkPins info.m_cloneMap cell.pinsp with
    | error e => simp [hr] at h
    | ok pinsp =>
      simp only [hr, Except.ok.injEq, Prod.mk.injEq] at h
      rw [← h.1]
      exact ⟨rfl, rfl, rfl⟩
  | none =>
    simp only [hf] at h
    cases hc : cloneFlavor env s srcModp cell newname refs with
    | error e => simp [hc, Except.bind] at h
    | ok r =>
      obtain ⟨sC, cellC, info⟩ := r
      simp only [hc, Except.bind] at h
      obtain ⟨_, _, _, _, _, hsC, _⟩ := cloneFlavor_spec _ _ _ _ _ _ _ _ _ hc
      cases hr : relinkPins info.m_cloneMap cellC.pinsp with
      | error e => simp [hr] at h
      | ok pinsp =>
        simp only [hr, Except.ok.injEq, Prod.mk.injEq] at h
        rw [← h.1, hsC]
        exact ⟨rfl, rfl, rfl⟩

theorem LoopRel.long {s s' : ParamState} (h : LoopRel s s') :
    s'.m_longId = s.m_longId ∧ s'.m_longMap = s.m_longMap
      ∧ s'.m_allModuleNames = s.m_allModuleNames := by
  obtain ⟨_, _, _, _, rfl, _, _⟩ := h
  exact ⟨rfl, rfl, rfl⟩

/-- C11: a cell of a template that is no hierarchical block, on the cloning
path, is named by its long name when that has at most 30 characters; a
longer long name that `m_longMap` holds gets the name recorded for it, and
one it does not hold gets `<template name>__pi<N>` with `N` one more than
`m_longId`, which becomes `N`, and is recorded under the long name; the
records of other long names stay. -/
theorem visitCell_longName_collapse (env : Env) (fuel : Nat) (s s' : ParamState)
    (v : CellVisit) (L name : String)
    (h : visitStep env fuel s v = .ok s')
    (hp : namePath env s v = .ok (L, name, false, true, none)) :
    ∃ c, s'.cellAt v.nodep = .ok c
      ∧ (L.utf8ByteSize ≤ 30 →
          c.modName = L ∧ s'.m_longId = s.m_longId ∧ s'.m_longMap = s.m_longMap)
      ∧ (30 < L.utf8ByteSize → ∀ n, mapFind s.m_longMap L = some n →
          c.modName = n ∧ s'.m_longId = s.m_longId ∧ s'.m_longMap = s.m_longMap)
      ∧ (30 < L.utf8ByteSize → mapFind s.m_longMap L = none →
          c.modName = name ++ ("__pi" ++ toString (s.m_longId + 1))
          ∧ s'.m_longId = s.m_longId + 1
          ∧ mapFind s'.m_longMap L = some c.modName
          ∧ ∀ k n, mapFind s.m_longMap k = some n → mapFind s'.m_longMap k = some n) := by
  obtain ⟨cell, T, acc, cell1, src, hc, hT, hn, hsrc, hf, rfl, rfl, hnh, hov⟩ :=
    namePath_inv _ _ _ _ _ _ _ _ hp
  obtain ⟨newname, sR, sB, cell2, modp, m, hrn, hsn, _, _, rfl, hlt⟩ :=
    visitStep_name_inv env fuel s s' v cell cell1 T acc src h hc hT hn hov hsrc hf
  obtain ⟨_, _, _, hname, _, _, _, _⟩ := specializeByName_spec _ _ _ _ _ _ _ _ hsn
  obtain ⟨hB1, hB2, _⟩ := specializeByName_long _ _ _ _ _ _ _ _ hsn
  obtain ⟨hA1, hA2, _⟩ := (cellNames_loopRel _ _ _ _ _ _ _ hn).long
  have hA1' : acc.s.m_longId = s.m_longId := hA1
  have hA2' : acc.s.m_longMap = s.m_longMap := hA2
  refine ⟨{ cell2 with recursive := false, paramsp := [] }, cellAt_finish _ _ _ _ hlt, ?_, ?_, ?_⟩
  · intro hle
    have hc30 : ¬ (acc.longname.utf8ByteSize > 30) := by omega
    unfold resolveName at hrn
    simp only [hnh, Bool.or_false, decide_eq_true_eq, hc30, if_false, Except.ok.injEq,
      Prod.mk.injEq] at hrn
    obtain ⟨rfl, rfl⟩ := hrn
    exact ⟨hname, hB1.trans hA1', hB2.trans hA2'⟩
  · intro hgt n hfind
    unfold resolveName at hrn
    rw [← hA2'] at hfind
    simp only [hnh, Bool.or_false, decide_eq_true_eq, gt_iff_lt, hgt, if_true, hfind,
      Except.ok.injEq, Prod.mk.injEq] at hrn
    obtain ⟨rfl, rfl⟩ := hrn
    exact ⟨hname, hB1.trans hA1', hB2.trans hA2'⟩
  · intro hgt hnone
    unfold resolveName at hrn
    rw [← hA2'] at hnone
    simp only [hnh, Bool.or_false, decide_eq_true_eq, gt_iff_lt, hgt, if_true, hnone,
      Bool.false_eq_true, if_false, Except.bind, Except.ok.injEq, Prod.mk.injEq] at hrn
    obtain ⟨rfl, rfl⟩ := hrn
    refine ⟨by rw [← hA1']; exact hname, by rw [← hA1']; exact hB1, ?_, ?_⟩
    · show mapFind sB.m_longMap acc.longname = some cell2.modName
      rw [hB2, hname]
      exact mapFind_mapInsert_self _ _ _ hnone
    · intro k n hk
      show mapFind sB.m_longMap k = some n
      rw [hB2]
      rw [← hA2'] at hk
      exact mapFind_mapInsert_of_some _ _ _ _ _ hk

/-- Witness of C11: the cells of `longDesign` have long names of 35
characters; `c0` is named `..__pi1`, `c1` `..__pi2` and `c2`, with the long
name of `c0`, `..__pi1` again. -/
theorem visitCell_longName_collapse_witness :
    longDesign.m_longId = 0
    ∧ (visitSteps plainEnv 0 longDesign tokenVisits).map
        (fun s => (s.cells.map (·.modName), s.m_longId, s.m_longMap))
      = .ok (["a_module_with_quite_a_long_name__pi1", "a_module_with_quite_a_long_name__pi2",
               "a_module_with_quite_a_long_name__pi1"], 2,
             [("a_module_with_quite_a_long_name__P5", "a_module_with_quite_a_long_name__pi1"),
              ("a_module_with_quite_a_long_name__P6", "a_module_with_quite_a_long_name__pi2")])
    ∧ ∃ c, (resultOf (visitStep plainEnv 0 longDesign ⟨0, 0, "top"⟩)).cellAt 0 = .ok c
      ∧ c.modName = longName ++ ("__pi" ++ toString (longDesign.m_longId + 1)) := by
  refine ⟨rfl, by decide, ?_⟩
  obtain ⟨c, hc, _, _, h3⟩ := visitCell_longName_collapse plainEnv 0 longDesign
    (resultOf (visitStep plainEnv 0 longDesign ⟨0, 0, "top"⟩)) ⟨0, 0, "top"⟩
    "a_module_with_quite_a_long_name__P5" longName (eq_ok_resultOf _ (by decide)) (by decide)
  exact ⟨c, hc, (h3 (by decide) (by decide)).1⟩

/-- C13: in a run that starts with an empty cache the cache only grows: an
entry made by the visits so far is still there, for the same module, after
any further visits; every entry holds an existing module whose name is the
key of the entry; and two entries for one module have the same key. -/
theorem modNameMap_insert_only_injective (env : Env) (fuel : Nat) (s0 s1 s2 : ParamState)
    (vs1 vs2 : List CellVisit) (h0 : s0.m_modNameMap = [])
    (h1 : visitSteps env fuel s0 vs1 = .ok s1) (h2 : visitSteps env fuel s1 vs2 = .ok s2) :
    (∀ k info, mapFind s1.m_modNameMap k = some info →
        mapFind s2.m_modNameMap k = some info)
    ∧ (∀ k info, mapFind s2.m_modNameMap k = some info →
        ∃ m, s2.mods[info.m_modp]? = some m ∧ m.name = k)
    ∧ (∀ k1 k2 i1 i2, mapFind s2.m_modNameMap k1 = some i1 →
        mapFind s2.m_modNameMap k2 = some i2 → i1.m_modp = i2.m_modp → k1 = k2) := by
  have hok0 : CacheOk s0 := by
    intro k info hk
    rw [h0] at hk
    simp [mapFind] at hk
  have r1 := visitSteps_stepRel _ _ _ _ _ h1
  have r2 := visitSteps_stepRel _ _ _ _ _ h2
  have hok2 : CacheOk s2 := r2.cacheOk (r1.cacheOk hok0)
  refine ⟨r2.later.cache, hok2, ?_⟩
  intro k1 k2 i1 i2 hk1 hk2 he
  obtain ⟨m1, hm1, hn1⟩ := hok2 k1 i1 hk1
  obtain ⟨m2, hm2, hn2⟩ := hok2 k2 i2 hk2
  rw [he, hm2] at hm1
  have := Option.some.inj hm1
  subst this
  exact hn1.symm.trans hn2

/-- Witness of C13: the run over `tokenDesign`, split after the first cell. -/
theorem modNameMap_insert_only_injective_witness :
    (tokenAfter1.m_modNameMap.map fun e => (e.1, e.2.m_modp)) = [("sub__Pz1", 2)]
    ∧ ((resultOf (visitSteps plainEnv 0 tokenAfter1 [⟨0, 1, "top"⟩, ⟨0, 2, "top"⟩])).m_modNameMap.map
        fun e => (e.1, e.2.m_modp)) = [("sub__Pz1", 2), ("sub__Pz2", 3)]
    ∧ ∀ k info, mapFind tokenAfter1.m_modNameMap k = some info →
        mapFind (resultOf (visitSteps plainEnv 0 tokenAfter1
          [⟨0, 1, "top"⟩, ⟨0, 2, "top"⟩])).m_modNameMap k = some info :=
  ⟨by decide, by decide,
    (modNameMap_insert_only_injective plainEnv 0 tokenDesign tokenAfter1
      (resultOf (visitSteps plainEnv 0 tokenAfter1 [⟨0, 1, "top"⟩, ⟨0, 2, "top"⟩]))
      [⟨0, 0, "top"⟩] [⟨0, 1, "top"⟩, ⟨0, 2, "top"⟩] rfl
      (by
        show (visitStep plainEnv 0 tokenDesign ⟨0, 0, "top"⟩).bind _ = _
        rw [eq_ok_resultOf (visitStep plainEnv 0 tokenDesign ⟨0, 0, "top"⟩) (by decide)]
        rfl)
      (eq_ok_resultOf _ (by decide))).1⟩

/-- The module `cloneFlavor` appends is `cloneOf` the source, for the level of
the module being processed, up to its declarations. -/
theorem cloneFlavor_clone (env : Env) (s s' : ParamState) (srcModp : Nat) (cell cell' : AstCell)
    (newname : String) (refs : List (VarId × AstNode)) (info : ModInfo)
    (h : cloneFlavor env s srcModp cell newname refs = .ok (s', cell', info)) :
    ∃ src cur curMod st,
      s.modAt srcModp = .ok src ∧ s.m_modp = some cur ∧ s.modAt cur = .ok curMod
      ∧ s'.mods = s.mods ++ [{ cloneOf src newname curMod.level with stmts := st }] := by
  unfold cloneFlavor at h
  cases hsrc : s.modAt srcModp with
  | error e => simp [hsrc, Except.bind] at h
  | ok src =>
    simp only [hsrc, Except.bind] at h
    cases hcur : s.m_modp with
    | none => simp [hcur] at h
    | some cur =>
      simp only [hcur] at h
      cases hcm : s.modAt cur with
      | error e => simp [hcm] at h
      | ok curMod =>
        simp only [hcm] at h
        generalize hsC : linkClone env s srcModp cell src (cloneOf src newname curMod.level)
            { m_modp := s.mods.length,
              m_cloneMap := collectPinsLoop srcModp s.mods.length
                (cloneOf src newname curMod.level).stmts 0 [] } = sC at h
        have hC : ∃ ms errs, sC = { s with
            mods := s.mods ++ [cloneOf src newname curMod.level], modulesp := ms,
            m_modNameMap := mapInsert s.m_modNameMap newname
              { m_modp := s.mods.length,
                m_cloneMap := collectPinsLoop srcModp s.mods.length
                  (cloneOf src newname curMod.level).stmts 0 [] },
            errors := errs } := by
          subst hsC
          unfold linkClone
          by_cases hc : (cloneOf src newname curMod.level).level - src.level
              ≥ env.moduleRecursionDepth - 2
          · simp only [hc, if_true]
            exact ⟨_, _, rfl⟩
          · simp only [hc, if_false]
            exact ⟨_, _, rfl⟩
        obtain ⟨ms, errs, hC⟩ := hC
        cases hrl : relinkPins (collectPinsLoop srcModp s.mods.length
            (cloneOf src newname curMod.level).stmts 0 []) cell.paramsp with
        | error e => simp [hrl] at h
        | ok paramsp =>
          simp only [hrl] at h
          cases hfix : fixIfaceRefs srcModp s.mods.length sC refs with
          | error e => simp [hfix] at h
          | ok sD =>
            simp only [hfix] at h
            cases has : assignParams env (cloneOf src newname curMod.level).hierBlock sD
                paramsp with
            | error e => simp [has] at h
            | ok sE =>
              simp only [has, Except.ok.injEq, Prod.mk.injEq] at h
              obtain ⟨rfl, rfl, rfl⟩ := h
              have hCj : sC.mods[s.mods.length]? = some (cloneOf src newname curMod.level) := by
                rw [hC]; exact getElem?_append_last _ _
              have h1 := fixIfaceRefs_updAt srcModp s.mods.length refs sC sD _ hCj hfix
              obtain ⟨_, mD, _, hDj⟩ := getElem?_of_updAt h1
              have hinto : PinsInto s.mods.length paramsp :=
                relinkPins_into _ _ _ _ (fun k v hkv => by
                  rcases collectPinsLoop_values _ _ _ _ _ _ _ hkv with h' | h'
                  · exact h'
                  · simp [mapFind] at h') hrl
              have h2 := assignParams_updAt env _ s.mods.length paramsp sD sE mD hDj hinto has
              obtain ⟨m, st, e, hm, hrel, hE⟩ := h1.trans_upd h2
              rw [hCj] at hm
              simp only [Option.some.injEq] at hm
              subst hm
              refine ⟨src, cur, curMod, st, rfl, rfl, hcm, ?_⟩
              rw [hE, hC]
              simp only [set_append_last]

/-- The two ways of the cache probe: a hit leaves the state as it is, a miss
makes a new flavour. -/
theorem specializeByName_cases (env : Env) (s s' : ParamState) (srcModp : Nat)
    (cell cell' : AstCell) (newname : String) (refs : List (VarId × AstNode))
    (h : specializeByName env s srcModp cell newname refs = .ok (s', cell')) :
    (∃ info, mapFind s.m_modNameMap newname = some info ∧ s' = s
        ∧ cell'.modp = some info.m_modp)
    ∨ (mapFind s.m_modNameMap newname = none
        ∧ ∃ cellC info, cloneFlavor env s srcModp cell newname refs = .ok (s', cellC, info)
          ∧ cell'.modp = some info.m_modp) := by
  unfold specializeByName at h
  cases hf : mapFind s.m_modNameMap newname with
  | some info =>
    simp only [hf, Except.bind] at h
    cases hr : relinkPins info.m_cloneMap cell.pinsp with
    | error e => simp [hr] at h
    | ok pinsp =>
      simp only [hr, Except.ok.injEq, Prod.mk.injEq] at h
      obtain ⟨rfl, rfl⟩ := h
      exact Or.inl ⟨info, rfl, rfl, rfl⟩
  | none =>
    simp only [hf] at h
    cases hc : cloneFlavor env s srcModp cell newname refs with
    | error e => simp [hc, Except.bind] at h
    | ok r =>
      obtain ⟨sC, cellC, info⟩ := r
      simp only [hc, Except.bind] at h
      cases hr : relinkPins info.m_cloneMap cellC.pinsp with
      | error e => simp [hr] at h
      | ok pinsp =>
        simp only [hr, Except.ok.injEq, Prod.mk.injEq] at h
        obtain ⟨rfl, rfl⟩ := h
        exact Or.inr ⟨rfl, cellC, info, rfl, rfl⟩

theorem LoopRel.modp {s s' : ParamState} (h : LoopRel s s') : s'.m_modp = s.m_modp := by
  obtain ⟨_, _, _, _, rfl, _, _⟩ := h
  rfl

/-- A visit that adds a module took the cloning path and missed the cache:
the phases of such a visit. -/
theorem visitStep_fresh_inv (env : Env) (fuel : Nat) (s s' : ParamState) (v : CellVisit)
    (cell : AstCell) (T : Nat)
    (h : visitStep env fuel s v = .ok s')
    (hc : s.cellAt v.nodep = .ok cell) (hT : cell.modp = some T)
    (hfresh : s.mods.length < s'.mods.length) :
    ∃ acc cell1 src newname sR sB cellC info c,
      cellNames env { s with m_modp := some v.modp } T cell v.hierName = .ok (acc, cell1)
      ∧ acc.any_overrides = true ∧ acc.s.modAt T = .ok src
      ∧ findByParams env acc.s src.name cell1.paramsp = .ok none
      ∧ resolveName env fuel acc.s src cell1.paramsp acc.longname = .ok (newname, sR)
      ∧ mapFind sR.m_modNameMap newname = none
      ∧ cloneFlavor env sR T cell1 newname acc.ifaceRefRefs = .ok (sB, cellC, info)
      ∧ s'.cellAt v.nodep = .ok c ∧ c.modp = some info.m_modp ∧ c.modName = newname
      ∧ s'.mods = sB.mods ∧ s'.m_modNameMap = sB.m_modNameMap ∧ s'.errors = sB.errors
      ∧ s'.modulesp = sB.modulesp := by
  obtain ⟨cell', srcModp, acc, cell1, sB, cell2, modp, m, hc', hm', hn, hs, hm2, hmod, hs'⟩ :=
    visitCell_inv _ _ _ _ _ _ h
  have e1 : cell' = cell := Except.ok.inj (hc'.symm.trans hc)
  subst e1
  have e2 : srcModp = T := by
    rw [hT] at hm'
    exact (Option.some.inj hm').symm
  subst e2
  have hrel := cellNames_loopRel _ _ _ _ _ _ _ hn
  have hlen : acc.s.mods.length = s.mods.length := hrel.fields.1
  have hlt : v.nodep < sB.cells.length := by
    rw [(specializeCell_stepRel _ _ _ _ _ _ _ hs).2, hrel.cells]
    exact cellAt_lt hc
  have hmods' : s'.mods = sB.mods := by rw [hs']; rfl
  rcases specializeCell_inv _ _ _ _ _ _ _ hs with ⟨_, rfl, _⟩ |
    ⟨_, src', modp', m', pinsp, _, _, _, _, rfl, _⟩ | ⟨hov, src, newname, sR, hsrc, hfb, hrn, hsn⟩
  · rw [hmods', hlen] at hfresh
    exact absurd hfresh (lt_irrefl _)
  · rw [hmods'] at hfresh
    simp only [ParamState.setMod, List.length_set, hlen] at hfresh
    exact absurd hfresh (lt_irrefl _)
  · obtain ⟨⟨lm, lid, rc, hsR, _⟩, _, _⟩ := resolveName_spec _ _ _ _ _ _ _ _ hrn
    obtain ⟨_, _, _, hname, _, _, _, _⟩ := specializeByName_spec _ _ _ _ _ _ _ _ hsn
    rcases specializeByName_cases _ _ _ _ _ _ _ _ hsn with ⟨info, _, rfl, _⟩ |
      ⟨hnone, cellC, info, hcf, hmodp⟩
    · rw [hmods', hsR] at hfresh
      simp only [hlen] at hfresh
      exact absurd hfresh (lt_irrefl _)
    · refine ⟨acc, cell1, src, newname, sR, sB, cellC, info,
        { cell2 with recursive := false, paramsp := [] }, hn, hov, hsrc, hfb, hrn, hnone, hcf,
        ?_, hmodp, hname, hmods', ?_, ?_, ?_⟩
      · rw [hs']
        exact cellAt_finish _ _ _ _ hlt
      · rw [hs']; rfl
      · rw [hs']; rfl
      · rw [hs']; rfl

/-- C19: the module a visit of `visitCell` adds is the new module of the cell,
and its level is at least one more than the level of the module that holds
the cell and at least the level of the template of the cell. -/
theorem visitCell_fresh_clone_level (env : Env) (fuel : Nat) (s s' : ParamState)
    (v : CellVisit) (cell : AstCell) (T : Nat) (srcT cur : AstNodeModule)
    (h : visitStep env fuel s v = .ok s')
    (hc : s.cellAt v.nodep = .ok cell) (hT : cell.modp = some T)
    (hsrc : s.modAt T = .ok srcT) (hcur : s.modAt v.modp = .ok cur)
    (hfresh : s.mods.length < s'.mods.length) :
    ∃ c m, s'.cellAt v.nodep = .ok c ∧ c.modp = some s.mods.length
      ∧ s'.modAt s.mods.length = .ok m ∧ s'.mods.length = s.mods.length + 1
      ∧ cur.level + 1 ≤ m.level ∧ srcT.level ≤ m.level := by
  obtain ⟨acc, cell1, src, newname, sR, sB, cellC, info, c, hn, _, hsrcA, _, hrn, _, hcf, hcell,
    hmodp, _, hmods, _, _, _⟩ := visitStep_fresh_inv env fuel s s' v cell T h hc hT hfresh
  have hrel := cellNames_loopRel _ _ _ _ _ _ _ hn
  obtain ⟨⟨lm, lid, rc, hsR, _⟩, _, _⟩ := resolveName_spec _ _ _ _ _ _ _ _ hrn
  have hRmods : sR.mods = acc.s.mods := by rw [hsR]
  have hRmodp : sR.m_modp = some v.modp := by rw [hsR]; exact hrel.modp
  have hlen : acc.s.mods.length = s.mods.length := hrel.fields.1
  obtain ⟨src', cur', curMod, st, hs1, hs2, hs3, hs4⟩ := cloneFlavor_clone _ _ _ _ _ _ _ _ _ hcf
  obtain ⟨_, _, _, _, _, _, _, _, _, _, hinfo, _⟩ := cloneFlavor_spec _ _ _ _ _ _ _ _ _ hcf
  rw [hRmodp] at hs2
  have e : cur' = v.modp := (Option.some.inj hs2).symm
  subst e
  have hs1' : acc.s.modAt T = .ok src' := by
    rw [← hs1]; unfold ParamState.modAt; rw [hRmods]
  have hs3' : acc.s.modAt v.modp = .ok curMod := by
    rw [← hs3]; unfold ParamState.modAt; rw [hRmods]
  obtain ⟨s1, hs1a, hv1⟩ := modAt_later hrel.later T srcT hsrc
  obtain ⟨c1, hc1a, hv2⟩ := modAt_later hrel.later v.modp cur hcur
  have e1 : s1 = src' := Except.ok.inj (hs1a.symm.trans hs1')
  have e2 : c1 = curMod := Except.ok.inj (hc1a.symm.trans hs3')
  subst e1 e2
  have hl1 := modView_level hv1
  have hl2 := modView_level hv2
  have hidx : info.m_modp = s.mods.length := by rw [hinfo, hRmods, hlen]
  refine ⟨c, { cloneOf s1 newname c1.level with stmts := st }, hcell, by rw [hmodp, hidx], ?_,
    ?_, ?_, ?_⟩
  · unfold ParamState.modAt
    rw [hmods, hs4, hRmods, ← hlen, getElem?_append_last]
  · rw [hmods, hs4, hRmods]
    simp [hlen]
  · show cur.level + 1 ≤ (cloneOf s1 newname c1.level).level
    unfold cloneOf
    simp only
    split <;> omega
  · show srcT.level ≤ (cloneOf s1 newname c1.level).level
    unfold cloneOf
    simp only
    split <;> omega

/-- Witness of C19: the clone made for `c0` of `tokenDesign`, a cell of `top`
(level 2) on the template `sub` (level 3), has level 3. -/
theorem visitCell_fresh_clone_level_witness :
    (tokenAfter1.modAt 2).map (·.level) = .ok 3
    ∧ ∃ c m, tokenAfter1.cellAt 0 = .ok c ∧ c.modp = some tokenDesign.mods.length
      ∧ tokenAfter1.modAt tokenDesign.mods.length = .ok m
      ∧ tokenAfter1.mods.length = tokenDesign.mods.length + 1
      ∧ (mkModule "top" 2 []).level + 1 ≤ m.level
      ∧ (mkModule "sub" 3 [mkParam "P" .null (mkConst 3), mkPort "clk"]).level ≤ m.level :=
  ⟨by decide,
    visitCell_fresh_clone_level plainEnv 0 tokenDesign tokenAfter1 ⟨0, 0, "top"⟩
      (mkCell "c0" [mkPin "P" 0 (widthedConst 8 5)] [mkPin "clk" 1 (mkVarRef "x")]) 1
      (mkModule "sub" 3 [mkParam "P" .null (mkConst 3), mkPort "clk"]) (mkModule "top" 2 [])
      (eq_ok_resultOf _ (by decide)) (by decide) (by decide) (by decide) (by decide)
      (by decide)⟩

/-! ## The database of hierarchical blocks -/

/-- The candidate loop gives no candidate, or fails, when the test at its end
holds for none. -/
theorem hierFindCandidate_none (env : Env) (s : ParamState) (pins : List AstPin)
    (cands : List V3HierarchicalBlockOption)
    (h : ∀ opt ∈ cands, ¬ hierAccepts env s pins opt) :
    hierFindCandidate env s pins cands = .ok none
      ∨ ∃ e, hierFindCandidate env s pins cands = .error e := by
  induction cands with
  | nil => exact Or.inl rfl
  | cons opt rest ih =>
    have ih' := ih (fun o ho => h o (List.mem_cons_of_mem _ ho))
    have hopt := h opt (List.mem_cons_self _ _)
    unfold hierAccepts hierParams at hopt
    simp only [hierFindCandidate]
    split
    · exact Or.inr ⟨_, rfl⟩
    · cases hm : hierMatchPins env s ((mapFind s.m_hierBlocks.m_params opt).getD []) pins 0 with
      | error e => exact Or.inr ⟨e, rfl⟩
      | ok r =>
        cases r with
        | none => exact ih'
        | some n =>
          simp only [Except.bind]
          split
          · rename_i hn
            rw [hm, hn] at hopt
            exact absurd rfl hopt
          · exact ih'

/-- C15: `findByParams` returns no module, and fails not, when no option is
registered under the name of the template; when options are registered
under it and the test of the candidate loop holds for none of them, it
fails. -/
theorem findByParams_none_or_fatal (env : Env) (s : ParamState) (origName : String)
    (pins : List AstPin) :
    (hierCandidates s origName = [] → findByParams env s origName pins = .ok none)
    ∧ (hierCandidates s origName ≠ [] →
        (∀ opt ∈ hierCandidates s origName, ¬ hierAccepts env s pins opt) →
        ∃ e, findByParams env s origName pins = .error e) := by
  constructor
  · intro h
    unfold hierCandidates at h
    unfold findByParams
    simp only [h, if_true]
  · intro hne hno
    unfold hierCandidates at hne hno
    unfold findByParams
    simp only [hne, if_false]
    rcases hierFindCandidate_none env s pins _ hno with h | ⟨e, h⟩
    · rw [h]
      exact ⟨_, rfl⟩
    · rw [h]
      exact ⟨_, rfl⟩

/-- Witness of C15: `plainDesign` has no catalog and the lookup gives no
module; in `hierDesign` the binding `WIDTH = 9` fits neither entry of `sub`
and the lookup fails. -/
theorem findByParams_none_or_fatal_witness :
    findByParams plainEnv plainDesign "sub" [mkPin "P" 0 (mkConst 5)] = .ok none
    ∧ findByParams plainEnv hierDesign "sub" [mkPin "WIDTH" 0 (mkConst 9)]
        = .error (.fatalSrc "No protect-lib wrapper found") := by
  refine ⟨(findByParams_none_or_fatal plainEnv plainDesign "sub" [mkPin "P" 0 (mkConst 5)]).1
    (by decide), ?_⟩
  obtain ⟨e, he⟩ := (findByParams_none_or_fatal plainEnv hierDesign "sub"
    [mkPin "WIDTH" 0 (mkConst 9)]).2 (by decide) (by unfold hierAccepts; decide)
  decide

theorem mem_of_mapFind {κ α : Type} [DecidableEq κ] (m : List (κ × α)) (k : κ) (v : α)
    (h : mapFind m k = some v) : (k, v) ∈ m := by
  induction m with
  | nil => simp [mapFind] at h
  | cons e m ih =>
    obtain ⟨k', v'⟩ := e
    simp only [mapFind] at h
    split at h
    · rename_i hk
      simp only [Option.some.injEq] at h
      subst hk h
      exact List.mem_cons_self _ _
    · exact List.mem_cons_of_mem _ (ih h)

theorem mapFind_of_mem {κ α : Type} [DecidableEq κ] (m : List (κ × α)) (k : κ) (v : α)
    (hnd : (m.map (·.1)).Nodup) (h : (k, v) ∈ m) : mapFind m k = some v := by
  induction m with
  | nil => simp at h
  | cons e m ih =>
    obtain ⟨k', v'⟩ := e
    simp only [List.map_cons, List.nodup_cons, List.mem_map, not_exists, not_and] at hnd
    simp only [List.mem_cons, Prod.mk.injEq] at h
    simp only [mapFind]
    rcases h with ⟨rfl, rfl⟩ | h
    · simp
    · have hne : k' ≠ k := by
        intro he
        subst he
        exact hnd.1 (k', v) h rfl
      simp only [hne, if_false]
      exact ih hnd.2 h

/-- The pin loop of `findByParams` when it ends with `found`: every binding
of the cell is to a parameter of the catalog entry with a constant that
`areSame` accepts, and `paramIdx` has counted the bindings. -/
theorem hierMatchPins_some (env : Env) (s : ParamState) (params : List (String × V3Number))
    (pins : List AstPin) (idx n : Nat)
    (h : hierMatchPins env s params pins idx = .ok (some n)) :
    n = idx + (pinBindings s pins).length
    ∧ (idx ≤ params.length → n ≤ params.length)
    ∧ ∀ name pc, (name, pc) ∈ pinBindings s pins →
        ∃ c v, pc = some c ∧ mapFind params name = some v ∧ areSame env c v = true := by
  induction pins generalizing idx with
  | nil =>
    simp only [hierMatchPins, Except.ok.injEq, Option.some.injEq] at h
    subst h
    exact ⟨by simp [pinBindings], fun hle => hle, by simp [pinBindings]⟩
  | cons p rest ih =>
    simp only [hierMatchPins] at h
    simp only [pinBindings]
    by_cases hnull : p.exprp.isNull = true
    · rw [if_pos hnull] at h ⊢
      exact ih idx h
    · rw [if_neg hnull] at h ⊢
      by_cases hpt : p.modPTypep.isSome = true
      · rw [if_pos hpt] at h
        cases h
      · rw [if_neg hpt] at h
        cases hmv : p.modVarp with
        | none =>
          simp only [hmv] at h ⊢
          exact ih idx h
        | some v =>
          simp only [hmv] at h ⊢
          cases hc : p.exprp.asConst with
          | none => simp [hc] at h
          | some constp =>
            simp only [hc] at h
            cases hva : s.varAt v with
            | error e => simp [hva, Except.bind] at h
            | ok x =>
              simp only [hva, Except.bind] at h ⊢
              cases hf : mapFind params x.name with
              | none => simp [hf] at h
              | some c =>
                simp only [hf] at h
                by_cases hcond : (decide (idx ≥ params.length) || !areSame env constp c) = true
                · rw [if_pos hcond] at h
                  cases h
                · rw [if_neg hcond] at h
                  simp only [Bool.or_eq_true, decide_eq_true_eq, Bool.not_eq_true', not_or,
                    Bool.not_eq_false] at hcond
                  obtain ⟨h1, h2, h3⟩ := ih (idx + 1) h
                  refine ⟨by simp only [List.length_cons]; omega, fun _ => h2 (by omega), ?_⟩
                  intro name pc hmem
                  simp only [List.mem_cons, Prod.mk.injEq] at hmem
                  rcases hmem with ⟨rfl, rfl⟩ | hmem
                  · exact ⟨constp, c, rfl, hf, hcond.2⟩
                  · exact h3 name pc hmem

/-- The pin loop of `findByParams` when it ends without `found`: after
bindings to parameters of the catalog entry comes one to a name the entry
has not, to a constant that `areSame` rejects, or one more than the entry
has parameters. -/
theorem hierMatchPins_none (env : Env) (s : ParamState) (params : List (String × V3Number))
    (pins : List AstPin) (idx : Nat)
    (h : hierMatchPins env s params pins idx = .ok none) :
    ∃ b1 name pc b2, pinBindings s pins = b1 ++ (name, pc) :: b2
      ∧ (∀ e ∈ b1, ∃ v, mapFind params e.1 = some v)
      ∧ (mapFind params name = none
        ∨ ∃ c v, pc = some c ∧ mapFind params name = some v
            ∧ (areSame env c v = false ∨ params.length ≤ idx + b1.length)) := by
  induction pins generalizing idx with
  | nil => simp [hierMatchPins] at h
  | cons p rest ih =>
    simp only [hierMatchPins] at h
    simp only [pinBindings]
    by_cases hnull : p.exprp.isNull = true
    · rw [if_pos hnull] at h ⊢
      exact ih idx h
    · rw [if_neg hnull] at h ⊢
      by_cases hpt : p.modPTypep.isSome = true
      · rw [if_pos hpt] at h
        cases h
      · rw [if_neg hpt] at h
        cases hmv : p.modVarp with
        | none =>
          simp only [hmv] at h ⊢
          exact ih idx h
        | some v =>
          simp only [hmv] at h ⊢
          cases hc : p.exprp.asConst with
          | none => simp [hc] at h
          | some constp =>
            simp only [hc] at h
            cases hva : s.varAt v with
            | error e => simp [hva, Except.bind] at h
            | ok x =>
              simp only [hva, Except.bind] at h ⊢
              cases hf : mapFind params x.name with
              | none =>
                exact ⟨[], x.name, some constp, pinBindings s rest, rfl, by simp, Or.inl hf⟩
              | some c =>
                simp only [hf] at h
                by_cases hcond : (decide (idx ≥ params.length) || !areSame env constp c) = true
                · simp only [Bool.or_eq_true, decide_eq_true_eq, Bool.not_eq_true'] at hcond
                  refine ⟨[], x.name, some constp, pinBindings s rest, rfl, by simp,
                    Or.inr ⟨constp, c, rfl, hf, ?_⟩⟩
                  rcases hcond with h1 | h1
                  · exact Or.inr (by simpa using h1)
                  · exact Or.inl h1
                · rw [if_neg hcond] at h
                  obtain ⟨b1, name, pc, b2, hb, hall, hlast⟩ := ih (idx + 1) h
                  refine ⟨(x.name, some constp) :: b1, name, pc, b2, by rw [hb]; rfl, ?_, ?_⟩
                  · intro e he
                    simp only [List.mem_cons] at he
                    rcases he with rfl | he
                    · exact ⟨c, hf⟩
                    · exact hall e he
                  · rcases hlast with h1 | ⟨c', v', h1, h2, h3⟩
                    · exact Or.inl h1
                    · refine Or.inr ⟨c', v', h1, h2, ?_⟩
                      rcases h3 with h3 | h3
                      · exact Or.inl h3
                      · exact Or.inr (by simp only [List.length_cons]; omega)

theorem catalogFits_of_match (env : Env) (s : ParamState) (params : List (String × V3Number))
    (pins : List AstPin) (hk : (params.map (·.1)).Nodup)
    (hb : ((pinBindings s pins).map (·.1)).Nodup)
    (h : hierMatchPins env s params pins 0 = .ok (some params.length)) :
    CatalogFits env params (pinBindings s pins) := by
  obtain ⟨h1, _, h3⟩ := hierMatchPins_some env s params pins 0 _ h
  have hsub : (pinBindings s pins).map (·.1) ⊆ params.map (·.1) := by
    intro name hname
    simp only [List.mem_map] at hname
    obtain ⟨⟨n', pc⟩, hmem, rfl⟩ := hname
    obtain ⟨_, v, _, hf, _⟩ := h3 n' pc hmem
    exact List.mem_map.2 ⟨(n', v), mem_of_mapFind _ _ _ hf, rfl⟩
  have hperm := (List.subperm_of_subset hb hsub).perm_of_length_le (by
    simp only [List.length_map]
    omega)
  constructor
  · intro name c hmem
    have hin : name ∈ (pinBindings s pins).map (·.1) :=
      hperm.symm.subset (List.mem_map.2 ⟨(name, c), hmem, rfl⟩)
    simp only [List.mem_map] at hin
    obtain ⟨⟨n', pc⟩, hmem', rfl⟩ := hin
    obtain ⟨c', v, rfl, hf, hs⟩ := h3 n' pc hmem'
    have hv : mapFind params n' = some c := mapFind_of_mem _ _ _ hk hmem
    rw [hf] at hv
    have := Option.some.inj hv
    subst this
    exact ⟨c', hmem', hs⟩
  · intro name pc hmem
    obtain ⟨_, v, _, hf, _⟩ := h3 name pc hmem
    exact ⟨v, mem_of_mapFind _ _ _ hf⟩

theorem not_catalogFits_of_short (env : Env) (s : ParamState)
    (params : List (String × V3Number)) (pins : List AstPin) (n : Nat)
    (hk : (params.map (·.1)).Nodup)
    (h : hierMatchPins env s params pins 0 = .ok (some n)) (hn : n ≠ params.length) :
    ¬ CatalogFits env params (pinBindings s pins) := by
  obtain ⟨h1, h2, _⟩ := hierMatchPins_some env s params pins 0 _ h
  intro hfit
  have hsub : params.map (·.1) ⊆ (pinBindings s pins).map (·.1) := by
    intro name hname
    simp only [List.mem_map] at hname
    obtain ⟨⟨n', c⟩, hmem, rfl⟩ := hname
    obtain ⟨pc, hpc, _⟩ := hfit.1 n' c hmem
    exact List.mem_map.2 ⟨(n', some pc), hpc, rfl⟩
  have hle := (List.subperm_of_subset hk hsub).length_le
  simp only [List.length_map] at hle
  have := h2 (Nat.zero_le _)
  omega

theorem not_catalogFits_of_none (env : Env) (s : ParamState)
    (params : List (String × V3Number)) (pins : List AstPin)
    (hk : (params.map (·.1)).Nodup) (hb : ((pinBindings s pins).map (·.1)).Nodup)
    (h : hierMatchPins env s params pins 0 = .ok none) :
    ¬ CatalogFits env params (pinBindings s pins) := by
  obtain ⟨b1, name, pc, b2, hbs, hall, hlast⟩ := hierMatchPins_none env s params pins 0 h
  intro hfit
  have hmem : (name, pc) ∈ pinBindings s pins := by rw [hbs]; simp
  rcases hlast with hnone | ⟨c, v, rfl, hf, hbad | hcount⟩
  · obtain ⟨c, hc⟩ := hfit.2 name pc hmem
    rw [mapFind_of_mem _ _ _ hk hc] at hnone
    cases hnone
  · obtain ⟨pc', hpc', hs⟩ := hfit.1 name v (mem_of_mapFind _ _ _ hf)
    have e1 := mapFind_of_mem _ _ _ hb hpc'
    have e2 := mapFind_of_mem _ _ _ hb hmem
    rw [e1] at e2
    simp only [Option.some.injEq] at e2
    subst e2
    rw [hs] at hbad
    cases hbad
  · have hnd : ((b1 ++ [(name, some c)]).map (·.1)).Nodup := by
      rw [hbs] at hb
      have hsl : List.Sublist ((b1 ++ [(name, some c)]).map (·.1))
          ((b1 ++ (name, some c) :: b2).map (·.1)) := by
        apply List.Sublist.map
        exact List.Sublist.append_left (List.Sublist.cons₂ _ (List.nil_sublist _)) _
      exact hb.sublist hsl
    have hsub : (b1 ++ [(name, some c)]).map (·.1) ⊆ params.map (·.1) := by
      intro n' hn'
      simp only [List.map_append, List.map_cons, List.map_nil, List.mem_append, List.mem_map,
        List.mem_singleton] at hn'
      rcases hn' with ⟨e, he, rfl⟩ | hn'
      · obtain ⟨v', hv'⟩ := hall e he
        exact List.mem_map.2 ⟨(e.1, v'), mem_of_mapFind _ _ _ hv', rfl⟩
      · exact List.mem_map.2 ⟨(name, v), mem_of_mapFind _ _ _ hf, hn'.symm⟩
    have hle := (List.subperm_of_subset hnd hsub).length_le
    simp only [List.length_map, List.length_append, List.length_singleton] at hle
    omega

/-- The candidate the loop of `findByParams` stops at: it passes the test at
the end of the loop, and every candidate before it was tried and did not. -/
theorem hierFindCandidate_some (env : Env) (s : ParamState) (pins : List AstPin)
    (cands : List V3HierarchicalBlockOption) (opt : V3HierarchicalBlockOption)
    (h : hierFindCandidate env s pins cands = .ok (some opt)) :
    ∃ pre post, cands = pre ++ opt :: post
      ∧ (hierParams s opt).length = opt.params.length
      ∧ hierMatchPins env s (hierParams s opt) pins 0 = .ok (some opt.params.length)
      ∧ ∀ o ∈ pre, (hierParams s o).length = o.params.length
          ∧ (hierMatchPins env s (hierParams s o) pins 0 = .ok none
            ∨ ∃ n, hierMatchPins env s (hierParams s o) pins 0 = .ok (some n)
                ∧ n ≠ o.params.length) := by
  induction cands with
  | nil => simp [hierFindCandidate] at h
  | cons o rest ih =>
    simp only [hierFindCandidate] at h
    by_cases hlen : ((mapFind s.m_hierBlocks.m_params o).getD []).length ≠ o.params.length
    · rw [if_pos hlen] at h
      cases h
    · rw [if_neg hlen] at h
      have hlen' : (hierParams s o).length = o.params.length := by
        unfold hierParams
        exact not_not.1 hlen
      cases hm : hierMatchPins env s ((mapFind s.m_hierBlocks.m_params o).getD []) pins 0 with
      | error e => simp [hm, Except.bind] at h
      | ok r =>
        simp only [hm, Except.bind] at h
        have step : hierFindCandidate env s pins rest = .ok (some opt) →
            (hierMatchPins env s (hierParams s o) pins 0 = .ok none
              ∨ ∃ n, hierMatchPins env s (hierParams s o) pins 0 = .ok (some n)
                  ∧ n ≠ o.params.length) →
            ∃ pre post, o :: rest = pre ++ opt :: post
              ∧ (hierParams s opt).length = opt.params.length
              ∧ hierMatchPins env s (hierParams s opt) pins 0 = .ok (some opt.params.length)
              ∧ ∀ o' ∈ pre, (hierParams s o').length = o'.params.length
                  ∧ (hierMatchPins env s (hierParams s o') pins 0 = .ok none
                    ∨ ∃ n, hierMatchPins env s (hierParams s o') pins 0 = .ok (some n)
                        ∧ n ≠ o'.params.length) := by
          intro hrest hrej
          obtain ⟨pre, post, hc, h1, h2, h3⟩ := ih hrest
          refine ⟨o :: pre, post, by rw [hc]; rfl, h1, h2, ?_⟩
          intro o' ho'
          simp only [List.mem_cons] at ho'
          rcases ho' with rfl | ho'
          · exact ⟨hlen', hrej⟩
          · exact h3 o' ho'
        cases r with
        | none => exact step h (Or.inl hm)
        | some n =>
          simp only at h
          by_cases hn : n = o.params.length
          · rw [if_pos hn] at h
            simp only [Except.ok.injEq, Option.some.injEq] at h
            subst h
            exact ⟨[], rest, rfl, hlen', by unfold hierParams; rw [hm, hn], by simp⟩
          · rw [if_neg hn] at h
            exact step h (Or.inr ⟨n, hm, hn⟩)

/-- C14 as amended: when the cell binds no parameter twice (and the catalog
entries have each parameter once, as maps do), the module `findByParams`
returns is the replacement module of the first candidate registered under
the original module name that fits the bindings of the cell: every
parameter of the entry is bound by the cell to a constant `areSame` accepts,
and every parameter the cell binds is declared by the entry; no candidate
before it fits. -/
theorem findByParams_first_fit (env : Env) (s : ParamState) (origName : String)
    (pins : List AstPin) (m : Nat)
    (h : findByParams env s origName pins = .ok (some m))
    (hnd : ((pinBindings s pins).map (·.1)).Nodup)
    (hkeys : ∀ opt ∈ hierCandidates s origName, ((hierParams s opt).map (·.1)).Nodup) :
    ∃ pre opt post, hierCandidates s origName = pre ++ opt :: post
      ∧ mapFind s.m_hierBlocks.m_hierBlockMod opt.mangledName = some m
      ∧ CatalogFits env (hierParams s opt) (pinBindings s pins)
      ∧ ∀ o ∈ pre, ¬ CatalogFits env (hierParams s o) (pinBindings s pins) := by
  unfold findByParams at h
  by_cases hc : (s.m_hierBlocks.m_hierBlockOptsByOrigName.filter
      (fun e => e.1 = origName)).map (·.2) = []
  · simp [hc] at h
  · simp only [hc, if_false] at h
    cases hf : hierFindCandidate env s pins
        ((s.m_hierBlocks.m_hierBlockOptsByOrigName.filter (fun e => e.1 = origName)).map
          (·.2)) with
    | error e => simp [hf, Except.bind] at h
    | ok r =>
      simp only [hf, Except.bind] at h
      cases r with
      | none => simp at h
      | some opt =>
        simp only at h
        cases hmod : mapFind s.m_hierBlocks.m_hierBlockMod opt.mangledName with
        | none => simp [hmod] at h
        | some m' =>
          simp only [hmod, Except.ok.injEq, Option.some.injEq] at h
          subst h
          obtain ⟨pre, post, hcands, hlen, hmatch, hpre⟩ :=
            hierFindCandidate_some env s pins _ opt hf
          have hcands' : hierCandidates s origName = pre ++ opt :: post := hcands
          have hmem : ∀ o ∈ pre ++ opt :: post, ((hierParams s o).map (·.1)).Nodup := by
            intro o ho
            rw [← hcands'] at ho
            exact hkeys o ho
          refine ⟨pre, opt, post, hcands', hmod, ?_, ?_⟩
          · rw [← hlen] at hmatch
            exact catalogFits_of_match env s _ pins (hmem opt (by simp)) hnd hmatch
          · intro o ho
            have hko := hmem o (by simp [ho])
            obtain ⟨hlo, hrej⟩ := hpre o ho
            rcases hrej with hnone | ⟨n, hsome, hne⟩
            · exact not_catalogFits_of_none env s _ pins hko hnd hnone
            · exact not_catalogFits_of_short env s _ pins n hko hsome (by rw [hlo]; exact hne)

/-- Witness of C14 as amended: for `WIDTH = 16` in `hierDesign` the lookup
returns module 3, the wrapper of the second entry of `sub`; the first entry,
for `WIDTH = 8`, does not fit. -/
theorem findByParams_first_fit_witness :
    findByParams plainEnv hierDesign "sub" [mkPin "WIDTH" 0 (mkConst 16)] = .ok (some 3)
    ∧ hierCandidates hierDesign "sub" = [optW8, optW16]
    ∧ ∃ pre opt post, hierCandidates hierDesign "sub" = pre ++ opt :: post
      ∧ mapFind hierDesign.m_hierBlocks.m_hierBlockMod opt.mangledName = some 3
      ∧ CatalogFits plainEnv (hierParams hierDesign opt)
          (pinBindings hierDesign [mkPin "WIDTH" 0 (mkConst 16)])
      ∧ ∀ o ∈ pre, ¬ CatalogFits plainEnv (hierParams hierDesign o)
          (pinBindings hierDesign [mkPin "WIDTH" 0 (mkConst 16)]) :=
  ⟨by decide, by decide,
    findByParams_first_fit plainEnv hierDesign "sub" [mkPin "WIDTH" 0 (mkConst 16)] 3
      (by decide) (by decide) (by decide)⟩

/-- C14 as stated fails: a cell of `twoParamDesign` that binds `A = 1` twice
and `B` not at all gets the wrapper `sub_ab` of the entry `A = 1`, `B = 2`:
the loop counts two bindings for two parameters, and the parameter `B` of
the entry is not bound by the cell. -/
theorem findByParams_counts_bindings :
    findByParams plainEnv twoParamDesign "sub"
        [mkPin "A" 0 (mkConst 1), mkPin "A" 0 (mkConst 1)] = .ok (some 2)
    ∧ hierCandidates twoParamDesign "sub" = [optAB]
    ∧ hierParams twoParamDesign optAB = [("A", V3Number.ofNat 32 1), ("B", V3Number.ofNat 32 2)]
    ∧ pinBindings twoParamDesign [mkPin "A" 0 (mkConst 1), mkPin "A" 0 (mkConst 1)]
        = [("A", some (V3Number.ofNat 32 1)), ("A", some (V3Number.ofNat 32 1))]
    ∧ ¬ CatalogFits plainEnv (hierParams twoParamDesign optAB)
        (pinBindings twoParamDesign [mkPin "A" 0 (mkConst 1), mkPin "A" 0 (mkConst 1)]) := by
  have hb : pinBindings twoParamDesign [mkPin "A" 0 (mkConst 1), mkPin "A" 0 (mkConst 1)]
      = [("A", some (V3Number.ofNat 32 1)), ("A", some (V3Number.ofNat 32 1))] := by decide
  refine ⟨by decide, by decide, by decide, hb, ?_⟩
  intro hfit
  obtain ⟨pc, hmem, _⟩ := hfit.1 "B" (V3Number.ofNat 32 2) (by decide)
  rw [hb] at hmem
  simp at hmem

/-! ## Comparing a cell constant with a catalog constant -/

/-- The reference environment computes its numbers as the spec says. -/
theorem plainEnv_numOps : NumOpsSpec plainEnv := by
  refine ⟨fun dst src _ => rfl, fun dst src lbits _ => rfl, ?_⟩
  intro a b _ _ ha _ _
  change ((V3Number.ofNat 1
    (if (!a.isFourState && !b.isFourState && decide (a.value = b.value)) = true
      then 1 else 0)).value != 0) = true ↔ _
  cases hb : b.isFourState <;> by_cases hv : a.value = b.value <;>
    simp [V3Number.ofNat, ha, hv, eq_comm]

/-- Sign extension keeps the integer: for `1 ≤ w ≤ W` the `W` bits `c` are the
sign extension of the `w` bits `v` exactly when both encode the same integer
in two's complement. -/
theorem signExtend_toSigned (v c w W : Nat) (h1 : 1 ≤ w) (hw : w ≤ W)
    (hv : v < 2 ^ w) (hc : c < 2 ^ W) :
    c = signExtend v w W ↔ toSigned c W = toSigned v w := by
  obtain ⟨w, rfl⟩ : ∃ k, w = k + 1 := ⟨w - 1, by omega⟩
  obtain ⟨W, rfl⟩ : ∃ k, W = k + 1 := ⟨W - 1, by omega⟩
  have hAB : 2 ^ w ≤ 2 ^ W := Nat.pow_le_pow_right (by decide) (by omega)
  have hA : 0 < 2 ^ w := Nat.pow_pos (by decide)
  have h2w : 2 ^ (w + 1) = 2 * 2 ^ w := by rw [pow_succ]; ring
  have h2W : 2 ^ (W + 1) = 2 * 2 ^ W := by rw [pow_succ]; ring
  have h2wi : (2 : Int) ^ (w + 1) = 2 * ((2 ^ w : Nat) : Int) := by push_cast; rw [pow_succ]; ring
  have h2Wi : (2 : Int) ^ (W + 1) = 2 * ((2 ^ W : Nat) : Int) := by push_cast; rw [pow_succ]; ring
  unfold signExtend toSigned
  simp only [Nat.add_sub_cancel, Nat.mod_eq_of_lt hv]
  rw [h2wi, h2Wi]
  rw [h2w] at hv
  rw [h2W] at hc
  rw [h2w, h2W]
  by_cases hlo : v < 2 ^ w
  · rw [Nat.div_eq_of_lt hlo]
    simp only [Nat.zero_mod, if_neg (by decide : ¬ (0 = 1)), if_pos hlo]
    by_cases hcl : c < 2 ^ W
    · rw [if_pos hcl]; omega
    · rw [if_neg hcl]; omega
  · have hd : v / 2 ^ w = 1 := Nat.div_eq_of_lt_le (by omega) (by omega)
    rw [hd]
    simp only [if_neg hlo, Nat.one_mod, if_true]
    by_cases hcl : c < 2 ^ W
    · rw [if_pos hcl]; omega
    · rw [if_neg hcl]; omega

/-- C16: for a two-state, non-string, non-floating, unsigned cell constant of
width `w` and an integral catalog constant of declared width `W ≥ w`,
`areSame` returns true exactly when the catalog constant is, bit for bit, the
cell value filled with zeros to `W` bits (its bits are two-state and its
value is the cell value); in particular the value 8 of a cell, eight bits
wide, matches a catalog value 8 declared at 32 bits. -/
theorem areSame_unsigned_zero_extends (env : Env) (hops : NumOpsSpec env)
    (pin cat : V3Number)
    (hps : pin.isString = false) (hpd : pin.isDouble = false)
    (hp4 : pin.isFourState = false) (hpu : pin.isSigned = false)
    (hcs : cat.isString = false) (hcd : cat.isDouble = false)
    (hw : pin.width ≤ cat.width) (hv : pin.value < 2 ^ pin.width) :
    (areSame env pin cat = true ↔ cat.isFourState = false ∧ cat.value = pin.value)
    ∧ areSame env (V3Number.ofNat 8 8) (V3Number.ofNat 32 8) = true := by
  have key : ∀ p c : V3Number, p.isString = false → p.isDouble = false →
      p.isFourState = false → p.isSigned = false → c.isString = false → c.isDouble = false →
      p.value < 2 ^ c.width →
      (areSame env p c = true ↔ c.isFourState = false ∧ c.value = p.value) := by
    intro p c h1 h2 h3 h4 h5 h6 h7
    unfold areSame
    simp only [h1, h2, h4, h6, Bool.false_eq_true, if_false]
    rw [hops.1 _ _ h3]
    rw [hops.2.2 _ _ rfl rfl rfl h5 h6]
    simp only [Nat.mod_eq_of_lt h7]
  refine ⟨key pin cat hps hpd hp4 hpu hcs hcd
    (lt_of_lt_of_le hv (Nat.pow_le_pow_right (by decide) hw)), ?_⟩
  exact (key (V3Number.ofNat 8 8) (V3Number.ofNat 32 8) rfl rfl rfl rfl rfl rfl
    (by decide)).2 ⟨rfl, rfl⟩

/-- Witness of C16: in the reference environment the eight-bit value 200
against the 32-bit catalog value 200. -/
theorem areSame_unsigned_zero_extends_witness :
    NumOpsSpec plainEnv
    ∧ ((areSame plainEnv (V3Number.ofNat 8 200) (V3Number.ofNat 32 200) = true
        ↔ (V3Number.ofNat 32 200).isFourState = false
          ∧ (V3Number.ofNat 32 200).value = (V3Number.ofNat 8 200).value)
      ∧ areSame plainEnv (V3Number.ofNat 8 8) (V3Number.ofNat 32 8) = true) :=
  ⟨plainEnv_numOps,
    areSame_unsigned_zero_extends plainEnv plainEnv_numOps (V3Number.ofNat 8 200)
      (V3Number.ofNat 32 200) rfl rfl rfl rfl rfl rfl (by decide) (by decide)⟩

/-- C17: for a two-state, non-string, non-floating, signed cell constant of
width `w ≥ 1` and an integral catalog constant of declared width `W ≥ w`,
`areSame` returns true exactly when the catalog constant is, bit for bit, the
cell value sign-extended from `w` to `W` bits; for a catalog value that fits
its `W` bits this is the case exactly when it is two-state and encodes, in
two's complement, the integer that the cell value encodes. -/
theorem areSame_signed_sign_extends (env : Env) (hops : NumOpsSpec env)
    (pin cat : V3Number)
    (hps : pin.isString = false) (hpd : pin.isDouble = false)
    (hp4 : pin.isFourState = false) (hpsg : pin.isSigned = true)
    (hcs : cat.isString = false) (hcd : cat.isDouble = false)
    (h1 : 1 ≤ pin.width) (hw : pin.width ≤ cat.width) (hv : pin.value < 2 ^ pin.width) :
    (areSame env pin cat = true
      ↔ cat.isFourState = false ∧ cat.value = signExtend pin.value pin.width cat.width)
    ∧ (cat.value < 2 ^ cat.width →
        (areSame env pin cat = true
          ↔ cat.isFourState = false
            ∧ toSigned cat.value cat.width = toSigned pin.value pin.width)) := by
  have key : areSame env pin cat = true
      ↔ cat.isFourState = false ∧ cat.value = signExtend pin.value pin.width cat.width := by
    unfold areSame
    simp only [hps, hpd, hpsg, hcd, Bool.false_eq_true, if_false, if_true]
    rw [hops.2.1 _ _ _ hp4]
    rw [hops.2.2 _ _ rfl rfl rfl hcs hcd]
  refine ⟨key, fun hc => ?_⟩
  rw [key, signExtend_toSigned _ _ _ _ h1 hw hv hc]

/-- Witness of C17: the signed eight-bit value `8'hFF` (the integer -1)
against the 32-bit catalog value `32'hFFFFFFFF`. -/
theorem areSame_signed_sign_extends_witness :
    NumOpsSpec plainEnv
    ∧ areSame plainEnv { V3Number.ofNat 8 255 with isSigned := true }
        (V3Number.ofNat 32 4294967295) = true
    ∧ areSame plainEnv { V3Number.ofNat 8 255 with isSigned := true }
        (V3Number.ofNat 32 255) = false
    ∧ toSigned 255 8 = -1 ∧ toSigned 4294967295 32 = -1 :=
  ⟨plainEnv_numOps,
    ((areSame_signed_sign_extends plainEnv plainEnv_numOps
      { V3Number.ofNat 8 255 with isSigned := true } (V3Number.ofNat 32 4294967295)
      rfl rfl rfl rfl rfl rfl (by decide) (by decide) (by decide)).2 (by decide)).2
      ⟨rfl, by decide⟩,
    by decide, by decide, by decide⟩

/-! ## Unsupported bindings of a hierarchical block -/

theorem updateStmt_errors (s s' : ParamState) (v : VarId) (f : ModStmt → Except Failure ModStmt)
    (h : s.updateStmt v f = .ok s') : s'.errors = s.errors := by
  unfold ParamState.updateStmt at h
  cases hm : s.modAt v.modp with
  | error e => simp [hm, Except.bind] at h
  | ok m =>
    simp only [hm, Except.bind] at h
    cases hst : s.stmtAt v with
    | error e => simp [hst] at h
    | ok st =>
      simp only [hst] at h
      cases hf : f st with
      | error e => simp [hf, Except.map] at h
      | ok st' =>
        simp only [hf, Except.map, Except.ok.injEq] at h
        subst h
        rfl

theorem checkSupportedParam_mono (env : Env) (s : ParamState) (pinp : AstPin) (e : V3Error)
    (h : e ∈ s.errors) : e ∈ (checkSupportedParam env s pinp).errors := by
  have hv : ∀ obj msg, e ∈ (s.v3error obj msg).errors := fun obj msg => by
    simp only [ParamState.v3error, List.mem_append]
    exact Or.inl h
  unfold checkSupportedParam
  simp only []
  repeat' split
  all_goals first | exact h | exact hv _ _

theorem checkSupportedParam_reports (env : Env) (s : ParamState) (pinp : AstPin)
    (h : unsupportedParam env pinp = true) :
    ⟨.pin pinp, unsupportedMsg pinp⟩ ∈ (checkSupportedParam env s pinp).errors := by
  unfold unsupportedParam at h
  unfold checkSupportedParam unsupportedMsg
  by_cases hv : pinp.modVarp.isSome = true
  · simp only [hv, if_true] at h ⊢
    cases hc : pinp.exprp.asConst with
    | none => simp [ParamState.v3error]
    | some c =>
      simp only [hc] at h
      simp [ParamState.v3error, h]
  · simp only [hv, if_false, Bool.false_eq_true] at h ⊢
    simp [ParamState.v3error, h]

/-- The loop over the parameter pins of a fresh clone keeps the errors
reported before, and for a hierarchical block it reports every binding with
an expression that is not supported. -/
theorem assignParams_reports (env : Env) (hierBlock : Bool) (pins : List AstPin)
    (s s' : ParamState) (h : assignParams env hierBlock s pins = .ok s') :
    (∀ e ∈ s.errors, e ∈ s'.errors)
    ∧ (hierBlock = true → ∀ p ∈ pins, p.exprp.isNull = false → unsupportedParam env p = true →
        ⟨.pin p, unsupportedMsg p⟩ ∈ s'.errors) := by
  induction pins generalizing s with
  | nil =>
    simp only [assignParams, Except.ok.injEq] at h
    subst h
    exact ⟨fun _ he => he, fun _ p hp => absurd hp (List.not_mem_nil p)⟩
  | cons q rest ih =>
    unfold assignParams at h
    by_cases hnull : q.exprp.isNull = true
    · simp only [hnull, if_true] at h
      obtain ⟨h1, h2⟩ := ih s h
      refine ⟨h1, fun hb p hp hpn hpu => ?_⟩
      rcases List.mem_cons.1 hp with rfl | hp
      · rw [hnull] at hpn
        exact absurd hpn (by decide)
      · exact h2 hb p hp hpn hpu
    · simp only [hnull, if_false, Bool.false_eq_true] at h
      generalize hs0 : (if hierBlock = true then checkSupportedParam env s q else s) = s0 at h
      have hmono0 : ∀ e ∈ s.errors, e ∈ s0.errors := by
        intro e he
        rw [← hs0]
        split
        · exact checkSupportedParam_mono env s q e he
        · exact he
      have hrep0 : hierBlock = true → unsupportedParam env q = true →
          ⟨.pin q, unsupportedMsg q⟩ ∈ s0.errors := by
        intro hb hu
        rw [← hs0, if_pos hb]
        exact checkSupportedParam_reports env s q hu
      generalize hs1 : (match q.modVarp with
        | some modvarp =>
          s0.updateStmt modvarp fun
            | .Var v => .ok (.Var { v with valuep := q.exprp, overriddenParam := true })
            | _ => .error (.nullDeref "var")
        | none =>
          match q.modPTypep with
          | some modptp =>
            if !q.exprp.isNodeDType then .error (.fatalSrc "unlinked param dtype")
            else
              s0.updateStmt modptp fun
                | .ParamTypeDType t => .ok (.ParamTypeDType { t with childDTypep := q.exprp })
                | _ => .error (.nullDeref "paramtype")
          | none => .ok s0 : Except Failure ParamState) = r1 at h
      cases r1 with
      | error e => simp [Except.bind] at h
      | ok s1 =>
        simp only [Except.bind] at h
        have he1 : s1.errors = s0.errors := by
          split at hs1
          · exact updateStmt_errors _ _ _ _ hs1
          · split at hs1
            · split at hs1
              · simp at hs1
              · exact updateStmt_errors _ _ _ _ hs1
            · simp only [Except.ok.injEq] at hs1
              rw [hs1]
        obtain ⟨h1, h2⟩ := ih s1 h
        refine ⟨fun e he => h1 e (by rw [he1]; exact hmono0 e he), fun hb p hp hpn hpu => ?_⟩
        rcases List.mem_cons.1 hp with rfl | hp
        · exact h1 _ (by rw [he1]; exact hrep0 hb hpu)
        · exact h2 hb p hp hpn hpu

/-- The last step of the making of a flavour is the loop over its relinked
parameter pins. -/
theorem cloneFlavor_assign (env : Env) (s s' : ParamState) (srcModp : Nat) (cell cell' : AstCell)
    (newname : String) (refs : List (VarId × AstNode)) (info : ModInfo)
    (h : cloneFlavor env s srcModp cell newname refs = .ok (s', cell', info)) :
    ∃ src sF, s.modAt srcModp = .ok src
      ∧ assignParams env (src.hierBlock && !src.recursiveClone) sF cell'.paramsp = .ok s' := by
  unfold cloneFlavor at h
  cases hsrc : s.modAt srcModp with
  | error e => simp [hsrc, Except.bind] at h
  | ok src =>
    simp only [hsrc, Except.bind] at h
    cases hcur : s.m_modp with
    | none => simp [hcur] at h
    | some cur =>
      simp only [hcur] at h
      cases hcm : s.modAt cur with
      | error e => simp [hcm] at h
      | ok curMod =>
        simp only [hcm] at h
        split at h
        · simp at h
        · rename_i paramsp hrl
          split at h
          · simp at h
          · rename_i sF hfix
            split at h
            · simp at h
            · rename_i sA hass
              simp only [Except.ok.injEq, Prod.mk.injEq] at h
              obtain ⟨rfl, rfl, _⟩ := h
              exact ⟨src, sF, rfl, hass⟩

/-- C18, as amended: when `visitCell` makes a fresh clone for a cell of a
hierarchical-block template (flagged `hierBlock` and not a recursive clone),
every parameter binding of the cell, as relinked to the clone, that has an
expression and targets a type parameter, or whose value is not a plain
(non-opaque) constant, has a user error attached to that pin in the
resulting state. -/
theorem visitCell_hier_clone_rejects (env : Env) (fuel : Nat) (s s' : ParamState)
    (v : CellVisit) (cell : AstCell) (T : Nat) (srcT : AstNodeModule)
    (h : visitStep env fuel s v = .ok s')
    (hc : s.cellAt v.nodep = .ok cell) (hT : cell.modp = some T)
    (hsrc : s.modAt T = .ok srcT)
    (hhb : srcT.hierBlock = true) (hrc : srcT.recursiveClone = false)
    (hfresh : s.mods.length < s'.mods.length) :
    ∃ acc cell1 src paramsp,
      cellNames env { s with m_modp := some v.modp } T cell v.hierName = .ok (acc, cell1)
      ∧ acc.s.modAt T = .ok src
      ∧ relinkPins (collectPinsLoop T s.mods.length src.stmts 0 []) cell1.paramsp = .ok paramsp
      ∧ ∀ p ∈ paramsp, p.exprp.isNull = false → unsupportedParam env p = true →
          ⟨.pin p, unsupportedMsg p⟩ ∈ s'.errors := by
  obtain ⟨acc, cell1, src, newname, sR, sB, cellC, info, c, hn, _, hsrcA, _, hrn, _, hcf, _,
    _, _, _, _, herr, _⟩ := visitStep_fresh_inv env fuel s s' v cell T h hc hT hfresh
  have hrel := cellNames_loopRel _ _ _ _ _ _ _ hn
  obtain ⟨⟨lm, lid, rc, hsR, _⟩, _, _⟩ := resolveName_spec _ _ _ _ _ _ _ _ hrn
  have hRmods : sR.mods = acc.s.mods := by rw [hsR]
  have hlen : acc.s.mods.length = s.mods.length := hrel.fields.1
  have hsrcR : sR.modAt T = .ok src := by
    rw [modAt_eq_ok, hRmods]
    exact modAt_eq_ok.1 hsrcA
  obtain ⟨src0, hsrc0, hview⟩ := modAt_later hrel.later_rev T src hsrcA
  have e0 : src0 = srcT := Except.ok.inj (hsrc0.symm.trans hsrc)
  subst e0
  have hflag : (src.hierBlock && !src.recursiveClone) = true := by
    have h1 := (modView_name hview).2
    have h2 := modView_recursiveClone hview
    rw [← h1, ← h2] at *
    simp [hhb, hrc] at *
  obtain ⟨src1, clone, ms, errs, hs1, _, _, _, _, _, _, hmap, _, _, _, hrl⟩ :=
    cloneFlavor_spec _ _ _ _ _ _ _ _ _ hcf
  have e1 : src1 = src := by
    have := modAt_eq_ok.1 hsrcR
    rw [hs1] at this
    exact (Option.some.inj this)
  subst e1
  obtain ⟨src2, sF, hsrc2, hass⟩ := cloneFlavor_assign _ _ _ _ _ _ _ _ _ hcf
  have e2 : src2 = src1 := Except.ok.inj (hsrc2.symm.trans hsrcR)
  subst e2
  rw [hflag] at hass
  refine ⟨acc, cell1, src2, cellC.paramsp, hn, hsrcA, ?_, ?_⟩
  · rw [← hlen, ← hRmods, ← hmap]
    exact hrl
  · intro p hp hpn hpu
    rw [herr]
    exact (assignParams_reports _ _ _ _ _ hass).2 rfl p hp hpn hpu

/-- Witness of C18, as amended: cell `c0` of `arrayHierDesign` binds the array
parameter of the hierarchical block `sub` to `'{3, 4}`; the clone is made and
the one error of the run is the one on that pin. -/
theorem visitCell_hier_clone_rejects_witness :
    arrayHierAfter.errors.map (·.msg)
      = ["hierarchical verilation supports only integer/floating point/string parameters"]
    ∧ ∃ acc cell1 src paramsp,
      cellNames plainEnv { arrayHierDesign with m_modp := some 0 } 1
        (mkCell "c0" [mkPin "A" 0 (mkInitArrayOf 3 4)] [mkPin "clk" 1 (mkVarRef "x")]) "top"
        = .ok (acc, cell1)
      ∧ acc.s.modAt 1 = .ok src
      ∧ relinkPins (collectPinsLoop 1 arrayHierDesign.mods.length src.stmts 0 []) cell1.paramsp
        = .ok paramsp
      ∧ ∀ p ∈ paramsp, p.exprp.isNull = false → unsupportedParam plainEnv p = true →
          ⟨.pin p, unsupportedMsg p⟩ ∈ arrayHierAfter.errors :=
  ⟨by decide,
    visitCell_hier_clone_rejects plainEnv 1 arrayHierDesign arrayHierAfter ⟨0, 0, "top"⟩
      (mkCell "c0" [mkPin "A" 0 (mkInitArrayOf 3 4)] [mkPin "clk" 1 (mkVarRef "x")]) 1
      { mkModule "sub" 3 [mkParam "A" mkArrayDType mkInitArray, mkPort "clk"] with
        hierBlock := true }
      (eq_ok_resultOf _ (by decide)) (by decide) (by decide) (by decide) (by decide) (by decide)
      (by decide)⟩

/-- Counterexample to C18 as stated: with a wrapper of the hierarchical block
`sub` in the catalog, the visit of cell `c0`, which binds the array parameter
`A` to `'{3, 4}`, ends in the internal error of `findByParams`; no state
results and no user error is attached to the pin. -/
theorem visitCell_catalog_array_binding_fatal :
    visitStep plainEnv 1 arrayCatalogDesign ⟨0, 0, "top"⟩
      = .error (.fatalSrc "parameter for a hierarchical block must have been constified")
    ∧ (arrayCatalogDesign.modAt 1).map (·.hierBlock) = .ok true
    ∧ (arrayCatalogDesign.cellAt 0).map (·.paramsp)
      = .ok [mkPin "A" 0 (mkInitArrayOf 3 4)]
    ∧ unsupportedParam plainEnv (mkPin "A" 0 (mkInitArrayOf 3 4)) = true
    ∧ ¬ ∃ s', visitStep plainEnv 1 arrayCatalogDesign ⟨0, 0, "top"⟩ = .ok s'
        ∧ ∃ msg, ⟨.pin (mkPin "A" 0 (mkInitArrayOf 3 4)), msg⟩ ∈ s'.errors := by
  have h : visitStep plainEnv 1 arrayCatalogDesign ⟨0, 0, "top"⟩
      = .error (.fatalSrc "parameter for a hierarchical block must have been constified") := by
    decide
  refine ⟨h, by decide, by decide, by decide, ?_⟩
  rintro ⟨s', hs', _⟩
  rw [h] at hs'
  exact absurd hs' (by simp)

/-! ## Names of modules -/

theorem names_of_views (a b : List AstNodeModule) (h : a.map modView = b.map modView) :
    a.map (·.name) = b.map (·.name) := by
  have := congrArg (List.map (fun v : (String × Int × Bool) × Bool × Bool × List ModStmt => v.1.1)) h
  simpa [List.map_map, Function.comp_def, modView] using this

theorem LoopRel.names {s s' : ParamState} (h : LoopRel s s') :
    s'.mods.map (·.name) = s.mods.map (·.name)
      ∧ s'.m_allModuleNames = s.m_allModuleNames
      ∧ s'.m_modNameMap = s.m_modNameMap ∧ s'.m_longMap = s.m_longMap := by
  obtain ⟨mods, _, _, _, rfl, hm, _⟩ := h
  exact ⟨names_of_views _ _ hm, rfl, rfl, rfl⟩

theorem hierBlockPrefixLoop_fresh (s : ParamState) (base hashStr : String) (n i : Nat)
    (name : String) (h : hierBlockPrefixLoop s base hashStr n i = some name) :
    moduleExists s name = false := by
  induction n generalizing i with
  | zero => simp [hierBlockPrefixLoop] at h
  | succ n ih =>
    unfold hierBlockPrefixLoop at h
    simp only at h
    by_cases hx : moduleExists s (base ++ String.mk (hashStr.data.take i)) = true
    · simp only [hx, Bool.not_true, Bool.false_eq_true, if_false] at h
      exact ih _ h
    · simp only [hx, Bool.not_false, if_true, Option.some.injEq] at h
      subst h
      simpa using hx

theorem hierBlockNameLoop_fresh (env : Env) (s : ParamState) (base : String) (fuel : Nat)
    (hash : List String) (rc : Nat) (name : String) (rc' : Nat)
    (h : hierBlockNameLoop env s base fuel hash rc = .ok (name, rc')) :
    moduleExists s name = false := by
  induction fuel generalizing hash rc with
  | zero => simp [hierBlockNameLoop] at h
  | succ fuel ih =>
    unfold hierBlockNameLoop at h
    simp only at h
    split at h
    · rename_i newName hp
      simp only [Except.ok.injEq, Prod.mk.injEq] at h
      rw [← h.1]
      exact hierBlockPrefixLoop_fresh _ _ _ _ _ _ hp
    · exact ih _ _ h

/-- The name `parametrizedHierBlockName` returns is the name of no module of
the source and of no flavour in the cache. -/
theorem parametrizedHierBlockName_fresh (env : Env) (fuel : Nat) (s s' : ParamState)
    (m : AstNodeModule) (pars : List AstPin) (n : String)
    (h : parametrizedHierBlockName env fuel s m pars = .ok (n, s')) :
    moduleExists s n = false := by
  unfold parametrizedHierBlockName at h
  cases hp : hierBlockHashPins env s pars with
  | error e => simp [hp, Except.bind] at h
  | ok pins =>
    simp only [hp, Except.bind] at h
    by_cases he : m.name.isEmpty = true
    · rw [if_pos he] at h
      cases h
    · rw [if_neg he] at h
      split at h
      · cases h
      · rename_i r hr
        simp only [Except.ok.injEq, Prod.mk.injEq] at h
        rw [← h.1]
        exact hierBlockNameLoop_fresh _ _ _ _ _ _ _ _ hr

/-- The entries of `m_longMap` after `resolveName` are the entries before and
at most one more, for the name returned; the name returned for a
hierarchical block is taken from `m_longMap` or is a name that does not
exist. -/
theorem resolveName_names (env : Env) (fuel : Nat) (s s' : ParamState) (src : AstNodeModule)
    (pars : List AstPin) (longname newname : String)
    (h : resolveName env fuel s src pars longname = .ok (newname, s')) :
    (∀ k n, mapFind s'.m_longMap k = some n → mapFind s.m_longMap k = some n ∨ n = newname)
    ∧ (src.hierBlock = true →
        mapFind s.m_longMap longname = some newname ∨ moduleExists s newname = false) := by
  unfold resolveName at h
  by_cases hc : (decide (longname.utf8ByteSize > 30) || src.hierBlock) = true
  · simp only [hc, if_true] at h
    cases hf : mapFind s.m_longMap longname with
    | some n =>
      simp only [hf, Except.ok.injEq, Prod.mk.injEq] at h
      obtain ⟨rfl, rfl⟩ := h
      exact ⟨fun _ _ hk => Or.inl hk, fun _ => Or.inl rfl⟩
    | none =>
      simp only [hf] at h
      by_cases hb : src.hierBlock = true
      · simp only [hb, if_true] at h
        cases hp : parametrizedHierBlockName env fuel s src pars with
        | error e => simp [hp, Except.bind] at h
        | ok r =>
          obtain ⟨n, s1⟩ := r
          have hfresh := parametrizedHierBlockName_fresh _ _ _ _ _ _ _ hp
          obtain ⟨rc, rfl⟩ := parametrizedHierBlockName_state _ _ _ _ _ _ _ hp
          simp only [hp, Except.bind, Except.ok.injEq, Prod.mk.injEq] at h
          obtain ⟨rfl, rfl⟩ := h
          refine ⟨fun k v hk => ?_, fun _ => Or.inr hfresh⟩
          rcases mapFind_mapInsert_inv _ _ _ _ _ hk with h1 | ⟨_, h2, _⟩
          · exact Or.inl h1
          · exact Or.inr h2.symm
      · simp only [hb, if_false, Except.bind, Except.ok.injEq, Prod.mk.injEq] at h
        obtain ⟨rfl, rfl⟩ := h
        refine ⟨fun k v hk => ?_, fun hb' => absurd hb' hb⟩
        rcases mapFind_mapInsert_inv _ _ _ _ _ hk with h1 | ⟨_, h2, _⟩
        · exact Or.inl h1
        · exact Or.inr h2.symm
  · simp only [hc, if_false, Except.ok.injEq, Prod.mk.injEq] at h
    obtain ⟨rfl, rfl⟩ := h
    refine ⟨fun _ _ hk => Or.inl hk, fun hb => ?_⟩
    rw [hb] at hc
    simp at hc

theorem namesOk_congr {a b : ParamState} (hm : b.mods.map (·.name) = a.mods.map (·.name))
    (hn : b.m_allModuleNames = a.m_allModuleNames) (hc : b.m_modNameMap = a.m_modNameMap)
    (hl : b.m_longMap = a.m_longMap) (h : NamesOk a) : NamesOk b := by
  unfold NamesOk at h ⊢
  rw [hm, hn, hc, hl]
  exact h

/-- A visit of `visitCell` keeps the names in order, provided the name of a
module it adds that is not a hierarchical block is not the name of a module
of the source. -/
theorem visitStep_names (env : Env) (fuel : Nat) (s s' : ParamState) (v : CellVisit)
    (h : visitStep env fuel s v = .ok s') (hok : NamesOk s)
    (hfree : ∀ m, s'.mods[s.mods.length]? = some m → m.hierBlock = false →
      m.name ∉ s.m_allModuleNames) :
    NamesOk s' ∧ s'.m_allModuleNames = s.m_allModuleNames := by
  obtain ⟨cell, T, acc, cell1, sB, cell2, modp, m, _, _, hn, hs, _, _, hs'⟩ :=
    visitCell_inv _ _ _ _ _ _ h
  have hrel := cellNames_loopRel _ _ _ _ _ _ _ hn
  obtain ⟨hnA, haA, hcA, hlA⟩ := hrel.names
  have hlen : acc.s.mods.length = s.mods.length := hrel.fields.1
  have hokA : NamesOk acc.s := namesOk_congr hnA haA hcA hlA hok
  have hmods' : s'.mods = sB.mods := by rw [hs']; rfl
  have hall' : s'.m_allModuleNames = sB.m_allModuleNames := by rw [hs']; rfl
  have hcache' : s'.m_modNameMap = sB.m_modNameMap := by rw [hs']; rfl
  have hlong' : s'.m_longMap = sB.m_longMap := by rw [hs']; rfl
  suffices hB : NamesOk sB ∧ sB.m_allModuleNames = acc.s.m_allModuleNames by
    refine ⟨namesOk_congr (by rw [hmods']) hall' hcache' hlong' hB.1, ?_⟩
    rw [hall', hB.2]
    exact haA
  rcases specializeCell_inv _ _ _ _ _ _ _ hs with ⟨_, rfl, _⟩ |
    ⟨_, src', modp', m', pinsp, _, _, hm', _, rfl, _⟩ | ⟨hov, src, newname, sR, hsrc, hfb, hrn, hsn⟩
  · exact ⟨hokA, rfl⟩
  · obtain ⟨h1, h2, h3, h4⟩ := (LoopRel.setMod acc.s modp' m' { m' with dead := false } hm' rfl
      (modSmallOk_of_stmts rfl)).names
    exact ⟨namesOk_congr h1 h2 h3 h4 hokA, h2⟩
  · obtain ⟨⟨lm, lid, rc, hsR, _⟩, _, _⟩ := resolveName_spec _ _ _ _ _ _ _ _ hrn
    obtain ⟨hlm, hhier⟩ := resolveName_names _ _ _ _ _ _ _ _ hrn
    have hRmods : sR.mods = acc.s.mods := by rw [hsR]
    have hRall : sR.m_allModuleNames = acc.s.m_allModuleNames := by rw [hsR]
    have hRcache : sR.m_modNameMap = acc.s.m_modNameMap := by rw [hsR]
    obtain ⟨_, hknown, hlong⟩ := id hokA
    rcases specializeByName_cases _ _ _ _ _ _ _ _ hsn with ⟨info, hhit, rfl, _⟩ |
      ⟨hnone, cellC, info, hcf, _⟩
    · refine ⟨?_, hRall⟩
      refine ⟨by rw [hRmods]; exact hokA.1, by rw [hRmods, hRall, hRcache]; exact hknown, ?_⟩
      intro k n hk
      rcases hlm k n hk with h1 | h1
      · rw [hRcache]
        exact hlong k n h1
      · rw [h1, hhit]
        rfl
    · obtain ⟨src1, clone, ms, errs, hsrc1, hsB, hname, hhb, _, _, _, _, _, _, _, _⟩ :=
        cloneFlavor_spec _ _ _ _ _ _ _ _ _ hcf
      have e1 : src1 = src := by
        have := modAt_eq_ok.1 hsrc
        rw [← hRmods, hsrc1] at this
        exact Option.some.inj this
      subst e1
      have hBmods : sB.mods = acc.s.mods ++ [clone] := by rw [hsB, hRmods]
      have hBcache : sB.m_modNameMap = mapInsert acc.s.m_modNameMap newname info := by
        rw [hsB, hRcache]
      have hBall : sB.m_allModuleNames = acc.s.m_allModuleNames := by rw [hsB, hRall]
      have hBlong : sB.m_longMap = sR.m_longMap := by rw [hsB]
      have hmiss : mapFind acc.s.m_modNameMap newname = none := by
        rw [← hRcache]
        exact hnone
      have hclone : s'.mods[s.mods.length]? = some clone := by
        rw [hmods', hBmods, ← hlen]
        simp
      have hnotall : newname ∉ acc.s.m_allModuleNames := by
        by_cases hb : src1.hierBlock = true
        · rcases hhier hb with h1 | h1
          · have := hlong _ _ h1
            rw [hmiss] at this
            cases this
          · unfold moduleExists at h1
            simp only [Bool.or_eq_false_iff, decide_eq_false_iff_not] at h1
            exact h1.1
        · have hcb : clone.hierBlock = false := by
            rw [hhb]
            simp [hb]
          have := hfree clone hclone hcb
          rw [hname, ← haA] at this
          exact this
      have hnotin : newname ∉ acc.s.mods.map (·.name) := by
        intro hin
        rcases hknown _ hin with h1 | h1
        · exact hnotall h1
        · rw [hmiss] at h1
          cases h1
      have hself : mapFind (mapInsert acc.s.m_modNameMap newname info) newname = some info :=
        mapFind_mapInsert_self _ _ _ hmiss
      have hgrow : ∀ n, (mapFind acc.s.m_modNameMap n).isSome = true →
          (mapFind (mapInsert acc.s.m_modNameMap newname info) n).isSome = true := by
        intro n hn'
        cases hx : mapFind acc.s.m_modNameMap n with
        | none => rw [hx] at hn'; cases hn'
        | some i => rw [mapFind_mapInsert_of_some _ _ _ _ _ hx]; rfl
      refine ⟨⟨?_, ?_, ?_⟩, hBall⟩
      · rw [hBmods, List.map_append, List.map_cons, List.map_nil, hname]
        refine List.Nodup.append hokA.1 (List.nodup_singleton _) ?_
        intro x hx hx'
        rw [List.mem_singleton] at hx'
        subst hx'
        exact hnotin hx
      · intro n hn'
        rw [hBmods, List.map_append, List.map_cons, List.map_nil, hname, List.mem_append,
          List.mem_singleton] at hn'
        rw [hBall, hBcache]
        rcases hn' with h1 | h1
        · rcases hknown n h1 with h2 | h2
          · exact Or.inl h2
          · exact Or.inr (hgrow n h2)
        · rw [h1, hself]
          exact Or.inr rfl
      · intro k n hk
        rw [hBlong] at hk
        rw [hBcache]
        rcases hlm k n hk with h1 | h1
        · exact hgrow n (hlong k n h1)
        · rw [h1, hself]
          rfl

/-- The names of the modules of a state are the first names of a later
state. -/
theorem Later.names_prefix {s s' : ParamState} (h : Later s s') :
    s.mods.map (·.name) <+: s'.mods.map (·.name) := by
  have hlen : s.mods.length ≤ s'.mods.length := by
    by_contra hlt
    have hlt' : s'.mods.length < s.mods.length := by omega
    obtain ⟨m', hm', _⟩ := h.mods s'.mods.length (s.mods[s'.mods.length]) (List.getElem?_eq_getElem hlt')
    have := (List.getElem?_eq_some.1 hm').1
    omega
  have heq : s.mods.map (·.name) = (s'.mods.map (·.name)).take s.mods.length := by
    apply List.ext_getElem?
    intro i
    by_cases hi : i < s.mods.length
    · obtain ⟨m', hm', hv⟩ := h.mods i (s.mods[i]) (List.getElem?_eq_getElem hi)
      rw [List.getElem?_take_of_lt hi]
      simp only [List.getElem?_map, hm', List.getElem?_eq_getElem hi, Option.map_some']
      rw [(modView_name hv).1]
    · rw [List.getElem?_eq_none (by simpa using hi), List.getElem?_eq_none]
      simp only [List.length_take, List.length_map]
      omega
  rw [heq]
  exact List.take_prefix _ _

/-- A run of visits keeps the names in order, provided no module it adds that
is not a hierarchical block bears the name of a module of the source. -/
theorem visitSteps_names (env : Env) (fuel : Nat) (vs : List CellVisit) (s sN : ParamState)
    (h : visitSteps env fuel s vs = .ok sN) (hok : NamesOk s)
    (hfree : ∀ m ∈ sN.mods.drop s.mods.length, m.hierBlock = false →
      m.name ∉ s.m_allModuleNames) :
    NamesOk sN := by
  induction vs generalizing s with
  | nil =>
    simp only [visitSteps, Except.ok.injEq] at h
    subst h
    exact hok
  | cons v vs ih =>
    simp only [visitSteps] at h
    cases h1 : visitStep env fuel s v with
    | error e => simp [h1, Except.bind] at h
    | ok s1 =>
      simp only [h1, Except.bind] at h
      have st1 := visitStep_stepRel _ _ _ _ _ h1
      have stN := visitSteps_stepRel _ _ _ _ _ h
      have hpre1 := st1.later.names_prefix
      have hlen1 : s.mods.length ≤ s1.mods.length := by
        have := hpre1.length_le
        simpa using this
      have hstep : NamesOk s1 ∧ s1.m_allModuleNames = s.m_allModuleNames := by
        apply visitStep_names env fuel s s1 v h1 hok
        intro m hm hhb
        obtain ⟨m', hm', hv⟩ := stN.later.mods _ m hm
        have hmem : m' ∈ sN.mods.drop s.mods.length := by
          apply List.mem_iff_getElem?.2
          refine ⟨0, ?_⟩
          rw [List.getElem?_drop]
          exact hm'
        have := hfree m' hmem (by rw [(modView_name hv).2]; exact hhb)
        rw [(modView_name hv).1] at this
        exact this
      apply ih s1 h hstep.1
      intro m hm hhb
      rw [hstep.2]
      apply hfree m _ hhb
      obtain ⟨i, hi⟩ := List.mem_iff_getElem?.1 hm
      rw [List.getElem?_drop] at hi
      apply List.mem_iff_getElem?.2
      refine ⟨s1.mods.length - s.mods.length + i, ?_⟩
      rw [List.getElem?_drop, ← hi]
      congr 1
      omega

theorem namesOk_init (mods : List AstNodeModule) (cells : List AstCell)
    (hier : ParameterizedHierBlocks) (hnd : (mods.map (·.name)).Nodup) :
    NamesOk (ParamState.init mods cells hier) :=
  ⟨hnd, fun _ hn => Or.inl hn, fun _ _ hk => by cases hk⟩

/-- C12, as amended: when the modules loaded from the source have distinct
names and no module that the run adds, other than a hierarchical block, bears
the name of a module of the source, then after the run no two modules of the
list have the same name; the modules of the source keep their names, so the
name of every module added differs from the names of all modules of the
source and of all other modules added. -/
theorem visitCell_unique_names (env : Env) (fuel : Nat) (mods : List AstNodeModule)
    (cells : List AstCell) (hier : ParameterizedHierBlocks) (vs : List CellVisit)
    (sN : ParamState)
    (hnd : (mods.map (·.name)).Nodup)
    (h : visitSteps env fuel (ParamState.init mods cells hier) vs = .ok sN)
    (hfree : ∀ m ∈ sN.mods.drop mods.length, m.hierBlock = false →
      m.name ∉ mods.map (·.name)) :
    (sN.mods.map (·.name)).Nodup ∧ mods.map (·.name) <+: sN.mods.map (·.name) :=
  ⟨(visitSteps_names env fuel vs _ sN h (namesOk_init mods cells hier hnd) hfree).1,
    (visitSteps_stepRel _ _ _ _ _ h).later.names_prefix⟩

/-- Witness of C12, as amended: the run over the three cells of `tokenSource`
adds the modules `sub__Pz1` and `sub__Pz2`. -/
theorem visitCell_unique_names_witness :
    (resultOf (visitSteps plainEnv 0 tokenSource tokenVisits)).mods.map (·.name)
      = ["top", "sub", "sub__Pz1", "sub__Pz2"]
    ∧ ((resultOf (visitSteps plainEnv 0 tokenSource tokenVisits)).mods.map (·.name)).Nodup
    ∧ tokenSource.mods.map (·.name)
        <+: (resultOf (visitSteps plainEnv 0 tokenSource tokenVisits)).mods.map (·.name) :=
  ⟨by decide,
    visitCell_unique_names plainEnv 0
      [mkModule "top" 2 [], mkModule "sub" 3 [mkParam "P" .null (mkConst 3), mkPort "clk"]]
      [mkCell "c0" [mkPin "P" 0 (widthedConst 8 5)] [mkPin "clk" 1 (mkVarRef "x")],
       mkCell "c1" [mkPin "P" 0 (widthedConst 8 6)] [mkPin "clk" 1 (mkVarRef "y")],
       mkCell "c2" [mkPin "P" 0 (widthedConst 8 5)] [mkPin "clk" 1 (mkVarRef "z")]]
      ⟨[], [], []⟩ tokenVisits (resultOf (visitSteps plainEnv 0 tokenSource tokenVisits))
      (by decide) (eq_ok_resultOf _ (by decide)) (by decide)⟩

/-- Counterexample to C12 as stated: the source has a module `sub__P5`, and
the clone that the visit of cell `c0` makes of `sub` for `P = 5` gets the
same name. -/
theorem visitCell_clone_name_clashes_with_source :
    (clashSource.mods.map (·.name)).Nodup
    ∧ (resultOf (visitStep plainEnv 0 clashSource ⟨0, 0, "top"⟩)).mods.map (·.name)
      = ["top", "sub", "sub__P5", "sub__P5"]
    ∧ (visitStep plainEnv 0 clashSource ⟨0, 0, "top"⟩).toBool = true
    ∧ ¬ ((resultOf (visitStep plainEnv 0 clashSource ⟨0, 0, "top"⟩)).mods.map (·.name)).Nodup := by
  decide

/-! ## Levels of modules -/

theorem collectPinsLoop_keys (oldp newp : Nat) (stmts : List ModStmt) (idx : Nat)
    (acc : List (VarId × VarId)) (k v : VarId)
    (h : mapFind (collectPinsLoop oldp newp stmts idx acc) k = some v) :
    k.modp = oldp ∨ mapFind acc k = some v := by
  induction stmts generalizing idx acc with
  | nil => exact Or.inr h
  | cons st rest ih =>
    have step : ∀ acc', (mapFind acc' k = some v → k.modp = oldp ∨ mapFind acc k = some v) →
        mapFind (collectPinsLoop oldp newp rest (idx + 1) acc') k = some v →
        k.modp = oldp ∨ mapFind acc k = some v := by
      intro acc' hacc h'
      rcases ih (idx + 1) acc' h' with h1 | h1
      · exact Or.inl h1
      · exact hacc h1
    have hins : mapFind (mapInsert acc ⟨oldp, idx⟩ ⟨newp, idx⟩) k = some v →
        k.modp = oldp ∨ mapFind acc k = some v := by
      intro h'
      rcases mapFind_mapInsert_inv _ _ _ _ _ h' with h1 | ⟨h1, _, _⟩
      · exact Or.inr h1
      · exact Or.inl (by rw [← h1])
    cases st with
    | Var x =>
      simp only [collectPinsLoop] at h
      split at h
      · exact step _ hins h
      · exact step _ Or.inr h
    | ParamTypeDType t =>
      simp only [collectPinsLoop] at h
      split at h
      · exact step _ hins h
      · exact step _ Or.inr h
    | Other n =>
      simp only [collectPinsLoop] at h
      exact step _ Or.inr h

theorem level_later {x y : ParamState} (h : Later x y) (i : Nat) (m : AstNodeModule)
    (hx : x.mods[i]? = some m) : ∃ m', y.mods[i]? = some m' ∧ m'.level = m.level := by
  obtain ⟨m', hm', hv⟩ := h.mods i m hx
  exact ⟨m', hm', modView_level hv⟩

theorem cacheLevelOk_of_later {s s' : ParamState} (hl : Later s s')
    (hc : s'.m_modNameMap = s.m_modNameMap) (h : CacheLevelOk s) : CacheLevelOk s' := by
  intro k info hk
  rw [hc] at hk
  obtain ⟨X, hX, hkeys⟩ := h k info hk
  obtain ⟨X', hX', hlX⟩ := level_later hl _ X hX
  refine ⟨X', hX', fun a b hab => ?_⟩
  obtain ⟨A, hA, hle⟩ := hkeys a b hab
  obtain ⟨A', hA', hlA⟩ := level_later hl _ A hA
  exact ⟨A', hA', by rw [hlA, hlX]; exact hle⟩

theorem cloneOf_level (src : AstNodeModule) (newname : String) (curLevel : Int) :
    src.level ≤ (cloneOf src newname curLevel).level
      ∧ curLevel + 1 ≤ (cloneOf src newname curLevel).level := by
  unfold cloneOf
  simp only
  split <;> constructor <;> omega

/-- The making of a flavour keeps the cache in order as to levels: the new
entry translates declarations of the template, and the clone lies no higher
than the template. -/
theorem cloneFlavor_cacheLevel (env : Env) (s s' : ParamState) (srcModp : Nat)
    (cell cell' : AstCell) (newname : String) (refs : List (VarId × AstNode)) (info : ModInfo)
    (h : cloneFlavor env s srcModp cell newname refs = .ok (s', cell', info))
    (hok : CacheLevelOk s) : CacheLevelOk s' := by
  obtain ⟨src, clone, ms, errs, hsrc, hs', _, _, _, _, hmodp, hmap, _, _, _, _⟩ :=
    cloneFlavor_spec _ _ _ _ _ _ _ _ _ h
  obtain ⟨src2, cur, curMod, st, hsrc2, _, _, hmods⟩ := cloneFlavor_clone _ _ _ _ _ _ _ _ _ h
  have e : src2 = src := by
    have := modAt_eq_ok.1 hsrc2
    rw [hsrc] at this
    exact (Option.some.inj this).symm
  subst e
  have hcache : s'.m_modNameMap = mapInsert s.m_modNameMap newname info := by rw [hs']
  have hget : ∀ (i : Nat) (m : AstNodeModule), s.mods[i]? = some m → s'.mods[i]? = some m := by
    intro i m hi
    rw [hmods, List.getElem?_append_left (List.getElem?_eq_some.1 hi).1]
    exact hi
  intro k inf hk
  rw [hcache] at hk
  rcases mapFind_mapInsert_inv _ _ _ _ _ hk with h1 | ⟨_, h2, _⟩
  · obtain ⟨X, hX, hkeys⟩ := hok k inf h1
    refine ⟨X, hget _ X hX, fun a b hab => ?_⟩
    obtain ⟨A, hA, hle⟩ := hkeys a b hab
    exact ⟨A, hget _ A hA, hle⟩
  · subst h2
    refine ⟨{ cloneOf src2 newname curMod.level with stmts := st }, ?_, fun a b hab => ?_⟩
    · rw [hmods, hmodp]
      simp
    · rw [hmap] at hab
      rcases collectPinsLoop_keys _ _ _ _ _ _ _ hab with h3 | h3
      · refine ⟨src2, ?_, (cloneOf_level src2 newname curMod.level).1⟩
        rw [h3]
        exact hget _ src2 hsrc
      · cases h3

/-- A visit of `visitCell` keeps the cache in order as to levels. -/
theorem visitStep_cacheLevel (env : Env) (fuel : Nat) (s s' : ParamState) (v : CellVisit)
    (h : visitStep env fuel s v = .ok s') (hok : CacheLevelOk s) : CacheLevelOk s' := by
  obtain ⟨cell, T, acc, cell1, sB, cell2, modp, m, _, _, hn, hs, _, _, hs'⟩ :=
    visitCell_inv _ _ _ _ _ _ h
  have hrel := cellNames_loopRel _ _ _ _ _ _ _ hn
  have hokA : CacheLevelOk acc.s := by
    have hl : Later s acc.s := ⟨hrel.later.mods, hrel.later.longMap, hrel.later.cache,
      hrel.later.hier⟩
    exact cacheLevelOk_of_later hl hrel.fields.2.1 hok
  suffices hB : CacheLevelOk sB by
    have hl : Later sB s' := by
      rw [hs']
      exact ⟨fun i m h => ⟨m, h, rfl⟩, fun _ _ h => h, fun _ _ h => h, rfl⟩
    exact cacheLevelOk_of_later hl (by rw [hs']; rfl) hB
  rcases specializeCell_inv _ _ _ _ _ _ _ hs with ⟨_, rfl, _⟩ |
    ⟨_, src', modp', m', pinsp, _, _, hm', _, rfl, _⟩ | ⟨hov, src, newname, sR, hsrc, hfb, hrn, hsn⟩
  · exact hokA
  · have hl := LoopRel.setMod acc.s modp' m' { m' with dead := false } hm' rfl
      (modSmallOk_of_stmts rfl)
    exact cacheLevelOk_of_later hl.later hl.fields.2.1 hokA
  · obtain ⟨⟨lm, lid, rc, hsR, _⟩, _, _⟩ := resolveName_spec _ _ _ _ _ _ _ _ hrn
    have hokR : CacheLevelOk sR :=
      cacheLevelOk_of_later (resolveName_stepRel _ _ _ _ _ _ _ _ hrn).later (by rw [hsR]) hokA
    rcases specializeByName_cases _ _ _ _ _ _ _ _ hsn with ⟨info, _, rfl, _⟩ |
      ⟨_, cellC, info, hcf, _⟩
    · exact hokR
    · exact cloneFlavor_cacheLevel _ _ _ _ _ _ _ _ _ hcf hokR

theorem visitSteps_cacheLevel (env : Env) (fuel : Nat) (vs : List CellVisit)
    (s s' : ParamState) (h : visitSteps env fuel s vs = .ok s') (hok : CacheLevelOk s) :
    CacheLevelOk s' := by
  induction vs generalizing s with
  | nil =>
    simp only [visitSteps, Except.ok.injEq] at h
    subst h
    exact hok
  | cons v vs ih =>
    simp only [visitSteps] at h
    cases h1 : visitStep env fuel s v with
    | error e => simp [h1, Except.bind] at h
    | ok s1 =>
      simp only [h1, Except.bind] at h
      exact ih s1 h (visitStep_cacheLevel _ _ _ _ _ h1 hok)

theorem relinkPins_mem (clonemap : List (VarId × VarId)) (pins pins' : List AstPin)
    (h : relinkPins clonemap pins = .ok pins') (p : AstPin) (hp : p ∈ pins) (var : VarId)
    (hv : p.modVarp = some var) : ∃ v', mapFind clonemap var = some v' := by
  induction pins generalizing pins' with
  | nil => cases hp
  | cons q rest ih =>
    simp only [relinkPins] at h
    rcases List.mem_cons.1 hp with rfl | hp'
    · simp only [hv] at h
      cases hf : mapFind clonemap var with
      | none => simp [hf, Except.bind] at h
      | some v' => exact ⟨v', rfl⟩
    · generalize hq : (match q.modVarp with
        | some v =>
          match mapFind clonemap v with
          | some v' => Except.ok { q with modVarp := some v' }
          | none => .error (.fatalSrc "Couldn't find pin in clone list")
        | none =>
          match q.modPTypep with
          | some t =>
            match mapFind clonemap t with
            | some t' => .ok { q with modPTypep := some t' }
            | none => .error (.fatalSrc "Couldn't find pin in clone list")
          | none => .error (.fatalSrc "Not linked?") : Except Failure AstPin) = rq at h
      cases rq with
      | error e => simp [Except.bind] at h
      | ok q' =>
        simp only [Except.bind] at h
        cases hr : relinkPins clonemap rest with
        | error e => simp [hr] at h
        | ok ps => exact ih ps hr hp'

theorem cellNames_cell (env : Env) (s : ParamState) (srcModp : Nat) (cell cell' : AstCell)
    (hierName : String) (acc : NameAcc)
    (h : cellNames env s srcModp cell hierName = .ok (acc, cell')) :
    cell'.pinsp = cell.pinsp.map (editPin env) ∧ cell'.modp = cell.modp := by
  unfold cellNames at h
  cases hsrc : s.modAt srcModp with
  | error e => simp [hsrc, Except.bind] at h
  | ok src =>
    simp only [hsrc, Except.bind] at h
    split at h
    · simp at h
    · rename_i r hr
      split at h
      · simp at h
      · rename_i a ha
        simp only [Except.ok.injEq, Prod.mk.injEq] at h
        rw [← h.2]
        exact ⟨rfl, rfl⟩

theorem todoInsert_mem (t : List (Int × Nat)) (level : Int) (modp : Nat) :
    (level, modp) ∈ todoInsert t level modp := by
  induction t with
  | nil => simp [todoInsert]
  | cons e rest ih =>
    obtain ⟨l', m'⟩ := e
    unfold todoInsert
    split
    · exact List.mem_cons_self _ _
    · exact List.mem_cons_of_mem _ ih

theorem todoInsert_mem_iff (t : List (Int × Nat)) (level : Int) (modp : Nat) (e : Int × Nat) :
    e ∈ todoInsert t level modp ↔ e = (level, modp) ∨ e ∈ t := by
  induction t with
  | nil => simp [todoInsert]
  | cons x rest ih =>
    obtain ⟨l', m'⟩ := x
    unfold todoInsert
    split
    · simp
    · simp only [List.mem_cons, ih]
      tauto

/-- C28: whenever `visitCell` returns, on whichever path, the cell has no
parameter pins left and its recursion flag is clear, and the module the cell
then refers to is on the work list under its own level. -/
theorem visitCell_cleanup_enqueue (env : Env) (fuel : Nat) (s s' : ParamState) (nodep : Nat)
    (hierName : String) (h : visitCell env fuel s nodep hierName = .ok s') :
    ∃ c modp m, s'.cellAt nodep = .ok c ∧ c.paramsp = [] ∧ c.recursive = false
      ∧ c.modp = some modp ∧ s'.modAt modp = .ok m ∧ (m.level, modp) ∈ s'.m_todoModps := by
  obtain ⟨cell, T, acc, cell1, sB, cell2, modp, m, hc, _, hn, hs, hm2, hmod, hs'⟩ :=
    visitCell_inv _ _ _ _ _ _ h
  have hrel := cellNames_loopRel _ _ _ _ _ _ _ hn
  have hlt : nodep < sB.cells.length := by
    rw [(specializeCell_stepRel _ _ _ _ _ _ _ hs).2, hrel.cells]
    exact cellAt_lt hc
  refine ⟨{ cell2 with recursive := false, paramsp := [] }, modp, m, ?_, rfl, rfl, hm2, ?_, ?_⟩
  · rw [hs']
    exact cellAt_finish _ _ _ _ hlt
  · rw [hs']
    exact hmod
  · rw [hs']
    exact todoInsert_mem _ _ _

/-- Witness of C28: the visit of cell `c0` of `tokenDesign`. -/
theorem visitCell_cleanup_enqueue_witness :
    (resultOf (visitCell plainEnv 0 tokenDesign 0 "top")).m_todoModps = [(3, 2)]
    ∧ ∃ c modp m, (resultOf (visitCell plainEnv 0 tokenDesign 0 "top")).cellAt 0 = .ok c
      ∧ c.paramsp = [] ∧ c.recursive = false ∧ c.modp = some modp
      ∧ (resultOf (visitCell plainEnv 0 tokenDesign 0 "top")).modAt modp = .ok m
      ∧ (m.level, modp) ∈ (resultOf (visitCell plainEnv 0 tokenDesign 0 "top")).m_todoModps :=
  ⟨by decide,
    visitCell_cleanup_enqueue plainEnv 0 tokenDesign _ 0 "top" (eq_ok_resultOf _ (by decide))⟩

/-! ## Errors of a visit -/

theorem PinErrs.of_errors {s s' : ParamState} (h : s'.errors = s.errors) : PinErrs s s' :=
  ⟨[], by rw [h, List.append_nil], fun _ he => absurd he (List.not_mem_nil _)⟩

theorem PinErrs.refl_errs (s : ParamState) : PinErrs s s := PinErrs.of_errors rfl

theorem PinErrs.trans_errs {a b c : ParamState} (h1 : PinErrs a b) (h2 : PinErrs b c) :
    PinErrs a c := by
  obtain ⟨e1, h1, p1⟩ := h1
  obtain ⟨e2, h2, p2⟩ := h2
  refine ⟨e1 ++ e2, by rw [h2, h1, List.append_assoc], fun e he => ?_⟩
  rcases List.mem_append.1 he with h | h
  · exact p1 e h
  · exact p2 e h

theorem PinErrs.v3error_errs (s : ParamState) (p : AstPin) (msg : String) :
    PinErrs s (s.v3error (.pin p) msg) :=
  ⟨[⟨.pin p, msg⟩], rfl, fun e he => by
    rw [List.mem_singleton] at he
    exact ⟨p, by rw [he]⟩⟩

theorem PinErrs.count {s s' : ParamState} (h : PinErrs s s') :
    s'.errors.countP isDepthError = s.errors.countP isDepthError := by
  obtain ⟨es, he, hp⟩ := h
  rw [he, List.countP_append]
  have : es.countP isDepthError = 0 := by
    rw [List.countP_eq_zero]
    intro e hmem
    obtain ⟨p, hobj⟩ := hp e hmem
    simp [isDepthError, hobj]
  omega

theorem paramValueNumber_pinErrs (env : Env) (s s' : ParamState) (nodep : AstNode) (t : String)
    (h : paramValueNumber env s nodep = .ok (t, s')) : PinErrs s s' := by
  unfold paramValueNumber at h
  cases hk : paramValueKey env s nodep with
  | error e => simp [hk, Except.bind] at h
  | ok key =>
    simp only [hk, Except.bind] at h
    cases hf : mapFind s.m_valueMap (valueHash env nodep) with
    | none =>
      simp only [hf, Except.ok.injEq, Prod.mk.injEq] at h
      obtain ⟨_, rfl⟩ := h
      exact PinErrs.of_errors rfl
    | some e =>
      obtain ⟨num, k⟩ := e
      simp only [hf] at h
      by_cases hkk : k = key
      · simp only [hkk, if_true, Except.ok.injEq, Prod.mk.injEq] at h
        obtain ⟨_, rfl⟩ := h
        exact PinErrs.refl_errs _
      · simp only [hkk, if_false, Except.ok.injEq, Prod.mk.injEq] at h
        obtain ⟨_, rfl⟩ := h
        exact PinErrs.of_errors rfl

theorem paramSmallName_pinErrs (s s' : ParamState) (modp : Nat) (varp : VarId) (c : String)
    (h : paramSmallName s modp varp = .ok (c, s')) : PinErrs s s' := by
  unfold paramSmallName at h
  cases h1 : s.stmtAt varp with
  | error e => simp [h1, Except.bind] at h
  | ok st =>
    cases h2 : stmtUser4 st with
    | error e => simp [h1, h2, Except.bind] at h
    | ok u =>
      simp only [h1, h2, Except.bind] at h
      by_cases hu : u ≤ 1
      · simp only [hu, if_true] at h
        cases hm : s.modAt modp with
        | error e => simp [hm, Except.map] at h
        | ok m =>
          simp only [hm, Except.map] at h
          have hrel : PinErrs s (s.setMod modp (makeSmallNames m)) := PinErrs.of_errors rfl
          cases h3 : (s.setMod modp (makeSmallNames m)).stmtAt varp with
          | error e => simp [h3] at h
          | ok st' =>
            cases h4 : stmtUser4 st' with
            | error e => simp [h3, h4] at h
            | ok u' =>
              simp only [h3, h4, Except.ok.injEq, Prod.mk.injEq] at h
              obtain ⟨_, rfl⟩ := h
              exact hrel
      · simp only [hu, if_false] at h
        simp only [h1, h2, Except.ok.injEq, Prod.mk.injEq] at h
        obtain ⟨_, rfl⟩ := h
        exact PinErrs.refl_errs _

theorem appendValueNumber_pinErrs (env : Env) (srcModp : Nat) (acc acc' : NameAcc)
    (varp : VarId) (valuep : AstNode)
    (h : appendValueNumber env srcModp acc varp valuep = .ok acc') : PinErrs acc.s acc'.s := by
  unfold appendValueNumber at h
  cases h1 : paramSmallName acc.s srcModp varp with
  | error e => simp [h1, Except.bind] at h
  | ok sm =>
    obtain ⟨c, s1⟩ := sm
    simp only [h1, Except.bind] at h
    cases h2 : paramValueNumber env s1 valuep with
    | error e => simp [h2] at h
    | ok tok =>
      obtain ⟨t, s2⟩ := tok
      simp only [h2, Except.ok.injEq] at h
      subst h
      exact (paramSmallName_pinErrs _ _ _ _ _ h1).trans_errs (paramValueNumber_pinErrs _ _ _ _ _ h2)

theorem pinError_pinErrs (acc : NameAcc) (pinp : AstPin) (msg : String) :
    PinErrs acc.s (acc.pinError pinp msg).s :=
  PinErrs.v3error_errs _ _ _

theorem paramPin_pinErrs (env : Env) (srcModp : Nat) (acc acc' : NameAcc) (pinp pinp' : AstPin)
    (h : paramPin env srcModp acc pinp = .ok (acc', pinp')) : PinErrs acc.s acc'.s := by
  unfold paramPin at h
  split at h
  · simp only [Except.ok.injEq, Prod.mk.injEq] at h
    obtain ⟨rfl, _⟩ := h
    exact PinErrs.refl_errs _
  · split at h
    · rename_i modvarp _
      cases hv : acc.s.varAt modvarp with
      | error e => simp [hv, Except.bind] at h
      | ok v =>
        simp only [hv, Except.bind] at h
        split at h
        · simp only [Except.ok.injEq, Prod.mk.injEq] at h
          obtain ⟨rfl, _⟩ := h
          exact pinError_pinErrs _ _ _
        · split at h
          · cases ha : appendValueNumber env srcModp acc modvarp pinp.exprp with
            | error e => simp [ha, Except.map] at h
            | ok a =>
              simp only [ha, Except.map, Except.ok.injEq, Prod.mk.injEq] at h
              obtain ⟨rfl, _⟩ := h
              exact appendValueNumber_pinErrs _ _ _ _ _ _ ha
          · split at h
            · simp only [Except.ok.injEq, Prod.mk.injEq] at h
              obtain ⟨rfl, _⟩ := h
              exact pinError_pinErrs _ _ _
            · split at h
              · simp only [Except.ok.injEq, Prod.mk.injEq] at h
                obtain ⟨rfl, _⟩ := h
                exact PinErrs.refl_errs _
              · split at h
                · cases ha : appendValueNumber env srcModp acc modvarp pinp.exprp with
                  | error e => simp [ha, Except.map] at h
                  | ok a =>
                    simp only [ha, Except.map, Except.ok.injEq, Prod.mk.injEq] at h
                    obtain ⟨rfl, _⟩ := h
                    exact appendValueNumber_pinErrs _ _ _ _ _ _ ha
                · cases hs : paramSmallName acc.s srcModp modvarp with
                  | error e => simp [hs] at h
                  | ok sm =>
                    simp only [hs, Except.ok.injEq, Prod.mk.injEq] at h
                    obtain ⟨rfl, _⟩ := h
                    exact paramSmallName_pinErrs _ _ _ _ _ hs
    · split at h
      · rename_i modvarp _
        cases hv : acc.s.ptypeAt modvarp with
        | error e => simp [hv, Except.bind] at h
        | ok t =>
          simp only [hv, Except.bind] at h
          split at h
          · simp only [Except.ok.injEq, Prod.mk.injEq] at h
            obtain ⟨rfl, _⟩ := h
            exact pinError_pinErrs _ _ _
          · split at h
            · simp only [Except.ok.injEq, Prod.mk.injEq] at h
              obtain ⟨rfl, _⟩ := h
              exact pinError_pinErrs _ _ _
            · split at h
              · simp only [Except.ok.injEq, Prod.mk.injEq] at h
                obtain ⟨rfl, _⟩ := h
                exact PinErrs.refl_errs _
              · cases ha : appendValueNumber env srcModp acc modvarp
                    (env.constifyParamsEdit pinp.exprp) with
                | error e => simp [ha, Except.map] at h
                | ok a =>
                  simp only [ha, Except.map, Except.ok.injEq, Prod.mk.injEq] at h
                  obtain ⟨rfl, _⟩ := h
                  exact appendValueNumber_pinErrs _ _ _ _ _ _ ha
      · simp only [Except.ok.injEq, Prod.mk.injEq] at h
        obtain ⟨rfl, _⟩ := h
        exact pinError_pinErrs _ _ _

theorem paramPins_pinErrs (env : Env) (srcModp : Nat) (pins pins' : List AstPin)
    (acc acc' : NameAcc) (h : paramPins env srcModp acc pins = .ok (acc', pins')) :
    PinErrs acc.s acc'.s := by
  induction pins generalizing acc pins' with
  | nil =>
    simp only [paramPins, Except.ok.injEq, Prod.mk.injEq] at h
    obtain ⟨rfl, _⟩ := h
    exact PinErrs.refl_errs _
  | cons p rest ih =>
    simp only [paramPins] at h
    cases h1 : paramPin env srcModp acc p with
    | error e => simp [h1, Except.bind] at h
    | ok r =>
      obtain ⟨a1, p1⟩ := r
      simp only [h1, Except.bind] at h
      cases h2 : paramPins env srcModp a1 rest with
      | error e => simp [h2] at h
      | ok rs =>
        obtain ⟨a2, ps⟩ := rs
        simp only [h2, Except.ok.injEq, Prod.mk.injEq] at h
        obtain ⟨rfl, _⟩ := h
        exact (paramPin_pinErrs _ _ _ _ _ _ h1).trans_errs (ih ps a1 h2)

theorem ifacePin_pinErrs (env : Env) (srcModp : Nat) (acc acc' : NameAcc) (pinp : AstPin)
    (h : ifacePin env srcModp acc pinp = .ok acc') : PinErrs acc.s acc'.s := by
  unfold ifacePin at h
  split at h
  · simp at h
  · rename_i modvarp _
    cases hv : acc.s.varAt modvarp with
    | error e => simp [hv, Except.bind] at h
    | ok v =>
      simp only [hv, Except.bind] at h
      split at h
      · cases hp : pinIfaceRef acc.s pinp.exprp with
        | error e => simp [hp] at h
        | ok pinIrefp =>
          simp only [hp] at h
          split at h
          · simp only [Except.ok.injEq] at h
            subst h
            exact pinError_pinErrs _ _ _
          · split at h
            · simp only [Except.ok.injEq] at h
              subst h
              exact pinError_pinErrs _ _ _
            · cases hv1 : ifaceViaCellp acc.s (portIfaceRef v.childDTypep) with
              | error e => simp [hv1] at h
              | ok portVia =>
                simp only [hv1] at h
                cases hv2 : ifaceViaCellp acc.s pinIrefp with
                | error e => simp [hv2] at h
                | ok pinVia =>
                  simp only [hv2] at h
                  split at h
                  · cases ha : appendValueNumber env srcModp acc modvarp pinIrefp with
                    | error e => simp [ha, Except.map] at h
                    | ok a =>
                      simp only [ha, Except.map, Except.ok.injEq] at h
                      subst h
                      have h0 := appendValueNumber_pinErrs _ _ _ _ _ _ ha
                      split
                      · exact h0.trans_errs (PinErrs.v3error_errs _ _ _)
                      · exact h0
                  · simp only [Except.ok.injEq] at h
                    subst h
                    exact PinErrs.refl_errs _
      · simp only [Except.ok.injEq] at h
        subst h
        exact PinErrs.refl_errs _

theorem ifacePins_pinErrs (env : Env) (srcModp : Nat) (pins : List AstPin)
    (acc acc' : NameAcc) (h : ifacePins env srcModp acc pins = .ok acc') :
    PinErrs acc.s acc'.s := by
  induction pins generalizing acc with
  | nil =>
    simp only [ifacePins, Except.ok.injEq] at h
    subst h
    exact PinErrs.refl_errs _
  | cons p rest ih =>
    simp only [ifacePins] at h
    cases h1 : ifacePin env srcModp acc p with
    | error e => simp [h1, Except.bind] at h
    | ok a1 =>
      simp only [h1, Except.bind] at h
      exact (ifacePin_pinErrs _ _ _ _ _ h1).trans_errs (ih a1 h)

theorem cellNames_pinErrs (env : Env) (s : ParamState) (srcModp : Nat) (cell cell' : AstCell)
    (hierName : String) (acc : NameAcc)
    (h : cellNames env s srcModp cell hierName = .ok (acc, cell')) : PinErrs s acc.s := by
  unfold cellNames at h
  cases hsrc : s.modAt srcModp with
  | error e => simp [hsrc, Except.bind] at h
  | ok src =>
    simp only [hsrc, Except.bind] at h
    split at h
    · simp at h
    · rename_i r hr
      split at h
      · simp at h
      · rename_i a ha
        simp only [Except.ok.injEq, Prod.mk.injEq] at h
        obtain ⟨rfl, _⟩ := h
        have h0 : PinErrs s (s.setMod srcModp
            { src with hierName := hierName ++ ("." ++ cell.name) }) := PinErrs.of_errors rfl
        exact (h0.trans_errs (paramPins_pinErrs _ _ _ _ _ _ hr)).trans_errs
          (ifacePins_pinErrs _ _ _ _ _ ha)

theorem insertAfterLower_spec (L : Nat → Int) (cl : Int) (c : Nat) (l : List Nat) :
    ∃ lower rest, l = lower ++ rest ∧ insertAfterLower L cl c l = lower ++ c :: rest
      ∧ (∀ m ∈ lower, L m < cl) ∧ (∀ m, rest.head? = some m → cl ≤ L m) := by
  induction l with
  | nil => exact ⟨[], [], rfl, rfl, fun _ h => absurd h (List.not_mem_nil _), fun _ h => by cases h⟩
  | cons m rest ih =>
    unfold insertAfterLower
    by_cases hm : L m < cl
    · rw [if_pos hm]
      obtain ⟨lower, r, h1, h2, h3, h4⟩ := ih
      refine ⟨m :: lower, r, by rw [h1]; rfl, by rw [h2]; rfl, ?_, h4⟩
      intro x hx
      rcases List.mem_cons.1 hx with rfl | hx
      · exact hm
      · exact h3 x hx
    · rw [if_neg hm]
      refine ⟨[], m :: rest, rfl, rfl, fun _ h => absurd h (List.not_mem_nil _), ?_⟩
      intro x hx
      simp only [List.head?_cons, Option.some.injEq] at hx
      subst hx
      omega

theorem insertClone_spec (L : Nat → Int) (cl : Int) (src c : Nat) (l : List Nat)
    (hsrc : src ∈ l) :
    ∃ pre lower rest, l = pre ++ src :: (lower ++ rest) ∧ src ∉ pre
      ∧ insertClone L cl src c l = pre ++ src :: (lower ++ c :: rest)
      ∧ (∀ m ∈ lower, L m < cl) ∧ (∀ m, rest.head? = some m → cl ≤ L m) := by
  induction l with
  | nil => cases hsrc
  | cons m rest ih =>
    unfold insertClone
    by_cases hm : m = src
    · rw [if_pos hm]
      obtain ⟨lower, r, h1, h2, h3, h4⟩ := insertAfterLower_spec L cl c rest
      exact ⟨[], lower, r, by rw [h1, hm]; rfl, List.not_mem_nil _, by rw [h2, hm]; rfl, h3, h4⟩
    · rw [if_neg hm]
      have hsrc' : src ∈ rest := by
        rcases List.mem_cons.1 hsrc with h | h
        · exact absurd h.symm hm
        · exact h
      obtain ⟨pre, lower, r, h1, h0, h2, h3, h4⟩ := ih hsrc'
      refine ⟨m :: pre, lower, r, by rw [h1]; rfl, ?_, by rw [h2]; rfl, h3, h4⟩
      intro hx
      rcases List.mem_cons.1 hx with h | h
      · exact hm h.symm
      · exact h0 h

theorem pairwise_insert (L : Nat → Int) (pre lower rest : List Nat) (src c : Nat)
    (hs : List.Pairwise (fun a b => L a ≤ L b) (pre ++ src :: (lower ++ rest)))
    (hsc : L src ≤ L c) (hlow : ∀ m ∈ lower, L m < L c)
    (hhead : ∀ m, rest.head? = some m → L c ≤ L m) :
    List.Pairwise (fun a b => L a ≤ L b) (pre ++ src :: (lower ++ c :: rest)) := by
  rw [List.pairwise_append] at hs ⊢
  obtain ⟨hpre, htail, hcross⟩ := hs
  rw [List.pairwise_cons] at htail
  obtain ⟨hsrcall, hlr⟩ := htail
  rw [List.pairwise_append] at hlr
  obtain ⟨hlower, hrest, hlrcross⟩ := hlr
  have hrestge : ∀ m ∈ rest, L c ≤ L m := by
    intro m hm
    cases rest with
    | nil => cases hm
    | cons r0 rs =>
      have h0 := hhead r0 rfl
      rcases List.mem_cons.1 hm with rfl | hm'
      · exact h0
      · rw [List.pairwise_cons] at hrest
        exact le_trans h0 (hrest.1 m hm')
  refine ⟨hpre, ?_, ?_⟩
  · rw [List.pairwise_cons]
    refine ⟨?_, ?_⟩
    · intro x hx
      rcases List.mem_append.1 hx with h | h
      · exact hsrcall x (List.mem_append_left _ h)
      · rcases List.mem_cons.1 h with rfl | h
        · exact hsc
        · exact hsrcall x (List.mem_append_right _ h)
    · rw [List.pairwise_append]
      refine ⟨hlower, ?_, ?_⟩
      · rw [List.pairwise_cons]
        exact ⟨hrestge, hrest⟩
      · intro a ha b hb
        rcases List.mem_cons.1 hb with rfl | hb
        · exact le_of_lt (hlow a ha)
        · exact hlrcross a ha b hb
  · intro a ha b hb
    have hasrc : L a ≤ L src := hcross a ha src (List.mem_cons_self _ _)
    rcases List.mem_cons.1 hb with rfl | hb
    · exact hasrc
    · rcases List.mem_append.1 hb with h | h
      · exact hcross a ha b (List.mem_cons_of_mem _ (List.mem_append_left _ h))
      · rcases List.mem_cons.1 h with rfl | h
        · exact le_trans hasrc hsc
        · exact hcross a ha b (List.mem_cons_of_mem _ (List.mem_append_right _ h))

theorem updateStmt_modulesp (s s' : ParamState) (v : VarId) (f : ModStmt → Except Failure ModStmt)
    (h : s.updateStmt v f = .ok s') : s'.modulesp = s.modulesp := by
  unfold ParamState.updateStmt at h
  cases hm : s.modAt v.modp with
  | error e => simp [hm, Except.bind] at h
  | ok m =>
    simp only [hm, Except.bind] at h
    cases hst : s.stmtAt v with
    | error e => simp [hst] at h
    | ok st =>
      simp only [hst] at h
      cases hf : f st with
      | error e => simp [hf, Except.map] at h
      | ok st' =>
        simp only [hf, Except.map, Except.ok.injEq] at h
        subst h
        rfl

theorem fixIfaceRefs_modulesp (srcModp cellmodp : Nat) (refs : List (VarId × AstNode))
    (s s' : ParamState) (h : fixIfaceRefs srcModp cellmodp s refs = .ok s') :
    s'.modulesp = s.modulesp := by
  induction refs generalizing s with
  | nil =>
    simp only [fixIfaceRefs, Except.ok.injEq] at h
    rw [← h]
  | cons r rest ih =>
    obtain ⟨portVar, pinIrefp⟩ := r
    simp only [fixIfaceRefs] at h
    split at h
    · cases h
    · cases hv : ifaceViaCellp s pinIrefp with
      | error e => simp [hv, Except.bind] at h
      | ok via =>
        simp only [hv, Except.bind] at h
        split at h
        · cases h
        · rename_i s1 hs1
          rw [ih s1 h]
          exact updateStmt_modulesp _ _ _ _ hs1

theorem checkSupportedParam_modulesp (env : Env) (s : ParamState) (pinp : AstPin) :
    (checkSupportedParam env s pinp).modulesp = s.modulesp := by
  unfold checkSupportedParam
  simp only []
  repeat' split
  all_goals rfl

theorem assignParams_modulesp (env : Env) (hierBlock : Bool) (pins : List AstPin)
    (s s' : ParamState) (h : assignParams env hierBlock s pins = .ok s') :
    s'.modulesp = s.modulesp := by
  induction pins generalizing s with
  | nil =>
    simp only [assignParams, Except.ok.injEq] at h
    rw [← h]
  | cons q rest ih =>
    unfold assignParams at h
    by_cases hnull : q.exprp.isNull = true
    · simp only [hnull, if_true] at h
      exact ih s h
    · simp only [hnull, if_false, Bool.false_eq_true] at h
      generalize hs0 : (if hierBlock = true then checkSupportedParam env s q else s) = s0 at h
      have h0 : s0.modulesp = s.modulesp := by
        rw [← hs0]
        split
        · exact checkSupportedParam_modulesp env s q
        · rfl
      generalize hs1 : (match q.modVarp with
        | some modvarp =>
          s0.updateStmt modvarp fun
            | .Var v => .ok (.Var { v with valuep := q.exprp, overriddenParam := true })
            | _ => .error (.nullDeref "var")
        | none =>
          match q.modPTypep with
          | some modptp =>
            if !q.exprp.isNodeDType then .error (.fatalSrc "unlinked param dtype")
            else
              s0.updateStmt modptp fun
                | .ParamTypeDType t => .ok (.ParamTypeDType { t with childDTypep := q.exprp })
                | _ => .error (.nullDeref "paramtype")
          | none => .ok s0 : Except Failure ParamState) = r1 at h
      cases r1 with
      | error e => simp [Except.bind] at h
      | ok s1 =>
        simp only [Except.bind] at h
        have he1 : s1.modulesp = s0.modulesp := by
          split at hs1
          · exact updateStmt_modulesp _ _ _ _ hs1
          · split at hs1
            · split at hs1
              · simp at hs1
              · exact updateStmt_modulesp _ _ _ _ hs1
            · simp only [Except.ok.injEq] at hs1
              rw [hs1]
        rw [ih s1 h, he1, h0]

theorem linkClone_modulesp (env : Env) (s : ParamState) (srcModp : Nat) (cell : AstCell)
    (src clone : AstNodeModule) (info : ModInfo) :
    (linkClone env s srcModp cell src clone info).modulesp
      = insertClone (levelWith (s.mods ++ [clone])) clone.level srcModp info.m_modp
          s.modulesp := by
  unfold linkClone
  simp only
  split <;> rfl

/-- The module list after the making of a flavour: the clone is inserted by
`insertClone`, with the levels read off the modules and the clone. -/
theorem cloneFlavor_modulesp (env : Env) (s s' : ParamState) (srcModp : Nat)
    (cell cell' : AstCell) (newname : String) (refs : List (VarId × AstNode)) (info : ModInfo)
    (h : cloneFlavor env s srcModp cell newname refs = .ok (s', cell', info)) :
    ∃ src cur curMod, s.modAt srcModp = .ok src ∧ s.m_modp = some cur ∧ s.modAt cur = .ok curMod
      ∧ s'.modulesp = insertClone (levelWith (s.mods ++ [cloneOf src newname curMod.level]))
          (cloneOf src newname curMod.level).level srcModp s.mods.length s.modulesp := by
  unfold cloneFlavor at h
  cases hsrc : s.modAt srcModp with
  | error e => simp [hsrc, Except.bind] at h
  | ok src =>
    simp only [hsrc, Except.bind] at h
    cases hcur : s.m_modp with
    | none => simp [hcur] at h
    | some cur =>
      simp only [hcur] at h
      cases hcm : s.modAt cur with
      | error e => simp [hcm] at h
      | ok curMod =>
        simp only [hcm] at h
        split at h
        · simp at h
        · rename_i paramsp hrl
          split at h
          · simp at h
          · rename_i sF hfix
            split at h
            · simp at h
            · rename_i sA hass
              simp only [Except.ok.injEq, Prod.mk.injEq] at h
              obtain ⟨rfl, _, _⟩ := h
              refine ⟨src, cur, curMod, rfl, rfl, hcm, ?_⟩
              rw [assignParams_modulesp _ _ _ _ _ hass, fixIfaceRefs_modulesp _ _ _ _ _ hfix,
                linkClone_modulesp]

theorem levelOf_later {x y : ParamState} (h : Later x y) (m : Nat) (hm : m < x.mods.length) :
    y.levelOf m = x.levelOf m := by
  obtain ⟨m', hm', hl⟩ := level_later h m (x.mods[m]) (List.getElem?_eq_getElem hm)
  unfold ParamState.levelOf
  rw [hm', List.getElem?_eq_getElem hm]
  exact hl

/-- C23: when the module list is ordered by level (and holds the template
among existing modules), a visit of `visitCell` that makes a fresh clone
leaves it ordered by level: the clone stands behind the template and the
modules of lower level that follow it, and before the first module after
these, whose level is not lower. -/
theorem visitCell_keeps_level_order (env : Env) (fuel : Nat) (s s' : ParamState)
    (v : CellVisit) (cell : AstCell) (T : Nat)
    (h : visitStep env fuel s v = .ok s')
    (hc : s.cellAt v.nodep = .ok cell) (hT : cell.modp = some T)
    (hfresh : s.mods.length < s'.mods.length)
    (hsorted : LevelSorted s) (hin : T ∈ s.modulesp)
    (hvalid : ∀ m ∈ s.modulesp, m < s.mods.length) :
    LevelSorted s'
    ∧ ∃ pre lower rest, s.modulesp = pre ++ T :: (lower ++ rest) ∧ T ∉ pre
        ∧ s'.modulesp = pre ++ T :: (lower ++ s.mods.length :: rest)
        ∧ (∀ m ∈ lower, s'.levelOf m < s'.levelOf s.mods.length)
        ∧ (∀ m, rest.head? = some m → s'.levelOf s.mods.length ≤ s'.levelOf m) := by
  obtain ⟨acc, cell1, src, newname, sR, sB, cellC, info, c, hn, _, hsrcA, _, hrn, _, hcf, _,
    _, _, hmods, _, _, hmodsp⟩ := visitStep_fresh_inv env fuel s s' v cell T h hc hT hfresh
  have hl := (visitStep_stepRel _ _ _ _ _ h).later
  have hrel := cellNames_loopRel _ _ _ _ _ _ _ hn
  obtain ⟨⟨lm, lid, rc, hsR, _⟩, _, _⟩ := resolveName_spec _ _ _ _ _ _ _ _ hrn
  have hRmods : sR.mods = acc.s.mods := by rw [hsR]
  have hRmodsp : sR.modulesp = s.modulesp := by rw [hsR]; exact hrel.fields.2.2
  have hlen : acc.s.mods.length = s.mods.length := hrel.fields.1
  have hRlen : sR.mods.length = s.mods.length := by rw [hRmods, hlen]
  obtain ⟨src1, cur1, curMod1, st, hs1, hs2, hs3, hBmods⟩ :=
    cloneFlavor_clone _ _ _ _ _ _ _ _ _ hcf
  obtain ⟨src2, cur2, curMod2, hm1, hm2, hm3, hBmodsp⟩ :=
    cloneFlavor_modulesp _ _ _ _ _ _ _ _ _ hcf
  have e0 : src1 = src2 := Except.ok.inj (hs1.symm.trans hm1)
  subst e0
  rw [hs2] at hm2
  have e0 : cur1 = cur2 := Option.some.inj hm2
  subst e0
  have e0 : curMod1 = curMod2 := Except.ok.inj (hs3.symm.trans hm3)
  subst e0
  -- the levels after the visit
  have hnew : s'.levelOf s.mods.length = (cloneOf src1 newname curMod1.level).level := by
    unfold ParamState.levelOf
    rw [hmods, hBmods, ← hRlen, getElem?_append_last]
  have hold : ∀ m, m < s.mods.length →
      levelWith (sR.mods ++ [cloneOf src1 newname curMod1.level]) m = s'.levelOf m := by
    intro m hm
    unfold levelWith ParamState.levelOf
    rw [hmods, hBmods, List.getElem?_append_left (by rw [hRlen]; exact hm),
      List.getElem?_append_left (by rw [hRlen]; exact hm)]
  have hsrcT : s'.levelOf T ≤ s'.levelOf s.mods.length := by
    have hTlt : T < s.mods.length := hvalid T hin
    rw [hnew, ← hold T hTlt]
    unfold levelWith
    rw [List.getElem?_append_left (by rw [hRlen]; exact hTlt), modAt_eq_ok.1 hs1]
    exact (cloneOf_level src1 newname curMod1.level).1
  obtain ⟨pre, lower, rest, hsplit, hnotin, hins, hlow, hhead⟩ :=
    insertClone_spec (levelWith (sR.mods ++ [cloneOf src1 newname curMod1.level]))
      (cloneOf src1 newname curMod1.level).level T sR.mods.length sR.modulesp
      (by rw [hRmodsp]; exact hin)
  rw [hRmodsp] at hsplit
  rw [hRlen] at hins
  have hmem : ∀ m, m ∈ lower ∨ m ∈ rest → m ∈ s.modulesp := by
    intro m hm
    rw [hsplit]
    apply List.mem_append_right
    apply List.mem_cons_of_mem
    exact List.mem_append.2 hm
  have hlow' : ∀ m ∈ lower, s'.levelOf m < s'.levelOf s.mods.length := by
    intro m hm
    rw [hnew, ← hold m (hvalid m (hmem m (Or.inl hm)))]
    exact hlow m hm
  have hhead' : ∀ m, rest.head? = some m → s'.levelOf s.mods.length ≤ s'.levelOf m := by
    intro m hm
    have hmr : m ∈ rest := by
      cases rest with
      | nil => cases hm
      | cons r0 rs =>
        simp only [List.head?_cons, Option.some.injEq] at hm
        rw [← hm]
        exact List.mem_cons_self _ _
    rw [hnew, ← hold m (hvalid m (hmem m (Or.inr hmr)))]
    exact hhead m hm
  have hsorted' : List.Pairwise (fun a b => s'.levelOf a ≤ s'.levelOf b)
      (pre ++ T :: (lower ++ rest)) := by
    rw [← hsplit]
    refine List.Pairwise.imp_of_mem ?_ hsorted
    intro a b ha hb hab
    rw [levelOf_later hl a (hvalid a ha), levelOf_later hl b (hvalid b hb)]
    exact hab
  have hfinal : s'.modulesp = pre ++ T :: (lower ++ s.mods.length :: rest) := by
    rw [hmodsp, hBmodsp, hRlen, hins]
  refine ⟨?_, pre, lower, rest, hsplit, hnotin, hfinal, hlow', hhead'⟩
  unfold LevelSorted
  rw [hfinal]
  exact pairwise_insert s'.levelOf pre lower rest T s.mods.length hsorted' hsrcT hlow' hhead'

/-- Witness of C23: the clone made for `c1` of `tokenDesign` (module 3, level
3) goes behind the template `sub` (module 1) and before the clone made for
`c0` (module 2), whose level is not lower. -/
theorem visitCell_keeps_level_order_witness :
    tokenAfter1.modulesp = [0, 1, 2]
    ∧ (resultOf (visitStep plainEnv 0 tokenAfter1 ⟨0, 1, "top"⟩)).modulesp = [0, 1, 3, 2]
    ∧ LevelSorted (resultOf (visitStep plainEnv 0 tokenAfter1 ⟨0, 1, "top"⟩))
    ∧ ∃ pre lower rest, tokenAfter1.modulesp = pre ++ 1 :: (lower ++ rest) ∧ 1 ∉ pre
        ∧ (resultOf (visitStep plainEnv 0 tokenAfter1 ⟨0, 1, "top"⟩)).modulesp
          = pre ++ 1 :: (lower ++ tokenAfter1.mods.length :: rest)
        ∧ (∀ m ∈ lower, (resultOf (visitStep plainEnv 0 tokenAfter1 ⟨0, 1, "top"⟩)).levelOf m
            < (resultOf (visitStep plainEnv 0 tokenAfter1 ⟨0, 1, "top"⟩)).levelOf
                tokenAfter1.mods.length)
        ∧ (∀ m, rest.head? = some m →
            (resultOf (visitStep plainEnv 0 tokenAfter1 ⟨0, 1, "top"⟩)).levelOf
                tokenAfter1.mods.length
              ≤ (resultOf (visitStep plainEnv 0 tokenAfter1 ⟨0, 1, "top"⟩)).levelOf m) :=
  ⟨by decide, by decide,
    visitCell_keeps_level_order plainEnv 0 tokenAfter1 _ ⟨0, 1, "top"⟩
      (mkCell "c1" [mkPin "P" 0 (widthedConst 8 6)] [mkPin "clk" 1 (mkVarRef "y")]) 1
      (eq_ok_resultOf _ (by decide)) (by decide) (by decide) (by decide)
      (by unfold LevelSorted; decide) (by decide) (by decide)⟩

/-! ## Writing the parameters of a clone -/

theorem except_bind_ok {ε α β : Type} {x : Except ε α} {f : α → Except ε β} {b : β}
    (h : x.bind f = .ok b) : ∃ a, x = .ok a ∧ f a = .ok b := by
  cases x with
  | error e => cases h
  | ok a => exact ⟨a, rfl, h⟩

theorem updateStmt_inv (s s' : ParamState) (v : VarId) (f : ModStmt → Except Failure ModStmt)
    (h : s.updateStmt v f = .ok s') :
    ∃ m st st', s.modAt v.modp = .ok m ∧ m.stmts[v.idx]? = some st ∧ f st = .ok st'
      ∧ s' = s.setMod v.modp { m with stmts := m.stmts.set v.idx st' } := by
  unfold ParamState.updateStmt at h
  cases hm : s.modAt v.modp with
  | error e => simp [hm, Except.bind] at h
  | ok m =>
    simp only [hm, Except.bind, ParamState.stmtAt] at h
    cases hst : m.stmts[v.idx]? with
    | none => simp [hst] at h
    | some st =>
      simp only [hst] at h
      cases hf : f st with
      | error e => simp [hf, Except.map] at h
      | ok st' =>
        simp only [hf, Except.map, Except.ok.injEq] at h
        exact ⟨m, st, st', rfl, hst, hf, h.symm⟩

theorem stmtAt_updateStmt_self (s s' : ParamState) (v : VarId)
    (f : ModStmt → Except Failure ModStmt) (h : s.updateStmt v f = .ok s') :
    ∃ st st', s.stmtAt v = .ok st ∧ f st = .ok st' ∧ s'.stmtAt v = .ok st' := by
  obtain ⟨m, st, st', hm, hst, hf, rfl⟩ := updateStmt_inv _ _ _ _ h
  refine ⟨st, st', ?_, hf, ?_⟩
  · unfold ParamState.stmtAt
    simp [hm, Except.bind, hst]
  · unfold ParamState.stmtAt
    rw [modAt_setMod]
    have hlt : v.idx < m.stmts.length := (List.getElem?_eq_some.1 hst).1
    simp [hm, Except.map, Except.bind, List.getElem?_set, hlt]

theorem stmtAt_updateStmt_other (s s' : ParamState) (v w : VarId)
    (f : ModStmt → Except Failure ModStmt) (h : s.updateStmt v f = .ok s') (hne : w ≠ v) :
    s'.stmtAt w = s.stmtAt w := by
  obtain ⟨m, st, st', hm, hst, hf, rfl⟩ := updateStmt_inv _ _ _ _ h
  unfold ParamState.stmtAt
  rw [modAt_setMod]
  by_cases hmod : v.modp = w.modp
  · have hidx : v.idx ≠ w.idx := by
      intro hi
      apply hne
      cases v
      cases w
      simp only [VarId.mk.injEq]
      exact ⟨hmod.symm, hi.symm⟩
    rw [if_pos hmod, ← hmod, hm]
    simp [Except.map, Except.bind, List.getElem?_set, hidx]
  · rw [if_neg hmod]

theorem checkSupportedParam_mods (env : Env) (s : ParamState) (pinp : AstPin) :
    (checkSupportedParam env s pinp).mods = s.mods := by
  unfold checkSupportedParam
  simp only []
  repeat' split
  all_goals rfl

theorem stmtAt_of_mods {a b : ParamState} (h : b.mods = a.mods) (w : VarId) :
    b.stmtAt w = a.stmtAt w := by
  unfold ParamState.stmtAt ParamState.modAt
  rw [h]

/-- One round of the loop of `assignParams`: the pin is checked and written. -/
theorem assignParams_cons (env : Env) (hierBlock : Bool) (q : AstPin) (rest : List AstPin)
    (s s' : ParamState) (h : assignParams env hierBlock s (q :: rest) = .ok s')
    (hq : q.exprp.isNull = false) :
    ∃ s0 s1, s0.mods = s.mods ∧ assignParams env hierBlock s1 rest = .ok s'
      ∧ (∀ w, q.modVarp = some w →
          s0.updateStmt w (fun
            | .Var v => .ok (.Var { v with valuep := q.exprp, overriddenParam := true })
            | _ => .error (.nullDeref "var")) = .ok s1)
      ∧ (q.modVarp = none → ∀ t, q.modPTypep = some t →
          s0.updateStmt t (fun
            | .ParamTypeDType x => .ok (.ParamTypeDType { x with childDTypep := q.exprp })
            | _ => .error (.nullDeref "paramtype")) = .ok s1)
      ∧ (q.modVarp = none → q.modPTypep = none → s1 = s0) := by
  unfold assignParams at h
  simp only [hq, if_false, Bool.false_eq_true] at h
  generalize hs0 : (if hierBlock = true then checkSupportedParam env s q else s) = s0 at h
  have h0 : s0.mods = s.mods := by
    rw [← hs0]
    split
    · exact checkSupportedParam_mods env s q
    · rfl
  obtain ⟨s1, hs1, hrest⟩ := except_bind_ok h
  refine ⟨s0, s1, h0, hrest, ?_, ?_, ?_⟩
  · intro w hw
    simp only [hw] at hs1
    exact hs1
  · intro hv t ht
    simp only [hv, ht] at hs1
    split at hs1
    · cases hs1
    · exact hs1
  · intro hv ht
    simp only [hv, ht, Except.ok.injEq] at hs1
    exact hs1.symm

/-- The loop of `assignParams` leaves alone the declarations that no pin with
an expression is written to. -/
theorem assignParams_frame (env : Env) (hierBlock : Bool) (pins : List AstPin)
    (s s' : ParamState) (h : assignParams env hierBlock s pins = .ok s') (w : VarId)
    (hno : ∀ q ∈ pins, q.exprp.isNull = false → pinTarget q ≠ some w) :
    s'.stmtAt w = s.stmtAt w := by
  induction pins generalizing s with
  | nil =>
    simp only [assignParams, Except.ok.injEq] at h
    rw [← h]
  | cons q rest ih =>
    by_cases hq : q.exprp.isNull = true
    · unfold assignParams at h
      simp only [hq, if_true] at h
      exact ih s h (fun x hx => hno x (List.mem_cons_of_mem _ hx))
    · have hq' : q.exprp.isNull = false := by simpa using hq
      obtain ⟨s0, s1, h0, hrest, hvar, hpt, hnone⟩ := assignParams_cons _ _ _ _ _ _ h hq'
      have hne := hno q (List.mem_cons_self _ _) hq'
      rw [ih s1 hrest (fun x hx => hno x (List.mem_cons_of_mem _ hx)), ← stmtAt_of_mods h0 w]
      cases hv : q.modVarp with
      | some v =>
        have hwv : w ≠ v := by
          intro e
          apply hne
          simp [pinTarget, hv, e]
        exact stmtAt_updateStmt_other _ _ _ _ _ (hvar v hv) hwv
      | none =>
        cases ht : q.modPTypep with
        | some t =>
          have hwt : w ≠ t := by
            intro e
            apply hne
            simp [pinTarget, hv, ht, e]
          exact stmtAt_updateStmt_other _ _ _ _ _ (hpt hv t ht) hwt
        | none => rw [hnone hv ht]

/-- The loop of `assignParams` writes the expression of each pin into the
declaration the pin refers to: after the loop a variable holds the expression
of the last pin written to it as its value, with `overriddenParam` set, and a
type parameter holds the expression of the last pin written to it as its
type. -/
theorem assignParams_writes (env : Env) (hierBlock : Bool) (pins : List AstPin)
    (s s' : ParamState) (h : assignParams env hierBlock s pins = .ok s')
    (pre post : List AstPin) (p : AstPin) (hsplit : pins = pre ++ p :: post)
    (hp : p.exprp.isNull = false)
    (hlast : ∀ q ∈ post, q.exprp.isNull = false → pinTarget q ≠ pinTarget p) :
    (∀ w, p.modVarp = some w →
      ∃ x, s'.varAt w = .ok x ∧ x.valuep = p.exprp ∧ x.overriddenParam = true)
    ∧ (p.modVarp = none → ∀ t, p.modPTypep = some t →
      ∃ x, s'.ptypeAt t = .ok x ∧ x.childDTypep = p.exprp) := by
  induction pre generalizing s pins with
  | nil =>
    simp only [List.nil_append] at hsplit
    subst hsplit
    obtain ⟨s0, s1, h0, hrest, hvar, hpt, _⟩ := assignParams_cons _ _ _ _ _ _ h hp
    constructor
    · intro w hw
      obtain ⟨st, st', hst, hf, hst'⟩ := stmtAt_updateStmt_self _ _ _ _ (hvar w hw)
      have hfr := assignParams_frame _ _ _ _ _ hrest w
        (fun q hq hqe => by
          have := hlast q hq hqe
          simpa [pinTarget, hw] using this)
      cases st with
      | Var x =>
        simp only [Except.ok.injEq] at hf
        refine ⟨{ x with valuep := p.exprp, overriddenParam := true }, ?_, rfl, rfl⟩
        unfold ParamState.varAt
        rw [hfr, hst', ← hf]
        rfl
      | ParamTypeDType x => cases hf
      | Other n => cases hf
    · intro hv t ht
      obtain ⟨st, st', hst, hf, hst'⟩ := stmtAt_updateStmt_self _ _ _ _ (hpt hv t ht)
      have hfr := assignParams_frame _ _ _ _ _ hrest t
        (fun q hq hqe => by
          have := hlast q hq hqe
          simpa [pinTarget, hv, ht] using this)
      cases st with
      | ParamTypeDType x =>
        simp only [Except.ok.injEq] at hf
        refine ⟨{ x with childDTypep := p.exprp }, ?_, rfl⟩
        unfold ParamState.ptypeAt
        rw [hfr, hst', ← hf]
        rfl
      | Var x => cases hf
      | Other n => cases hf
  | cons q pre ih =>
    simp only [List.cons_append] at hsplit
    subst hsplit
    by_cases hq : q.exprp.isNull = true
    · unfold assignParams at h
      simp only [hq, if_true] at h
      exact ih _ s h rfl
    · have hq' : q.exprp.isNull = false := by simpa using hq
      obtain ⟨s0, s1, h0, hrest, _, _, _⟩ := assignParams_cons _ _ _ _ _ _ h hq'
      exact ih _ s1 hrest rfl

theorem varAt_of_mods {a b : ParamState} (h : b.mods = a.mods) (w : VarId) :
    b.varAt w = a.varAt w := by
  unfold ParamState.varAt
  rw [stmtAt_of_mods h]

theorem ptypeAt_of_mods {a b : ParamState} (h : b.mods = a.mods) (w : VarId) :
    b.ptypeAt w = a.ptypeAt w := by
  unfold ParamState.ptypeAt
  rw [stmtAt_of_mods h]

/-- C30: a visit of `visitCell` that makes a fresh clone relinks the parameter
pins of the cell to the declarations of the clone and writes the expression
of every pin that has one into the declaration the pin then refers to: a
variable of the clone has the expression of the last such pin as its value
and its `overriddenParam` flag set, a type parameter of the clone has it as
its type.  The template keeps its declarations, values and flags (up to the
numbering in `user4`). -/
theorem visitCell_writes_clone_params (env : Env) (fuel : Nat) (s s' : ParamState)
    (v : CellVisit) (cell : AstCell) (T : Nat) (srcT : AstNodeModule)
    (h : visitStep env fuel s v = .ok s')
    (hc : s.cellAt v.nodep = .ok cell) (hT : cell.modp = some T)
    (hsrc : s.modAt T = .ok srcT)
    (hfresh : s.mods.length < s'.mods.length) :
    ∃ acc cell1 src paramsp,
      cellNames env { s with m_modp := some v.modp } T cell v.hierName = .ok (acc, cell1)
      ∧ acc.s.modAt T = .ok src
      ∧ relinkPins (collectPinsLoop T s.mods.length src.stmts 0 []) cell1.paramsp = .ok paramsp
      ∧ PinsInto s.mods.length paramsp
      ∧ (∀ pre p post, paramsp = pre ++ p :: post → p.exprp.isNull = false →
          (∀ q ∈ post, q.exprp.isNull = false → pinTarget q ≠ pinTarget p) →
          (∀ w, p.modVarp = some w →
            ∃ x, s'.varAt w = .ok x ∧ x.valuep = p.exprp ∧ x.overriddenParam = true)
          ∧ (p.modVarp = none → ∀ t, p.modPTypep = some t →
            ∃ x, s'.ptypeAt t = .ok x ∧ x.childDTypep = p.exprp))
      ∧ ∃ m', s'.modAt T = .ok m' ∧ m'.stmts.map zero4 = srcT.stmts.map zero4 := by
  obtain ⟨acc, cell1, src, newname, sR, sB, cellC, info, c, hn, _, hsrcA, _, hrn, _, hcf, _,
    _, _, hmods, _, _, _⟩ := visitStep_fresh_inv env fuel s s' v cell T h hc hT hfresh
  have hl := (visitStep_stepRel _ _ _ _ _ h).later
  have hrel := cellNames_loopRel _ _ _ _ _ _ _ hn
  obtain ⟨⟨lm, lid, rc, hsR, _⟩, _, _⟩ := resolveName_spec _ _ _ _ _ _ _ _ hrn
  have hRmods : sR.mods = acc.s.mods := by rw [hsR]
  have hlen : acc.s.mods.length = s.mods.length := hrel.fields.1
  have hsrcR : sR.modAt T = .ok src := by
    rw [modAt_eq_ok, hRmods]
    exact modAt_eq_ok.1 hsrcA
  obtain ⟨src1, clone, ms, errs, hs1, _, _, _, _, _, _, hmap, _, _, _, hrl⟩ :=
    cloneFlavor_spec _ _ _ _ _ _ _ _ _ hcf
  have e1 : src = src1 := by
    have := modAt_eq_ok.1 hsrcR
    rw [hs1] at this
    exact (Option.some.inj this).symm
  subst e1
  obtain ⟨src2, sF, _, hass⟩ := cloneFlavor_assign _ _ _ _ _ _ _ _ _ hcf
  have hrl' : relinkPins (collectPinsLoop T s.mods.length src.stmts 0 []) cell1.paramsp
      = .ok cellC.paramsp := by
    rw [← hlen, ← hRmods, ← hmap]
    exact hrl
  refine ⟨acc, cell1, src, cellC.paramsp, hn, hsrcA, hrl', ?_, ?_, ?_⟩
  · apply relinkPins_into _ _ _ _ _ hrl'
    intro k w hk
    rcases collectPinsLoop_values _ _ _ _ _ _ _ hk with h1 | h1
    · exact h1
    · cases h1
  · intro pre p post hsplit hp hlast
    have := assignParams_writes _ _ _ _ _ hass pre post p hsplit hp hlast
    refine ⟨fun w hw => ?_, fun hv t ht => ?_⟩
    · rw [varAt_of_mods hmods]
      exact this.1 w hw
    · rw [ptypeAt_of_mods hmods]
      exact this.2 hv t ht
  · obtain ⟨m', hm', hv⟩ := modAt_later hl T srcT hsrc
    refine ⟨m', hm', ?_⟩
    simp only [modView, Prod.mk.injEq] at hv
    exact hv.2.2.2

/-- Witness of C30: the visit of `c0` of `tokenDesign` writes `8'd5` into the
parameter `P` of the clone (module 2); `P` of the template `sub` keeps its
value 3. -/
theorem visitCell_writes_clone_params_witness :
    (tokenAfter1.varAt ⟨2, 0⟩).map (fun x => (x.name, x.valuep, x.overriddenParam))
      = .ok ("P", widthedConst 8 5, true)
    ∧ (tokenAfter1.varAt ⟨1, 0⟩).map (fun x => (x.name, x.valuep, x.overriddenParam))
      = .ok ("P", mkConst 3, false)
    ∧ ∃ acc cell1 src paramsp,
      cellNames plainEnv { tokenDesign with m_modp := some 0 } 1
        (mkCell "c0" [mkPin "P" 0 (widthedConst 8 5)] [mkPin "clk" 1 (mkVarRef "x")]) "top"
        = .ok (acc, cell1)
      ∧ acc.s.modAt 1 = .ok src
      ∧ relinkPins (collectPinsLoop 1 tokenDesign.mods.length src.stmts 0 []) cell1.paramsp
        = .ok paramsp
      ∧ PinsInto tokenDesign.mods.length paramsp
      ∧ (∀ pre p post, paramsp = pre ++ p :: post → p.exprp.isNull = false →
          (∀ q ∈ post, q.exprp.isNull = false → pinTarget q ≠ pinTarget p) →
          (∀ w, p.modVarp = some w →
            ∃ x, tokenAfter1.varAt w = .ok x ∧ x.valuep = p.exprp ∧ x.overriddenParam = true)
          ∧ (p.modVarp = none → ∀ t, p.modPTypep = some t →
            ∃ x, tokenAfter1.ptypeAt t = .ok x ∧ x.childDTypep = p.exprp))
      ∧ ∃ m', tokenAfter1.modAt 1 = .ok m'
        ∧ m'.stmts.map zero4
          = (mkModule "sub" 3 [mkParam "P" .null (mkConst 3), mkPort "clk"]).stmts.map zero4 :=
  ⟨by decide, by decide,
    visitCell_writes_clone_params plainEnv 0 tokenDesign tokenAfter1 ⟨0, 0, "top"⟩
      (mkCell "c0" [mkPin "P" 0 (widthedConst 8 5)] [mkPin "clk" 1 (mkVarRef "x")]) 1
      (mkModule "sub" 3 [mkParam "P" .null (mkConst 3), mkPort "clk"])
      (eq_ok_resultOf _ (by decide)) (by decide) (by decide) (by decide) (by decide)⟩

/-! ## Clone maps lead to declarations of the same name -/

theorem declName_zero4 (st : ModStmt) : declName (zero4 st) = declName st := by
  cases st <;> rfl

theorem nameAt_later {x y : ParamState} (h : Later x y) (w : VarId) (n : String)
    (hx : nameAt x w = some n) : nameAt y w = some n := by
  unfold nameAt at hx ⊢
  cases hst : x.stmtAt w with
  | error e => simp [hst] at hx
  | ok st =>
    simp only [hst, Option.some.injEq] at hx
    obtain ⟨st', hst', hz⟩ := stmtAt_later h w st hst
    simp only [hst', Option.some.injEq]
    rw [← hx, ← declName_zero4 st', hz, declName_zero4]

theorem cloneMapsOk_of_later {s s' : ParamState} (hl : Later s s')
    (hc : s'.m_modNameMap = s.m_modNameMap) (h : CloneMapsOk s) : CloneMapsOk s' := by
  intro k info hk a b hab
  rw [hc] at hk
  obtain ⟨h1, h2, n, h3, h4⟩ := h k info hk a b hab
  exact ⟨h1, h2, n, nameAt_later hl a n h3, nameAt_later hl b n h4⟩

theorem collectPinsLoop_entries (oldp newp : Nat) (stmts : List ModStmt) (idx : Nat)
    (acc : List (VarId × VarId)) (a b : VarId)
    (h : mapFind (collectPinsLoop oldp newp stmts idx acc) a = some b) :
    mapFind acc a = some b
      ∨ (a.modp = oldp ∧ b = ⟨newp, a.idx⟩ ∧ idx ≤ a.idx ∧ a.idx < idx + stmts.length) := by
  induction stmts generalizing idx acc with
  | nil => exact Or.inl h
  | cons st rest ih =>
    have step : ∀ acc', (mapFind acc' a = some b → mapFind acc a = some b
          ∨ (a.modp = oldp ∧ b = ⟨newp, a.idx⟩ ∧ idx ≤ a.idx
              ∧ a.idx < idx + (st :: rest).length)) →
        mapFind (collectPinsLoop oldp newp rest (idx + 1) acc') a = some b →
        mapFind acc a = some b
          ∨ (a.modp = oldp ∧ b = ⟨newp, a.idx⟩ ∧ idx ≤ a.idx
              ∧ a.idx < idx + (st :: rest).length) := by
      intro acc' hacc h'
      rcases ih (idx + 1) acc' h' with h1 | ⟨h1, h2, h3, h4⟩
      · exact hacc h1
      · refine Or.inr ⟨h1, h2, by omega, ?_⟩
        simp only [List.length_cons]
        omega
    have hins : mapFind (mapInsert acc ⟨oldp, idx⟩ ⟨newp, idx⟩) a = some b →
        mapFind acc a = some b
          ∨ (a.modp = oldp ∧ b = ⟨newp, a.idx⟩ ∧ idx ≤ a.idx
              ∧ a.idx < idx + (st :: rest).length) := by
      intro h'
      rcases mapFind_mapInsert_inv _ _ _ _ _ h' with h1 | ⟨h1, h2, _⟩
      · exact Or.inl h1
      · refine Or.inr ?_
        rw [← h1, ← h2]
        simp
    cases st with
    | Var x =>
      simp only [collectPinsLoop] at h
      split at h
      · exact step _ hins h
      · exact step _ Or.inl h
    | ParamTypeDType t =>
      simp only [collectPinsLoop] at h
      split at h
      · exact step _ hins h
      · exact step _ Or.inl h
    | Other n =>
      simp only [collectPinsLoop] at h
      exact step _ Or.inl h

theorem updateStmt_declNames (s s' : ParamState) (v : VarId)
    (f : ModStmt → Except Failure ModStmt)
    (hf : ∀ st st', f st = .ok st' → declName st' = declName st)
    (h : s.updateStmt v f = .ok s') : declNames s' = declNames s := by
  obtain ⟨m, st, st', hm, hst, hfs, rfl⟩ := updateStmt_inv _ _ _ _ h
  have hi := modAt_eq_ok.1 hm
  unfold declNames ParamState.setMod
  apply List.ext_getElem?
  intro j
  simp only [List.getElem?_map, List.getElem?_set']
  by_cases hj : v.modp = j
  · subst hj
    have hnames : List.map declName (m.stmts.set v.idx st') = List.map declName m.stmts := by
      apply List.ext_getElem?
      intro i
      simp only [List.getElem?_map, List.getElem?_set']
      by_cases hi' : v.idx = i
      · subst hi'
        simp [hst, hf st st' hfs]
      · simp [hi']
    simp [hi, hnames]
  · simp [hj]

theorem fixIfaceRefs_declNames (srcModp cellmodp : Nat) (refs : List (VarId × AstNode))
    (s s' : ParamState) (h : fixIfaceRefs srcModp cellmodp s refs = .ok s') :
    declNames s' = declNames s := by
  induction refs generalizing s with
  | nil =>
    simp only [fixIfaceRefs, Except.ok.injEq] at h
    rw [← h]
  | cons r rest ih =>
    obtain ⟨portVar, pinIrefp⟩ := r
    simp only [fixIfaceRefs] at h
    split at h
    · cases h
    · cases hv : ifaceViaCellp s pinIrefp with
      | error e => simp [hv, Except.bind] at h
      | ok via =>
        simp only [hv, Except.bind] at h
        split at h
        · cases h
        · rename_i s1 hs1
          rw [ih s1 h]
          refine updateStmt_declNames _ _ _ _ ?_ hs1
          intro st st' hf
          cases st with
          | Var x =>
            simp only at hf
            cases hd : setIrefIfacep via x.childDTypep with
            | error e => simp [hd, Except.map] at hf
            | ok d =>
              simp only [hd, Except.map, Except.ok.injEq] at hf
              rw [← hf]
              rfl
          | ParamTypeDType t => cases hf
          | Other n => cases hf

theorem assignParams_declNames (env : Env) (hierBlock : Bool) (pins : List AstPin)
    (s s' : ParamState) (h : assignParams env hierBlock s pins = .ok s') :
    declNames s' = declNames s := by
  induction pins generalizing s with
  | nil =>
    simp only [assignParams, Except.ok.injEq] at h
    rw [← h]
  | cons q rest ih =>
    by_cases hq : q.exprp.isNull = true
    · unfold assignParams at h
      simp only [hq, if_true] at h
      exact ih s h
    · have hq' : q.exprp.isNull = false := by simpa using hq
      obtain ⟨s0, s1, h0, hrest, hvar, hpt, hnone⟩ := assignParams_cons _ _ _ _ _ _ h hq'
      rw [ih s1 hrest]
      have hd0 : declNames s0 = declNames s := by unfold declNames; rw [h0]
      rw [← hd0]
      cases hv : q.modVarp with
      | some w =>
        refine updateStmt_declNames _ _ _ _ ?_ (hvar w hv)
        intro st st' hf
        cases st with
        | Var x =>
          simp only [Except.ok.injEq] at hf
          rw [← hf]
          rfl
        | ParamTypeDType t => cases hf
        | Other n => cases hf
      | none =>
        cases ht : q.modPTypep with
        | some t =>
          refine updateStmt_declNames _ _ _ _ ?_ (hpt hv t ht)
          intro st st' hf
          cases st with
          | ParamTypeDType x =>
            simp only [Except.ok.injEq] at hf
            rw [← hf]
            rfl
          | Var x => cases hf
          | Other n => cases hf
        | none => rw [hnone hv ht]

theorem linkClone_declNames (env : Env) (s : ParamState) (srcModp : Nat) (cell : AstCell)
    (src clone : AstNodeModule) (info : ModInfo) :
    declNames (linkClone env s srcModp cell src clone info)
      = declNames s ++ [clone.stmts.map declName] := by
  unfold linkClone declNames
  simp only
  split <;> simp [ParamState.v3error]

/-- The declarations of a new flavour bear the names of the declarations of
the source module, position by position. -/
theorem cloneFlavor_declNames (env : Env) (s s' : ParamState) (srcModp : Nat)
    (cell cell' : AstCell) (newname : String) (refs : List (VarId × AstNode)) (info : ModInfo)
    (h : cloneFlavor env s srcModp cell newname refs = .ok (s', cell', info)) :
    ∃ src, s.modAt srcModp = .ok src
      ∧ declNames s' = declNames s ++ [src.stmts.map declName] := by
  unfold cloneFlavor at h
  cases hsrc : s.modAt srcModp with
  | error e => simp [hsrc, Except.bind] at h
  | ok src =>
    simp only [hsrc, Except.bind] at h
    cases hcur : s.m_modp with
    | none => simp [hcur] at h
    | some cur =>
      simp only [hcur] at h
      cases hcm : s.modAt cur with
      | error e => simp [hcm] at h
      | ok curMod =>
        simp only [hcm] at h
        split at h
        · simp at h
        · rename_i paramsp hrl
          split at h
          · simp at h
          · rename_i sF hfix
            split at h
            · simp at h
            · rename_i sA hass
              simp only [Except.ok.injEq, Prod.mk.injEq] at h
              obtain ⟨rfl, _, _⟩ := h
              refine ⟨src, rfl, ?_⟩
              rw [assignParams_declNames _ _ _ _ _ hass, fixIfaceRefs_declNames _ _ _ _ _ hfix,
                linkClone_declNames]
              rfl

theorem nameAt_eq (s : ParamState) (w : VarId) :
    nameAt s w = ((declNames s)[w.modp]?).bind (fun l => l[w.idx]?) := by
  unfold nameAt ParamState.stmtAt ParamState.modAt declNames
  simp only [List.getElem?_map]
  cases hm : s.mods[w.modp]? with
  | none => simp [Except.bind]
  | some m =>
    simp only [Except.bind, Option.map_some', Option.some_bind, List.getElem?_map]
    cases hst : m.stmts[w.idx]? <;> simp

/-- The making of a flavour keeps the clone maps of the cache in order. -/
theorem cloneFlavor_cloneMaps (env : Env) (s s' : ParamState) (srcModp : Nat)
    (cell cell' : AstCell) (newname : String) (refs : List (VarId × AstNode)) (info : ModInfo)
    (h : cloneFlavor env s srcModp cell newname refs = .ok (s', cell', info))
    (hok : CloneMapsOk s) : CloneMapsOk s' := by
  obtain ⟨src, clone, ms, errs, hsrc, hs', _, _, _, _, hmodp, hmap, _, _, _, _⟩ :=
    cloneFlavor_spec _ _ _ _ _ _ _ _ _ h
  obtain ⟨src2, hsrc2, hnames⟩ := cloneFlavor_declNames _ _ _ _ _ _ _ _ _ h
  have e : src = src2 := by
    have := modAt_eq_ok.1 hsrc2
    rw [hsrc] at this
    exact Option.some.inj this
  subst e
  have hlater := (cloneFlavor_stepRel _ _ _ _ _ _ _ _ _ h).later
  have hcache : s'.m_modNameMap = mapInsert s.m_modNameMap newname info := by rw [hs']
  have hlenN : (declNames s).length = s.mods.length := by simp [declNames]
  intro k inf hk a b hab
  rw [hcache] at hk
  rcases mapFind_mapInsert_inv _ _ _ _ _ hk with h1 | ⟨_, h2, _⟩
  · obtain ⟨e1, e2, n, e3, e4⟩ := hok k inf h1 a b hab
    exact ⟨e1, e2, n, nameAt_later hlater a n e3, nameAt_later hlater b n e4⟩
  · subst h2
    rw [hmap] at hab
    rcases collectPinsLoop_entries _ _ _ _ _ _ _ hab with h3 | ⟨h3, h4, _, h6⟩
    · cases h3
    · have hidx : a.idx < src.stmts.length := by omega
      have hTlt : srcModp < s.mods.length := (List.getElem?_eq_some.1 hsrc).1
      refine ⟨by rw [h4, hmodp], by rw [h4], declName (src.stmts[a.idx]), ?_, ?_⟩
      · rw [nameAt_eq, hnames, h3,
          List.getElem?_append_left (by rw [hlenN]; exact hTlt)]
        simp only [declNames, List.getElem?_map, hsrc, Option.map_some', Option.some_bind,
          List.getElem?_eq_getElem hidx]
      · rw [nameAt_eq, hnames, h4]
        simp only
        rw [← hlenN, getElem?_append_last]
        simp only [Option.some_bind, List.getElem?_map, List.getElem?_eq_getElem hidx,
          Option.map_some']

/-- A visit of `visitCell` keeps the clone maps of the cache in order. -/
theorem visitStep_cloneMaps (env : Env) (fuel : Nat) (s s' : ParamState) (v : CellVisit)
    (h : visitStep env fuel s v = .ok s') (hok : CloneMapsOk s) : CloneMapsOk s' := by
  obtain ⟨cell, T, acc, cell1, sB, cell2, modp, m, _, _, hn, hs, _, _, hs'⟩ :=
    visitCell_inv _ _ _ _ _ _ h
  have hrel := cellNames_loopRel _ _ _ _ _ _ _ hn
  have hokA : CloneMapsOk acc.s := by
    have hl : Later s acc.s := ⟨hrel.later.mods, hrel.later.longMap, hrel.later.cache,
      hrel.later.hier⟩
    exact cloneMapsOk_of_later hl hrel.fields.2.1 hok
  suffices hB : CloneMapsOk sB by
    have hl : Later sB s' := by
      rw [hs']
      exact ⟨fun i m h => ⟨m, h, rfl⟩, fun _ _ h => h, fun _ _ h => h, rfl⟩
    exact cloneMapsOk_of_later hl (by rw [hs']; rfl) hB
  rcases specializeCell_inv _ _ _ _ _ _ _ hs with ⟨_, rfl, _⟩ |
    ⟨_, src', modp', m', pinsp, _, _, hm', _, rfl, _⟩ | ⟨hov, src, newname, sR, hsrc, hfb, hrn, hsn⟩
  · exact hokA
  · have hl := LoopRel.setMod acc.s modp' m' { m' with dead := false } hm' rfl
      (modSmallOk_of_stmts rfl)
    exact cloneMapsOk_of_later hl.later hl.fields.2.1 hokA
  · obtain ⟨⟨lm, lid, rc, hsR, _⟩, _, _⟩ := resolveName_spec _ _ _ _ _ _ _ _ hrn
    have hokR : CloneMapsOk sR :=
      cloneMapsOk_of_later (resolveName_stepRel _ _ _ _ _ _ _ _ hrn).later (by rw [hsR]) hokA
    rcases specializeByName_cases _ _ _ _ _ _ _ _ hsn with ⟨info, _, rfl, _⟩ |
      ⟨_, cellC, info, hcf, _⟩
    · exact hokR
    · exact cloneFlavor_cloneMaps _ _ _ _ _ _ _ _ _ hcf hokR

theorem visitSteps_cloneMaps (env : Env) (fuel : Nat) (vs : List CellVisit)
    (s s' : ParamState) (h : visitSteps env fuel s vs = .ok s') (hok : CloneMapsOk s) :
    CloneMapsOk s' := by
  induction vs generalizing s with
  | nil =>
    simp only [visitSteps, Except.ok.injEq] at h
    subst h
    exact hok
  | cons v vs ih =>
    simp only [visitSteps] at h
    cases h1 : visitStep env fuel s v with
    | error e => simp [h1, Except.bind] at h
    | ok s1 =>
      simp only [h1, Except.bind] at h
      exact ih s1 h (visitStep_cloneMaps _ _ _ _ _ h1 hok)

/-! ## The port pins of a specialized cell -/

theorem relinkPins_error (clonemap : List (VarId × VarId)) (pins : List AstPin) (e : Failure)
    (h : relinkPins clonemap pins = .error e) : ∃ msg, e = .fatalSrc msg := by
  induction pins with
  | nil => simp [relinkPins] at h
  | cons q rest ih =>
    simp only [relinkPins] at h
    generalize hq : (match q.modVarp with
      | some v =>
        match mapFind clonemap v with
        | some v' => Except.ok { q with modVarp := some v' }
        | none => .error (.fatalSrc "Couldn't find pin in clone list")
      | none =>
        match q.modPTypep with
        | some t =>
          match mapFind clonemap t with
          | some t' => .ok { q with modPTypep := some t' }
          | none => .error (.fatalSrc "Couldn't find pin in clone list")
        | none => .error (.fatalSrc "Not linked?") : Except Failure AstPin) = rq at h
    cases rq with
    | error e' =>
      simp only [Except.bind, Except.error.injEq] at h
      subst h
      repeat' split at hq
      all_goals first
        | exact ⟨_, rfl⟩
        | (cases hq; done)
        | (cases hq; exact ⟨_, rfl⟩)
    | ok q' =>
      simp only [Except.bind] at h
      cases hr : relinkPins clonemap rest with
      | error e' =>
        simp only [hr, Except.error.injEq] at h
        subst h
        exact ih hr
      | ok ps => simp [hr] at h

theorem relinkPins_missing (clonemap : List (VarId × VarId)) (pins : List AstPin)
    (hmiss : ∃ p ∈ pins, ∃ w, p.modVarp = some w ∧ mapFind clonemap w = none) :
    ∃ msg, relinkPins clonemap pins = .error (.fatalSrc msg) := by
  cases hr : relinkPins clonemap pins with
  | ok ps =>
    obtain ⟨p, hp, w, hw, hnone⟩ := hmiss
    obtain ⟨v', hv'⟩ := relinkPins_mem _ _ _ hr p hp w hw
    rw [hnone] at hv'
    cases hv'
  | error e =>
    obtain ⟨msg, rfl⟩ := relinkPins_error _ _ _ hr
    exact ⟨msg, rfl⟩

/-- The pins `relinkPins` returns are the pins given, position by position,
each variable pin with its link replaced by the entry of the clone map for
it. -/
theorem relinkPins_getElem (clonemap : List (VarId × VarId)) (pins pins' : List AstPin)
    (h : relinkPins clonemap pins = .ok pins') :
    pins'.length = pins.length
    ∧ ∀ (i : Nat) (p : AstPin), pins[i]? = some p →
        ∃ p' : AstPin, pins'[i]? = some p' ∧ p'.name = p.name
        ∧ p'.exprp = p.exprp
        ∧ ∀ w, p.modVarp = some w →
            ∃ w', mapFind clonemap w = some w' ∧ p'.modVarp = some w' := by
  induction pins generalizing pins' with
  | nil =>
    simp only [relinkPins, Except.ok.injEq] at h
    subst h
    exact ⟨rfl, fun i p hp => by simp at hp⟩
  | cons q rest ih =>
    simp only [relinkPins] at h
    obtain ⟨q', hq, h⟩ := except_bind_ok h
    obtain ⟨ps, hps, h⟩ := except_bind_ok h
    simp only [Except.ok.injEq] at h
    subst h
    obtain ⟨hlen, hall⟩ := ih ps hps
    refine ⟨by simp [hlen], ?_⟩
    intro i p hp
    cases i with
    | zero =>
      simp only [List.getElem?_cons_zero, Option.some.injEq] at hp
      subst hp
      refine ⟨q', by simp, ?_⟩
      cases hv : q.modVarp with
      | some v =>
        simp only [hv] at hq
        cases hfind : mapFind clonemap v with
        | none => simp [hfind] at hq
        | some v' =>
          simp only [hfind, Except.ok.injEq] at hq
          subst hq
          refine ⟨rfl, rfl, ?_⟩
          intro w hw
          cases hw
          exact ⟨v', hfind, rfl⟩
      | none =>
        simp only [hv] at hq
        cases ht : q.modPTypep with
        | none => simp [ht] at hq
        | some t =>
          simp only [ht] at hq
          cases hfind : mapFind clonemap t with
          | none => simp [hfind] at hq
          | some t' =>
            simp only [hfind, Except.ok.injEq] at hq
            subst hq
            exact ⟨rfl, rfl, fun w hw => by cases hw⟩
    | succ i =>
      simp only [List.getElem?_cons_succ] at hp ⊢
      exact hall i p hp

/-- C29: for a visit that has come to the cache probe with the name
`newname`.  If the visit returns, on a cache hit or with a fresh clone, the
cell refers to the module of the cache entry for `newname` and each of its
port pins to the declaration that the clone map of the entry gives for the
declaration the pin referred to before, a declaration of that module with
the same name.  If the clone map has no entry for the declaration of some
port pin, the visit ends in an internal error: no state results in which the
pin refers to the template. -/
theorem visitCell_relinks_port_pins (env : Env) (fuel : Nat) (s : ParamState) (v : CellVisit)
    (cell cell1 : AstCell) (T : Nat) (acc : NameAcc) (src : AstNodeModule)
    (newname : String) (sR : ParamState)
    (hc : s.cellAt v.nodep = .ok cell) (hT : cell.modp = some T)
    (hn : cellNames env { s with m_modp := some v.modp } T cell v.hierName = .ok (acc, cell1))
    (hov : acc.any_overrides = true) (hsrc : acc.s.modAt T = .ok src)
    (hf : findByParams env acc.s src.name cell1.paramsp = .ok none)
    (hrn : resolveName env fuel acc.s src cell1.paramsp acc.longname = .ok (newname, sR))
    (hok : CloneMapsOk s) :
    (∀ s', visitStep env fuel s v = .ok s' →
      ∃ c info, s'.cellAt v.nodep = .ok c ∧ mapFind s'.m_modNameMap newname = some info
        ∧ c.modp = some info.m_modp ∧ c.pinsp.length = cell.pinsp.length
        ∧ ∀ (i : Nat) (p : AstPin), cell.pinsp[i]? = some p →
            ∃ p' : AstPin, c.pinsp[i]? = some p' ∧ p'.name = p.name
            ∧ ∀ w, p.modVarp = some w →
                ∃ w' n, mapFind info.m_cloneMap w = some w' ∧ p'.modVarp = some w'
                  ∧ w'.modp = info.m_modp ∧ nameAt s' w = some n ∧ nameAt s' w' = some n)
    ∧ (∀ info, mapFind sR.m_modNameMap newname = some info →
        (∃ p ∈ cell.pinsp, ∃ w, p.modVarp = some w ∧ mapFind info.m_cloneMap w = none) →
        ∃ msg, visitStep env fuel s v = .error (.fatalSrc msg))
    ∧ (∀ sC cellC info, mapFind sR.m_modNameMap newname = none →
        cloneFlavor env sR T cell1 newname acc.ifaceRefRefs = .ok (sC, cellC, info) →
        (∃ p ∈ cell.pinsp, ∃ w, p.modVarp = some w ∧ mapFind info.m_cloneMap w = none) →
        ∃ msg, visitStep env fuel s v = .error (.fatalSrc msg)) := by
  obtain ⟨hpins1, _⟩ := cellNames_cell _ _ _ _ _ _ _ hn
  have hmiss1 : ∀ cm : List (VarId × VarId),
      (∃ p ∈ cell.pinsp, ∃ w, p.modVarp = some w ∧ mapFind cm w = none) →
      ∃ p ∈ cell1.pinsp, ∃ w, p.modVarp = some w ∧ mapFind cm w = none := by
    rintro cm ⟨p, hp, w, hw, hnone⟩
    refine ⟨editPin env p, ?_, w, ?_, hnone⟩
    · rw [hpins1]
      exact List.mem_map_of_mem _ hp
    · rw [(editPin_links env p).1]
      exact hw
  have hc' : ParamState.cellAt { s with m_modp := some v.modp } v.nodep = .ok cell := hc
  refine ⟨?_, ?_, ?_⟩
  · intro s' h
    obtain ⟨newname', sR', sB, cell2, modp, m, hrn', hsn, hm2, hmod, hs', hlt⟩ :=
      visitStep_name_inv env fuel s s' v cell cell1 T acc src h hc hT hn hov hsrc hf
    rw [hrn] at hrn'
    simp only [Except.ok.injEq, Prod.mk.injEq] at hrn'
    obtain ⟨rfl, rfl⟩ := hrn'
    obtain ⟨info, hfind, hmodp, _, hrl, _, _, _⟩ := specializeByName_spec _ _ _ _ _ _ _ _ hsn
    have hok' := visitStep_cloneMaps _ _ _ _ _ h hok
    have hcache' : s'.m_modNameMap = sB.m_modNameMap := by rw [hs']; rfl
    obtain ⟨hlen, hall⟩ := relinkPins_getElem _ _ _ hrl
    refine ⟨{ cell2 with recursive := false, paramsp := [] }, info, ?_, ?_, hmodp, ?_, ?_⟩
    · rw [hs']
      exact cellAt_finish _ _ _ _ hlt
    · rw [hcache']
      exact hfind
    · show cell2.pinsp.length = cell.pinsp.length
      rw [hlen, hpins1, List.length_map]
    · intro i p hp
      have hp1 : cell1.pinsp[i]? = some (editPin env p) := by
        rw [hpins1, List.getElem?_map, hp]
        rfl
      obtain ⟨p', hp', hname, _, hlink⟩ := hall i _ hp1
      refine ⟨p', hp', ?_, ?_⟩
      · rw [hname]
        unfold editPin
        split <;> rfl
      · intro w hw
        obtain ⟨w', hw', hpw⟩ := hlink w (by rw [(editPin_links env p).1]; exact hw)
        obtain ⟨h1, _, n, h3, h4⟩ := hok' newname info (by rw [hcache']; exact hfind) w w' hw'
        exact ⟨w', n, hw', hpw, h1, h3, h4⟩
  · intro info hhit hmiss
    obtain ⟨msg, hrl⟩ := relinkPins_missing info.m_cloneMap cell1.pinsp (hmiss1 _ hmiss)
    refine ⟨msg, ?_⟩
    unfold visitStep visitCell
    simp only [hc', hT, hn, Except.bind, specializeCell, hov, Bool.not_true, Bool.false_eq_true,
      if_false, hsrc, hf, hrn, specializeByName, hhit, hrl]
  · intro sC cellC info hnone hcf hmiss
    obtain ⟨_, _, _, _, _, _, _, _, _, _, _, _, _, hpinsC, _, _⟩ :=
      cloneFlavor_spec _ _ _ _ _ _ _ _ _ hcf
    obtain ⟨msg, hrl⟩ := relinkPins_missing info.m_cloneMap cell1.pinsp (hmiss1 _ hmiss)
    rw [← hpinsC] at hrl
    refine ⟨msg, ?_⟩
    unfold visitStep visitCell
    simp only [hc', hT, hn, Except.bind, specializeCell, hov, Bool.not_true, Bool.false_eq_true,
      if_false, hsrc, hf, hrn, specializeByName, hnone, hcf, hrl]

theorem eq_ok_namesOf (e : Except Failure (NameAcc × AstCell)) (h : e.toBool = true) :
    e = .ok (namesOf e) := by
  cases e with
  | error x => simp [Except.toBool] at h
  | ok r => rfl

theorem eq_ok_modOf (e : Except Failure AstNodeModule) (h : e.toBool = true) :
    e = .ok (modOf e) := by
  cases e with
  | error x => simp [Except.toBool] at h
  | ok r => rfl

theorem cloneMapsOk_empty (s : ParamState) (h : s.m_modNameMap = []) : CloneMapsOk s := by
  intro k info hk
  rw [h] at hk
  cases hk

/-- Witness of C29: the visit of `c2` of `tokenDesign`, a cache hit on the
module made for `c0`; the pin `clk` then refers to declaration 1 of module
2. -/
theorem visitCell_relinks_port_pins_witness :
    (tokenAfter3.cellAt 2).map (fun c => c.pinsp.map (·.modVarp)) = .ok [some ⟨2, 1⟩]
    ∧ (∀ s', visitStep plainEnv 0 tokenAfter2 ⟨0, 2, "top"⟩ = .ok s' →
      ∃ c info, s'.cellAt 2 = .ok c ∧ mapFind s'.m_modNameMap tokenNames2.1.longname = some info
        ∧ c.modp = some info.m_modp ∧ c.pinsp.length = tokenCell2.pinsp.length
        ∧ ∀ (i : Nat) (p : AstPin), tokenCell2.pinsp[i]? = some p →
            ∃ p' : AstPin, c.pinsp[i]? = some p' ∧ p'.name = p.name
            ∧ ∀ w, p.modVarp = some w →
                ∃ w' n, mapFind info.m_cloneMap w = some w' ∧ p'.modVarp = some w'
                  ∧ w'.modp = info.m_modp ∧ nameAt s' w = some n ∧ nameAt s' w' = some n)
    ∧ (∀ info, mapFind tokenNames2.1.s.m_modNameMap tokenNames2.1.longname = some info →
        (∃ p ∈ tokenCell2.pinsp, ∃ w, p.modVarp = some w ∧ mapFind info.m_cloneMap w = none) →
        ∃ msg, visitStep plainEnv 0 tokenAfter2 ⟨0, 2, "top"⟩ = .error (.fatalSrc msg))
    ∧ (∀ sC cellC info, mapFind tokenNames2.1.s.m_modNameMap tokenNames2.1.longname = none →
        cloneFlavor plainEnv tokenNames2.1.s 1 tokenNames2.2 tokenNames2.1.longname
          tokenNames2.1.ifaceRefRefs = .ok (sC, cellC, info) →
        (∃ p ∈ tokenCell2.pinsp, ∃ w, p.modVarp = some w ∧ mapFind info.m_cloneMap w = none) →
        ∃ msg, visitStep plainEnv 0 tokenAfter2 ⟨0, 2, "top"⟩ = .error (.fatalSrc msg)) := by
  have hok1 : CloneMapsOk tokenAfter1 :=
    visitStep_cloneMaps plainEnv 0 tokenDesign tokenAfter1 ⟨0, 0, "top"⟩
      (eq_ok_resultOf _ (by decide)) (cloneMapsOk_empty _ rfl)
  have hok2 : CloneMapsOk tokenAfter2 :=
    visitSteps_cloneMaps plainEnv 0 [⟨0, 1, "top"⟩] tokenAfter1 tokenAfter2
      (eq_ok_resultOf _ (by decide)) hok1
  refine ⟨by decide, ?_⟩
  exact visitCell_relinks_port_pins plainEnv 0 tokenAfter2 ⟨0, 2, "top"⟩ tokenCell2
    tokenNames2.2 1 tokenNames2.1 (modOf (tokenNames2.1.s.modAt 1)) tokenNames2.1.longname
    tokenNames2.1.s (by decide) (by decide) (eq_ok_namesOf _ (by decide)) (by decide)
    (eq_ok_modOf _ (by decide)) (by decide) (by rfl) hok2

/-! ## Flags of modules during a visit -/

theorem FlagsKept.of_mods {s s' : ParamState} (h : s'.mods = s.mods) : FlagsKept s s' := by
  unfold FlagsKept
  rw [h]

theorem FlagsKept.refl_flags (s : ParamState) : FlagsKept s s := FlagsKept.of_mods rfl

theorem FlagsKept.trans_flags {a b c : ParamState} (h1 : FlagsKept a b) (h2 : FlagsKept b c) :
    FlagsKept a c := by
  unfold FlagsKept at *
  rw [h2, h1]

theorem flags_set (mods : List AstNodeModule) (i : Nat) (m m' : AstNodeModule)
    (hi : mods[i]? = some m) (hf : flagsOf m' = flagsOf m) :
    (mods.set i m').map flagsOf = mods.map flagsOf := by
  apply List.ext_getElem?
  intro j
  simp only [List.getElem?_map, List.getElem?_set']
  by_cases hij : i = j
  · subst hij
    simp [hi, hf]
  · simp [hij]

theorem FlagsKept.setMod_flags (s : ParamState) (i : Nat) (m m' : AstNodeModule)
    (hm : s.modAt i = .ok m) (hf : flagsOf m' = flagsOf m) : FlagsKept s (s.setMod i m') :=
  flags_set s.mods i m m' (modAt_eq_ok.1 hm) hf

theorem paramValueNumber_flags (env : Env) (s s' : ParamState) (nodep : AstNode) (t : String)
    (h : paramValueNumber env s nodep = .ok (t, s')) : FlagsKept s s' := by
  unfold paramValueNumber at h
  cases hk : paramValueKey env s nodep with
  | error e => simp [hk, Except.bind] at h
  | ok key =>
    simp only [hk, Except.bind] at h
    cases hf : mapFind s.m_valueMap (valueHash env nodep) with
    | none =>
      simp only [hf, Except.ok.injEq, Prod.mk.injEq] at h
      obtain ⟨_, rfl⟩ := h
      exact FlagsKept.of_mods rfl
    | some e =>
      obtain ⟨num, k⟩ := e
      simp only [hf] at h
      by_cases hkk : k = key
      · simp only [hkk, if_true, Except.ok.injEq, Prod.mk.injEq] at h
        obtain ⟨_, rfl⟩ := h
        exact FlagsKept.refl_flags _
      · simp only [hkk, if_false, Except.ok.injEq, Prod.mk.injEq] at h
        obtain ⟨_, rfl⟩ := h
        exact FlagsKept.of_mods rfl

theorem paramSmallName_flags (s s' : ParamState) (modp : Nat) (varp : VarId) (c : String)
    (h : paramSmallName s modp varp = .ok (c, s')) : FlagsKept s s' := by
  unfold paramSmallName at h
  cases h1 : s.stmtAt varp with
  | error e => simp [h1, Except.bind] at h
  | ok st =>
    cases h2 : stmtUser4 st with
    | error e => simp [h1, h2, Except.bind] at h
    | ok u =>
      simp only [h1, h2, Except.bind] at h
      by_cases hu : u ≤ 1
      · simp only [hu, if_true] at h
        cases hm : s.modAt modp with
        | error e => simp [hm, Except.map] at h
        | ok m =>
          simp only [hm, Except.map] at h
          have hrel : FlagsKept s (s.setMod modp (makeSmallNames m)) :=
            FlagsKept.setMod_flags s modp m _ hm rfl
          cases h3 : (s.setMod modp (makeSmallNames m)).stmtAt varp with
          | error e => simp [h3] at h
          | ok st' =>
            cases h4 : stmtUser4 st' with
            | error e => simp [h3, h4] at h
            | ok u' =>
              simp only [h3, h4, Except.ok.injEq, Prod.mk.injEq] at h
              obtain ⟨_, rfl⟩ := h
              exact hrel
      · simp only [hu, if_false] at h
        simp only [h1, h2, Except.ok.injEq, Prod.mk.injEq] at h
        obtain ⟨_, rfl⟩ := h
        exact FlagsKept.refl_flags _

theorem appendValueNumber_flags (env : Env) (srcModp : Nat) (acc acc' : NameAcc)
    (varp : VarId) (valuep : AstNode)
    (h : appendValueNumber env srcModp acc varp valuep = .ok acc') : FlagsKept acc.s acc'.s := by
  unfold appendValueNumber at h
  cases h1 : paramSmallName acc.s srcModp varp with
  | error e => simp [h1, Except.bind] at h
  | ok sm =>
    obtain ⟨c, s1⟩ := sm
    simp only [h1, Except.bind] at h
    cases h2 : paramValueNumber env s1 valuep with
    | error e => simp [h2] at h
    | ok tok =>
      obtain ⟨t, s2⟩ := tok
      simp only [h2, Except.ok.injEq] at h
      subst h
      exact (paramSmallName_flags _ _ _ _ _ h1).trans_flags (paramValueNumber_flags _ _ _ _ _ h2)

theorem pinError_flags (acc : NameAcc) (pinp : AstPin) (msg : String) :
    FlagsKept acc.s (acc.pinError pinp msg).s :=
  FlagsKept.of_mods rfl

theorem paramPin_flags (env : Env) (srcModp : Nat) (acc acc' : NameAcc) (pinp pinp' : AstPin)
    (h : paramPin env srcModp acc pinp = .ok (acc', pinp')) : FlagsKept acc.s acc'.s := by
  unfold paramPin at h
  split at h
  · simp only [Except.ok.injEq, Prod.mk.injEq] at h
    obtain ⟨rfl, _⟩ := h
    exact FlagsKept.refl_flags _
  · split at h
    · rename_i modvarp _
      cases hv : acc.s.varAt modvarp with
      | error e => simp [hv, Except.bind] at h
      | ok v =>
        simp only [hv, Except.bind] at h
        split at h
        · simp only [Except.ok.injEq, Prod.mk.injEq] at h
          obtain ⟨rfl, _⟩ := h
          exact pinError_flags _ _ _
        · split at h
          · cases ha : appendValueNumber env srcModp acc modvarp pinp.exprp with
            | error e => simp [ha, Except.map] at h
            | ok a =>
              simp only [ha, Except.map, Except.ok.injEq, Prod.mk.injEq] at h
              obtain ⟨rfl, _⟩ := h
              exact appendValueNumber_flags _ _ _ _ _ _ ha
          · split at h
            · simp only [Except.ok.injEq, Prod.mk.injEq] at h
              obtain ⟨rfl, _⟩ := h
              exact pinError_flags _ _ _
            · split at h
              · simp only [Except.ok.injEq, Prod.mk.injEq] at h
                obtain ⟨rfl, _⟩ := h
                exact FlagsKept.refl_flags _
              · split at h
                · cases ha : appendValueNumber env srcModp acc modvarp pinp.exprp with
                  | error e => simp [ha, Except.map] at h
                  | ok a =>
                    simp only [ha, Except.map, Except.ok.injEq, Prod.mk.injEq] at h
                    obtain ⟨rfl, _⟩ := h
                    exact appendValueNumber_flags _ _ _ _ _ _ ha
                · cases hs : paramSmallName acc.s srcModp modvarp with
                  | error e => simp [hs] at h
                  | ok sm =>
                    simp only [hs, Except.ok.injEq, Prod.mk.injEq] at h
                    obtain ⟨rfl, _⟩ := h
                    exact paramSmallName_flags _ _ _ _ _ hs
    · split at h
      · rename_i modvarp _
        cases hv : acc.s.ptypeAt modvarp with
        | error e => simp [hv, Except.bind] at h
        | ok t =>
          simp only [hv, Except.bind] at h
          split at h
          · simp only [Except.ok.injEq, Prod.mk.injEq] at h
            obtain ⟨rfl, _⟩ := h
            exact pinError_flags _ _ _
          · split at h
            · simp only [Except.ok.injEq, Prod.mk.injEq] at h
              obtain ⟨rfl, _⟩ := h
              exact pinError_flags _ _ _
            · split at h
              · simp only [Except.ok.injEq, Prod.mk.injEq] at h
                obtain ⟨rfl, _⟩ := h
                exact FlagsKept.refl_flags _
              · cases ha : appendValueNumber env srcModp acc modvarp
                    (env.constifyParamsEdit pinp.exprp) with
                | error e => simp [ha, Except.map] at h
                | ok a =>
                  simp only [ha, Except.map, Except.ok.injEq, Prod.mk.injEq] at h
                  obtain ⟨rfl, _⟩ := h
                  exact appendValueNumber_flags _ _ _ _ _ _ ha
      · simp only [Except.ok.injEq, Prod.mk.injEq] at h
        obtain ⟨rfl, _⟩ := h
        exact pinError_flags _ _ _

theorem paramPins_flags (env : Env) (srcModp : Nat) (pins pins' : List AstPin)
    (acc acc' : NameAcc) (h : paramPins env srcModp acc pins = .ok (acc', pins')) :
    FlagsKept acc.s acc'.s := by
  induction pins generalizing acc pins' with
  | nil =>
    simp only [paramPins, Except.ok.injEq, Prod.mk.injEq] at h
    obtain ⟨rfl, _⟩ := h
    exact FlagsKept.refl_flags _
  | cons p rest ih =>
    simp only [paramPins] at h
    cases h1 : paramPin env srcModp acc p with
    | error e => simp [h1, Except.bind] at h
    | ok r =>
      obtain ⟨a1, p1⟩ := r
      simp only [h1, Except.bind] at h
      cases h2 : paramPins env srcModp a1 rest with
      | error e => simp [h2] at h
      | ok rs =>
        obtain ⟨a2, ps⟩ := rs
        simp only [h2, Except.ok.injEq, Prod.mk.injEq] at h
        obtain ⟨rfl, _⟩ := h
        exact (paramPin_flags _ _ _ _ _ _ h1).trans_flags (ih ps a1 h2)

theorem ifacePin_flags (env : Env) (srcModp : Nat) (acc acc' : NameAcc) (pinp : AstPin)
    (h : ifacePin env srcModp acc pinp = .ok acc') : FlagsKept acc.s acc'.s := by
  unfold ifacePin at h
  split at h
  · simp at h
  · rename_i modvarp _
    cases hv : acc.s.varAt modvarp with
    | error e => simp [hv, Except.bind] at h
    | ok v =>
      simp only [hv, Except.bind] at h
      split at h
      · cases hp : pinIfaceRef acc.s pinp.exprp with
        | error e => simp [hp] at h
        | ok pinIrefp =>
          simp only [hp] at h
          split at h
          · simp only [Except.ok.injEq] at h
            subst h
            exact pinError_flags _ _ _
          · split at h
            · simp only [Except.ok.injEq] at h
              subst h
              exact pinError_flags _ _ _
            · cases hv1 : ifaceViaCellp acc.s (portIfaceRef v.childDTypep) with
              | error e => simp [hv1] at h
              | ok portVia =>
                simp only [hv1] at h
                cases hv2 : ifaceViaCellp acc.s pinIrefp with
                | error e => simp [hv2] at h
                | ok pinVia =>
                  simp only [hv2] at h
                  split at h
                  · cases ha : appendValueNumber env srcModp acc modvarp pinIrefp with
                    | error e => simp [ha, Except.map] at h
                    | ok a =>
                      simp only [ha, Except.map, Except.ok.injEq] at h
                      subst h
                      have h0 := appendValueNumber_flags _ _ _ _ _ _ ha
                      split
                      · exact h0.trans_flags (FlagsKept.of_mods rfl)
                      · exact h0
                  · simp only [Except.ok.injEq] at h
                    subst h
                    exact FlagsKept.refl_flags _
      · simp only [Except.ok.injEq] at h
        subst h
        exact FlagsKept.refl_flags _

theorem ifacePins_flags (env : Env) (srcModp : Nat) (pins : List AstPin)
    (acc acc' : NameAcc) (h : ifacePins env srcModp acc pins = .ok acc') :
    FlagsKept acc.s acc'.s := by
  induction pins generalizing acc with
  | nil =>
    simp only [ifacePins, Except.ok.injEq] at h
    subst h
    exact FlagsKept.refl_flags _
  | cons p rest ih =>
    simp only [ifacePins] at h
    cases h1 : ifacePin env srcModp acc p with
    | error e => simp [h1, Except.bind] at h
    | ok a1 =>
      simp only [h1, Except.bind] at h
      exact (ifacePin_flags _ _ _ _ _ h1).trans_flags (ih a1 h)

theorem cellNames_flags (env : Env) (s : ParamState) (srcModp : Nat) (cell cell' : AstCell)
    (hierName : String) (acc : NameAcc)
    (h : cellNames env s srcModp cell hierName = .ok (acc, cell')) : FlagsKept s acc.s := by
  unfold cellNames at h
  cases hsrc : s.modAt srcModp with
  | error e => simp [hsrc, Except.bind] at h
  | ok src =>
    simp only [hsrc, Except.bind] at h
    split at h
    · simp at h
    · rename_i r hr
      split at h
      · simp at h
      · rename_i a ha
        simp only [Except.ok.injEq, Prod.mk.injEq] at h
        obtain ⟨rfl, _⟩ := h
        have h0 : FlagsKept s (s.setMod srcModp
            { src with hierName := hierName ++ ("." ++ cell.name) }) :=
          FlagsKept.setMod_flags s srcModp src _ hsrc rfl
        exact (h0.trans_flags (paramPins_flags _ _ _ _ _ _ hr)).trans_flags
          (ifacePins_flags _ _ _ _ _ ha)

theorem updateStmt_flags (s s' : ParamState) (v : VarId) (f : ModStmt → Except Failure ModStmt)
    (h : s.updateStmt v f = .ok s') : FlagsKept s s' := by
  obtain ⟨m, st, st', hm, _, _, rfl⟩ := updateStmt_inv _ _ _ _ h
  exact FlagsKept.setMod_flags s v.modp m _ hm rfl

theorem fixIfaceRefs_flags (srcModp cellmodp : Nat) (refs : List (VarId × AstNode))
    (s s' : ParamState) (h : fixIfaceRefs srcModp cellmodp s refs = .ok s') :
    FlagsKept s s' := by
  induction refs generalizing s with
  | nil =>
    simp only [fixIfaceRefs, Except.ok.injEq] at h
    subst h
    exact FlagsKept.refl_flags _
  | cons r rest ih =>
    obtain ⟨portVar, pinIrefp⟩ := r
    simp only [fixIfaceRefs] at h
    split at h
    · cases h
    · cases hv : ifaceViaCellp s pinIrefp with
      | error e => simp [hv, Except.bind] at h
      | ok via =>
        simp only [hv, Except.bind] at h
        split at h
        · cases h
        · rename_i s1 hs1
          exact (updateStmt_flags _ _ _ _ hs1).trans_flags (ih s1 h)

theorem checkSupportedParam_flags (env : Env) (s : ParamState) (pinp : AstPin) :
    FlagsKept s (checkSupportedParam env s pinp) :=
  FlagsKept.of_mods (checkSupportedParam_mods env s pinp)

theorem assignParams_flags (env : Env) (hierBlock : Bool) (pins : List AstPin)
    (s s' : ParamState) (h : assignParams env hierBlock s pins = .ok s') : FlagsKept s s' := by
  induction pins generalizing s with
  | nil =>
    simp only [assignParams, Except.ok.injEq] at h
    subst h
    exact FlagsKept.refl_flags _
  | cons q rest ih =>
    unfold assignParams at h
    by_cases hnull : q.exprp.isNull = true
    · simp only [hnull, if_true] at h
      exact ih s h
    · simp only [hnull, if_false, Bool.false_eq_true] at h
      generalize hs0 : (if hierBlock = true then checkSupportedParam env s q else s) = s0 at h
      have h0 : FlagsKept s s0 := by
        rw [← hs0]
        split
        · exact checkSupportedParam_flags env s q
        · exact FlagsKept.refl_flags _
      generalize hs1 : (match q.modVarp with
        | some modvarp =>
          s0.updateStmt modvarp fun
            | .Var v => .ok (.Var { v with valuep := q.exprp, overriddenParam := true })
            | _ => .error (.nullDeref "var")
        | none =>
          match q.modPTypep with
          | some modptp =>
            if !q.exprp.isNodeDType then .error (.fatalSrc "unlinked param dtype")
            else
              s0.updateStmt modptp fun
                | .ParamTypeDType t => .ok (.ParamTypeDType { t with childDTypep := q.exprp })
                | _ => .error (.nullDeref "paramtype")
          | none => .ok s0 : Except Failure ParamState) = r1 at h
      cases r1 with
      | error e => simp [Except.bind] at h
      | ok s1 =>
        simp only [Except.bind] at h
        have he1 : FlagsKept s0 s1 := by
          split at hs1
          · exact updateStmt_flags _ _ _ _ hs1
          · split at hs1
            · split at hs1
              · simp at hs1
              · exact updateStmt_flags _ _ _ _ hs1
            · simp only [Except.ok.injEq] at hs1
              rw [hs1]
              exact FlagsKept.refl_flags _
        exact (h0.trans_flags he1).trans_flags (ih s1 h)

theorem linkClone_mods (env : Env) (s : ParamState) (srcModp : Nat) (cell : AstCell)
    (src clone : AstNodeModule) (info : ModInfo) :
    (linkClone env s srcModp cell src clone info).mods = s.mods ++ [clone] := by
  unfold linkClone
  simp only
  split <;> rfl

theorem linkClone_fields (env : Env) (s : ParamState) (srcModp : Nat) (cell : AstCell)
    (src clone : AstNodeModule) (info : ModInfo) :
    (linkClone env s srcModp cell src clone info).m_todoModps = s.m_todoModps := by
  unfold linkClone
  simp only
  split <;> rfl

/-- The making of a flavour appends one module, which bears the flag `dead`
of the source module and is not marked as taken up; the modules that exist
keep their flags. -/
theorem cloneFlavor_flags (env : Env) (s s' : ParamState) (srcModp : Nat)
    (cell cell' : AstCell) (newname : String) (refs : List (VarId × AstNode)) (info : ModInfo)
    (h : cloneFlavor env s srcModp cell newname refs = .ok (s', cell', info)) :
    ∃ src, s.modAt srcModp = .ok src
      ∧ s'.mods.map flagsOf = s.mods.map flagsOf ++ [(src.dead, false)] := by
  unfold cloneFlavor at h
  cases hsrc : s.modAt srcModp with
  | error e => simp [hsrc, Except.bind] at h
  | ok src =>
    simp only [hsrc, Except.bind] at h
    cases hcur : s.m_modp with
    | none => simp [hcur] at h
    | some cur =>
      simp only [hcur] at h
      cases hcm : s.modAt cur with
      | error e => simp [hcm] at h
      | ok curMod =>
        simp only [hcm] at h
        split at h
        · simp at h
        · rename_i paramsp hrl
          split at h
          · simp at h
          · rename_i sF hfix
            split at h
            · simp at h
            · rename_i sA hass
              simp only [Except.ok.injEq, Prod.mk.injEq] at h
              obtain ⟨rfl, _, _⟩ := h
              refine ⟨src, rfl, ?_⟩
              have h1 := fixIfaceRefs_flags _ _ _ _ _ hfix
              have h2 := assignParams_flags _ _ _ _ _ hass
              have h3 := h1.trans_flags h2
              unfold FlagsKept at h3
              rw [h3, linkClone_mods, List.map_append]
              rfl

/-- What the second half of `visitCell` does to the flags of the modules:
nothing, or the module the cell is bound to is no longer dead (a wrapper of
the catalog), or a module is appended that is not marked as taken up, to
which the cell is bound. -/
theorem specializeCell_flags (env : Env) (fuel : Nat) (acc : NameAcc) (srcModp : Nat)
    (cell cell' : AstCell) (s' : ParamState)
    (h : specializeCell env fuel acc srcModp cell = .ok (s', cell')) :
    s'.m_todoModps = acc.s.m_todoModps ∧ s'.m_cellps = acc.s.m_cellps
      ∧ s'.m_modp = acc.s.m_modp ∧ s'.cells = acc.s.cells
      ∧ (FlagsKept acc.s s'
        ∨ (∃ modp m, cell'.modp = some modp ∧ acc.s.mods[modp]? = some m
            ∧ s'.mods.map flagsOf = (acc.s.mods.set modp { m with dead := false }).map flagsOf)
        ∨ (∃ d, cell'.modp = some acc.s.mods.length
            ∧ s'.mods.map flagsOf = acc.s.mods.map flagsOf ++ [(d, false)])) := by
  rcases specializeCell_inv _ _ _ _ _ _ _ h with ⟨_, rfl, _⟩ |
    ⟨_, src, modp, m, pinsp, _, _, hm, _, rfl, rfl⟩ | ⟨_, src, newname, sR, _, _, hn, hs⟩
  · exact ⟨rfl, rfl, rfl, rfl, Or.inl (FlagsKept.refl_flags _)⟩
  · exact ⟨rfl, rfl, rfl, rfl, Or.inr (Or.inl ⟨modp, m, rfl, modAt_eq_ok.1 hm, rfl⟩)⟩
  · obtain ⟨⟨lm, lid, rc, hsR, _⟩, _, _⟩ := resolveName_spec _ _ _ _ _ _ _ _ hn
    rcases specializeByName_cases _ _ _ _ _ _ _ _ hs with ⟨info, _, rfl, _⟩ |
      ⟨_, cellC, info, hcf, hmodp⟩
    · rw [hsR]
      exact ⟨rfl, rfl, rfl, rfl, Or.inl (FlagsKept.of_mods rfl)⟩
    · obtain ⟨src2, clone, ms, errs, _, hs', _, _, _, _, hinfo, _⟩ :=
        cloneFlavor_spec _ _ _ _ _ _ _ _ _ hcf
      obtain ⟨src3, _, hfl⟩ := cloneFlavor_flags _ _ _ _ _ _ _ _ _ hcf
      have hm : sR.mods = acc.s.mods := by rw [hsR]
      refine ⟨?_, ?_, ?_, ?_, Or.inr (Or.inr ⟨src3.dead, ?_, ?_⟩)⟩
      · rw [hs', hsR]
      · rw [hs', hsR]
      · rw [hs', hsR]
      · rw [hs', hsR]
      · rw [hmodp, hinfo, hm]
      · rw [hfl, hm]

theorem flags_getElem {a b : List AstNodeModule} (h : a.map flagsOf = b.map flagsOf) (i : Nat)
    (m0 : AstNodeModule) (hi : b[i]? = some m0) :
    ∃ m1, a[i]? = some m1 ∧ m1.dead = m0.dead ∧ m1.user5 = m0.user5 := by
  have h1 : (a.map flagsOf)[i]? = (b.map flagsOf)[i]? := by rw [h]
  simp only [List.getElem?_map, hi, Option.map_some'] at h1
  cases ha : a[i]? with
  | none => simp [ha] at h1
  | some m1 =>
    simp only [ha, Option.map_some', Option.some.injEq, flagsOf, Prod.mk.injEq] at h1
    exact ⟨m1, rfl, h1.1, h1.2⟩

theorem flags_length {a b : List AstNodeModule} (h : a.map flagsOf = b.map flagsOf) :
    a.length = b.length := by
  have := congrArg List.length h
  simpa using this

/-- What a call of `visitCell` that returns does to the work list, to the
cells and to the modules: the module the cell is then bound to is put on the
work list under its level; the other cells are as they were; a module that
existed keeps its level, its kind and its mark, and its flag `dead` unless
it is the module the cell is bound to; a new module is the one the cell is
bound to and is not marked as taken up. -/
theorem visitCell_effect (env : Env) (fuel : Nat) (s s' : ParamState) (nodep : Nat)
    (hierName : String) (h : visitCell env fuel s nodep hierName = .ok s') :
    ∃ c modp m, s'.cellAt nodep = .ok c ∧ c.modp = some modp ∧ s'.modAt modp = .ok m
      ∧ s'.m_todoModps = todoInsert s.m_todoModps m.level modp
      ∧ s'.m_cellps = s.m_cellps ∧ s'.m_modp = s.m_modp
      ∧ s'.cells.length = s.cells.length
      ∧ (∀ j, j ≠ nodep → s'.cells[j]? = s.cells[j]?)
      ∧ (∀ i m0, s.mods[i]? = some m0 → ∃ m1, s'.mods[i]? = some m1 ∧ m1.user5 = m0.user5
          ∧ m1.level = m0.level ∧ m1.isIface = m0.isIface
          ∧ (m1.dead = m0.dead ∨ (i = modp ∧ m1.dead = false)))
      ∧ (∀ i m1, s'.mods[i]? = some m1 → s.mods.length ≤ i → i = modp ∧ m1.user5 = false)
      ∧ s.mods.length ≤ s'.mods.length := by
  have hstep := visitCell_stepRel _ _ _ _ _ _ h
  obtain ⟨cell, T, acc, cell1, sB, cell2, modp, m, hc, _, hn, hs, hm2, hmod, hs'⟩ :=
    visitCell_inv _ _ _ _ _ _ h
  have hrel := cellNames_loopRel _ _ _ _ _ _ _ hn
  have hfl := cellNames_flags _ _ _ _ _ _ _ hn
  obtain ⟨mods0, vm0, nv0, errs0, hacc, _, _⟩ := hrel
  obtain ⟨htodo, hcellps, hmodp, hcells, hcase⟩ := specializeCell_flags _ _ _ _ _ _ _ hs
  have hlt : nodep < sB.cells.length := by
    rw [hcells, hacc]
    exact cellAt_lt hc
  have hmods : s'.mods = sB.mods := by rw [hs']; rfl
  have hview : ∀ (i : Nat) (m0 : AstNodeModule), s.mods[i]? = some m0 →
      ∃ m1 : AstNodeModule, s'.mods[i]? = some m1
      ∧ m1.level = m0.level ∧ m1.isIface = m0.isIface := by
    intro i m0 hi
    obtain ⟨m1, h1, hv⟩ := hstep.later.mods i m0 hi
    simp only [modView, Prod.mk.injEq] at hv
    exact ⟨m1, h1, hv.1.2.1, hv.2.2.1⟩
  refine ⟨{ cell2 with recursive := false, paramsp := [] }, modp, m, ?_, hm2, ?_, ?_, ?_, ?_,
    ?_, ?_, ?_, ?_, ?_⟩
  · rw [hs']
    exact cellAt_finish _ _ _ _ hlt
  · rw [hs']
    exact hmod
  · rw [hs']
    show todoInsert sB.m_todoModps m.level modp = _
    rw [htodo, hacc]
  · rw [hs']
    show sB.m_cellps = _
    rw [hcellps, hacc]
  · rw [hs']
    show sB.m_modp = _
    rw [hmodp, hacc]
  · exact hstep.cells
  · intro j hj
    rw [hs']
    show (sB.cells.set nodep _)[j]? = _
    rw [List.getElem?_set_ne (Ne.symm hj), hcells, hacc]
  · intro i m0 hi
    obtain ⟨m1, h1, hlev, hif⟩ := hview i m0 hi
    refine ⟨m1, h1, ?_, hlev, hif, ?_⟩
    · rw [hmods] at h1
      obtain ⟨ma, ha, _, hua⟩ := flags_getElem hfl i m0 hi
      rcases hcase with hk | ⟨mp, mm, _, hmm, hk⟩ | ⟨d, _, hk⟩
      · obtain ⟨mb, hb, _, hub⟩ := flags_getElem hk i ma ha
        rw [hb] at h1
        rw [← Option.some.inj h1, hub, hua]
      · have hset : (acc.s.mods.set mp { mm with dead := false })[i]?
            = some (if mp = i then { mm with dead := false } else ma) := by
          rw [List.getElem?_set']
          by_cases hpi : mp = i
          · subst hpi
            simp [hmm]
          · simp [hpi, ha]
        obtain ⟨mb, hb, _, hub⟩ := flags_getElem hk i _ hset
        rw [hb] at h1
        rw [← Option.some.inj h1, hub, ← hua]
        by_cases hpi : mp = i
        · subst hpi
          rw [hmm] at ha
          simp [← Option.some.inj ha]
        · simp [hpi]
      · have hb : (sB.mods.map flagsOf)[i]? = some (flagsOf ma) := by
          rw [hk, List.getElem?_append_left, List.getElem?_map, ha]
          · rfl
          · rw [List.length_map]
            exact (List.getElem?_eq_some_iff.1 ha).1
        rw [List.getElem?_map, h1] at hb
        simp only [Option.map_some', Option.some.injEq, flagsOf, Prod.mk.injEq] at hb
        rw [hb.2, hua]
    · rw [hmods] at h1
      obtain ⟨ma, ha, hda, _⟩ := flags_getElem hfl i m0 hi
      rcases hcase with hk | ⟨mp, mm, hcm, hmm, hk⟩ | ⟨d, _, hk⟩
      · obtain ⟨mb, hb, hdb, _⟩ := flags_getElem hk i ma ha
        rw [hb] at h1
        left
        rw [← Option.some.inj h1, hdb, hda]
      · have hpm : mp = modp := by
          rw [hcm] at hm2
          exact Option.some.inj hm2
        have hset : (acc.s.mods.set mp { mm with dead := false })[i]?
            = some (if mp = i then { mm with dead := false } else ma) := by
          rw [List.getElem?_set']
          by_cases hpi : mp = i
          · subst hpi
            simp [hmm]
          · simp [hpi, ha]
        obtain ⟨mb, hb, hdb, _⟩ := flags_getElem hk i _ hset
        rw [hb] at h1
        by_cases hpi : mp = i
        · right
          refine ⟨by rw [← hpi, hpm], ?_⟩
          rw [← Option.some.inj h1, hdb]
          simp [hpi]
        · left
          rw [← Option.some.inj h1, hdb, ← hda]
          simp [hpi]
      · have hb : (sB.mods.map flagsOf)[i]? = some (flagsOf ma) := by
          rw [hk, List.getElem?_append_left, List.getElem?_map, ha]
          · rfl
          · rw [List.length_map]
            exact (List.getElem?_eq_some_iff.1 ha).1
        rw [List.getElem?_map, h1] at hb
        simp only [Option.map_some', Option.some.injEq, flagsOf, Prod.mk.injEq] at hb
        left
        rw [hb.1, hda]
  · intro i m1 hi hle
    rw [hmods] at hi
    have hlen0 : acc.s.mods.length = s.mods.length := flags_length hfl
    rcases hcase with hk | ⟨mp, mm, _, hmm, hk⟩ | ⟨d, hcm, hk⟩
    · have := flags_length hk
      have := (List.getElem?_eq_some_iff.1 hi).1
      omega
    · have := flags_length hk
      rw [List.length_set] at this
      have := (List.getElem?_eq_some_iff.1 hi).1
      omega
    · have hl : sB.mods.length = acc.s.mods.length + 1 := by
        have := congrArg List.length hk
        simpa using this
      have hil := (List.getElem?_eq_some_iff.1 hi).1
      have hie : i = acc.s.mods.length := by omega
      have hpm : modp = acc.s.mods.length := by
        rw [hcm] at hm2
        exact (Option.some.inj hm2).symm
      refine ⟨by rw [hie, hpm], ?_⟩
      have hb : (sB.mods.map flagsOf)[i]? = some (d, false) := by
        rw [hk, hie, List.getElem?_append_right (by simp)]
        simp
      rw [List.getElem?_map, hi] at hb
      simp only [Option.map_some', Option.some.injEq, flagsOf, Prod.mk.injEq] at hb
      exact hb.2
  · have hlen0 : acc.s.mods.length = s.mods.length := flags_length hfl
    rw [hmods]
    rcases hcase with hk | ⟨mp, mm, _, hmm, hk⟩ | ⟨d, hcm, hk⟩
    · have := flags_length hk
      omega
    · have := flags_length hk
      rw [List.length_set] at this
      omega
    · have hl : sB.mods.length = acc.s.mods.length + 1 := by
        have := congrArg List.length hk
        simpa using this
      omega

/-! ## The pass as a run of steps -/

theorem eq_ok_runOf (e : Except Failure (ParamState × List Event)) (h : e.toBool = true) :
    e = .ok (runOf e) := by
  cases e with
  | error x => simp [Except.toBool] at h
  | ok r => rfl

theorem marks_set (mods : List AstNodeModule) (i : Nat) (m m' : AstNodeModule)
    (hi : mods[i]? = some m) (hf : markOf m' = markOf m) :
    (mods.set i m').map markOf = mods.map markOf := by
  apply List.ext_getElem?
  intro j
  simp only [List.getElem?_map, List.getElem?_set']
  by_cases hij : i = j
  · subst hij
    simp [hi, hf]
  · simp [hij]

theorem marks_getElem {a b : List AstNodeModule} (h : a.map markOf = b.map markOf) (i : Nat)
    (m0 : AstNodeModule) (hi : b[i]? = some m0) :
    ∃ m1, a[i]? = some m1 ∧ m1.dead = m0.dead ∧ m1.user5 = m0.user5 ∧ m1.level = m0.level := by
  have h1 : (a.map markOf)[i]? = (b.map markOf)[i]? := by rw [h]
  simp only [List.getElem?_map, hi, Option.map_some'] at h1
  cases ha : a[i]? with
  | none => simp [ha] at h1
  | some m1 =>
    simp only [ha, Option.map_some', Option.some.injEq, markOf, Prod.mk.injEq] at h1
    exact ⟨m1, rfl, h1.1, h1.2.1, h1.2.2⟩

theorem marks_length {a b : List AstNodeModule} (h : a.map markOf = b.map markOf) :
    a.length = b.length := by
  have := congrArg List.length h
  simpa using this

theorem WorkRun.single {top : Bool} {s s' : ParamState} {log log' : List Event}
    (h : WorkStep top s log s' log') : WorkRun top s log s' log' :=
  WorkRun.tail (WorkRun.refl s log) h

theorem WorkRun.trans_run {top : Bool} {a b c : ParamState} {la lb lc : List Event}
    (h1 : WorkRun top a la b lb) (h2 : WorkRun top b lb c lc) : WorkRun top a la c lc := by
  induction h2 with
  | refl => exact h1
  | tail _ hstep ih => exact WorkRun.tail (ih h1) hstep

theorem WorkStep.lift_step {s s' : ParamState} {log log' : List Event}
    (h : WorkStep false s log s' log') : WorkStep true s log s' log' := by
  cases h with
  | quiet _ _ _ h1 h2 => exact WorkStep.quiet _ _ _ h1 h2
  | skip _ _ _ l i rest m h1 h2 h3 h4 h5 => exact WorkStep.skip _ _ _ l i rest m h1 h2 h3 h4 h5
  | take _ _ _ l i rest m h1 h2 h3 h4 h5 => exact WorkStep.take _ _ _ l i rest m h1 h2 h3 h4 h5
  | cell _ _ _ c modp m h1 h2 h3 h4 h5 => exact WorkStep.cell _ _ _ c modp m h1 h2 h3 h4 h5
  | root htop => cases htop
  | kill htop => cases htop

theorem WorkRun.lift_run {s s' : ParamState} {log log' : List Event}
    (h : WorkRun false s log s' log') : WorkRun true s log s' log' := by
  induction h with
  | refl => exact WorkRun.refl _ _
  | tail _ hstep ih => exact WorkRun.tail ih hstep.lift_step

theorem visitAstCell_fields (s s' : ParamState) (nodep : Nat)
    (h : visitAstCell s nodep = .ok s') :
    s'.mods = s.mods ∧ s'.m_todoModps = s.m_todoModps := by
  unfold visitAstCell at h
  cases hc : s.cellAt nodep with
  | error e => simp [hc, Except.map] at h
  | ok c =>
    simp only [hc, Except.map, Except.ok.injEq] at h
    subst h
    exact ⟨rfl, rfl⟩

theorem visitAstCells_fields (cells : List (Nat × String)) (s s' : ParamState)
    (h : visitAstCells s cells = .ok s') :
    s'.mods = s.mods ∧ s'.m_todoModps = s.m_todoModps := by
  induction cells generalizing s with
  | nil =>
    simp only [visitAstCells, Except.ok.injEq] at h
    subst h
    exact ⟨rfl, rfl⟩
  | cons c rest ih =>
    obtain ⟨nodep, gen⟩ := c
    simp only [visitAstCells] at h
    cases h1 : visitAstCell { s with m_generateHierName := gen } nodep with
    | error e => simp [h1, Except.bind] at h
    | ok s1 =>
      simp only [h1, Except.bind] at h
      obtain ⟨a1, a2⟩ := visitAstCell_fields _ _ _ h1
      obtain ⟨b1, b2⟩ := ih s1 h
      exact ⟨b1.trans a1, b2.trans a2⟩

/-- The descent into a module leaves the marks of the modules and the work
list as they are. -/
theorem iterateModule_quiet (walk : Walk) (s s' : ParamState) (nodep : Nat)
    (h : iterateModule walk s nodep = .ok s') :
    s'.mods.map markOf = s.mods.map markOf ∧ s'.m_todoModps = s.m_todoModps := by
  unfold iterateModule at h
  cases hw : walk.iterateChildren s nodep with
  | error e => simp [hw, Except.bind] at h
  | ok out =>
    simp only [hw, Except.bind] at h
    cases hm : s.modAt nodep with
    | error e => simp [hm] at h
    | ok m =>
      simp only [hm] at h
      cases hv : visitAstCells
          { s.setMod nodep { m with stmts := out.stmts } with
            cells := (s.setMod nodep { m with stmts := out.stmts }).cells ++ out.newCells,
            errors := (s.setMod nodep { m with stmts := out.stmts }).errors ++ out.errors }
          out.cellps with
      | error e => simp [hv, Except.map] at h
      | ok s2 =>
        simp only [hv, Except.map, Except.ok.injEq] at h
        subst h
        obtain ⟨a1, a2⟩ := visitAstCells_fields _ _ _ hv
        refine ⟨?_, a2⟩
        show s2.mods.map markOf = _
        rw [a1]
        exact marks_set s.mods nodep m _ (modAt_eq_ok.1 hm) rfl

/-- A loop over the cells of a module is a run of steps. -/
theorem cellWave_run (top : Bool) (env : Env) (fuel : Nat) (nonIf : Bool) (cells : List Nat)
    (s s' : ParamState) (log log' : List Event)
    (h : cellWave env fuel nonIf s cells log = .ok (s', log')) : WorkRun top s log s' log' := by
  induction cells generalizing s log with
  | nil =>
    simp only [cellWave, Except.ok.injEq, Prod.mk.injEq] at h
    obtain ⟨rfl, rfl⟩ := h
    exact WorkRun.refl _ _
  | cons cellp rest ih =>
    simp only [cellWave] at h
    cases hc : s.cellAt cellp with
    | error e => simp [hc, Except.bind] at h
    | ok cell =>
      simp only [hc, Except.bind] at h
      cases hi : cellIsIface s cell with
      | error e => simp [hi] at h
      | ok isIf =>
        simp only [hi] at h
        split at h
        · cases hmp : s.m_modp with
          | none => simp [hmp] at h
          | some cur =>
            simp only [hmp] at h
            cases hm : s.modAt cur with
            | error e => simp [hm] at h
            | ok m =>
              simp only [hm] at h
              cases hv : visitCell env fuel s cellp (m.hierName ++ cell.user5p.getD "") with
              | error e => simp [hv] at h
              | ok s1 =>
                simp only [hv] at h
                cases hc1 : s1.cellAt cellp with
                | error e => simp [hc1] at h
                | ok c1 =>
                  simp only [hc1] at h
                  cases hmp1 : c1.modp with
                  | none => simp [hmp1] at h
                  | some modp =>
                    simp only [hmp1] at h
                    obtain ⟨c0, modp0, m0, e1, e2, e3, e4, _, _, _, _, e9, e10, e11⟩ :=
                      visitCell_effect _ _ _ _ _ _ hv
                    rw [hc1] at e1
                    have hcc : c1 = c0 := Except.ok.inj e1
                    rw [hcc, e2] at hmp1
                    have hmm : modp0 = modp := Option.some.inj hmp1
                    subst hmm
                    have hstep : WorkStep top s log s1 (log ++ [.cell cellp modp0]) :=
                      WorkStep.cell _ _ _ cellp modp0 m0 (modAt_eq_ok.1 e3) e4
                        (fun i mi hmi => by
                          obtain ⟨m1, a, b, c, _, d⟩ := e9 i mi hmi
                          exact ⟨m1, a, b, c, d⟩) e10 e11
                    exact (WorkRun.single hstep).trans_run (ih s1 _ h)
        · exact ih s log h

/-- The two loops over the cells of a module are a run of steps. -/
theorem cellWaves_run (top : Bool) (env : Env) (fuel : Nat) (s s' : ParamState)
    (log log' : List Event) (h : cellWaves env fuel s log = .ok (s', log')) :
    WorkRun top s log s' log' := by
  unfold cellWaves at h
  cases hw0 : cellWave env fuel false s s.m_cellps log with
  | error e => simp [hw0, Except.bind] at h
  | ok r0 =>
    simp only [hw0, Except.bind] at h
    exact (cellWave_run top _ _ _ _ _ _ _ _ hw0).trans_run
      (cellWave_run top _ _ _ _ _ _ _ _ h)

theorem clearUser5p_length (cells : List AstCell) (l : List Nat) :
    (clearUser5p cells l).length = cells.length := by
  induction l generalizing cells with
  | nil => rfl
  | cons c rest ih =>
    simp only [clearUser5p]
    split
    · rw [ih, List.length_set]
    · exact ih cells

/-- The elaboration of a module is a run of steps. -/
theorem elaborate_run (top : Bool) (env : Env) (fuel : Nat) (walk : Walk) (s s' : ParamState)
    (nodep : Nat) (log log' : List Event)
    (h : elaborate env fuel walk s nodep log = .ok (s', log')) : WorkRun top s log s' log' := by
  unfold elaborate at h
  simp only at h
  cases hm : ParamState.modAt { s with m_modp := some nodep } nodep with
  | error e => simp [hm, Except.bind] at h
  | ok m =>
    simp only [hm, Except.bind] at h
    generalize hs1 : (if m.hierName.isEmpty = true then
        ParamState.setMod { s with m_modp := some nodep } nodep { m with hierName := m.origName }
      else { s with m_modp := some nodep }) = s1 at h
    have h1 : WorkRun top s log s1 log := by
      apply WorkRun.single
      apply WorkStep.quiet
      · rw [← hs1]
        split
        · exact marks_set s.mods nodep m _ (modAt_eq_ok.1 hm) rfl
        · rfl
      · rw [← hs1]
        split <;> rfl
    cases hit : iterateModule walk s1 nodep with
    | error e => simp [hit] at h
    | ok s2 =>
      simp only [hit] at h
      obtain ⟨q1, q2⟩ := iterateModule_quiet _ _ _ _ hit
      have h2 : WorkRun top s1 log s2 log := WorkRun.single (WorkStep.quiet _ _ _ q1 q2)
      cases hw : cellWaves env fuel s2 log with
      | error e => simp [hw] at h
      | ok r1 =>
        simp only [hw, Except.ok.injEq, Prod.mk.injEq] at h
        obtain ⟨rfl, rfl⟩ := h
        have h3 := cellWaves_run top _ _ _ _ _ _ hw
        have h5 : WorkRun top r1.1 r1.2
            { r1.1 with cells := clearUser5p r1.1.cells r1.1.m_cellps,
                        m_cellps := [], m_modp := none } r1.2 :=
          WorkRun.single (WorkStep.quiet _ _ _ rfl rfl)
        exact ((h1.trans_run h2).trans_run h3).trans_run h5

/-- A run of `visitModules` that returns is a run of steps that ends with an
empty work list. -/
theorem visitModules_run (top : Bool) (env : Env) (fuel : Nat) (walk : Walk) (rounds : Nat)
    (s s' : ParamState) (log log' : List Event)
    (h : visitModules env fuel walk rounds s log = .ok (s', log')) :
    WorkRun top s log s' log' ∧ s'.m_todoModps = [] := by
  induction rounds generalizing s log with
  | zero =>
    unfold visitModules at h
    cases ht : s.m_todoModps with
    | nil =>
      simp only [ht, Except.ok.injEq, Prod.mk.injEq] at h
      obtain ⟨rfl, rfl⟩ := h
      exact ⟨WorkRun.refl _ _, ht⟩
    | cons e rest => simp [ht] at h
  | succ n ih =>
    unfold visitModules at h
    cases ht : s.m_todoModps with
    | nil =>
      simp only [ht, Except.ok.injEq, Prod.mk.injEq] at h
      obtain ⟨rfl, rfl⟩ := h
      exact ⟨WorkRun.refl _ _, ht⟩
    | cons e rest =>
      obtain ⟨l, nodep⟩ := e
      simp only [ht] at h
      cases hm : ParamState.modAt { s with m_todoModps := rest } nodep with
      | error e => simp [hm, Except.bind] at h
      | ok m =>
        simp only [hm, Except.bind] at h
        have hi : s.mods[nodep]? = some m := modAt_eq_ok.1 hm
        by_cases hu : m.user5 = true
        · simp only [hu, Bool.not_true, Bool.false_eq_true, if_false] at h
          obtain ⟨r, hr⟩ := ih _ _ h
          exact ⟨(WorkRun.single
            (WorkStep.skip s { s with m_todoModps := rest } log l nodep rest m ht hi hu rfl
              rfl)).trans_run r, hr⟩
        · have hu' : m.user5 = false := by simpa using hu
          simp only [hu', Bool.not_false, if_true] at h
          cases he : elaborate env fuel walk
              (ParamState.setMod { s with m_todoModps := rest } nodep { m with user5 := true })
              nodep (log ++ [.mod nodep]) with
          | error e => simp [he] at h
          | ok r1 =>
            simp only [he] at h
            obtain ⟨r, hr⟩ := ih _ _ h
            have h1 : WorkRun top s log
                (ParamState.setMod { s with m_todoModps := rest } nodep { m with user5 := true })
                (log ++ [.mod nodep]) :=
              WorkRun.single (WorkStep.take _ _ _ l nodep rest m ht hi hu' rfl rfl)
            exact ⟨(h1.trans_run (elaborate_run top _ _ _ _ _ _ _ _ he)).trans_run r, hr⟩

/-- A call of `visit(AstNodeModule*)` that returns is a run of steps; the
work list is empty afterwards unless nothing but the flag `dead` of the
module has changed. -/
theorem visitAstNodeModule_run (env : Env) (fuel : Nat) (walk : Walk) (rounds : Nat)
    (s s' : ParamState) (nodep : Nat) (log log' : List Event)
    (h : visitAstNodeModule env fuel walk rounds s nodep log = .ok (s', log')) :
    WorkRun true s log s' log'
      ∧ (s'.m_todoModps = []
        ∨ (s'.m_todoModps = s.m_todoModps ∧ s'.mods.length = s.mods.length ∧ log' = log)) := by
  unfold visitAstNodeModule at h
  cases hm : s.modAt nodep with
  | error e => simp [hm, Except.bind] at h
  | ok m =>
    simp only [hm, Except.bind] at h
    have hi : s.mods[nodep]? = some m := modAt_eq_ok.1 hm
    split at h
    · simp only [Except.ok.injEq, Prod.mk.injEq] at h
      obtain ⟨rfl, rfl⟩ := h
      exact ⟨WorkRun.refl _ _, Or.inr ⟨rfl, rfl, rfl⟩⟩
    · rename_i hd
      split at h
      · simp only [Except.ok.injEq, Prod.mk.injEq] at h
        obtain ⟨rfl, rfl⟩ := h
        refine ⟨WorkRun.single (WorkStep.kill rfl _ _ _ nodep m hi rfl rfl),
          Or.inr ⟨rfl, ?_, rfl⟩⟩
        simp [ParamState.setMod]
      · split at h
        · obtain ⟨r, hr⟩ := visitModules_run true _ _ _ _ _ _ _ _ h
          have hd' : m.dead = false := by simpa using hd
          exact ⟨(WorkRun.single
            (WorkStep.root rfl s
              { s with m_todoModps := todoInsert s.m_todoModps m.level nodep,
                       m_generateHierName := "" } log nodep m hi hd' rfl rfl)).trans_run r, Or.inl hr⟩
        · simp only [Except.ok.injEq, Prod.mk.injEq] at h
          obtain ⟨rfl, rfl⟩ := h
          exact ⟨WorkRun.refl _ _, Or.inr ⟨rfl, rfl, rfl⟩⟩

/-- The visit of the netlist is a run of steps. -/
theorem visitAstNetlist_run (env : Env) (fuel : Nat) (walk : Walk) (rounds steps : Nat)
    (s s' : ParamState) (cur : Option Nat) (log log' : List Event)
    (h : visitAstNetlist env fuel walk rounds steps s cur log = .ok (s', log')) :
    WorkRun true s log s' log'
      ∧ (s'.m_todoModps = []
        ∨ (s'.m_todoModps = s.m_todoModps ∧ s'.mods.length = s.mods.length ∧ log' = log)) := by
  induction steps generalizing s cur log with
  | zero =>
    cases cur with
    | none =>
      simp only [visitAstNetlist, Except.ok.injEq, Prod.mk.injEq] at h
      obtain ⟨rfl, rfl⟩ := h
      exact ⟨WorkRun.refl _ _, Or.inr ⟨rfl, rfl, rfl⟩⟩
    | some nodep => simp [visitAstNetlist] at h
  | succ n ih =>
    cases cur with
    | none =>
      simp only [visitAstNetlist, Except.ok.injEq, Prod.mk.injEq] at h
      obtain ⟨rfl, rfl⟩ := h
      exact ⟨WorkRun.refl _ _, Or.inr ⟨rfl, rfl, rfl⟩⟩
    | some nodep =>
      simp only [visitAstNetlist] at h
      cases hv : visitAstNodeModule env fuel walk rounds s nodep log with
      | error e => simp [hv, Except.bind] at h
      | ok r1 =>
        simp only [hv, Except.bind] at h
        obtain ⟨a1, a2⟩ := visitAstNodeModule_run _ _ _ _ _ _ _ _ _ hv
        obtain ⟨b1, b2⟩ := ih _ _ _ h
        refine ⟨a1.trans_run b1, ?_⟩
        rcases b2 with b2 | ⟨b2, b3, b4⟩
        · exact Or.inl b2
        · rcases a2 with a2 | ⟨a2, a3, a4⟩
          · exact Or.inl (b2.trans a2)
          · exact Or.inr ⟨b2.trans a2, b3.trans a3, b4.trans a4⟩

/-- The pass is a run of steps. -/
theorem paramPass_run (env : Env) (fuel : Nat) (walk : Walk) (rounds steps : Nat)
    (s s' : ParamState) (log' : List Event)
    (h : paramPass env fuel walk rounds steps s = .ok (s', log')) :
    WorkRun true s [] s' log'
      ∧ (s'.m_todoModps = []
        ∨ (s'.m_todoModps = s.m_todoModps ∧ s'.mods.length = s.mods.length ∧ log' = [])) :=
  visitAstNetlist_run _ _ _ _ _ _ _ _ _ _ h

/-! ## Every module is elaborated once -/

/-- What every step of the pass does to the marks, the work list and the
events. -/
theorem WorkStep.facts {top : Bool} {s s' : ParamState} {log log' : List Event}
    (h : WorkStep top s log s' log') :
    (∀ (i : Nat) (m0 : AstNodeModule), s.mods[i]? = some m0 →
        ∃ m1 : AstNodeModule, s'.mods[i]? = some m1 ∧ m1.level = m0.level
          ∧ (m1.user5 = m0.user5
            ∨ (m0.user5 = false ∧ m1.user5 = true ∧ log' = log ++ [Event.mod i])))
    ∧ (∀ (i : Nat) (m1 : AstNodeModule), s'.mods[i]? = some m1 → s.mods.length ≤ i →
        m1.user5 = false ∧ ∃ l, (l, i) ∈ s'.m_todoModps)
    ∧ s.mods.length ≤ s'.mods.length
    ∧ (log' = log ∨ (∃ c m, log' = log ++ [Event.cell c m])
        ∨ (∃ (i : Nat) (m0 m1 : AstNodeModule), log' = log ++ [Event.mod i]
            ∧ s.mods[i]? = some m0 ∧ m0.user5 = false
            ∧ s'.mods[i]? = some m1 ∧ m1.user5 = true))
    ∧ (∀ (l : Int) (i : Nat), (l, i) ∈ s.m_todoModps →
        (l, i) ∈ s'.m_todoModps
          ∨ ∃ m1 : AstNodeModule, s'.mods[i]? = some m1 ∧ m1.user5 = true) := by
  cases h with
  | quiet _ _ _ hmods htodo =>
    refine ⟨?_, ?_, ?_, Or.inl rfl, ?_⟩
    · intro i m0 hi
      obtain ⟨m1, h1, _, hu, hl⟩ := marks_getElem hmods i m0 hi
      exact ⟨m1, h1, hl, Or.inl hu⟩
    · intro i m1 hi hle
      have := marks_length hmods
      have := (List.getElem?_eq_some_iff.1 hi).1
      omega
    · rw [marks_length hmods]
    · intro l i hmem
      left
      rw [htodo]
      exact hmem
  | skip _ _ _ l0 i0 rest m ht hi0 hu0 hmods htodo =>
    refine ⟨?_, ?_, ?_, Or.inl rfl, ?_⟩
    · intro i m0 hi
      obtain ⟨m1, h1, _, hu, hl⟩ := marks_getElem hmods i m0 hi
      exact ⟨m1, h1, hl, Or.inl hu⟩
    · intro i m1 hi hle
      have := marks_length hmods
      have := (List.getElem?_eq_some_iff.1 hi).1
      omega
    · rw [marks_length hmods]
    · intro l i hmem
      rw [ht, List.mem_cons] at hmem
      rcases hmem with heq | hmem
      · right
        simp only [Prod.mk.injEq] at heq
        obtain ⟨m1, h1, _, hu, _⟩ := marks_getElem hmods i0 m hi0
        rw [heq.2]
        exact ⟨m1, h1, hu.trans hu0⟩
      · left
        rw [htodo]
        exact hmem
  | take _ _ _ l0 i0 rest m ht hi0 hu0 hmods htodo =>
    have hset : ∀ (j : Nat) (mj : AstNodeModule), s.mods[j]? = some mj →
        (s.mods.set i0 { m with user5 := true })[j]?
          = some (if i0 = j then { m with user5 := true } else mj) := by
      intro j mj hj
      rw [List.getElem?_set']
      by_cases hij : i0 = j
      · subst hij
        simp [hi0]
      · simp [hij, hj]
    have hlen : s'.mods.length = s.mods.length := by
      rw [marks_length hmods, List.length_set]
    obtain ⟨mt, ht1, _, htu, _⟩ := marks_getElem hmods i0 _ (hset i0 m hi0)
    simp only [if_true] at htu
    refine ⟨?_, ?_, ?_, Or.inr (Or.inr ⟨i0, m, mt, rfl, hi0, hu0, ht1, htu⟩), ?_⟩
    · intro i m0 hi
      obtain ⟨m1, h1, _, hu, hl⟩ := marks_getElem hmods i _ (hset i m0 hi)
      by_cases hij : i0 = i
      · subst hij
        rw [hi0] at hi
        have hmm : m = m0 := Option.some.inj hi
        subst hmm
        simp only [if_true] at hu hl
        exact ⟨m1, h1, hl, Or.inr ⟨hu0, hu, rfl⟩⟩
      · simp only [hij, if_false] at hu hl
        exact ⟨m1, h1, hl, Or.inl hu⟩
    · intro i m1 hi hle
      have := (List.getElem?_eq_some_iff.1 hi).1
      omega
    · rw [hlen]
    · intro l i hmem
      rw [ht, List.mem_cons] at hmem
      rcases hmem with heq | hmem
      · right
        simp only [Prod.mk.injEq] at heq
        rw [heq.2]
        exact ⟨mt, ht1, htu⟩
      · left
        rw [htodo]
        exact hmem
  | cell _ _ _ c modp m hm htodo hold hnew hlen =>
    refine ⟨?_, ?_, hlen, Or.inr (Or.inl ⟨c, modp, rfl⟩), ?_⟩
    · intro i m0 hi
      obtain ⟨m1, h1, hu, hl, _⟩ := hold i m0 hi
      exact ⟨m1, h1, hl, Or.inl hu⟩
    · intro i m1 hi hle
      obtain ⟨e1, e2⟩ := hnew i m1 hi hle
      refine ⟨e2, m.level, ?_⟩
      rw [htodo, e1]
      exact todoInsert_mem _ _ _
    · intro l i hmem
      left
      rw [htodo]
      exact (todoInsert_mem_iff _ _ _ _).2 (Or.inr hmem)
  | root _ _ _ _ i0 m hi0 hd hmods htodo =>
    refine ⟨?_, ?_, ?_, Or.inl rfl, ?_⟩
    · intro i m0 hi
      obtain ⟨m1, h1, _, hu, hl⟩ := marks_getElem hmods i m0 hi
      exact ⟨m1, h1, hl, Or.inl hu⟩
    · intro i m1 hi hle
      have := marks_length hmods
      have := (List.getElem?_eq_some_iff.1 hi).1
      omega
    · rw [marks_length hmods]
    · intro l i hmem
      left
      rw [htodo]
      exact (todoInsert_mem_iff _ _ _ _).2 (Or.inr hmem)
  | kill _ _ _ _ i0 m hi0 hmods htodo =>
    have hset : ∀ (j : Nat) (mj : AstNodeModule), s.mods[j]? = some mj →
        (s.mods.set i0 { m with dead := true })[j]?
          = some (if i0 = j then { m with dead := true } else mj) := by
      intro j mj hj
      rw [List.getElem?_set']
      by_cases hij : i0 = j
      · subst hij
        simp [hi0]
      · simp [hij, hj]
    have hlen : s'.mods.length = s.mods.length := by
      rw [marks_length hmods, List.length_set]
    refine ⟨?_, ?_, ?_, Or.inl rfl, ?_⟩
    · intro i m0 hi
      obtain ⟨m1, h1, _, hu, hl⟩ := marks_getElem hmods i _ (hset i m0 hi)
      by_cases hij : i0 = i
      · subst hij
        rw [hi0] at hi
        have hmm : m = m0 := Option.some.inj hi
        subst hmm
        simp only [if_true] at hu hl
        exact ⟨m1, h1, hl, Or.inl hu⟩
      · simp only [hij, if_false] at hu hl
        exact ⟨m1, h1, hl, Or.inl hu⟩
    · intro i m1 hi hle
      have := (List.getElem?_eq_some_iff.1 hi).1
      omega
    · rw [hlen]
    · intro l i hmem
      left
      rw [htodo]
      exact hmem

theorem OnceInv.start (s : ParamState) : OnceInv s s [] where
  marked := fun _ h => absurd h (List.not_mem_nil _)
  once := fun _ => by simp
  old := fun i m0 h hu => ⟨⟨m0, h, hu⟩, List.not_mem_nil _⟩
  pending := fun i m hle hi _ => by
    have := (List.getElem?_eq_some_iff.1 hi).1
    omega
  done := fun i m hle hi _ => by
    have := (List.getElem?_eq_some_iff.1 hi).1
    omega
  grows := le_refl _

theorem OnceInv.step_once {top : Bool} {s0 s s' : ParamState} {log log' : List Event}
    (inv : OnceInv s0 s log) (h : WorkStep top s log s' log') : OnceInv s0 s' log' := by
  obtain ⟨f1, f2, f3, f4, f5⟩ := h.facts
  have hsub : ∀ e, e ∈ log → e ∈ log' := by
    intro e he
    rcases f4 with rfl | ⟨c, m, rfl⟩ | ⟨i, m0, m1, rfl, _⟩
    · exact he
    · exact List.mem_append_left _ he
    · exact List.mem_append_left _ he
  have hkeep : ∀ (i : Nat) (m : AstNodeModule), s.mods[i]? = some m → m.user5 = true →
      ∃ m1 : AstNodeModule, s'.mods[i]? = some m1 ∧ m1.user5 = true := by
    intro i m hi hu
    obtain ⟨m1, h1, _, hcase⟩ := f1 i m hi
    rcases hcase with e | ⟨_, e, _⟩
    · exact ⟨m1, h1, e.trans hu⟩
    · exact ⟨m1, h1, e⟩
  refine ⟨?_, ?_, ?_, ?_, ?_, le_trans inv.grows f3⟩
  · intro i hmem
    rcases f4 with rfl | ⟨c, m, rfl⟩ | ⟨i0, m0, m1, rfl, _, _, h1, hu1⟩
    · obtain ⟨m, hi, hu⟩ := inv.marked i hmem
      exact hkeep i m hi hu
    · have hmem' : Event.mod i ∈ log := by simpa using hmem
      obtain ⟨m, hi, hu⟩ := inv.marked i hmem'
      exact hkeep i m hi hu
    · rcases List.mem_append.1 hmem with hmem' | hmem'
      · obtain ⟨m, hi, hu⟩ := inv.marked i hmem'
        exact hkeep i m hi hu
      · simp only [List.mem_singleton, Event.mod.injEq] at hmem'
        subst hmem'
        exact ⟨m1, h1, hu1⟩
  · intro i
    rcases f4 with rfl | ⟨c, m, rfl⟩ | ⟨i0, m0, m1, rfl, hi0, hu0, _, _⟩
    · exact inv.once i
    · have := inv.once i
      simpa [List.count_append] using this
    · by_cases hii : i0 = i
      · subst hii
        have hnot : Event.mod i0 ∉ log := by
          intro hmem
          obtain ⟨m, hi, hu⟩ := inv.marked i0 hmem
          rw [hi0] at hi
          rw [← Option.some.inj hi, hu0] at hu
          cases hu
        have : log.count (Event.mod i0) = 0 := List.count_eq_zero_of_not_mem hnot
        simp [List.count_append, this]
      · have := inv.once i
        have hne : (Event.mod i0 == Event.mod i) = false := by simpa using hii
        simpa [List.count_append, List.count_cons, hne] using this
  · intro i m0 hi hu
    obtain ⟨⟨m, hm, hmu⟩, hnot⟩ := inv.old i m0 hi hu
    refine ⟨hkeep i m hm hmu, ?_⟩
    intro hmem
    rcases f4 with rfl | ⟨c, mm, rfl⟩ | ⟨i0, ma, mb, rfl, hi0, hu0, _, _⟩
    · exact hnot hmem
    · exact hnot (by simpa using hmem)
    · rcases List.mem_append.1 hmem with hmem' | hmem'
      · exact hnot hmem'
      · simp only [List.mem_singleton, Event.mod.injEq] at hmem'
        subst hmem'
        rw [hi0] at hm
        rw [← Option.some.inj hm, hu0] at hmu
        cases hmu
  · intro i m1 hle hi hu
    by_cases hlt : i < s.mods.length
    · obtain ⟨m0, hm0⟩ : ∃ m0, s.mods[i]? = some m0 :=
        ⟨s.mods[i], List.getElem?_eq_getElem hlt⟩
      obtain ⟨m1', h1, _, hcase⟩ := f1 i m0 hm0
      rw [hi] at h1
      have hmm : m1 = m1' := Option.some.inj h1
      subst hmm
      rcases hcase with e | ⟨_, e, _⟩
      · obtain ⟨l, hl⟩ := inv.pending i m0 hle hm0 (e.symm.trans hu)
        rcases f5 l i hl with h5 | ⟨mx, hx, hxu⟩
        · exact ⟨l, h5⟩
        · rw [hi] at hx
          rw [← Option.some.inj hx, hu] at hxu
          cases hxu
      · rw [hu] at e
        cases e
    · exact (f2 i m1 hi (by omega)).2
  · intro i m1 hle hi hu
    by_cases hlt : i < s.mods.length
    · obtain ⟨m0, hm0⟩ : ∃ m0, s.mods[i]? = some m0 :=
        ⟨s.mods[i], List.getElem?_eq_getElem hlt⟩
      obtain ⟨m1', h1, _, hcase⟩ := f1 i m0 hm0
      rw [hi] at h1
      have hmm : m1 = m1' := Option.some.inj h1
      subst hmm
      rcases hcase with e | ⟨_, _, e⟩
      · exact hsub _ (inv.done i m0 hle hm0 (e.symm.trans hu))
      · rw [e]
        exact List.mem_append_right _ (List.mem_singleton_self _)
    · have := (f2 i m1 hi (by omega)).1
      rw [hu] at this
      cases this

theorem OnceInv.run_once {top : Bool} {s0 s s' : ParamState} {log log' : List Event}
    (inv : OnceInv s0 s log) (h : WorkRun top s log s' log') : OnceInv s0 s' log' := by
  induction h with
  | refl => exact inv
  | tail _ hstep ih => exact (ih inv).step_once hstep

/-- C26: in a pass that returns, no module is announced for elaboration more
than once; a module that bears the mark `user5` when the pass starts is not
elaborated and keeps the mark; every module that is elaborated bears the
mark at the end; every module made during the pass is elaborated exactly
once; and a round of `visitModules` that takes a marked module off the work
list does nothing else. -/
theorem paramPass_elaborates_once (env : Env) (fuel : Nat) (walk : Walk) (rounds steps : Nat)
    (s s' : ParamState) (log : List Event)
    (h : paramPass env fuel walk rounds steps s = .ok (s', log)) :
    (∀ i : Nat, log.count (Event.mod i) ≤ 1)
    ∧ (∀ (i : Nat) (m : AstNodeModule), s.mods[i]? = some m → m.user5 = true →
        Event.mod i ∉ log ∧ ∃ m' : AstNodeModule, s'.mods[i]? = some m' ∧ m'.user5 = true)
    ∧ (∀ i : Nat, Event.mod i ∈ log →
        ∃ m' : AstNodeModule, s'.mods[i]? = some m' ∧ m'.user5 = true)
    ∧ (∀ i : Nat, s.mods.length ≤ i → i < s'.mods.length → log.count (Event.mod i) = 1)
    ∧ (∀ (n : Nat) (t : ParamState) (l : Int) (i : Nat) (rest : List (Int × Nat))
        (m : AstNodeModule) (lg : List Event),
        t.m_todoModps = (l, i) :: rest → t.mods[i]? = some m → m.user5 = true →
        visitModules env fuel walk (n + 1) t lg
          = visitModules env fuel walk n { t with m_todoModps := rest } lg) := by
  obtain ⟨hrun, hend⟩ := paramPass_run _ _ _ _ _ _ _ _ h
  have inv := (OnceInv.start s).run_once hrun
  refine ⟨inv.once, ?_, inv.marked, ?_, ?_⟩
  · intro i m hi hu
    obtain ⟨hm, hnot⟩ := inv.old i m hi hu
    exact ⟨hnot, hm⟩
  · intro i hle hlt
    obtain ⟨m1, hm1⟩ : ∃ m1, s'.mods[i]? = some m1 := ⟨s'.mods[i], List.getElem?_eq_getElem hlt⟩
    have hu : m1.user5 = true := by
      cases hu : m1.user5 with
      | true => rfl
      | false =>
        obtain ⟨l, hl⟩ := inv.pending i m1 hle hm1 hu
        rcases hend with e | ⟨_, e, _⟩
        · rw [e] at hl
          cases hl
        · omega
    have hmem := inv.done i m1 hle hm1 hu
    have h1 := inv.once i
    have h2 : 0 < log.count (Event.mod i) := List.count_pos_iff.2 hmem
    omega
  · intro n t l i rest m lg ht hi hu
    have hm : ParamState.modAt { t with m_todoModps := rest } i = .ok m := modAt_eq_ok.2 hi
    conv_lhs => unfold visitModules
    simp only [ht, hm, Except.bind, hu, Bool.not_true, Bool.false_eq_true, if_false]

/-- Witness of C26: the pass on `tokenDesign` elaborates `top` and the two
clones of `sub`, each once, although the first clone is put on the work list
twice. -/
theorem paramPass_elaborates_once_witness :
    tokenPass.2 = [.mod 0, .cell 0 2, .cell 1 3, .cell 2 2, .mod 2, .mod 3]
    ∧ tokenDesign.mods.length = 2 ∧ tokenPass.1.mods.length = 4
    ∧ (∀ i : Nat, tokenDesign.mods.length ≤ i → i < tokenPass.1.mods.length →
        tokenPass.2.count (Event.mod i) = 1) :=
  ⟨by decide, by decide, by decide,
    (paramPass_elaborates_once plainEnv 0 (cellsWalk [(0, [0, 1, 2])]) 8 8 tokenDesign
      tokenPass.1 tokenPass.2 (eq_ok_runOf _ (by decide))).2.2.2.1⟩

/-! ## Modules that are dead when the pass starts -/

/-- Where a step of the pass can have got a module without the flag `dead`,
an entry of the work list or an announcement from. -/
theorem WorkStep.deadFacts {top : Bool} {s s' : ParamState} {log log' : List Event}
    (h : WorkStep top s log s' log') :
    (∀ (i : Nat) (m1 : AstNodeModule), s'.mods[i]? = some m1 → m1.dead = false →
        i < s.mods.length →
        (∃ m0 : AstNodeModule, s.mods[i]? = some m0 ∧ m0.dead = false)
          ∨ ∃ c, log' = log ++ [Event.cell c i])
    ∧ (∀ (l : Int) (i : Nat), (l, i) ∈ s'.m_todoModps →
        (l, i) ∈ s.m_todoModps ∨ (∃ c, log' = log ++ [Event.cell c i])
          ∨ ∃ m0 : AstNodeModule, s.mods[i]? = some m0 ∧ m0.dead = false)
    ∧ (∀ i : Nat, Event.mod i ∈ log' → Event.mod i ∈ log ∨ ∃ l, (l, i) ∈ s.m_todoModps)
    ∧ (∀ e, e ∈ log → e ∈ log') := by
  have hback : ∀ (mods : List AstNodeModule), s'.mods.map markOf = mods.map markOf →
      ∀ (i : Nat) (m1 : AstNodeModule), s'.mods[i]? = some m1 →
        ∃ m0 : AstNodeModule, mods[i]? = some m0 ∧ m0.dead = m1.dead := by
    intro mods hm i m1 hi
    obtain ⟨m0, h0, hd, _⟩ := marks_getElem hm.symm i m1 hi
    exact ⟨m0, h0, hd⟩
  cases h with
  | quiet _ _ _ hmods htodo =>
    refine ⟨?_, ?_, fun i hi => Or.inl hi, fun e he => he⟩
    · intro i m1 hi hd _
      obtain ⟨m0, h0, e⟩ := hback _ hmods i m1 hi
      exact Or.inl ⟨m0, h0, e.trans hd⟩
    · intro l i hmem
      left
      rw [← htodo]
      exact hmem
  | skip _ _ _ l0 i0 rest m ht hi0 hu0 hmods htodo =>
    refine ⟨?_, ?_, fun i hi => Or.inl hi, fun e he => he⟩
    · intro i m1 hi hd _
      obtain ⟨m0, h0, e⟩ := hback _ hmods i m1 hi
      exact Or.inl ⟨m0, h0, e.trans hd⟩
    · intro l i hmem
      left
      rw [ht]
      rw [htodo] at hmem
      exact List.mem_cons_of_mem _ hmem
  | take _ _ _ l0 i0 rest m ht hi0 hu0 hmods htodo =>
    refine ⟨?_, ?_, ?_, fun e he => List.mem_append_left _ he⟩
    · intro i m1 hi hd _
      obtain ⟨mx, hx, e⟩ := hback _ hmods i m1 hi
      rw [List.getElem?_set'] at hx
      by_cases hij : i0 = i
      · subst hij
        simp [hi0] at hx
        subst hx
        exact Or.inl ⟨m, hi0, e.trans hd⟩
      · simp only [hij, if_false] at hx
        exact Or.inl ⟨mx, hx, e.trans hd⟩
    · intro l i hmem
      left
      rw [ht]
      rw [htodo] at hmem
      exact List.mem_cons_of_mem _ hmem
    · intro i hmem
      rcases List.mem_append.1 hmem with hm | hm
      · exact Or.inl hm
      · simp only [List.mem_singleton, Event.mod.injEq] at hm
        subst hm
        exact Or.inr ⟨l0, by rw [ht]; exact List.mem_cons_self _ _⟩
  | cell _ _ _ c modp m hm htodo hold hnew hlen =>
    refine ⟨?_, ?_, ?_, fun e he => List.mem_append_left _ he⟩
    · intro i m1 hi hd hlt
      obtain ⟨m0, hm0⟩ : ∃ m0, s.mods[i]? = some m0 :=
        ⟨s.mods[i], List.getElem?_eq_getElem hlt⟩
      obtain ⟨m1', h1, _, _, hcase⟩ := hold i m0 hm0
      rw [hi] at h1
      have hmm : m1 = m1' := Option.some.inj h1
      subst hmm
      rcases hcase with e | ⟨e, _⟩
      · exact Or.inl ⟨m0, hm0, e.symm.trans hd⟩
      · exact Or.inr ⟨c, by rw [e]⟩
    · intro l i hmem
      rw [htodo] at hmem
      rcases (todoInsert_mem_iff _ _ _ _).1 hmem with e | hmem
      · simp only [Prod.mk.injEq] at e
        exact Or.inr (Or.inl ⟨c, by rw [e.2]⟩)
      · exact Or.inl hmem
    · intro i hmem
      left
      simpa using hmem
  | root _ _ _ _ i0 m hi0 hd0 hmods htodo =>
    refine ⟨?_, ?_, fun i hi => Or.inl hi, fun e he => he⟩
    · intro i m1 hi hd _
      obtain ⟨m0, h0, e⟩ := hback _ hmods i m1 hi
      exact Or.inl ⟨m0, h0, e.trans hd⟩
    · intro l i hmem
      rw [htodo] at hmem
      rcases (todoInsert_mem_iff _ _ _ _).1 hmem with e | hmem
      · simp only [Prod.mk.injEq] at e
        exact Or.inr (Or.inr ⟨m, by rw [e.2]; exact hi0, hd0⟩)
      · exact Or.inl hmem
  | kill _ _ _ _ i0 m hi0 hmods htodo =>
    refine ⟨?_, ?_, fun i hi => Or.inl hi, fun e he => he⟩
    · intro i m1 hi hd _
      obtain ⟨mx, hx, e⟩ := hback _ hmods i m1 hi
      rw [List.getElem?_set'] at hx
      by_cases hij : i0 = i
      · subst hij
        simp [hi0] at hx
        subst hx
        simp [hd] at e
      · simp only [hij, if_false] at hx
        exact Or.inl ⟨mx, hx, e.trans hd⟩
    · intro l i hmem
      left
      rw [← htodo]
      exact hmem

theorem DeadInv.step_dead {top : Bool} {s0 s s' : ParamState} {log log' : List Event}
    (inv : DeadInv s0 s log) (h : WorkStep top s log s' log') : DeadInv s0 s' log' := by
  obtain ⟨g1, g2, g3, g4⟩ := h.deadFacts
  obtain ⟨_, _, f3, _, _⟩ := h.facts
  obtain ⟨hlen, hinv⟩ := inv
  refine ⟨le_trans hlen f3, ?_⟩
  intro d m0 hd0 hdead hcase
  have hlt : d < s.mods.length := by
    have := (List.getElem?_eq_some_iff.1 hd0).1
    omega
  have hdone : ∀ c, log' = log ++ [Event.cell c d] → ∃ c, Event.cell c d ∈ log' := by
    intro c e
    exact ⟨c, by rw [e]; exact List.mem_append_right _ (List.mem_singleton_self _)⟩
  have hold : ((∃ l, (l, d) ∈ s.m_todoModps) ∨ Event.mod d ∈ log
      ∨ ∃ m : AstNodeModule, s.mods[d]? = some m ∧ m.dead = false) →
      ∃ c, Event.cell c d ∈ log' := by
    intro hc
    obtain ⟨c, hcm⟩ := hinv d m0 hd0 hdead hc
    exact ⟨c, g4 _ hcm⟩
  rcases hcase with ⟨l, hl⟩ | hmod | ⟨m, hm, hmd⟩
  · rcases g2 l d hl with h1 | ⟨c, h1⟩ | ⟨mx, hx, hxd⟩
    · exact hold (Or.inl ⟨l, h1⟩)
    · exact hdone c h1
    · exact hold (Or.inr (Or.inr ⟨mx, hx, hxd⟩))
  · rcases g3 d hmod with h1 | ⟨l, h1⟩
    · exact hold (Or.inr (Or.inl h1))
    · exact hold (Or.inl ⟨l, h1⟩)
  · rcases g1 d m hm hmd hlt with ⟨mx, hx, hxd⟩ | ⟨c, h1⟩
    · exact hold (Or.inr (Or.inr ⟨mx, hx, hxd⟩))
    · exact hdone c h1

theorem DeadInv.run_dead {top : Bool} {s0 s s' : ParamState} {log log' : List Event}
    (inv : DeadInv s0 s log) (h : WorkRun top s log s' log') : DeadInv s0 s' log' := by
  induction h with
  | refl => exact inv
  | tail _ hstep ih => exact (ih inv).step_dead hstep

/-- Counterexample to C27 as stated: the wrapper `sub_w16` of
`deadWrapperDesign` is dead when the pass starts; the visit of cell `c0` of
`top` binds the cell to it, and the pass then elaborates it and leaves it
without the flag `dead`. -/
theorem paramPass_elaborates_dead_wrapper :
    deadWrapperDesign.mods.map (·.dead) = [false, false, true, true]
    ∧ deadWrapperDesign.m_todoModps = []
    ∧ deadWrapperPass.2 = [.mod 0, .cell 0 3, .mod 3]
    ∧ deadWrapperPass.1.mods.map (·.dead) = [false, false, true, false]
    ∧ (resultOf (visitCell plainEnv 0 { deadWrapperDesign with m_modp := some 0 } 0
        "top")).m_todoModps = [(2, 3)] := by
  decide

/-- C27, amended: `visit(AstNodeModule*)` does nothing for a module that is
dead, and in a pass that starts with an empty work list a module that is dead
at the start is elaborated only if `visitCell` has been done with a cell that
it bound to that module. -/
theorem paramPass_dead_modules (env : Env) (fuel : Nat) (walk : Walk) (rounds steps : Nat)
    (s s' : ParamState) (log : List Event)
    (h : paramPass env fuel walk rounds steps s = .ok (s', log))
    (htodo : s.m_todoModps = []) :
    (∀ (d : Nat) (m0 : AstNodeModule), s.mods[d]? = some m0 → m0.dead = true →
        Event.mod d ∈ log → ∃ c, Event.cell c d ∈ log)
    ∧ (∀ (t : ParamState) (nodep : Nat) (m : AstNodeModule) (lg : List Event),
        t.modAt nodep = .ok m → m.dead = true →
        visitAstNodeModule env fuel walk rounds t nodep lg = .ok (t, lg)) := by
  obtain ⟨hrun, _⟩ := paramPass_run _ _ _ _ _ _ _ _ h
  have h0 : DeadInv s s [] := by
    refine ⟨le_refl _, ?_⟩
    intro d m0 hd hdead hcase
    rcases hcase with ⟨l, hl⟩ | hmod | ⟨m, hm, hmd⟩
    · rw [htodo] at hl
      cases hl
    · cases hmod
    · rw [hd] at hm
      rw [← Option.some.inj hm, hdead] at hmd
      cases hmd
  have inv := h0.run_dead hrun
  refine ⟨fun d m0 hd hdead hmod => inv.2 d m0 hd hdead (Or.inr (Or.inl hmod)), ?_⟩
  intro t nodep m lg hm hd
  unfold visitAstNodeModule
  simp only [hm, Except.bind, hd, if_true]

/-- Witness of C27, amended: the pass on `deadWrapperDesign` elaborates the
dead wrapper `sub_w16` after the visit of cell `c0`, which it bound to it. -/
theorem paramPass_dead_modules_witness :
    deadWrapperPass.2 = [.mod 0, .cell 0 3, .mod 3]
    ∧ ∃ c, Event.cell c 3 ∈ deadWrapperPass.2 :=
  ⟨by decide,
    (paramPass_dead_modules plainEnv 0 (cellsWalk [(0, [0])]) 8 8 deadWrapperDesign
      deadWrapperPass.1 deadWrapperPass.2 (eq_ok_runOf _ (by decide)) (by decide)).1 3
      { mkModule "sub_w16" 2 [mkParam "WIDTH" .null (mkConst 16), mkPort "clk"] with
        dead := true } (by decide) (by decide) (by decide)⟩

/-! ## After the error of the recursion depth -/

/-- A call of `visitCell` that returns reports the error of the recursion
depth only if it makes a module. -/
theorem visitCell_depth_cases (env : Env) (fuel : Nat) (s s' : ParamState) (nodep : Nat)
    (hierName : String) (h : visitCell env fuel s nodep hierName = .ok s') :
    s'.errors.countP isDepthError = s.errors.countP isDepthError
      ∨ s.mods.length < s'.mods.length := by
  obtain ⟨cell, T, acc, cell1, sB, cell2, modp, m, hc, _, hn, hs, hm2, hmod, hs'⟩ :=
    visitCell_inv _ _ _ _ _ _ h
  have hcnt : acc.s.errors.countP isDepthError = s.errors.countP isDepthError :=
    (cellNames_pinErrs _ _ _ _ _ _ _ hn).count
  have hlen : acc.s.mods.length = s.mods.length := (cellNames_loopRel _ _ _ _ _ _ _ hn).fields.1
  have he : s'.errors = sB.errors := by rw [hs']; rfl
  have hm : s'.mods = sB.mods := by rw [hs']; rfl
  rcases specializeCell_inv _ _ _ _ _ _ _ hs with ⟨_, e, _⟩ |
    ⟨_, src, mp, mm, pinsp, _, _, _, _, e, _⟩ | ⟨_, src, newname, sR, _, _, hrn, hsb⟩
  · left
    rw [he, e, hcnt]
  · left
    rw [he, e]
    exact hcnt
  · obtain ⟨⟨lm, lid, rc, hsR, _⟩, _, _⟩ := resolveName_spec _ _ _ _ _ _ _ _ hrn
    rcases specializeByName_cases _ _ _ _ _ _ _ _ hsb with ⟨info, _, e, _⟩ |
      ⟨_, cellC, info, hcf, _⟩
    · left
      rw [he, e, hsR]
      exact hcnt
    · right
      obtain ⟨src2, clone, ms, errs, _, hsB, _⟩ := cloneFlavor_spec _ _ _ _ _ _ _ _ _ hcf
      rw [hm, hsB, hsR]
      show s.mods.length < (acc.s.mods ++ [clone]).length
      rw [List.length_append, hlen]
      simp

/-- Counterexample to C22 as stated: under `--module-recursion-depth 3` the
visit of the recursive cell of `recursiveDesign` reports the error of the
recursion depth, and the clone `sub__P5` is in the module list, in the cache
and on the work list all the same; the run of the work list elaborates it,
visits the recursive cell in it, reports the error again and elaborates the
next clone `sub__P6`. -/
theorem visitCell_depth_error_inserts_clone :
    (resultOf (visitStep shallowEnv 0 recursiveDesign ⟨1, 0, "top.sub"⟩)).errors.countP
        isDepthError = 1
    ∧ (resultOf (visitStep shallowEnv 0 recursiveDesign ⟨1, 0, "top.sub"⟩)).mods.map (·.name)
        = ["top", "sub", "sub__P5"]
    ∧ (resultOf (visitStep shallowEnv 0 recursiveDesign ⟨1, 0, "top.sub"⟩)).modulesp = [0, 1, 2]
    ∧ (resultOf (visitStep shallowEnv 0 recursiveDesign
        ⟨1, 0, "top.sub"⟩)).m_modNameMap.map (fun e => (e.1, e.2.m_modp)) = [("sub__P5", 2)]
    ∧ (resultOf (visitStep shallowEnv 0 recursiveDesign ⟨1, 0, "top.sub"⟩)).m_todoModps
        = [(4, 2)]
    ∧ chainRun.2 = [.mod 1, .cell 0 2, .mod 2, .cell 1 3, .mod 3]
    ∧ chainRun.1.errors.countP isDepthError = 2
    ∧ chainRun.1.mods.map (fun m => (m.name, m.level))
        = [("top", 2), ("sub", 3), ("sub__P5", 4), ("sub__P6", 5)] := by
  decide

/-- C22, amended: a call of `visitCell` that reports the error of the
recursion depth has made a clone all the same: the clone is in the module
list, in the cache and on the work list under its level, the cell is bound
to it, it bears no mark, and every run of `visitModules` from there that
returns has emptied the work list and has elaborated the clone. -/
theorem visitCell_depth_error_keeps_clone (env : Env) (fuel : Nat) (s s' : ParamState)
    (v : CellVisit) (cell : AstCell) (T : Nat)
    (h : visitStep env fuel s v = .ok s')
    (hc : s.cellAt v.nodep = .ok cell) (hT : cell.modp = some T) (hin : T ∈ s.modulesp)
    (herr : s.errors.countP isDepthError < s'.errors.countP isDepthError) :
    s'.mods.length = s.mods.length + 1
    ∧ s.mods.length ∈ s'.modulesp
    ∧ (∃ name info, mapFind s'.m_modNameMap name = some info ∧ info.m_modp = s.mods.length)
    ∧ (∃ c clone, s'.cellAt v.nodep = .ok c ∧ c.modp = some s.mods.length
        ∧ s'.modAt s.mods.length = .ok clone ∧ clone.user5 = false
        ∧ (clone.level, s.mods.length) ∈ s'.m_todoModps)
    ∧ (∀ (walk : Walk) (rounds : Nat) (s2 : ParamState) (log : List Event),
        visitModules env fuel walk rounds s' [] = .ok (s2, log) →
        s2.m_todoModps = [] ∧ Event.mod s.mods.length ∈ log) := by
  have hfresh : s.mods.length < s'.mods.length := by
    rcases visitCell_depth_cases _ _ _ _ _ _ h with e | e
    · have e' : s'.errors.countP isDepthError = s.errors.countP isDepthError := e
      omega
    · exact e
  obtain ⟨c0, modp, m, e1, e2, e3, e4, _, _, _, _, e9, e10, e11⟩ :=
    visitCell_effect _ _ _ _ _ _ h
  have hlen0 : (ParamState.mods { s with m_modp := some v.modp }).length = s.mods.length := rfl
  obtain ⟨mlast, hlast⟩ : ∃ ml, s'.mods[s.mods.length]? = some ml :=
    ⟨s'.mods[s.mods.length], List.getElem?_eq_getElem hfresh⟩
  obtain ⟨hmodp, hu⟩ := e10 _ mlast hlast (le_refl _)
  have hmodp' : modp = s.mods.length := hmodp.symm
  subst hmodp'
  have hmm : m = mlast := by
    have := modAt_eq_ok.1 e3
    rw [hlast] at this
    exact (Option.some.inj this).symm
  subst hmm
  obtain ⟨acc, cell1, src, newname, sR, sB, cellC, info, c, hn, _, _, _, hrn, hnone, hcf, _,
    _, _, hmods, hcache, _, hmodsp⟩ := visitStep_fresh_inv env fuel s s' v cell T h hc hT hfresh
  have hrel := cellNames_loopRel _ _ _ _ _ _ _ hn
  obtain ⟨⟨lm, lid, rc, hsR, _⟩, _, _⟩ := resolveName_spec _ _ _ _ _ _ _ _ hrn
  have hRlen : sR.mods.length = s.mods.length := by
    rw [hsR]
    exact hrel.fields.1
  have hRmodsp : sR.modulesp = s.modulesp := by
    rw [hsR]
    exact hrel.fields.2.2
  obtain ⟨src2, clone, ms, errs, _, hsB, _, _, _, _, hinfo, _⟩ :=
    cloneFlavor_spec _ _ _ _ _ _ _ _ _ hcf
  have hlen : s'.mods.length = s.mods.length + 1 := by
    rw [hmods, hsB]
    show (sR.mods ++ [clone]).length = _
    rw [List.length_append, hRlen]
    rfl
  refine ⟨hlen, ?_, ⟨newname, info, ?_, ?_⟩, ⟨c0, m, e1, e2, e3, hu, ?_⟩, ?_⟩
  · obtain ⟨src3, cur, curMod, _, _, _, hms⟩ := cloneFlavor_modulesp _ _ _ _ _ _ _ _ _ hcf
    rw [hmodsp, hms, hRlen]
    obtain ⟨pre, lower, rest, _, _, hins, _⟩ :=
      insertClone_spec (levelWith (sR.mods ++ [cloneOf src3 newname curMod.level]))
        (cloneOf src3 newname curMod.level).level T s.mods.length sR.modulesp
        (by rw [hRmodsp]; exact hin)
    rw [hins]
    simp
  · rw [hcache, hsB]
    exact mapFind_mapInsert_self _ _ _ hnone
  · rw [hinfo, hRlen]
  · rw [e4]
    exact todoInsert_mem _ _ _
  · intro walk rounds s2 log hrun
    obtain ⟨r, hend⟩ := visitModules_run false _ _ _ _ _ _ _ _ hrun
    have h0 : OnceInv s s' [] := by
      refine ⟨fun _ hx => absurd hx (List.not_mem_nil _), fun _ => by simp, ?_, ?_, ?_,
        by omega⟩
      · intro i m0 hi hu0
        obtain ⟨m1, h1, hu1, _⟩ := e9 i m0 hi
        exact ⟨⟨m1, h1, hu1.trans hu0⟩, List.not_mem_nil _⟩
      · intro i mi hle hi _
        obtain ⟨ei, _⟩ := e10 i mi hi hle
        rw [ei]
        exact ⟨m.level, by rw [e4]; exact todoInsert_mem _ _ _⟩
      · intro i mi hle hi hui
        obtain ⟨_, ef⟩ := e10 i mi hi hle
        rw [hui] at ef
        cases ef
    have inv := h0.run_once r
    obtain ⟨m2, hm2⟩ : ∃ m2, s2.mods[s.mods.length]? = some m2 := by
      have : s.mods.length < s2.mods.length := by
        have h1 := (OnceInv.start s').run_once r
        have := h1.grows
        omega
      exact ⟨s2.mods[s.mods.length], List.getElem?_eq_getElem this⟩
    refine ⟨hend, ?_⟩
    cases hu2 : m2.user5 with
    | true => exact inv.done _ m2 (le_refl _) hm2 hu2
    | false =>
      obtain ⟨l, hl⟩ := inv.pending _ m2 (le_refl _) hm2 hu2
      rw [hend] at hl
      cases hl

/-- Witness of C22, amended: the visit of the recursive cell of
`recursiveDesign` under `--module-recursion-depth 3`. -/
theorem visitCell_depth_error_keeps_clone_witness :
    recursiveDesign.errors.countP isDepthError = 0
    ∧ (resultOf (visitStep shallowEnv 0 recursiveDesign ⟨1, 0, "top.sub"⟩)).errors.countP
        isDepthError = 1
    ∧ (resultOf (visitStep shallowEnv 0 recursiveDesign ⟨1, 0, "top.sub"⟩)).mods.length
        = recursiveDesign.mods.length + 1
    ∧ recursiveDesign.mods.length
        ∈ (resultOf (visitStep shallowEnv 0 recursiveDesign ⟨1, 0, "top.sub"⟩)).modulesp :=
  ⟨by decide, by decide,
    (visitCell_depth_error_keeps_clone shallowEnv 0 recursiveDesign _ ⟨1, 0, "top.sub"⟩
      (recursiveCell 5) 1 (eq_ok_resultOf _ (by decide)) (by decide) (by decide) (by decide)
      (by decide)).1,
    (visitCell_depth_error_keeps_clone shallowEnv 0 recursiveDesign _ ⟨1, 0, "top.sub"⟩
      (recursiveCell 5) 1 (eq_ok_resultOf _ (by decide)) (by decide) (by decide) (by decide)
      (by decide)).2.1⟩

/-! ## The order of the levels in a run of the work list -/

theorem todoInsert_sorted (t : List (Int × Nat)) (level : Int) (modp : Nat)
    (h : t.Pairwise (fun a b => a.1 ≤ b.1)) :
    (todoInsert t level modp).Pairwise (fun a b => a.1 ≤ b.1) := by
  induction t with
  | nil => simp [todoInsert]
  | cons e rest ih =>
    obtain ⟨l', m'⟩ := e
    obtain ⟨h1, h2⟩ := List.pairwise_cons.1 h
    unfold todoInsert
    split
    · rename_i hlt
      refine List.pairwise_cons.2 ⟨?_, h⟩
      intro b hb
      rcases List.mem_cons.1 hb with rfl | hb
      · exact le_of_lt hlt
      · exact le_trans (le_of_lt hlt) (h1 b hb)
    · rename_i hge
      refine List.pairwise_cons.2 ⟨?_, ih h2⟩
      intro b hb
      rcases (todoInsert_mem_iff _ _ _ _).1 hb with rfl | hb
      · exact not_lt.1 hge
      · exact h1 b hb

/-- An entry is put on the work list behind the entries whose level is not
above its own and before the others. -/
theorem todoInsert_split (t : List (Int × Nat)) (level : Int) (modp : Nat) :
    ∃ a b, t = a ++ b ∧ todoInsert t level modp = a ++ (level, modp) :: b
      ∧ (∀ e ∈ a, e.1 ≤ level) ∧ ∀ e, b.head? = some e → level < e.1 := by
  induction t with
  | nil => exact ⟨[], [], rfl, rfl, fun _ h => absurd h (List.not_mem_nil _), fun _ h => by
      simp at h⟩
  | cons e rest ih =>
    obtain ⟨l', m'⟩ := e
    unfold todoInsert
    split
    · rename_i hlt
      exact ⟨[], (l', m') :: rest, rfl, rfl, fun _ h => absurd h (List.not_mem_nil _),
        fun e he => by
          simp only [List.head?_cons, Option.some.injEq] at he
          rw [← he]
          exact hlt⟩
    · rename_i hge
      obtain ⟨a, b, h1, h2, h3, h4⟩ := ih
      refine ⟨(l', m') :: a, b, by rw [h1]; rfl, by rw [h2]; rfl, ?_, h4⟩
      intro e he
      rcases List.mem_cons.1 he with rfl | he
      · exact not_lt.1 hge
      · exact h3 e he

theorem WorkRun.head_run {top : Bool} {a b c : ParamState} {la lb lc : List Event}
    (h1 : WorkStep top a la b lb) (h2 : WorkRun top b lb c lc) : WorkRun top a la c lc :=
  (WorkRun.single h1).trans_run h2

/-- The modules keep their levels during a run, and the log grows at its
end. -/
theorem WorkRun.stable {top : Bool} {s s' : ParamState} {log log' : List Event}
    (h : WorkRun top s log s' log') :
    (∀ (i : Nat) (m : AstNodeModule), s.mods[i]? = some m →
        ∃ m' : AstNodeModule, s'.mods[i]? = some m' ∧ m'.level = m.level)
    ∧ ∃ ev, log' = log ++ ev := by
  induction h with
  | refl => exact ⟨fun i m hi => ⟨m, hi, rfl⟩, [], by simp⟩
  | tail _ hstep ih =>
    obtain ⟨f1, _, _, f4, _⟩ := hstep.facts
    obtain ⟨ih1, ev, ih2⟩ := ih
    refine ⟨?_, ?_⟩
    · intro i m hi
      obtain ⟨m1, h1, hl1⟩ := ih1 i m hi
      obtain ⟨m2, h2, hl2, _⟩ := f1 i m1 h1
      exact ⟨m2, h2, hl2.trans hl1⟩
    · rcases f4 with e | ⟨c, m, e⟩ | ⟨i, m0, m1, e, _⟩
      · exact ⟨ev, by rw [e, ih2]⟩
      · exact ⟨ev ++ [Event.cell c m], by rw [e, ih2, List.append_assoc]⟩
      · exact ⟨ev ++ [Event.mod i], by rw [e, ih2, List.append_assoc]⟩

theorem modLevels_append (lv : Nat → Int) (a b : List Event) :
    modLevels lv (a ++ b) = modLevels lv a ++ modLevels lv b := by
  induction a with
  | nil => rfl
  | cons e rest ih =>
    cases e with
    | mod i => simp [modLevels, ih]
    | cell c m => simp [modLevels, ih]

theorem cellsBelow_prefix (lv : Nat → Int) (a b : List Event) (cur : Option Nat)
    (h : cellsBelow lv cur (a ++ b) = true) : cellsBelow lv cur a = true := by
  induction a generalizing cur with
  | nil => rfl
  | cons e rest ih =>
    cases e with
    | mod i =>
      simp only [List.cons_append, cellsBelow] at h ⊢
      exact ih _ h
    | cell c m =>
      simp only [List.cons_append, cellsBelow, Bool.and_eq_true] at h ⊢
      exact ⟨h.1, ih _ h.2⟩

theorem cellsBelow_append_cell (lv : Nat → Int) (a : List Event) (cur : Option Nat)
    (c modp : Nat) (h : cellsBelow lv cur (a ++ [Event.cell c modp]) = true) (j : Nat)
    (hj : lastMod cur a = some j) : lv j ≤ lv modp := by
  induction a generalizing cur with
  | nil =>
    simp only [lastMod] at hj
    subst hj
    simpa [cellsBelow] using h
  | cons e rest ih =>
    cases e with
    | mod i =>
      simp only [List.cons_append, cellsBelow] at h
      exact ih _ h hj
    | cell c' m' =>
      simp only [List.cons_append, cellsBelow, Bool.and_eq_true] at h
      exact ih _ h.2 hj

theorem lastMod_of_no_mods (lv : Nat → Int) (a : List Event) (cur : Option Nat)
    (h : modLevels lv a = []) : lastMod cur a = cur := by
  induction a generalizing cur with
  | nil => rfl
  | cons e rest ih =>
    cases e with
    | mod i => simp [modLevels] at h
    | cell c m =>
      simp only [modLevels] at h
      simp only [lastMod]
      exact ih _ h

/-- In a log whose announced levels do not decrease, no announced level is
above the level of the module announced last. -/
theorem modLevels_le_last (lv : Nat → Int) (a : List Event) (cur : Option Nat)
    (hp : (modLevels lv a).Pairwise (fun x y => x ≤ y)) (x : Int)
    (hx : x ∈ modLevels lv a) : ∃ j, lastMod cur a = some j ∧ x ≤ lv j := by
  induction a generalizing cur x with
  | nil => simp [modLevels] at hx
  | cons e rest ih =>
    cases e with
    | mod i =>
      simp only [modLevels] at hp hx
      simp only [lastMod]
      obtain ⟨h1, h2⟩ := List.pairwise_cons.1 hp
      cases hml : modLevels lv rest with
      | nil =>
        rw [hml] at hx
        simp only [List.mem_singleton] at hx
        exact ⟨i, lastMod_of_no_mods lv rest _ hml, by rw [hx]⟩
      | cons y ys =>
        have hy : y ∈ modLevels lv rest := by rw [hml]; exact List.mem_cons_self _ _
        rcases List.mem_cons.1 hx with rfl | hx'
        · obtain ⟨j, hj, hle⟩ := ih (some i) h2 y hy
          exact ⟨j, hj, le_trans (h1 y hy) hle⟩
        · exact ih (some i) h2 x hx'
    | cell c m =>
      simp only [modLevels] at hp hx
      simp only [lastMod]
      exact ih cur hp x hx

/-- A step of a run of `visitModules` keeps the order of the work list and of
the announced levels, if the visits of cells end on modules that are not
below the module announced last. -/
theorem LevelInv.step_level {lv : Nat → Int} {s s' : ParamState} {log log' : List Event}
    (inv : LevelInv lv s log) (h : WorkStep false s log s' log')
    (hlv : ∀ (i : Nat) (m : AstNodeModule), s'.mods[i]? = some m → m.level = lv i)
    (hcb : cellsBelow lv none log' = true) : LevelInv lv s' log' := by
  cases h with
  | quiet _ _ _ hmods htodo =>
    exact ⟨by rw [htodo]; exact inv.labels, by rw [htodo]; exact inv.sorted, inv.order,
      by rw [htodo]; exact inv.below⟩
  | skip _ _ _ l0 i0 rest m ht hi0 hu0 hmods htodo =>
    have hsub : ∀ e, e ∈ s'.m_todoModps → e ∈ s.m_todoModps := by
      intro e he
      rw [ht]
      rw [htodo] at he
      exact List.mem_cons_of_mem _ he
    refine ⟨fun l i hl => inv.labels l i (hsub _ hl), ?_, inv.order,
      fun x hx e he => inv.below x hx e (hsub e he)⟩
    have := inv.sorted
    rw [ht] at this
    rw [htodo]
    exact (List.pairwise_cons.1 this).2
  | take _ _ _ l0 i0 rest m ht hi0 hu0 hmods htodo =>
    have hsub : ∀ e, e ∈ s'.m_todoModps → e ∈ s.m_todoModps := by
      intro e he
      rw [ht]
      rw [htodo] at he
      exact List.mem_cons_of_mem _ he
    have hhead : (l0, i0) ∈ s.m_todoModps := by rw [ht]; exact List.mem_cons_self _ _
    have hl0 : lv i0 = l0 := inv.labels l0 i0 hhead
    have hs := inv.sorted
    rw [ht] at hs
    obtain ⟨hs1, hs2⟩ := List.pairwise_cons.1 hs
    refine ⟨fun l i hl => inv.labels l i (hsub _ hl), by rw [htodo]; exact hs2, ?_, ?_⟩
    · rw [modLevels_append]
      refine List.pairwise_append.2 ⟨inv.order, by simp [modLevels], ?_⟩
      intro x hx y hy
      simp only [modLevels, List.mem_singleton] at hy
      rw [hy, hl0]
      exact inv.below x hx _ hhead
    · intro x hx e he
      rw [modLevels_append] at hx
      rcases List.mem_append.1 hx with hx | hx
      · exact inv.below x hx e (hsub e he)
      · simp only [modLevels, List.mem_singleton] at hx
        rw [hx, hl0]
        rw [htodo] at he
        exact hs1 e he
  | cell _ _ _ c modp m hm htodo hold hnew hlen =>
    have hml : modLevels lv (log ++ [Event.cell c modp]) = modLevels lv log := by
      rw [modLevels_append]
      simp [modLevels]
    refine ⟨?_, by rw [htodo]; exact todoInsert_sorted _ _ _ inv.sorted,
      by rw [hml]; exact inv.order, ?_⟩
    · intro l i hl
      rw [htodo] at hl
      rcases (todoInsert_mem_iff _ _ _ _).1 hl with e | hl
      · simp only [Prod.mk.injEq] at e
        rw [e.1, e.2]
        exact (hlv modp m hm).symm
      · exact inv.labels l i hl
    · intro x hx e he
      rw [hml] at hx
      rw [htodo] at he
      rcases (todoInsert_mem_iff _ _ _ _).1 he with rfl | he
      · obtain ⟨j, hj, hle⟩ := modLevels_le_last lv log none inv.order x hx
        have := cellsBelow_append_cell lv log none c modp hcb j hj
        show x ≤ m.level
        rw [hlv modp m hm]
        exact le_trans hle this
      · exact inv.below x hx e he
  | root htop => cases htop
  | kill htop => cases htop

theorem LevelInv.run_level {lv : Nat → Int} {s s1 : ParamState} {log log1 : List Event}
    (h : WorkRun false s log s1 log1) (inv : LevelInv lv s log) (s' : ParamState)
    (log' : List Event) (hrest : WorkRun false s1 log1 s' log')
    (hlv : ∀ (i : Nat) (m : AstNodeModule), s'.mods[i]? = some m → m.level = lv i)
    (hcb : cellsBelow lv none log' = true) : LevelInv lv s1 log1 := by
  induction h with
  | refl => exact inv
  | tail hrun hstep ih =>
    have inv1 := ih inv (WorkRun.head_run hstep hrest)
    obtain ⟨hst, ev, hev⟩ := hrest.stable
    refine inv1.step_level hstep ?_ ?_
    · intro i m hi
      obtain ⟨m', h1, h2⟩ := hst i m hi
      rw [← h2]
      exact hlv i m' h1
    · rw [hev] at hcb
      exact cellsBelow_prefix _ _ _ _ hcb

/-- Counterexample to C24 as stated: in the pass on `twoRootsDesign` the
module `b` of level 3, instantiated in `a`, is elaborated before the module
`c` of level 2, because `visit(AstNodeModule*)` runs the work list to its end
for `a` before it comes to `c`; and in the one run of the work list on
`midHierDesign` the wrapper `sub_w16` of level 2, to which the visit of a
cell of `mid` binds the cell, is elaborated after `mid` of level 3. -/
theorem paramPass_not_level_ordered :
    twoRootsDesign.modulesp.map twoRootsDesign.levelOf = [2, 2, 3]
    ∧ twoRootsPass.2 = [.mod 0, .cell 0 1, .mod 1, .mod 2]
    ∧ modLevels twoRootsPass.1.levelOf twoRootsPass.2 = [2, 3, 2]
    ∧ ¬ (modLevels twoRootsPass.1.levelOf twoRootsPass.2).Pairwise (fun a b => a ≤ b)
    ∧ midHierRun.2 = [.mod 0, .cell 0 4, .mod 4, .cell 1 3, .mod 3]
    ∧ modLevels midHierRun.1.levelOf midHierRun.2 = [2, 3, 2]
    ∧ cellsBelow midHierRun.1.levelOf none midHierRun.2 = false := by
  decide

/-- C24, amended: in a run of `visitModules` that starts with a work list in
the order of the levels, the modules are elaborated in an order in which the
levels do not decrease, provided every visit of a cell ends on a module whose
level is not below the level of the module being elaborated; the run takes
the first entry of the work list, whose level is the least, and an entry is
put on the work list behind the entries of its level and of lower levels. -/
theorem visitModules_level_order (env : Env) (fuel : Nat) (walk : Walk) (rounds : Nat)
    (s s' : ParamState) (log : List Event)
    (h : visitModules env fuel walk rounds s [] = .ok (s', log))
    (hsorted : s.m_todoModps.Pairwise (fun a b => a.1 ≤ b.1))
    (hlab : ∀ e ∈ s.m_todoModps, (s.mods[e.2]?).map (·.level) = some e.1)
    (hcells : cellsBelow s'.levelOf none log = true) :
    (modLevels s'.levelOf log).Pairwise (fun a b => a ≤ b)
    ∧ (∀ (l : Int) (i : Nat) (rest : List (Int × Nat)), s.m_todoModps = (l, i) :: rest →
        (∀ e ∈ rest, l ≤ e.1)
        ∧ ∀ m : AstNodeModule, s.mods[i]? = some m → m.user5 = false →
            log.head? = some (Event.mod i))
    ∧ (∀ (t : List (Int × Nat)) (l : Int) (i : Nat),
        ∃ a b, t = a ++ b ∧ todoInsert t l i = a ++ (l, i) :: b
          ∧ (∀ e ∈ a, e.1 ≤ l) ∧ ∀ e, b.head? = some e → l < e.1) := by
  obtain ⟨hrun, _⟩ := visitModules_run false _ _ _ _ _ _ _ _ h
  obtain ⟨hst, _⟩ := hrun.stable
  have hlv : ∀ (i : Nat) (m : AstNodeModule), s'.mods[i]? = some m →
      m.level = s'.levelOf i := by
    intro i m hi
    simp [ParamState.levelOf, hi]
  have h0 : LevelInv s'.levelOf s [] := by
    refine ⟨?_, hsorted, by simp [modLevels], fun x hx => by simp [modLevels] at hx⟩
    intro l i hl
    have := hlab (l, i) hl
    simp only [Option.map_eq_some'] at this
    obtain ⟨m, hm, hml⟩ := this
    obtain ⟨m', h1, h2⟩ := hst i m hm
    rw [← hlv i m' h1, h2, hml]
  have inv := LevelInv.run_level hrun h0 s' log (WorkRun.refl _ _) hlv hcells
  refine ⟨inv.order, ?_, fun t l i => todoInsert_split t l i⟩
  intro l i rest ht
  refine ⟨?_, ?_⟩
  · rw [ht] at hsorted
    exact (List.pairwise_cons.1 hsorted).1
  · intro m hi hu
    cases rounds with
    | zero => simp [visitModules, ht] at h
    | succ n =>
      unfold visitModules at h
      have hm : ParamState.modAt { s with m_todoModps := rest } i = .ok m := modAt_eq_ok.2 hi
      simp only [ht, hm, Except.bind, hu, Bool.not_false, if_true, List.nil_append] at h
      cases he : elaborate env fuel walk
          (ParamState.setMod { s with m_todoModps := rest } i { m with user5 := true }) i
          [Event.mod i] with
      | error e => simp [he] at h
      | ok r1 =>
        rw [he] at h
        simp only at h
        obtain ⟨_, ev1, h1⟩ := (elaborate_run false _ _ _ _ _ _ _ _ he).stable
        obtain ⟨_, ev2, h2⟩ := (visitModules_run false _ _ _ _ _ _ _ _ h).1.stable
        rw [h2, h1]
        rfl

/-- Witness of C24, amended: the run of the work list on `twoRootsDesign`
from the module `a` elaborates `a` at level 2 and then `b` at level 3. -/
theorem visitModules_level_order_witness :
    twoRootsRun.2 = [.mod 0, .cell 0 1, .mod 1]
    ∧ modLevels twoRootsRun.1.levelOf twoRootsRun.2 = [2, 3]
    ∧ (modLevels twoRootsRun.1.levelOf twoRootsRun.2).Pairwise (fun a b => a ≤ b) :=
  ⟨by decide, by decide,
    (visitModules_level_order plainEnv 0 (cellsWalk [(0, [0])]) 8
      { twoRootsDesign with m_todoModps := [(2, 0)] } twoRootsRun.1 twoRootsRun.2
      (eq_ok_runOf _ (by decide)) (by decide) (by decide) (by decide)).1⟩

/-! ## The two loops over the cells of a module -/

theorem cellAt_eq_some {s : ParamState} {i : Nat} {c : AstCell} :
    s.cellAt i = .ok c ↔ s.cells[i]? = some c := by
  unfold ParamState.cellAt
  cases s.cells[i]? with
  | none => simp
  | some x => simp

theorem visitedCells_append (a b : List Event) :
    visitedCells (a ++ b) = visitedCells a ++ visitedCells b := by
  induction a with
  | nil => rfl
  | cons e rest ih =>
    cases e with
    | mod i => simp [visitedCells, ih]
    | cell c m => simp [visitedCells, ih]

theorem mem_visitedCells (ev : List Event) (c : Nat) :
    c ∈ visitedCells ev ↔ ∃ m, Event.cell c m ∈ ev := by
  induction ev with
  | nil => simp [visitedCells]
  | cons e rest ih =>
    cases e with
    | mod i => simp [visitedCells, ih]
    | cell c' m' =>
      simp only [visitedCells, List.mem_cons, ih, Event.cell.injEq]
      constructor
      · rintro (rfl | ⟨m, hm⟩)
        · exact ⟨m', Or.inl ⟨rfl, rfl⟩⟩
        · exact ⟨m, Or.inr hm⟩
      · rintro ⟨m, ⟨rfl, _⟩ | hm⟩
        · exact Or.inl rfl
        · exact Or.inr ⟨m, hm⟩

/-- The test of a loop over the cells on a cell is the test `onIface`. -/
theorem onIface_of_test (s : ParamState) (c : Nat) (cell : AstCell) (b : Bool)
    (hc : s.cellAt c = .ok cell) (hb : cellIsIface s cell = .ok b) : onIface s c = b := by
  have hc' := cellAt_eq_some.1 hc
  unfold cellIsIface at hb
  unfold onIface
  rw [hc']
  cases hm : cell.modp with
  | none =>
    simp only [hm, Except.ok.injEq] at hb
    subst hb
    simp only [hm]
  | some m =>
    simp only [hm] at hb
    cases hmd : s.mods[m]? with
    | none => simp [ParamState.modAt, hmd, Except.map] at hb
    | some md =>
      simp only [ParamState.modAt, hmd, Except.map, Except.ok.injEq] at hb
      subst hb
      simp only [hm, hmd]

/-- Two states in which a cell is the same and the modules of the first are
modules of the same kind in the second give the same test on the cell, if
the cell is linked in the first. -/
theorem onIface_kept (s s' : ParamState) (c : Nat)
    (hcell : s'.cells[c]? = s.cells[c]?)
    (hmods : ∀ (i : Nat) (m0 : AstNodeModule), s.mods[i]? = some m0 →
      ∃ m1 : AstNodeModule, s'.mods[i]? = some m1 ∧ m1.isIface = m0.isIface)
    (hl : linked s c = true) : onIface s' c = onIface s c ∧ linked s' c = true := by
  unfold linked at hl
  unfold onIface linked
  rw [hcell]
  cases hc : s.cells[c]? with
  | none => simp [hc] at hl
  | some cell =>
    simp only [hc] at hl ⊢
    cases hm : cell.modp with
    | none => simp [hm] at hl
    | some m =>
      simp only [hm] at hl ⊢
      cases hmd : s.mods[m]? with
      | none => simp [hmd] at hl
      | some md =>
        obtain ⟨m1, h1, h2⟩ := hmods m md hmd
        simp [h1, h2]

/-- What one loop over cells does: it visits the cells of the list on which
its test holds in the state in which it starts, in the order of the list. -/
theorem cellWave_visits (env : Env) (fuel : Nat) (nonIf : Bool) (cells : List Nat)
    (s s' : ParamState) (log log' : List Event)
    (h : cellWave env fuel nonIf s cells log = .ok (s', log'))
    (hnodup : cells.Nodup) (hlinked : ∀ c ∈ cells, linked s c = true) :
    ∃ ev, log' = log ++ ev
      ∧ visitedCells ev = cells.filter (fun c => onIface s c != nonIf)
      ∧ (∀ (i : Nat) (m0 : AstNodeModule), s.mods[i]? = some m0 →
          ∃ m1 : AstNodeModule, s'.mods[i]? = some m1 ∧ m1.isIface = m0.isIface)
      ∧ (∀ j : Nat, j ∉ visitedCells ev → s'.cells[j]? = s.cells[j]?)
      ∧ (∀ (c m : Nat), Event.cell c m ∈ ev →
          ∃ (cell : AstCell) (md : AstNodeModule), s'.cells[c]? = some cell
            ∧ cell.modp = some m ∧ s'.mods[m]? = some md)
      ∧ s'.m_cellps = s.m_cellps := by
  induction cells generalizing s log with
  | nil =>
    simp only [cellWave, Except.ok.injEq, Prod.mk.injEq] at h
    obtain ⟨rfl, rfl⟩ := h
    exact ⟨[], by simp, rfl, fun i m0 hi => ⟨m0, hi, rfl⟩, fun _ _ => rfl,
      fun c m hm => absurd hm (List.not_mem_nil _), rfl⟩
  | cons cellp rest ih =>
    obtain ⟨hnot, hnodup'⟩ := List.nodup_cons.1 hnodup
    simp only [cellWave] at h
    cases hc : s.cellAt cellp with
    | error e => simp [hc, Except.bind] at h
    | ok cell =>
      simp only [hc, Except.bind] at h
      cases hi : cellIsIface s cell with
      | error e => simp [hi] at h
      | ok isIf =>
        simp only [hi] at h
        have htest : onIface s cellp = isIf := onIface_of_test s cellp cell isIf hc hi
        by_cases hcond : ((!nonIf && isIf) || (nonIf && !isIf)) = true
        · simp only [hcond, if_true] at h
          have hne : (onIface s cellp != nonIf) = true := by
            rw [htest]
            revert hcond
            cases nonIf <;> cases isIf <;> simp
          cases hmp : s.m_modp with
          | none => simp [hmp] at h
          | some cur =>
            simp only [hmp] at h
            cases hm : s.modAt cur with
            | error e => simp [hm] at h
            | ok m =>
              simp only [hm] at h
              cases hv : visitCell env fuel s cellp (m.hierName ++ cell.user5p.getD "") with
              | error e => simp [hv] at h
              | ok s1 =>
                simp only [hv] at h
                cases hc1 : s1.cellAt cellp with
                | error e => simp [hc1] at h
                | ok c1 =>
                  simp only [hc1] at h
                  cases hmp1 : c1.modp with
                  | none => simp [hmp1] at h
                  | some modp =>
                    simp only [hmp1] at h
                    obtain ⟨c0, modp0, m0, e1, e2, e3, _, e5, _, _, e8, e9, _, _⟩ :=
                      visitCell_effect _ _ _ _ _ _ hv
                    rw [hc1] at e1
                    have hcc : c1 = c0 := Except.ok.inj e1
                    subst hcc
                    rw [e2] at hmp1
                    have hmm : modp0 = modp := Option.some.inj hmp1
                    subst hmm
                    have hmods1 : ∀ (i : Nat) (ma : AstNodeModule), s.mods[i]? = some ma →
                        ∃ mb : AstNodeModule, s1.mods[i]? = some mb
                          ∧ mb.isIface = ma.isIface := by
                      intro i ma hma
                      obtain ⟨mb, hb, _, _, hif, _⟩ := e9 i ma hma
                      exact ⟨mb, hb, hif⟩
                    have hother : ∀ c' ∈ rest,
                        onIface s1 c' = onIface s c' ∧ linked s1 c' = true := by
                      intro c' hc'
                      have hne' : c' ≠ cellp := fun e => hnot (e ▸ hc')
                      exact onIface_kept s s1 c' (e8 c' hne') hmods1
                        (hlinked c' (List.mem_cons_of_mem _ hc'))
                    obtain ⟨ev, h1, h2, h3, h4, h5, h6⟩ :=
                      ih s1 _ h hnodup' (fun c' hc' => (hother c' hc').2)
                    have hsub : ∀ j, j ∈ visitedCells ev → j ∈ rest := by
                      intro j hj
                      rw [h2] at hj
                      exact (List.mem_filter.1 hj).1
                    refine ⟨Event.cell cellp modp0 :: ev, ?_, ?_, ?_, ?_, ?_, h6.trans e5⟩
                    · rw [h1]
                      simp
                    · simp only [visitedCells, h2, List.filter_cons, hne, if_true]
                      congr 1
                      apply List.filter_congr
                      intro c' hc'
                      rw [(hother c' hc').1]
                    · intro i ma hma
                      obtain ⟨mb, hb, hif⟩ := hmods1 i ma hma
                      obtain ⟨mc, hcm, hif2⟩ := h3 i mb hb
                      exact ⟨mc, hcm, hif2.trans hif⟩
                    · intro j hj
                      simp only [visitedCells, List.mem_cons, not_or] at hj
                      rw [h4 j hj.2]
                      exact e8 j hj.1
                    · intro c m' hmem
                      rcases List.mem_cons.1 hmem with e | hmem
                      · simp only [Event.cell.injEq] at e
                        obtain ⟨rfl, rfl⟩ := e
                        have hcell : s'.cells[c]? = some c1 := by
                          rw [h4 c (fun hj => hnot (hsub c hj))]
                          exact cellAt_eq_some.1 hc1
                        obtain ⟨mc, hcm, _⟩ := h3 m' m0 (modAt_eq_ok.1 e3)
                        exact ⟨c1, mc, hcell, e2, hcm⟩
                      · exact h5 c m' hmem
        · have hcond' : ((!nonIf && isIf) || (nonIf && !isIf)) = false := by
            simpa using hcond
          simp only [hcond', Bool.false_eq_true, if_false] at h
          have hne : (onIface s cellp != nonIf) = false := by
            rw [htest]
            revert hcond'
            cases nonIf <;> cases isIf <;> simp
          obtain ⟨ev, h1, h2, h3, h4, h5, h6⟩ :=
            ih s log h hnodup' (fun c' hc' => hlinked c' (List.mem_cons_of_mem _ hc'))
          refine ⟨ev, h1, ?_, h3, h4, h5, h6⟩
          simp only [h2, List.filter_cons, hne, Bool.false_eq_true, if_false]

/-- Counterexample to C25 as stated: in `ifaceHierDesign` the one recorded
cell is a cell on the interface `sub`; the first loop visits it and the
catalog of hierarchical blocks binds it to the wrapper `sub_w16`, which is a
module, so that the second loop visits the cell again. -/
theorem cellWaves_visits_cell_twice :
    ifaceHierDesign.m_cellps = [0]
    ∧ ifaceHierDesign.m_cellps.filter (onIface ifaceHierDesign) = [0]
    ∧ (runOf (cellWaves plainEnv 0 ifaceHierDesign [])).2 = [.cell 0 3, .cell 0 3]
    ∧ visitedCells (runOf (cellWaves plainEnv 0 ifaceHierDesign [])).2 = [0, 0]
    ∧ (runOf (elaborate plainEnv 0 (cellsWalk [(0, [0])])
        { ifaceHierDesign with m_cellps := [], m_modp := none } 0 [])).2
        = [.cell 0 3, .cell 0 3] := by
  decide

/-- C25, amended: the two loops of `visitModules` over the cells recorded for
a module, each of which is recorded once and refers to a module, visit first
the cells on interfaces, in the order in which they are recorded, and then
the other cells, in that order, each cell once, provided no visit binds a
cell that was on an interface to a module that is not an interface. -/
theorem cellWaves_visit_order (env : Env) (fuel : Nat) (s s' : ParamState)
    (ev : List Event) (h : cellWaves env fuel s [] = .ok (s', ev))
    (hnodup : s.m_cellps.Nodup) (hlinked : ∀ c ∈ s.m_cellps, linked s c = true)
    (hkeep : ∀ e ∈ ev, staysOnIface s s' e = true) :
    visitedCells ev
        = s.m_cellps.filter (onIface s) ++ s.m_cellps.filter (fun c => !onIface s c)
    ∧ (visitedCells ev).Perm s.m_cellps := by
  unfold cellWaves at h
  cases hw0 : cellWave env fuel false s s.m_cellps [] with
  | error e => simp [hw0, Except.bind] at h
  | ok r0 =>
    obtain ⟨sW, log0⟩ := r0
    simp only [hw0, Except.bind] at h
    obtain ⟨ev0, a1, a2, a3, a4, a5, a6⟩ := cellWave_visits _ _ _ _ _ _ _ _ hw0 hnodup hlinked
    simp only [List.nil_append] at a1
    subst a1
    have a2' : visitedCells log0 = s.m_cellps.filter (onIface s) := by
      rw [a2]
      apply List.filter_congr
      intro c _
      cases onIface s c <;> rfl
    rw [a6] at h
    have hW : ∀ c ∈ s.m_cellps, linked sW c = true := by
      intro c hc
      by_cases hv : c ∈ visitedCells log0
      · obtain ⟨m, hm⟩ := (mem_visitedCells _ _).1 hv
        obtain ⟨cell, md, h1, h2, h3⟩ := a5 c m hm
        simp [linked, h1, h2, h3]
      · exact (onIface_kept s sW c (a4 c hv) a3 (hlinked c hc)).2
    obtain ⟨ev1, b1, b2, b3, b4, b5, b6⟩ := cellWave_visits _ _ _ _ _ _ _ _ h hnodup hW
    have hsame : ∀ c ∈ s.m_cellps, onIface sW c = onIface s c := by
      intro c hc
      by_cases hv : c ∈ visitedCells log0
      · have hon : onIface s c = true := by
          rw [a2'] at hv
          exact (List.mem_filter.1 hv).2
        obtain ⟨m, hm⟩ := (mem_visitedCells _ _).1 hv
        obtain ⟨cell, md, h1, h2, h3⟩ := a5 c m hm
        have hk := hkeep (Event.cell c m) (by rw [b1]; exact List.mem_append_left _ hm)
        obtain ⟨md', h4, h5⟩ := b3 m md h3
        simp only [staysOnIface, hon, Bool.not_true, Bool.false_or, h4] at hk
        rw [hon]
        simp only [onIface, h1, h2, h3]
        rw [← h5, hk]
      · exact (onIface_kept s sW c (a4 c hv) a3 (hlinked c hc)).1
    have hvis : visitedCells ev
        = s.m_cellps.filter (onIface s) ++ s.m_cellps.filter (fun c => !onIface s c) := by
      rw [b1, visitedCells_append, a2', b2]
      congr 1
      apply List.filter_congr
      intro c hc
      rw [hsame c hc]
      cases onIface s c <;> rfl
    refine ⟨hvis, ?_⟩
    rw [hvis]
    exact List.filter_append_perm _ _

/-- Witness of C25, amended: of the two cells recorded in `ifaceDesign` the
second, a cell on the interface `ifc`, is visited first. -/
theorem cellWaves_visit_order_witness :
    ifaceDesign.m_cellps = [0, 1]
    ∧ (runOf (cellWaves plainEnv 0 ifaceDesign [])).2 = [.cell 1 2, .cell 0 3]
    ∧ visitedCells (runOf (cellWaves plainEnv 0 ifaceDesign [])).2
        = ifaceDesign.m_cellps.filter (onIface ifaceDesign)
          ++ ifaceDesign.m_cellps.filter (fun c => !onIface ifaceDesign c) :=
  ⟨by decide, by decide,
    (cellWaves_visit_order plainEnv 0 ifaceDesign (runOf (cellWaves plainEnv 0 ifaceDesign [])).1
      (runOf (cellWaves plainEnv 0 ifaceDesign [])).2 (eq_ok_runOf _ (by decide)) (by decide)
      (by decide) (by decide)).1⟩

/-! ## A matching item with an empty body -/

/-- C38, evaluated where it fails: in `case (1) 1: ; default: SD; endcase` the
first item whose label equals the selector has an empty body and the construct
is replaced by the body `SD` of the default item; in
`case (1) 1: ; 1: S1; default: SD; endcase` it is replaced by the body `S1` of
the later matching item.  In neither case is the construct resolved to
nothing. -/
theorem visitGenCase_emptyFirst_takesDefault :
    visitGenCase plainEnv caseEmptyFirstDefault
        = .ok { stmtsp := mkStmt "SD", errors := [] } ∧
      visitGenCase plainEnv caseEmptyFirstLaterDefault
        = .ok { stmtsp := mkStmt "S1", errors := [] } := by
  constructor <;> decide

/-! ## Short codes of many parameters with one first letter -/

/-- C33, evaluated where it fails: in a module with the 52 value parameters
`p0` .. `p51` the parameters `p26` and `p51`, which are distinct declarations
with the counters 26 and 51 under the letter `P`, both receive the short code
`PBB` from `paramSmallName`: the loop appends the letter of `index % 25` and
divides `index` by 26, which is not injective. -/
theorem paramSmallName_collision :
    (paramSmallName manyParamsDesign 1 ⟨1, 26⟩).map (·.1) = .ok "PBB" ∧
      (paramSmallName manyParamsDesign 1 ⟨1, 51⟩).map (·.1) = .ok "PBB" := by
  constructor <;> decide

/-! ## A cell constant wider than the catalog width -/

/-- C36, evaluated where it fails: the 40-bit cell constant
`40'h1_0000_0008` and the catalog constant `32'd8` are two-state integral
constants of different values, and `areSame` accepts the pair: the cell value
is cast to the 32 bits of the catalog constant, where its low bits are 8. -/
theorem areSame_accepts_low_bits :
    areSame plainEnv (V3Number.ofNat 40 4294967304) (V3Number.ofNat 32 8) = true
      ∧ (V3Number.ofNat 40 4294967304).value ≠ (V3Number.ofNat 32 8).value
      ∧ (V3Number.ofNat 40 4294967304).value < 2 ^ 40
      ∧ (V3Number.ofNat 40 4294967304).isSigned = false
      ∧ (V3Number.ofNat 40 4294967304).isFourState = false
      ∧ (V3Number.ofNat 32 8).isFourState = false := by
  decide

/-- C36 as amended: for two-state integral constants, whenever `areSame`
returns true the catalog value is the cell value cast to the declared width
`W` of the catalog constant.  For an unsigned cell constant `areSame` returns
true exactly when the catalog value is the cell value modulo `2 ^ W`, which is
the cell value itself when the cell constant is no wider than `W`; for a
signed cell constant no wider than `W` both constants encode the same integer
in two's complement. -/
theorem areSame_true_cast_value (env : Env) (hops : NumOpsSpec env) (pin cat : V3Number)
    (hps : pin.isString = false) (hpd : pin.isDouble = false)
    (hp4 : pin.isFourState = false)
    (hcs : cat.isString = false) (hcd : cat.isDouble = false)
    (hc4 : cat.isFourState = false)
    (h1 : 1 ≤ pin.width) (hv : pin.value < 2 ^ pin.width) (hc : cat.value < 2 ^ cat.width) :
    (pin.isSigned = false →
        (areSame env pin cat = true ↔ cat.value = pin.value % 2 ^ cat.width)
        ∧ (areSame env pin cat = true → pin.width ≤ cat.width → cat.value = pin.value))
    ∧ (pin.isSigned = true → pin.width ≤ cat.width → areSame env pin cat = true →
        toSigned cat.value cat.width = toSigned pin.value pin.width) := by
  constructor
  · intro hpu
    have key : areSame env pin cat = true ↔ cat.value = pin.value % 2 ^ cat.width := by
      unfold areSame
      simp only [hps, hpd, hpu, hcd, Bool.false_eq_true, if_false]
      rw [hops.1 _ _ hp4]
      rw [hops.2.2 _ _ rfl rfl rfl hcs hcd]
      simp only [hc4, true_and]
    refine ⟨key, fun h hw => ?_⟩
    rw [key.1 h]
    exact Nat.mod_eq_of_lt (lt_of_lt_of_le hv (Nat.pow_le_pow_right (by decide) hw))
  · intro hpsg hw h
    have key : areSame env pin cat = true
        ↔ cat.isFourState = false ∧ cat.value = signExtend pin.value pin.width cat.width := by
      unfold areSame
      simp only [hps, hpd, hpsg, hcd, Bool.false_eq_true, if_false, if_true]
      rw [hops.2.1 _ _ _ hp4]
      rw [hops.2.2 _ _ rfl rfl rfl hcs hcd]
    exact (signExtend_toSigned _ _ _ _ h1 hw hv hc).1 (key.1 h).2

/-- Witness of C36 as amended: the unsigned 40-bit cell constant
`40'h1_0000_0008` against the catalog constant `32'd8`; the catalog value is
the cell value modulo `2 ^ 32`. -/
theorem areSame_true_cast_value_witness :
    NumOpsSpec plainEnv
    ∧ (areSame plainEnv (V3Number.ofNat 40 4294967304) (V3Number.ofNat 32 8) = true
        ↔ (V3Number.ofNat 32 8).value
          = (V3Number.ofNat 40 4294967304).value % 2 ^ (V3Number.ofNat 32 8).width) :=
  ⟨plainEnv_numOps,
    ((areSame_true_cast_value plainEnv plainEnv_numOps (V3Number.ofNat 40 4294967304)
      (V3Number.ofNat 32 8) rfl rfl rfl rfl rfl rfl (by decide) (by decide) (by decide)).1
      rfl).1⟩

/-! ## Tokens of different values -/

theorem digitChar_value (d : Nat) (h : d < 10) :
    (Nat.digitChar d).toNat - ('0').toNat = d := by
  interval_cases d <;> rfl

theorem digitsValue_append (xs : List Char) (c : Char) :
    digitsValue (xs ++ [c]) = digitsValue xs * 10 + (c.toNat - ('0').toNat) := by
  simp [digitsValue, List.foldl_append]

theorem toDigitsCore_value (fuel : Nat) : ∀ (n : Nat) (ds : List Char), n < fuel →
    ∃ pre, Nat.toDigitsCore 10 fuel n ds = pre ++ ds ∧ digitsValue pre = n := by
  induction fuel with
  | zero => intro n ds h; omega
  | succ fuel ih =>
    intro n ds h
    unfold Nat.toDigitsCore
    by_cases h0 : n / 10 = 0
    · refine ⟨[Nat.digitChar (n % 10)], by simp [h0], ?_⟩
      have : digitsValue [Nat.digitChar (n % 10)]
          = (Nat.digitChar (n % 10)).toNat - ('0').toNat := by
        simp [digitsValue]
      rw [this, digitChar_value _ (Nat.mod_lt _ (by decide))]
      omega
    · obtain ⟨pre, hpre, hval⟩ := ih (n / 10) (Nat.digitChar (n % 10) :: ds) (by omega)
      refine ⟨pre ++ [Nat.digitChar (n % 10)], by simp [h0, hpre], ?_⟩
      rw [digitsValue_append, hval, digitChar_value _ (Nat.mod_lt _ (by decide))]
      omega

/-- The decimal digits of a number denote the number. -/
theorem digitsValue_toString (n : Nat) : digitsValue (toString n).data = n := by
  obtain ⟨pre, hpre, hval⟩ := toDigitsCore_value (n + 1) n [] (by omega)
  have : (toString n).data = pre := by
    change (Nat.repr n).data = pre
    simp [Nat.repr, Nat.toDigits, hpre, List.asString]
  rw [this, hval]

/-- Tokens of different numbers differ. -/
theorem token_injective (a b : Nat) (h : "z" ++ toString a = "z" ++ toString b) : a = b := by
  have h1 : ("z" ++ toString a).data = ("z" ++ toString b).data := by rw [h]
  rw [String.data_append, String.data_append] at h1
  have h2 := List.append_cancel_left h1
  rw [← digitsValue_toString a, ← digitsValue_toString b, h2]

/-- What one call of `paramValueNumber` does: it issues the next number, or it
finds its hash and its key stored and returns the stored number. -/
theorem paramValueNumber_step (env : Env) (s s' : ParamState) (nodep : AstNode) (t : String)
    (h : paramValueNumber env s nodep = .ok (t, s')) :
    ∃ key, paramValueKey env s nodep = .ok key ∧
      ((t = "z" ++ toString s.m_nextValue
          ∧ s' = { s with m_nextValue := s.m_nextValue + 1,
                          m_valueMap := mapAssign s.m_valueMap (valueHash env nodep)
                            (s.m_nextValue, key) }
          ∧ ¬ ∃ num, mapFind s.m_valueMap (valueHash env nodep) = some (num, key))
        ∨ (∃ num, mapFind s.m_valueMap (valueHash env nodep) = some (num, key)
          ∧ t = "z" ++ toString num ∧ s' = s)) := by
  unfold paramValueNumber at h
  cases hk : paramValueKey env s nodep with
  | error e => simp [hk, Except.bind] at h
  | ok key =>
    refine ⟨key, rfl, ?_⟩
    simp only [hk, Except.bind] at h
    cases hf : mapFind s.m_valueMap (valueHash env nodep) with
    | none =>
      simp only [hf, Except.ok.injEq, Prod.mk.injEq] at h
      obtain ⟨rfl, rfl⟩ := h
      exact Or.inl ⟨rfl, rfl, by simp⟩
    | some e =>
      obtain ⟨num, k⟩ := e
      simp only [hf] at h
      by_cases hkk : k = key
      · simp only [hkk, if_true, Except.ok.injEq, Prod.mk.injEq] at h
        obtain ⟨rfl, rfl⟩ := h
        exact Or.inr ⟨num, by rw [hkk], rfl, rfl⟩
      · simp only [hkk, if_false, Except.ok.injEq, Prod.mk.injEq] at h
        obtain ⟨rfl, rfl⟩ := h
        refine Or.inl ⟨rfl, rfl, ?_⟩
        rintro ⟨num', hnum'⟩
        simp only [Option.some.injEq, Prod.mk.injEq] at hnum'
        exact hkk hnum'.2

/-- A call keeps the account of the value map. -/
theorem TokensOk.call (env : Env) (keyOf : AstNode → Except Failure String)
    (calls : List (AstNode × String)) (s s' : ParamState) (nodep : AstNode) (t : String)
    (hinv : TokensOk env keyOf calls s)
    (hkey : keyOf nodep = paramValueKey env s nodep)
    (h : paramValueNumber env s nodep = .ok (t, s')) :
    TokensOk env keyOf (calls ++ [(nodep, t)]) s' := by
  obtain ⟨h1, h2, h3⟩ := hinv
  obtain ⟨key, hk, hcase⟩ := paramValueNumber_step env s s' nodep t h
  rw [hk] at hkey
  rcases hcase with ⟨rfl, rfl, _⟩ | ⟨num, hf, rfl, rfl⟩
  · -- a fresh number
    refine ⟨?_, ?_, ?_⟩
    · intro hash num k hfind
      by_cases hh : valueHash env nodep = hash
      · subst hh
        rw [mapFind_mapAssign_self] at hfind
        simp only [Option.some.injEq, Prod.mk.injEq] at hfind
        obtain ⟨rfl, rfl⟩ := hfind
        exact ⟨Nat.lt_succ_self _, nodep, by simp, rfl, hkey⟩
      · rw [mapFind_mapAssign_ne _ _ _ _ hh] at hfind
        obtain ⟨hlt, n, hn, hnh, hnk⟩ := h1 hash num k hfind
        exact ⟨Nat.lt_succ_of_lt hlt, n, List.mem_append_left _ hn, hnh, hnk⟩
    · intro n t hmem
      rcases List.mem_append.1 hmem with hmem | hmem
      · obtain ⟨num, hlt, rfl⟩ := h2 n t hmem
        exact ⟨num, Nat.lt_succ_of_lt hlt, rfl⟩
      · simp only [List.mem_singleton, Prod.mk.injEq] at hmem
        obtain ⟨rfl, rfl⟩ := hmem
        exact ⟨_, Nat.lt_succ_self _, rfl⟩
    · intro n1 n2 t hm1 hm2
      replace hm1 := List.mem_append.1 hm1
      replace hm2 := List.mem_append.1 hm2
      rcases hm1 with hm1 | hm1 <;> rcases hm2 with hm2 | hm2
      · exact h3 n1 n2 t hm1 hm2
      · simp only [List.mem_singleton, Prod.mk.injEq] at hm2
        obtain ⟨rfl, rfl⟩ := hm2
        obtain ⟨num, hlt, heq⟩ := h2 n1 _ hm1
        have := token_injective _ _ heq
        omega
      · simp only [List.mem_singleton, Prod.mk.injEq] at hm1
        obtain ⟨rfl, rfl⟩ := hm1
        obtain ⟨num, hlt, heq⟩ := h2 n2 _ hm2
        have := token_injective _ _ heq
        omega
      · simp only [List.mem_singleton, Prod.mk.injEq] at hm1 hm2
        obtain ⟨rfl, _⟩ := hm1
        obtain ⟨rfl, _⟩ := hm2
        exact ⟨rfl, rfl⟩
  · -- the stored number
    obtain ⟨hlt, n0, hn0, hh0, hk0⟩ := h1 _ num key hf
    refine ⟨?_, ?_, ?_⟩
    · intro hash num' k hfind
      obtain ⟨hlt', n, hn, hnh, hnk⟩ := h1 hash num' k hfind
      exact ⟨hlt', n, List.mem_append_left _ hn, hnh, hnk⟩
    · intro n t hmem
      rcases List.mem_append.1 hmem with hmem | hmem
      · exact h2 n t hmem
      · simp only [List.mem_singleton, Prod.mk.injEq] at hmem
        obtain ⟨rfl, rfl⟩ := hmem
        exact ⟨num, hlt, rfl⟩
    · intro n1 n2 t hm1 hm2
      replace hm1 := List.mem_append.1 hm1
      replace hm2 := List.mem_append.1 hm2
      rcases hm1 with hm1 | hm1 <;> rcases hm2 with hm2 | hm2
      · exact h3 n1 n2 t hm1 hm2
      · simp only [List.mem_singleton, Prod.mk.injEq] at hm2
        obtain ⟨rfl, rfl⟩ := hm2
        obtain ⟨e1, e2⟩ := h3 n1 n0 _ hm1 hn0
        exact ⟨e1.trans hh0, e2.trans (hk0.trans hkey.symm)⟩
      · simp only [List.mem_singleton, Prod.mk.injEq] at hm1
        obtain ⟨rfl, rfl⟩ := hm1
        obtain ⟨e1, e2⟩ := h3 n0 n2 _ hn0 hm2
        exact ⟨hh0.symm.trans e1, (hkey.trans hk0.symm).trans e2⟩
      · simp only [List.mem_singleton, Prod.mk.injEq] at hm1 hm2
        obtain ⟨rfl, _⟩ := hm1
        obtain ⟨rfl, _⟩ := hm2
        exact ⟨rfl, rfl⟩

/-- A run of calls keeps the account of the value map. -/
theorem TokensOk.calls (env : Env) (keyOf : AstNode → Except Failure String)
    (nodes : List AstNode) : ∀ (past : List (AstNode × String)) (s s' : ParamState)
    (ts : List String), TokensOk env keyOf past s →
    (∀ n, keyOf n = paramValueKey env s n) →
    paramValueNumbers env s nodes = .ok (ts, s') →
    TokensOk env keyOf (past ++ nodes.zip ts) s' ∧ ts.length = nodes.length := by
  induction nodes with
  | nil =>
    intro past s s' ts hinv _ h
    simp only [paramValueNumbers, Except.ok.injEq, Prod.mk.injEq] at h
    obtain ⟨rfl, rfl⟩ := h
    simpa using hinv
  | cons n ns ih =>
    intro past s s' ts hinv hkey h
    simp only [paramValueNumbers] at h
    cases h1 : paramValueNumber env s n with
    | error e => simp [h1, Except.bind] at h
    | ok r =>
      obtain ⟨t, s1⟩ := r
      simp only [h1, Except.bind] at h
      cases h2 : paramValueNumbers env s1 ns with
      | error e => simp [h2] at h
      | ok rs =>
        obtain ⟨ts', s2⟩ := rs
        simp only [h2, Except.ok.injEq, Prod.mk.injEq] at h
        obtain ⟨rfl, rfl⟩ := h
        obtain ⟨hm, hc, _⟩ := paramValueNumber_ok env s s1 n t h1
        have hinv1 := TokensOk.call env keyOf past s s1 n t hinv (hkey n) h1
        obtain ⟨hinv2, hlen⟩ := ih (past ++ [(n, t)]) s1 s2 ts' hinv1
          (fun m => by rw [paramValueKey_congr env s s1 m hm hc]; exact hkey m) h2
        refine ⟨?_, by simp [hlen]⟩
        simpa [List.append_assoc] using hinv2

/-- C37: in a run of calls of `paramValueNumber` that starts with an empty
value map, two calls whose hashes differ or whose keys differ return
different tokens, whether or not hashes collide; every number stored at the
end is smaller than the next number to be issued; and a call either issues
the next number, when the entry under its hash is absent or holds another
key, or returns the number stored under its hash with its key and changes
nothing. -/
theorem paramValueNumber_tokens_distinct (env : Env) (s s' : ParamState)
    (nodes : List AstNode) (ts : List String)
    (h0 : s.m_valueMap = [])
    (h : paramValueNumbers env s nodes = .ok (ts, s')) :
    (∀ (i j : Nat) (ni nj : AstNode) (ti tj : String),
        nodes[i]? = some ni → nodes[j]? = some nj →
        ts[i]? = some ti → ts[j]? = some tj →
        (valueHash env ni ≠ valueHash env nj
          ∨ paramValueKey env s ni ≠ paramValueKey env s nj) → ti ≠ tj)
    ∧ (∀ hash num key, mapFind s'.m_valueMap hash = some (num, key) → num < s'.m_nextValue)
    ∧ (∀ (r r' : ParamState) (n : AstNode) (t : String),
        paramValueNumber env r n = .ok (t, r') →
        ∃ key, paramValueKey env r n = .ok key ∧
          ((t = "z" ++ toString r.m_nextValue ∧ r'.m_nextValue = r.m_nextValue + 1
              ∧ ¬ ∃ num, mapFind r.m_valueMap (valueHash env n) = some (num, key))
            ∨ (∃ num, mapFind r.m_valueMap (valueHash env n) = some (num, key)
              ∧ t = "z" ++ toString num ∧ r' = r))) := by
  have hstart : TokensOk env (paramValueKey env s) [] s := by
    refine ⟨?_, ?_, ?_⟩
    · intro hash num key hf
      rw [h0] at hf
      simp [mapFind] at hf
    · intro n t hm
      simp at hm
    · intro n1 n2 t hm
      simp at hm
  obtain ⟨⟨h1, h2, h3⟩, hlen⟩ :=
    TokensOk.calls env (paramValueKey env s) nodes [] s s' ts hstart (fun _ => rfl) h
  refine ⟨?_, fun hash num key hf => (h1 hash num key hf).1, ?_⟩
  · intro i j ni nj ti tj hni hnj hti htj hne heq
    subst heq
    have hmem : ∀ (k : Nat) (nk : AstNode), nodes[k]? = some nk → ts[k]? = some ti →
        (nk, ti) ∈ [] ++ nodes.zip ts := by
      intro k nk hk ht
      rw [List.nil_append]
      have hz : (nodes.zip ts)[k]? = some (nk, ti) := by
        rw [List.getElem?_zip_eq_some]
        exact ⟨hk, ht⟩
      exact List.getElem?_mem hz
    obtain ⟨e1, e2⟩ := h3 ni nj ti (hmem i ni hni hti) (hmem j nj hnj htj)
    rcases hne with hne | hne
    · exact hne e1
    · exact hne e2
  · intro r r' n t hr
    obtain ⟨key, hk, hcase⟩ := paramValueNumber_step env r r' n t hr
    refine ⟨key, hk, ?_⟩
    rcases hcase with ⟨ht, hr', hno⟩ | hhit
    · exact Or.inl ⟨ht, by rw [hr'], hno⟩
    · exact Or.inr hhit

/-- Witness of C37: with `--debug-collision` every value has the default hash;
`logic [7:0]`, `logic [3:0]` and `logic [7:0]` again get the tokens `z1`, `z2`
and `z3`, and the first two, whose keys differ, get different tokens. -/
theorem paramValueNumber_tokens_distinct_witness :
    emptyState.m_valueMap = []
    ∧ paramValueNumbers collideEnv emptyState [mkLogic 7, mkLogic 3, mkLogic 7]
        = .ok (["z1", "z2", "z3"], collideState3)
    ∧ valueHash collideEnv (mkLogic 7) = valueHash collideEnv (mkLogic 3)
    ∧ "z1" ≠ "z2"
    ∧ (∀ hash num key, mapFind collideState3.m_valueMap hash = some (num, key) →
        num < collideState3.m_nextValue) :=
  ⟨rfl, by decide, by decide,
    (paramValueNumber_tokens_distinct collideEnv emptyState collideState3
      [mkLogic 7, mkLogic 3, mkLogic 7] ["z1", "z2", "z3"] rfl (by decide)).1 0 1
      (mkLogic 7) (mkLogic 3) "z1" "z2" rfl rfl rfl rfl (Or.inr (by decide)),
    (paramValueNumber_tokens_distinct collideEnv emptyState collideState3
      [mkLogic 7, mkLogic 3, mkLogic 7] ["z1", "z2", "z3"] rfl (by decide)).2.1⟩

/-! ## The shortest free name of a hierarchical block -/

theorem hierBlockPrefixLoop_first (s : ParamState) (base hashStr : String) (n i0 : Nat)
    (name : String) (h : hierBlockPrefixLoop s base hashStr n i0 = some name) :
    ∃ i, i0 ≤ i ∧ i < i0 + n ∧ name = base ++ String.mk (hashStr.data.take i)
      ∧ moduleExists s name = false
      ∧ ∀ j, i0 ≤ j → j < i → moduleExists s (base ++ String.mk (hashStr.data.take j)) = true := by
  induction n generalizing i0 with
  | zero => simp [hierBlockPrefixLoop] at h
  | succ n ih =>
    unfold hierBlockPrefixLoop at h
    simp only at h
    by_cases hx : moduleExists s (base ++ String.mk (hashStr.data.take i0)) = true
    · simp only [hx, Bool.not_true, Bool.false_eq_true, if_false] at h
      obtain ⟨i, h1, h2, h3, h4, h5⟩ := ih _ h
      refine ⟨i, by omega, by omega, h3, h4, fun j hj1 hj2 => ?_⟩
      by_cases hj : j = i0
      · rw [hj]; exact hx
      · exact h5 j (by omega) hj2
    · simp only [hx, Bool.not_false, if_true, Option.some.injEq] at h
      subst h
      exact ⟨i0, le_refl _, by omega, rfl, by simpa using hx, fun j hj1 hj2 => by omega⟩

theorem hierBlockNameLoop_first (env : Env) (s : ParamState) (base : String) (fuel : Nat)
    (hash : List String) (rc : Nat) (name : String) (rc' : Nat)
    (h : hierBlockNameLoop env s base fuel hash rc = .ok (name, rc')) :
    ∃ rounds i, rc' = rc + rounds ∧
      1 ≤ i ∧ i < (env.digestHex
          (hash ++ (List.range rounds).map fun k => env.trueRandom (rc + k))).utf8ByteSize
      ∧ name = base ++ String.mk ((env.digestHex
          (hash ++ (List.range rounds).map fun k => env.trueRandom (rc + k))).data.take i)
      ∧ moduleExists s name = false
      ∧ ∀ j, 1 ≤ j → j < i → moduleExists s (base ++ String.mk ((env.digestHex
          (hash ++ (List.range rounds).map fun k => env.trueRandom (rc + k))).data.take j))
            = true := by
  induction fuel generalizing hash rc with
  | zero => simp [hierBlockNameLoop] at h
  | succ fuel ih =>
    unfold hierBlockNameLoop at h
    simp only at h
    split at h
    · rename_i newName hp
      simp only [Except.ok.injEq, Prod.mk.injEq] at h
      obtain ⟨rfl, rfl⟩ := h
      obtain ⟨i, h1, h2, h3, h4, h5⟩ := hierBlockPrefixLoop_first _ _ _ _ _ _ hp
      refine ⟨0, i, rfl, h1, ?_, ?_, h4, ?_⟩
      · simp only [List.range_zero, List.map_nil, List.append_nil]
        omega
      · simpa using h3
      · simpa using h5
    · obtain ⟨rounds, i, hrc, h1, h2, h3, h4, h5⟩ := ih _ _ h
      have hl : (hash ++ [env.trueRandom rc])
          ++ (List.range rounds).map (fun k => env.trueRandom (rc + 1 + k))
          = hash ++ (List.range (rounds + 1)).map (fun k => env.trueRandom (rc + k)) := by
        rw [List.range_succ_eq_map, List.append_assoc]
        simp [Function.comp, Nat.add_assoc, Nat.add_comm 1]
      rw [hl] at h2 h3 h5
      exact ⟨rounds + 1, i, by omega, h1, h2, h3, h4, h5⟩

/-- C34: whenever `parametrizedHierBlockName` returns, the name returned is
the name of the template, followed by one `_` unless that name ends in `_`,
followed by a non-empty proper prefix of the hexadecimal digest (the digest
of the module name and the pin strings, with one random insertion after each
round in which all prefixes collided); no module of the sources and no module
generated so far has that name, and every shorter non-empty prefix of the
digest gives a name that exists. -/
theorem parametrizedHierBlockName_shortest (env : Env) (fuel : Nat) (s s' : ParamState)
    (m : AstNodeModule) (pars : List AstPin) (n : String)
    (h : parametrizedHierBlockName env fuel s m pars = .ok (n, s')) :
    ∃ pins rounds i, hierBlockHashPins env s pars = .ok pins
      ∧ s' = { s with randomCalls := s.randomCalls + rounds }
      ∧ ShortestFreeName env s m pins rounds i n := by
  unfold parametrizedHierBlockName at h
  cases hp : hierBlockHashPins env s pars with
  | error e => simp [hp, Except.bind] at h
  | ok pins =>
    simp only [hp, Except.bind] at h
    by_cases he : m.name.isEmpty = true
    · rw [if_pos he] at h
      cases h
    · rw [if_neg he] at h
      split at h
      · cases h
      · rename_i r hr
        simp only [Except.ok.injEq, Prod.mk.injEq] at h
        obtain ⟨rfl, rfl⟩ := h
        obtain ⟨rounds, i, hrc, h1, h2, h3, h4, h5⟩ :=
          hierBlockNameLoop_first _ _ _ _ _ _ _ _ hr
        exact ⟨pins, rounds, i, rfl, by rw [hrc], h1, h2, h3, h4, h5⟩

/-- Witness of C34: a module `sub_d` exists, the digest of the reference
environment is `d1ce1`, and the name returned for `sub` is `sub_d1`. -/
theorem parametrizedHierBlockName_shortest_witness :
    parametrizedHierBlockName plainEnv 3 hierNameState (mkModule "sub" 3 []) []
        = .ok ("sub_d1", hierNameState)
    ∧ ∃ pins rounds i, hierBlockHashPins plainEnv hierNameState [] = .ok pins
      ∧ hierNameState = { hierNameState with randomCalls := hierNameState.randomCalls + rounds }
      ∧ ShortestFreeName plainEnv hierNameState (mkModule "sub" 3 []) pins rounds i "sub_d1" :=
  ⟨by decide,
    parametrizedHierBlockName_shortest plainEnv 3 hierNameState hierNameState
      (mkModule "sub" 3 []) [] "sub_d1" (by decide)⟩

/-! ## A rejected parameter pin beside an override -/

/-- C32, evaluated where it fails: the cell `sub #(.Q(5), .P(2)) c0 (.clk(x))`
binds the unknown parameter `Q` and overrides `P`.  The pin loop reports
`Parameter not found in sub-module` on the pin `Q` and goes on to the pin `P`,
but the visit then clones `sub` and `relinkPins` stops at the pin `Q` with the
internal error `Not linked?`.  With the pin `.w(5)` on the variable `w` in
place of `Q` the pin loop reports `Attempted parameter setting of
non-parameter` and `relinkPins` stops with the internal error `Couldn't find
pin in clone list`. -/
theorem visitCell_rejected_pin_fatal :
    ((cellNames plainEnv unknownPinDesign 1 unknownPinCell "top").map
        fun r => (r.1.s.errors, r.1.longname, r.1.any_overrides))
      = .ok ([⟨.pin (mkUnknownPin "Q" (mkConst 5)), "Parameter not found in sub-module"⟩],
          "sub__P2", true)
    ∧ visitCell plainEnv 5 unknownPinDesign 0 "top" = .error (.fatalSrc "Not linked?")
    ∧ ((cellNames plainEnv nonParamPinDesign 1 nonParamPinCell "top").map
        fun r => (r.1.s.errors, r.1.longname, r.1.any_overrides))
      = .ok ([⟨.pin (mkPin "w" 2 (mkConst 5)),
            "Attempted parameter setting of non-parameter"⟩], "sub__P2", true)
    ∧ visitCell plainEnv 5 nonParamPinDesign 0 "top"
      = .error (.fatalSrc "Couldn't find pin in clone list") := by
  refine ⟨by decide, by decide, by decide, by decide⟩

/-! ## Dotted references into interfaces -/

theorem xrefWalk_passes (s : ParamState) (nodep : AstVarXRef) (pre rest : List BackNode)
    (hpre : ∀ b ∈ pre, b.passes = true) :
    xrefWalk s nodep (pre ++ rest) = xrefWalk s nodep rest := by
  induction pre with
  | nil => rfl
  | cons b pre ih =>
    have hb := hpre b (List.mem_cons_self _ _)
    have ih' := ih (fun x hx => hpre x (List.mem_cons_of_mem _ hx))
    cases b with
    | NodeModule => simp [BackNode.passes] at hb
    | Other => simpa [xrefWalk] using ih'
    | Var v =>
      simp only [BackNode.passes, Option.isNone_iff_eq_none] at hb
      simp only [List.cons_append, xrefWalk, hb]
      exact ih'

theorem ifaceParamReplace_stmts_none (nodep : AstVarXRef) (ifacep : Nat) (stmts : List ModStmt) :
    ∀ k : Nat, (∀ (j : Nat) (d : AstVar), stmts[j]? = some (.Var d) → d.name ≠ nodep.name) →
    ifaceParamReplace nodep ((stmts.enumFrom k).map fun
      | (idx, .Var v) => XRefCand.Var ⟨ifacep, idx⟩ v.name
      | (_, .ParamTypeDType t) => .Other t.name
      | (_, .Other (.node _ name ..)) => .Other name
      | (_, .Other .null) => .Other "") = .ok none := by
  induction stmts with
  | nil => intro k _; rfl
  | cons st stmts ih =>
    intro k h
    have ih' := ih (k + 1) (fun j d hj => h (j + 1) d (by simpa using hj))
    simp only [List.enumFrom_cons, List.map_cons]
    cases st with
    | Var v =>
      have hne : ¬ nodep.name = v.name := fun e => h 0 v (by simp) e.symm
      simp only [ifaceParamReplace, XRefCand.name, hne, if_false]
      exact ih'
    | ParamTypeDType t =>
      simp only [ifaceParamReplace, XRefCand.name]
      split <;> exact ih'
    | Other n =>
      cases n with
      | null =>
        simp only [ifaceParamReplace, XRefCand.name]
        split <;> exact ih'
      | node kd nm a b c d nx =>
        simp only [ifaceParamReplace, XRefCand.name]
        split <;> exact ih'

theorem ifaceParamReplace_stmts_first (nodep : AstVarXRef) (ifacep : Nat)
    (stmts : List ModStmt) :
    ∀ (k idx : Nat) (d : AstVar), stmts[idx]? = some (.Var d) → d.name = nodep.name →
    (∀ (j : Nat) (d' : AstVar), j < idx → stmts[j]? = some (.Var d') → d'.name ≠ nodep.name) →
    ifaceParamReplace nodep ((stmts.enumFrom k).map fun
      | (idx, .Var v) => XRefCand.Var ⟨ifacep, idx⟩ v.name
      | (_, .ParamTypeDType t) => .Other t.name
      | (_, .Other (.node _ name ..)) => .Other name
      | (_, .Other .null) => .Other "") = .ok (some (.rebound ⟨ifacep, k + idx⟩)) := by
  induction stmts with
  | nil => intro k idx d h; simp at h
  | cons st stmts ih =>
    intro k idx d hidx hname hfirst
    simp only [List.enumFrom_cons, List.map_cons]
    cases idx with
    | zero =>
      simp only [List.getElem?_cons_zero, Option.some.injEq] at hidx
      subst hidx
      simp [ifaceParamReplace, XRefCand.name, hname]
    | succ idx =>
      have ih' := ih (k + 1) idx d (by simpa using hidx) hname
        (fun j d' hj hd' => hfirst (j + 1) d' (by omega) (by simpa using hd'))
      have hk : k + 1 + idx = k + (idx + 1) := by omega
      rw [hk] at ih'
      cases st with
      | Var v =>
        have hne : ¬ nodep.name = v.name := fun e => hfirst 0 v (by omega) (by simp) e.symm
        simp only [ifaceParamReplace, XRefCand.name, hne, if_false]
        exact ih'
      | ParamTypeDType t =>
        simp only [ifaceParamReplace, XRefCand.name]
        split <;> exact ih'
      | Other n =>
        cases n with
        | null =>
          simp only [ifaceParamReplace, XRefCand.name]
          split <;> exact ih'
        | node kd nm a b c d nx =>
          simp only [ifaceParamReplace, XRefCand.name]
          split <;> exact ih'

theorem ifaceParamReplace_pins_none (nodep : AstVarXRef) (pins : List AstPin)
    (h : ∀ q ∈ pins, q.name ≠ nodep.name) :
    ifaceParamReplace nodep (pins.map .Pin) = .ok none := by
  induction pins with
  | nil => rfl
  | cons p pins ih =>
    have hne : ¬ nodep.name = p.name := fun e => h p (List.mem_cons_self _ _) e.symm
    simp only [List.map_cons, ifaceParamReplace, XRefCand.name, hne, if_false]
    exact ih (fun q hq => h q (List.mem_cons_of_mem _ hq))

theorem ifaceParamReplace_pins_first (nodep : AstVarXRef) (pins : List AstPin) :
    ∀ (k : Nat) (p : AstPin), pins[k]? = some p → p.name = nodep.name →
    p.exprp.isNull = false →
    (∀ (j : Nat) (q : AstPin), j < k → pins[j]? = some q → q.name ≠ nodep.name) →
    ifaceParamReplace nodep (pins.map .Pin) = .ok (some (.replaced p.exprp.head)) := by
  induction pins with
  | nil => intro k p h; simp at h
  | cons p0 pins ih =>
    intro k p hk hname hexpr hfirst
    cases k with
    | zero =>
      simp only [List.getElem?_cons_zero, Option.some.injEq] at hk
      subst hk
      simp [ifaceParamReplace, XRefCand.name, hname, hexpr]
    | succ k =>
      have hne : ¬ nodep.name = p0.name := fun e => hfirst 0 p0 (by omega) (by simp) e.symm
      simp only [List.map_cons, ifaceParamReplace, XRefCand.name, hne, if_false]
      exact ih k p (by simpa using hk) hname hexpr
        (fun j q hj hq => hfirst (j + 1) q (by omega) (by simpa using hq))

/-- C35, evaluated where it fails: `top` instantiates the interface `ifc`, which
declares the parameter `X`, as `ifc #(.X(5)) c ()` and refers to `c.X`.  The
interface has a member declaration named `X`, yet the reference is not
rebound to it: the variable of a cell has no `ifacep`, only the pins of the
cell are searched and the reference is replaced by a copy of the expression
`5` of the pin.  With the cell `ifc c ()`, which has no pin, the declarations
are not searched either and the target of the reference is cleared. -/
theorem visitVarXRef_cell_skips_declarations :
    (xrefDesign.modAt 1).map (fun m => (m.isIface, m.stmts.map declName)) = .ok (true, ["X"])
    ∧ visitVarXRef xrefDesign xrefCX (backChain xrefTop 1) = .ok (.replaced (mkConst 5))
    ∧ visitVarXRef xrefNoPinDesign xrefCX (backChain xrefTop 1) = .ok .cleared := by
  refine ⟨by decide, by decide, by decide⟩

/-- C35 as amended: for a dotted reference to a parameter and the first
interface-typed variable met on the way back, `visit(AstVarXRef*)` searches
one list only.  If the reference type has its interface set (an interface
passed in on a port) and the dotted scope is the name of the variable, the
member declarations of the interface are searched and the reference is
rebound to the first variable of its name; otherwise, if the reference type
has a cell (an interface cell of the module) and the dotted scope is the name
of the cell, the parameter pins of the cell are searched and the reference is
replaced by a copy of the expression of the first pin of its name.  When the
list searched holds no such entry, or the scope does not match, the walk goes
on with the nodes further back, and at the module or at the end of the way
the target of the reference is cleared. -/
theorem visitVarXRef_searches (s : ParamState) (nodep : AstVarXRef) (v : VarId)
    (varp backp : AstVar) (pre rest : List BackNode) (cellp ifacep : Option Nat)
    (hd : nodep.dotted.isEmpty = false) (hv : nodep.varp = some v)
    (hvar : s.varAt v = .ok varp) (hp : varp.isParam = true)
    (hpre : ∀ b ∈ pre, b.passes = true)
    (href : xrefIfaceRef backp = some (cellp, ifacep)) :
    (∀ i m, ifacep = some i → nodep.dotted = backp.name → s.modAt i = .ok m →
        (∀ (idx : Nat) (d : AstVar), m.stmts[idx]? = some (.Var d) → d.name = nodep.name →
          (∀ (j : Nat) (d' : AstVar), j < idx → m.stmts[j]? = some (.Var d') →
            d'.name ≠ nodep.name) →
          visitVarXRef s nodep (pre ++ .Var backp :: rest) = .ok (.rebound ⟨i, idx⟩))
        ∧ ((∀ (j : Nat) (d' : AstVar), m.stmts[j]? = some (.Var d') → d'.name ≠ nodep.name) →
          visitVarXRef s nodep (pre ++ .Var backp :: rest) = xrefWalk s nodep rest))
    ∧ (∀ c cell, ifacep = none → cellp = some c → s.cellAt c = .ok cell →
        nodep.dotted = cell.name →
        (∀ (k : Nat) (p : AstPin), cell.paramsp[k]? = some p → p.name = nodep.name →
          p.exprp.isNull = false →
          (∀ (j : Nat) (q : AstPin), j < k → cell.paramsp[j]? = some q →
            q.name ≠ nodep.name) →
          visitVarXRef s nodep (pre ++ .Var backp :: rest) = .ok (.replaced p.exprp.head))
        ∧ ((∀ q ∈ cell.paramsp, q.name ≠ nodep.name) →
          visitVarXRef s nodep (pre ++ .Var backp :: rest) = xrefWalk s nodep rest))
    ∧ (((∃ i, ifacep = some i ∧ nodep.dotted ≠ backp.name)
          ∨ (ifacep = none ∧ ∃ c cell, cellp = some c ∧ s.cellAt c = .ok cell
              ∧ nodep.dotted ≠ cell.name)
          ∨ (ifacep = none ∧ cellp = none)) →
        visitVarXRef s nodep (pre ++ .Var backp :: rest) = xrefWalk s nodep rest)
    ∧ (∀ l, xrefWalk s nodep (.NodeModule :: l) = .ok .cleared)
    ∧ xrefWalk s nodep [] = .ok .cleared := by
  have hstart : visitVarXRef s nodep (pre ++ .Var backp :: rest)
      = xrefWalk s nodep (.Var backp :: rest) := by
    unfold visitVarXRef
    simp only [hd, Bool.false_eq_true, if_false, hv, hvar, Except.bind, hp, if_true]
    exact xrefWalk_passes s nodep pre _ hpre
  rw [hstart]
  refine ⟨?_, ?_, ?_, fun l => rfl, rfl⟩
  · intro i m hi hdot hm
    subst hi
    have hw : xrefWalk s nodep (.Var backp :: rest)
        = (ifaceParamReplace nodep (stmtCands i m.stmts)).bind fun
            | some r => .ok r
            | none => xrefWalk s nodep rest := by
      simp only [xrefWalk, href, hdot, if_true, hm, Except.bind]
    rw [hw]
    constructor
    · intro idx d hidx hname hfirst
      have := ifaceParamReplace_stmts_first nodep i m.stmts 0 idx d hidx hname hfirst
      simp only [Nat.zero_add] at this
      simp only [stmtCands, List.enum, this, Except.bind]
    · intro hnone
      have := ifaceParamReplace_stmts_none nodep i m.stmts 0 hnone
      simp only [stmtCands, List.enum, this, Except.bind]
  · intro c cell hi hc hcell hdot
    subst hi
    subst hc
    have hw : xrefWalk s nodep (.Var backp :: rest)
        = (ifaceParamReplace nodep (cell.paramsp.map .Pin)).bind fun
            | some r => .ok r
            | none => xrefWalk s nodep rest := by
      simp only [xrefWalk, href, hcell, hdot, if_true, Except.bind]
    rw [hw]
    constructor
    · intro k p hk hname hexpr hfirst
      rw [ifaceParamReplace_pins_first nodep cell.paramsp k p hk hname hexpr hfirst]
      rfl
    · intro hnone
      rw [ifaceParamReplace_pins_none nodep cell.paramsp hnone]
      rfl
  · rintro (⟨i, hi, hne⟩ | ⟨hi, c, cell, hc, hcell, hne⟩ | ⟨hi, hc⟩)
    · subst hi
      simp only [xrefWalk, href, hne, if_false]
    · subst hi
      subst hc
      simp only [xrefWalk, href, hcell, Except.bind, hne, if_false]
    · subst hi
      subst hc
      simp only [xrefWalk, href]

/-- Witness of C35 as amended: `sub` gets the interface `ifc` on its port `p`
and refers to `p.X`, which is rebound to the declaration of `X` in `ifc`;
`top` instantiates `ifc #(.X(5)) c ()` and its reference `c.X` is replaced by
a copy of `5`. -/
theorem visitVarXRef_searches_witness :
    visitVarXRef xrefPortDesign xrefPX (backChain xrefSub 1) = .ok (.rebound ⟨1, 0⟩)
    ∧ visitVarXRef xrefDesign xrefCX (backChain xrefTop 1) = .ok (.replaced (mkConst 5)) :=
  ⟨((visitVarXRef_searches xrefPortDesign xrefPX ⟨1, 0⟩
        (mkParamVar "X" (mkLogic 31) (mkConst 1)) (mkIfaceVar "p" true none (some 1))
        [] [.NodeModule] none (some 1) (by decide) rfl (by decide) rfl
        (fun b hb => by simp at hb) (by decide)).1 1 xrefIfc rfl (by decide) (by decide)).1
      0 (mkParamVar "X" (mkLogic 31) (mkConst 1)) (by decide) (by decide)
      (fun j d hj => by omega),
    ((visitVarXRef_searches xrefDesign xrefCX ⟨1, 0⟩
        (mkParamVar "X" (mkLogic 31) (mkConst 1)) (mkIfaceVar "c" false (some 0) none)
        [] [.NodeModule] (some 0) none (by decide) rfl (by decide) rfl
        (fun b hb => by simp at hb) (by decide)).2.1 0
        { mkCell "c" [mkPin "X" 0 (mkConst 5)] [] with modName := "ifc" } rfl rfl
        (by decide) (by decide)).1
      0 (mkPin "X" 0 (mkConst 5)) (by decide) (by decide) (by decide)
      (fun j q hj => by omega)⟩

/-! ## Graphs of the same structure -/

theorem QuietStep.unmarked_eq {env : Env} {s s' : ParamState} (h : QuietStep env s s') :
    unmarked s' = unmarked s := by
  unfold unmarked
  rw [h.2.1]

end V3Param
